import Mathlib

/-! The embedded HTTP server.

A shallow embedding of `Http/src/http_server.c` (the header-terminator search,
the request-line parser, the `Content-Length` lookup, the receive routine
`http_srv_recv_request`, the response builder, the route dispatch and the run
loop), of the parameter lookup and the multipart extraction of
`Http/src/http_ui.c`, and of the reconnect delay of `mqtt/mqtt_apps/mqtt_app.c`,
with the properties the specification states about them.

Conventions of the embedding.

* A byte is a `Nat` (its unsigned value); memory reached through a pointer is the
  `List Nat` of the bytes from that pointer on, and a pointer into a buffer is an
  offset into the list.
* A read or write outside the modelled object is undefined behaviour in C; the
  functions that can perform one return `Option`, with `none` for that case.
* `uint32_t` arithmetic is arithmetic on `Nat` modulo `2 ^ 32` wherever a wrap
  can happen, and the conversion to `int` is `toInt32`.
-/

namespace HttpServer

/-! ## Machine integers -/

/-- Value of an unsigned 32-bit quantity converted to `int` (two's complement). -/
def toInt32 (n : Nat) : Int :=
  if n % 2 ^ 32 < 2 ^ 31 then ((n % 2 ^ 32 : Nat) : Int) else ((n % 2 ^ 32 : Nat) : Int) - 2 ^ 32

/-- Value of an `int` converted to `uint32_t`. -/
def toUInt32 (z : Int) : Nat := (z % 2 ^ 32).toNat

/-! ## Header terminator search -/

/-- The test of `http_find_headers_end` at index `i`:
`buf[i]=='\r' && buf[i+1]=='\n' && buf[i+2]=='\r' && buf[i+3]=='\n'`, evaluated
left to right with short circuit. `none` when a byte that is read lies outside
`buf`. -/
def crlfcrlf_at (buf : List Nat) (i : Nat) : Option Bool :=
  match buf[i]? with
  | none => none
  | some b0 =>
    if b0 ≠ 13 then some false else
    match buf[i + 1]? with
    | none => none
    | some b1 =>
      if b1 ≠ 10 then some false else
      match buf[i + 2]? with
      | none => none
      | some b2 =>
        if b2 ≠ 13 then some false else
        match buf[i + 3]? with
        | none => none
        | some b3 => some (decide (b3 = 10))

/-- The loop `for (i = 0; i <= len - 4; i++)` of `http_find_headers_end`; the
first argument counts the iterations that remain. -/
def http_find_headers_end_loop (buf : List Nat) (len : Nat) : Nat → Nat → Option Int
  | 0, _ => some (-1)
  | fuel + 1, i =>
    if i ≤ len - 4 then
      match crlfcrlf_at buf i with
      | none => none
      | some true => some (toInt32 (i + 4))
      | some false => http_find_headers_end_loop buf len fuel (i + 1)
    else some (-1)

/-- The function `http_find_headers_end(buf, len)`: index just after the first
`"\r\n\r\n"`, or `-1`. `buf` is the memory from the pointer on. -/
def http_find_headers_end (buf : List Nat) (len : Nat) : Option Int :=
  if len < 4 then some (-1)
  else http_find_headers_end_loop buf len (len - 3) 0

/-- The four bytes of `buf` at indices `i .. i+3` are CR LF CR LF. -/
def TermAt (buf : List Nat) (i : Nat) : Prop :=
  buf[i]? = some 13 ∧ buf[i + 1]? = some 10 ∧ buf[i + 2]? = some 13 ∧ buf[i + 3]? = some 10

instance (buf : List Nat) (i : Nat) : Decidable (TermAt buf i) := by
  unfold TermAt; infer_instance

/-! ## Memory writes -/

/-- Store of one byte at index `i`; `none` when `i` lies outside the object. -/
def storeAt (mem : List Nat) (i v : Nat) : Option (List Nat) :=
  if i < mem.length then some (mem.set i v) else none

/-- Store of the bytes `bs` from index `off` on; `none` when the stored range
does not lie inside the object. -/
def writeAt (mem : List Nat) (off : Nat) (bs : List Nat) : Option (List Nat) :=
  if off + bs.length ≤ mem.length then
    some (mem.take off ++ bs ++ mem.drop (off + bs.length))
  else none

/-! ## C library functions (ISO C semantics, "C" locale)

The end of the modelled memory acts as a string terminator. -/

/-- The C string at the start of `mem`: the bytes before the first NUL. -/
def cstr (mem : List Nat) : List Nat := mem.takeWhile (fun c => decide (c ≠ 0))

/-- The predicate `isspace`. -/
def isspace (c : Nat) : Bool := decide (c = 32 ∨ (9 ≤ c ∧ c ≤ 13))

/-- The predicate `isdigit`. -/
def isdigit (c : Nat) : Bool := decide (48 ≤ c ∧ c ≤ 57)

/-- The function `tolower`. -/
def tolower (c : Nat) : Nat := if 65 ≤ c ∧ c ≤ 90 then c + 32 else c

/-- Value of the decimal digits at the start of `s`, continuing from `acc`. -/
def digitsVal : List Nat → Nat → Nat
  | [], acc => acc
  | c :: rest, acc => if isdigit c then digitsVal rest (acc * 10 + (c - 48)) else acc

/-- Saturation to the range of `int` (and of the 32-bit `long` of the target),
as `strtol` does for a value out of range. -/
def clampInt (z : Int) : Int := max (-(2 ^ 31)) (min z (2 ^ 31 - 1))

/-- An optional sign followed by decimal digits, as read by `strtol` base 10
after the white space; a text without digits has the value 0. -/
def signedVal (s : List Nat) : Int :=
  match s with
  | 45 :: rest => clampInt (-((digitsVal rest 0 : Nat) : Int))
  | 43 :: rest => clampInt ((digitsVal rest 0 : Nat) : Int)
  | _ => clampInt ((digitsVal s 0 : Nat) : Int)

/-- The function `atoi(s)`, that is `(int)strtol(s, NULL, 10)`: skips white
space, then reads an optional sign and the digits that follow. -/
def atoi (s : List Nat) : Int := signedVal (s.dropWhile isspace)

/-- The function `strncasecmp(s1, s2, n)`. -/
def strncasecmp : List Nat → List Nat → Nat → Int
  | _, _, 0 => 0
  | s1, s2, n + 1 =>
    let c1 := tolower (s1.headD 0)
    let c2 := tolower (s2.headD 0)
    if c1 ≠ c2 then (c1 : Int) - (c2 : Int)
    else if c1 = 0 then 0
    else strncasecmp s1.tail s2.tail n

/-- The function `strstr(hay, needle)`: offset of the first occurrence of the C
string `needle` in the C string at `hay`, or `none` for a null result. -/
def strstr : List Nat → List Nat → Option Nat
  | [], needle => if cstr needle = [] then some 0 else none
  | c :: rest, needle =>
    if (cstr needle).isPrefixOf (cstr (c :: rest)) then some 0
    else if c = 0 then none
    else (strstr rest needle).map (fun k => k + 1)

/-- The function `strchr(s, c)`: offset of the first `c` in the C string at `s`. -/
def strchr : List Nat → Nat → Option Nat
  | [], _ => none
  | x :: rest, c =>
    if x = c then some 0
    else if x = 0 then none
    else (strchr rest c).map (fun k => k + 1)

/-- The function `strncpy(dst, src, n)`: the first `n` bytes of `dst` become the
first `n` bytes of the C string `src`, padded with NUL. `none` when `n` exceeds
the size of `dst`. -/
def strncpy (dst src : List Nat) (n : Nat) : Option (List Nat) :=
  writeAt dst 0 ((cstr src).take n ++ List.replicate (n - ((cstr src).take n).length) 0)

/-- One call of `strtok` with the delimiter string `" "`, scanning `mem` from
offset `s` (the string argument on the first call, the saved position on a call
with `NULL`). Returns the token pointer (`none` for a null result), the new
saved position and the memory, in which the delimiter that ends the token has
been overwritten with NUL. -/
def strtok (mem : List Nat) (s : Nat) : Option Nat × Nat × List Nat :=
  let s1 := s + ((mem.drop s).takeWhile (fun c => decide (c = 32))).length
  if mem.getD s1 0 = 0 then (none, s1, mem)
  else
    let e := s1 + ((mem.drop s1).takeWhile (fun c => decide (c ≠ 32 ∧ c ≠ 0))).length
    if mem.getD e 0 = 0 then (some s1, e, mem)
    else (some s1, e + 1, mem.set e 0)

/-- The conversion `%d` of `sscanf`: skips white space, then needs an optional
sign and at least one digit. Returns the value and the unread input, `none` on
a matching failure. -/
def scan_int (s : List Nat) : Option (Int × List Nat) :=
  let s1 := s.dropWhile isspace
  let s2 := match s1 with
    | 45 :: r => r
    | 43 :: r => r
    | _ => s1
  if (s2.takeWhile isdigit) = [] then none
  else some (signedVal s1, s2.dropWhile isdigit)

/-- The call `sscanf(vers, "HTTP/%d.%d", &major, &minor)`: `some (major, minor)`
when it returns 2, `none` for every other return value. -/
def sscanf_version (vers : List Nat) : Option (Int × Int) :=
  match cstr vers with
  | 72 :: 84 :: 84 :: 80 :: 47 :: rest =>
    match scan_int rest with
    | none => none
    | some (major, r1) =>
      match r1 with
      | 46 :: r2 =>
        match scan_int r2 with
        | none => none
        | some (minor, _) => some (major, minor)
      | _ => none
  | _ => none

/-! ## Data model (`http_server.h`) -/

/-- Return codes of the HTTP layer. -/
inductive HttpStatus
  | HTTP_OK
  | HTTP_ERR
  | HTTP_NO_REQUEST
  deriving DecidableEq, Repr

/-- The type `http_srv_state_t`. -/
inductive http_srv_state_t
  | HTTP_SRV_STATE_RUNNING
  | HTTP_SRV_STATE_DRAINING
  | HTTP_SRV_STATE_STOPPED
  deriving DecidableEq, Repr

/-- The constant `HTTP_SRV_RX_BUFFER_SIZE`. -/
def HTTP_SRV_RX_BUFFER_SIZE : Nat := 1400

/-- The structure `http_srv_request_t`. The character arrays are byte lists (of
length 8, 128 and 128 in a well-formed value); `headers` and `body` are offsets
into the receive buffer, `none` for a null pointer; `srv` tells whether the
connection pointer is attached. -/
structure http_srv_request_t where
  method : List Nat
  path : List Nat
  query : List Nat
  http_major : Int
  http_minor : Int
  headers : Option Nat
  headers_len : Nat
  body : Option Nat
  body_len : Nat
  content_length : Nat
  srv : Bool
  deriving DecidableEq, Repr

/-- The part of the structure `net_srv_conn_t` (`net_srv.h`) the server uses:
`sock` tells whether the socket handle is set (not null). -/
structure net_srv_conn_t where
  sock : Bool
  localport : Nat
  deriving DecidableEq, Repr

/-- The structure `http_srv_t`; `nethnd` tells whether the network handle is set
(not null). -/
structure http_srv_t where
  nethnd : Bool
  srv : net_srv_conn_t
  rxbuf : List Nat
  rxlen : Nat
  running : Bool
  state : http_srv_state_t
  port : Nat
  deriving DecidableEq, Repr

/-- The value left by `memset(req, 0, sizeof(*req))`. -/
def req_zero : http_srv_request_t :=
  { method := List.replicate 8 0, path := List.replicate 128 0, query := List.replicate 128 0,
    http_major := 0, http_minor := 0, headers := none, headers_len := 0,
    body := none, body_len := 0, content_length := 0, srv := false }

/-! ## Request line and `Content-Length` (`http_server.c`) -/

/-- The part of `http_parse_request_line` after the three calls of `strtok`,
entered when none of `method`, `uri`, `vers` is null: it fills the fields of
`req` from the tokens at these offsets of `mem`. `none` when a store falls
outside a field of `req`. -/
def http_parse_request_line_fields (mem : List Nat) (method uri vers : Nat)
    (req : http_srv_request_t) : Option (HttpStatus × List Nat × http_srv_request_t) :=
  /- METHOD -/
  (strncpy req.method (mem.drop method) (8 - 1)).bind fun f1 =>
  (storeAt f1 (8 - 1) 0).bind fun fmethod =>
  /- Split URI into path and query -/
  (match strchr (mem.drop uri) 63 with
    | some k =>
      let mem1 := mem.set (uri + k) 0
      (strncpy req.query (mem1.drop (uri + k + 1)) (128 - 1)).bind fun f2 =>
      (storeAt f2 (128 - 1) 0).bind fun fquery => some (mem1, fquery)
    | none =>
      (storeAt req.query 0 0).bind fun fquery => some (mem, fquery)).bind fun mq =>
  (strncpy req.path (mq.1.drop uri) (128 - 1)).bind fun f3 =>
  (storeAt f3 (128 - 1) 0).bind fun fpath =>
  let req1 := { req with method := fmethod, query := mq.2, path := fpath }
  /- Version "HTTP/x.y" -/
  match sscanf_version (mq.1.drop vers) with
  | none => some (HttpStatus.HTTP_ERR, mq.1, req1)
  | some (major, minor) =>
    some (HttpStatus.HTTP_OK, mq.1, { req1 with http_major := major, http_minor := minor })

/-- The function `http_parse_request_line(line, req)`. `line` is the memory from
the pointer on; the result carries the memory as `strtok` and the split at `?`
leave it, and the request. -/
def http_parse_request_line (line : List Nat) (req : http_srv_request_t) :
    Option (HttpStatus × List Nat × http_srv_request_t) :=
  let t1 := strtok line 0
  let t2 := strtok t1.2.2 t1.2.1
  let t3 := strtok t2.2.2 t2.2.1
  match t1.1, t2.1, t3.1 with
  | some method, some uri, some vers =>
    http_parse_request_line_fields t3.2.2 method uri vers req
  | _, _, _ => some (HttpStatus.HTTP_ERR, t3.2.2, req)

/-- The string `"Content-Length:"`. -/
def needle : List Nat := [67, 111, 110, 116, 101, 110, 116, 45, 76, 101, 110, 103, 116, 104, 58]

/-- The loop `while (p < end)` of `http_parse_content_length`; `p` and `end_` are
offsets from `headers`, the first argument bounds the number of iterations. -/
def http_parse_content_length_loop (headers : List Nat) (end_ : Nat) : Nat → Nat → Nat
  | 0, _ => 0
  | fuel + 1, p =>
    if p < end_ then
      /- find end of this line -/
      let line_end :=
        match strstr (headers.drop p) [13, 10] with
        | none => end_
        | some k => if p + k > end_ then end_ else p + k
      /- case-insensitive compare -/
      if line_end - p ≥ needle.length ∧ strncasecmp (headers.drop p) needle needle.length = 0 then
        let val := headers.drop (p + needle.length)
        toUInt32 (atoi (val.dropWhile (fun c => decide (c = 32 ∨ c = 9))))
      else if line_end ≥ end_ then 0
      else http_parse_content_length_loop headers end_ fuel (line_end + 2)
    else 0

/-- The function `http_parse_content_length(headers, headers_len)`. `headers` is
the memory from the pointer on (it extends beyond `headers_len`). Every
iteration advances `p` by at least 2, so `headers_len` iterations suffice. -/
def http_parse_content_length (headers : List Nat) (headers_len : Nat) : Nat :=
  http_parse_content_length_loop headers headers_len headers_len 0

/-! ## Transport -/

/-- Modelled from the spec: the constant `NET_TIMEOUT` of the transport's header
`net.h`, which is not part of the sources; the "no data / timeout" result of
`receive`, `-3` as the comment at the test in `http_srv_recv_request` says. -/
def NET_TIMEOUT : Int := -3

/-- What the transport has for one call of `net_sock_recv`: the bytes that are
available, or a result `-n <= 0` (`fail 0`: no data or closed, `fail 3`:
time-out, any other: error). -/
inductive RecvResult
  | data (bs : List Nat)
  | fail (n : Nat)
  deriving DecidableEq, Repr

/-- Modelled from the spec: the transport operation
`receive(buffer, max_len) -> bytes_read | timeout | closed | error` behind
`net_sock_recv(sock, buf + off, maxlen)`, which is not part of the sources. It
stores at most `maxlen` of the available bytes at `off` and returns their
number, or returns the non-positive result. `none` when the stored bytes do not
fit in `mem`. -/
def net_sock_recv (ev : RecvResult) (mem : List Nat) (off maxlen : Nat) :
    Option (Int × List Nat) :=
  match ev with
  | RecvResult.data bs =>
    (writeAt mem off (bs.take maxlen)).map fun m => (((bs.take maxlen).length : Int), m)
  | RecvResult.fail n => some (-(n : Int), mem)

/-- The receive result the transport gives when the script has no entry left:
no data. -/
def nextRecv : List RecvResult → RecvResult
  | [] => RecvResult.fail 0
  | ev :: _ => ev

/-! ## The receive routine `http_srv_recv_request` -/

/-- How one pass through the body of the first loop ends. -/
inductive HdrStep
  | ret (status : HttpStatus) (hs : http_srv_t)
  | brk (hdr_end : Int) (hs : http_srv_t)
  | cont (hdr_end : Int) (hs : http_srv_t)
  deriving DecidableEq, Repr

/-- The body of the loop `while (hs->rxlen < sizeof(hs->rxbuf) - 1)`. -/
def recv_headers_step (ev : RecvResult) (hs : http_srv_t) : Option HdrStep :=
  (net_sock_recv ev hs.rxbuf hs.rxlen (HTTP_SRV_RX_BUFFER_SIZE - 1 - hs.rxlen)).bind fun r =>
  let rc := r.1
  /- CASE A: no data at all on this connection -/
  if rc = 0 ∨ rc = NET_TIMEOUT then
    if hs.rxlen = 0 then some (HdrStep.ret HttpStatus.HTTP_NO_REQUEST { hs with rxbuf := r.2 })
    else some (HdrStep.ret HttpStatus.HTTP_ERR { hs with rxbuf := r.2 })
  /- CASE B: real error -/
  else if rc < 0 then some (HdrStep.ret HttpStatus.HTTP_ERR { hs with rxbuf := r.2 })
  /- CASE C: got some data -/
  else
    let rxlen := (hs.rxlen + rc.toNat) % 2 ^ 32
    (storeAt r.2 rxlen 0).bind fun buf =>
    (http_find_headers_end buf rxlen).bind fun hdr_end =>
    if hdr_end ≥ 0 then some (HdrStep.brk hdr_end { hs with rxbuf := buf, rxlen := rxlen })
    else some (HdrStep.cont hdr_end { hs with rxbuf := buf, rxlen := rxlen })

/-- How the first loop ends: with a `return` inside it, or left (by `break` or
by its condition) with the value of `hdr_end` and the unread script. -/
inductive HdrLoop
  | ret (status : HttpStatus) (hs : http_srv_t)
  | left (hdr_end : Int) (hs : http_srv_t) (rest : List RecvResult)
  deriving DecidableEq, Repr

/-- The loop `while (hs->rxlen < sizeof(hs->rxbuf) - 1)` over the script of
receive results. -/
def recv_headers_loop : List RecvResult → http_srv_t → Int → Option HdrLoop
  | [], hs, hdr_end =>
    if hs.rxlen < HTTP_SRV_RX_BUFFER_SIZE - 1 then
      (recv_headers_step (nextRecv []) hs).bind fun r =>
      match r with
      | HdrStep.ret st hs1 => some (HdrLoop.ret st hs1)
      | HdrStep.brk he hs1 => some (HdrLoop.left he hs1 [])
      | HdrStep.cont he hs1 => some (HdrLoop.left he hs1 [])
    else some (HdrLoop.left hdr_end hs [])
  | ev :: rest, hs, hdr_end =>
    if hs.rxlen < HTTP_SRV_RX_BUFFER_SIZE - 1 then
      (recv_headers_step ev hs).bind fun r =>
      match r with
      | HdrStep.ret st hs1 => some (HdrLoop.ret st hs1)
      | HdrStep.brk he hs1 => some (HdrLoop.left he hs1 rest)
      | HdrStep.cont he hs1 => recv_headers_loop rest hs1 he
    else some (HdrLoop.left hdr_end hs (ev :: rest))

/-- The loop `while (needed > 0)` that completes the body. Returns the status
(`HTTP_ERR` for the `return` inside the loop, `HTTP_OK` when the loop is left),
the buffer and the request. -/
def recv_body_loop : List RecvResult → List Nat → http_srv_request_t → Nat →
    Option (HttpStatus × List Nat × http_srv_request_t)
  | [], rxbuf, req, needed =>
    if needed > 0 then some (HttpStatus.HTTP_ERR, rxbuf, req)
    else some (HttpStatus.HTTP_OK, rxbuf, req)
  | ev :: rest, rxbuf, req, needed =>
    if needed > 0 then
      (net_sock_recv ev rxbuf (req.body.getD 0 + req.body_len) needed).bind fun r =>
      if r.1 ≤ 0 then some (HttpStatus.HTTP_ERR, r.2, req)
      else
        recv_body_loop rest r.2
          { req with body_len := (req.body_len + r.1.toNat) % 2 ^ 32 }
          ((needed + 2 ^ 32 - r.1.toNat % 2 ^ 32) % 2 ^ 32)
    else some (HttpStatus.HTTP_OK, rxbuf, req)

/-- How steps 1 to 4 of `http_srv_recv_request` end: with a `return`, or with
the request parsed, the views set and `Content-Length` read, and the receive
results that are still unread. -/
inductive HeadResult
  | ret (status : HttpStatus) (hs : http_srv_t) (req : http_srv_request_t)
  | parsed (hdr_end : Int) (hs : http_srv_t) (req : http_srv_request_t)
      (rest : List RecvResult)
  deriving DecidableEq, Repr

/-- Steps 1 to 4 of `http_srv_recv_request(hs, req)`: reset, read until the
headers are complete, parse the first line, set the header and body views, read
`Content-Length`. -/
def http_srv_recv_request_head (hs : http_srv_t) (_req : http_srv_request_t)
    (script : List RecvResult) : Option HeadResult :=
  let req := req_zero
  let hs0 : http_srv_t :=
    { hs with rxlen := 0, rxbuf := List.replicate HTTP_SRV_RX_BUFFER_SIZE 0 }
  /- 1) Read until we see full headers or buffer full -/
  (recv_headers_loop script hs0 (-1)).bind fun l =>
  match l with
  | HdrLoop.ret st hs1 => some (HeadResult.ret st hs1 req)
  | HdrLoop.left hdr_end hs1 rest =>
    if hdr_end < 0 then some (HeadResult.ret HttpStatus.HTTP_ERR hs1 req)
    else
    /- 2) Parse first line -/
    match strstr hs1.rxbuf [13, 10] with
    | none => some (HeadResult.ret HttpStatus.HTTP_ERR hs1 req)
    | some crlf =>
      (http_parse_request_line (hs1.rxbuf.set crlf 0) req).bind fun pr =>
      let hs2 : http_srv_t := { hs1 with rxbuf := pr.2.1 }
      if pr.1 ≠ HttpStatus.HTTP_OK then some (HeadResult.ret HttpStatus.HTTP_ERR hs2 pr.2.2)
      else
        /- 3) Headers and body pointers into rxbuf -/
        let headers := crlf + 2
        let headers_len := toUInt32 (hdr_end - toInt32 headers)
        let body := hdr_end.toNat
        let body_len := (hs2.rxlen + 2 ^ 32 - toUInt32 hdr_end) % 2 ^ 32
        /- 4) Content-Length if present -/
        let content_length := http_parse_content_length (hs2.rxbuf.drop headers) headers_len
        some (HeadResult.parsed hdr_end hs2
          { pr.2.2 with headers := some headers, headers_len := headers_len, body := some body,
                        body_len := body_len, content_length := content_length } rest)

/-- Step 5 of `http_srv_recv_request` and its end: if the body is incomplete,
check it against the buffer size and read the rest; attach the connection. -/
def http_srv_recv_request_body (hdr_end : Int) (hs : http_srv_t) (req : http_srv_request_t)
    (rest : List RecvResult) : Option (HttpStatus × http_srv_t × http_srv_request_t) :=
  /- 5) If body incomplete and Content-Length known, read the rest -/
  if req.content_length > req.body_len then
    let needed := req.content_length - req.body_len
    if (toUInt32 hdr_end + req.content_length) % 2 ^ 32 > HTTP_SRV_RX_BUFFER_SIZE then
      some (HttpStatus.HTTP_ERR, hs, req)
    else
      (recv_body_loop rest hs.rxbuf req needed).bind fun b =>
      if b.1 ≠ HttpStatus.HTTP_OK then
        some (HttpStatus.HTTP_ERR, { hs with rxbuf := b.2.1 }, b.2.2)
      else
        some (HttpStatus.HTTP_OK, { hs with rxbuf := b.2.1 }, { b.2.2 with srv := true })
  else
    some (HttpStatus.HTTP_OK, hs, { req with srv := true })

/-- The function `http_srv_recv_request(hs, req)` for non-null arguments, with
the transport given by the script of its receive results. `none` when a store
falls outside the receive buffer or a field of the request. -/
def http_srv_recv_request (hs : http_srv_t) (req : http_srv_request_t)
    (script : List RecvResult) : Option (HttpStatus × http_srv_t × http_srv_request_t) :=
  (http_srv_recv_request_head hs req script).bind fun h =>
  match h with
  | HeadResult.ret st hs1 req1 => some (st, hs1, req1)
  | HeadResult.parsed hdr_end hs2 req3 rest => http_srv_recv_request_body hdr_end hs2 req3 rest

/-! ## Vocabulary of the specification -/

/-- ASCII codes of a string, to write byte sequences readably. -/
def bytes (s : String) : List Nat := s.toList.map Char.toNat

/-- All bytes a script of receive results offers, in order. -/
def stream : List RecvResult → List Nat
  | [] => []
  | RecvResult.data bs :: rest => bs ++ stream rest
  | RecvResult.fail _ :: rest => stream rest

/-- The space-separated tokens of a line: the non-empty pieces between spaces. -/
def tokens (s : List Nat) : List (List Nat) :=
  (s.splitOn 32).filter (fun t => decide (t ≠ []))

/-- The content `s` stored in a field of `n` bytes, padded with NUL. -/
def padTo (n : Nat) (s : List Nat) : List Nat := s ++ List.replicate (n - s.length) 0

/-- The bytes of `mem` in the view `(off, len)`. -/
def view (mem : List Nat) (off len : Nat) : List Nat := (mem.drop off).take len

/-! ## Shapes of memory content -/

/-- A run of spaces. -/
def Spaces (sp : List Nat) : Prop := ∀ c ∈ sp, c = 32

/-- A run of bytes with neither a space nor a NUL. -/
def TokBytes (tok : List Nat) : Prop := ∀ c ∈ tok, c ≠ 32 ∧ c ≠ 0

/-- The part of a URI before its first `?` (the whole URI when it has none). -/
def uriPath (u : List Nat) : List Nat := u.takeWhile (fun c => decide (c ≠ 63))

/-- The part of a URI after its first `?` (empty when it has none). -/
def uriQuery (u : List Nat) : List Nat := (u.dropWhile (fun c => decide (c ≠ 63))).drop 1

/-- The request as `http_parse_request_line` leaves it for a line whose first
three tokens are `m`, `u`, `v`, and the status it returns. -/
def parsed_line (req : http_srv_request_t) (m u v : List Nat) :
    HttpStatus × http_srv_request_t :=
  let req1 : http_srv_request_t :=
    { req with
      method := padTo 8 (m.take 7),
      query := if 63 ∈ u then padTo 128 ((uriQuery u).take 127) else req.query.set 0 0,
      path := padTo 128 ((uriPath u).take 127) }
  match sscanf_version v with
  | none => (HttpStatus.HTTP_ERR, req1)
  | some (major, minor) =>
    (HttpStatus.HTTP_OK, { req1 with http_major := major, http_minor := minor })

/-- The CRLF-delimited lines of a header block: the pieces between successive
occurrences of CR LF, read left to right. -/
def splitCRLF : List Nat → List (List Nat)
  | [] => [[]]
  | 13 :: 10 :: rest => [] :: splitCRLF rest
  | c :: rest =>
    match splitCRLF rest with
    | [] => [[c]]
    | l :: ls => (c :: l) :: ls

/-- The line `l` begins with `name`, compared without regard to case. -/
def beginsWithCI (l name : List Nat) : Bool :=
  decide (name.length ≤ l.length) && ((l.take name.length).map tolower == name.map tolower)

/-- The value of a header line after a name of `k` bytes, as the code reads it:
spaces and tabs skipped, then `atoi`, converted to `uint32_t`. -/
def lineValue (l : List Nat) (k : Nat) : Nat :=
  toUInt32 (atoi ((l.drop k).dropWhile (fun c => decide (c = 32 ∨ c = 9))))

/-- The loop of `http_parse_content_length` with the pointer `p` kept as the
memory from `p` on and the bound `end` as the number `n` of bytes up to it. -/
def content_length_scan : Nat → List Nat → Nat → Nat
  | 0, _, _ => 0
  | fuel + 1, mem, n =>
    if 0 < n then
      let len :=
        match strstr mem [13, 10] with
        | none => n
        | some k => if k > n then n else k
      if len ≥ needle.length ∧ strncasecmp mem needle needle.length = 0 then
        lineValue mem needle.length
      else if len ≥ n then 0
      else content_length_scan fuel (mem.drop (len + 2)) (n - (len + 2))
    else 0

/-- The receive buffer holds the accumulated bytes `acc`, followed by NUL up to
its size, and `rxlen` counts them. -/
def RxInv (hs : http_srv_t) (acc : List Nat) : Prop :=
  hs.rxbuf = acc ++ List.replicate (1400 - acc.length) 0 ∧ hs.rxlen = acc.length ∧
    acc.length ≤ 1399

/-- A server state as it is before a call of `http_srv_recv_request`. -/
def hs_init : http_srv_t :=
  { nethnd := true, srv := { sock := true, localport := 80 },
    rxbuf := List.replicate 1400 0, rxlen := 0, running := true,
    state := http_srv_state_t.HTTP_SRV_STATE_RUNNING, port := 80 }

/-- The server state in a result of steps 1 to 4. -/
def HeadResult.hs : HeadResult → http_srv_t
  | HeadResult.ret _ h _ => h
  | HeadResult.parsed _ h _ _ => h

/-- The request in a result of steps 1 to 4. -/
def HeadResult.req : HeadResult → http_srv_request_t
  | HeadResult.ret _ _ r => r
  | HeadResult.parsed _ _ r _ => r

/-- The result of steps 1 to 4 on the initial state (`HTTP_ERR` for `none`). -/
def headOf (script : List RecvResult) : HeadResult :=
  (http_srv_recv_request_head hs_init req_zero script).getD
    (HeadResult.ret HttpStatus.HTTP_ERR hs_init req_zero)

/-- The result of `http_srv_recv_request` on the initial state (`HTTP_ERR` for
`none`). -/
def recvOf (script : List RecvResult) : HttpStatus × http_srv_t × http_srv_request_t :=
  (http_srv_recv_request hs_init req_zero script).getD (HttpStatus.HTTP_ERR, hs_init, req_zero)

/-- The receive result hands over at least one byte (a positive return value). -/
def RecvResult.positive : RecvResult → Bool
  | RecvResult.data bs => !bs.isEmpty
  | RecvResult.fail _ => false

instance (tok : List Nat) : Decidable (TokBytes tok) := by
  unfold TokBytes; infer_instance

/-- Sample script: the request `GET / HTTP/1.1`, one header line, in one piece. -/
def script_get : List RecvResult :=
  [RecvResult.data (bytes "GET / HTTP/1.1\r\nHost: x\r\n\r\n")]

/-- Sample script: a `POST` with a query and a body of five bytes, of which
three arrive in a second piece. -/
def script_post : List RecvResult :=
  [RecvResult.data (bytes "POST /a?x=1 HTTP/1.1\r\nContent-Length: 5\r\n\r\nab"),
   RecvResult.data (bytes "cde")]

/-- Sample script: a request that declares `Content-Length: -1`, followed by one
more byte `A`. -/
def script_neg : List RecvResult :=
  [RecvResult.data (bytes "POST /a HTTP/1.1\r\nContent-Length: -1\r\n\r\n"),
   RecvResult.data (bytes "A")]

/-- Sample script: the same request, followed by 1361 bytes `A`. -/
def script_neg_long : List RecvResult :=
  [RecvResult.data (bytes "POST /a HTTP/1.1\r\nContent-Length: -1\r\n\r\n"),
   RecvResult.data (List.replicate 1361 65)]

/-! ## Vocabulary for the version token -/

/-- Value of a string of decimal digits. -/
def decVal (d : List Nat) : Nat := d.foldl (fun a c => a * 10 + (c - 48)) 0

/-- A non-empty string of decimal digits. -/
def Digits (d : List Nat) : Prop := d ≠ [] ∧ ∀ c ∈ d, isdigit c = true

/-- The text of an integer as the conversion `%d` reads it: white space, an
optional sign, and at least one decimal digit. -/
def IntText (a : List Nat) : Prop :=
  ∃ ws sg ds, a = ws ++ sg ++ ds ∧ (∀ c ∈ ws, isspace c = true) ∧
    (sg = [] ∨ sg = [45] ∨ sg = [43]) ∧ Digits ds

/-- The version token begins with `HTTP/`, an integer text, a dot and a second
integer text; `t` is what follows. -/
def VersionPrefix (v : List Nat) : Prop :=
  ∃ a b t, v = bytes "HTTP/" ++ a ++ 46 :: b ++ t ∧ IntText a ∧ IntText b

/-- The value `net_sock_recv` returns for a receive result when at least as many
bytes are asked for as it offers: the number of bytes, or the non-positive
result. -/
def RecvResult.rc : RecvResult → Int
  | RecvResult.data bs => (bs.length : Int)
  | RecvResult.fail n => -(n : Int)

/-- Sample script: headers with two of five body bytes, one more body byte, then
the connection closes. -/
def script_short : List RecvResult :=
  [RecvResult.data (bytes "POST /a HTTP/1.1\r\nContent-Length: 5\r\n\r\nab"),
   RecvResult.data (bytes "c"), RecvResult.fail 0]

/-! ## Parameter lookup (`http_ui.c`)

The functions of `http_ui.c` read the request through pointers into the receive
buffer; the model passes that buffer as `mem`. The static arrays `param_value`
and `decoded` are passed and returned explicitly. -/

/-- The predicate `isxdigit`. -/
def isxdigit (c : Nat) : Bool :=
  decide ((48 ≤ c ∧ c ≤ 57) ∨ (97 ≤ c ∧ c ≤ 102) ∨ (65 ≤ c ∧ c ≤ 70))

/-- Value of a hexadecimal digit. -/
def hexVal (c : Nat) : Nat :=
  if 48 ≤ c ∧ c ≤ 57 then c - 48 else if 97 ≤ c ∧ c ≤ 102 then c - 87 else c - 55

/-- The call `strtol(hex, NULL, 16)` for a string that starts with a hexadecimal
digit: the value of the hexadecimal digits at the start of `s`, continuing from
`acc`. -/
def strtol16 : List Nat → Nat → Nat
  | [], acc => acc
  | c :: rest, acc => if isxdigit c then strtol16 rest (acc * 16 + hexVal c) else acc

/-- The function `strlen`. -/
def strlen (s : List Nat) : Nat := (cstr s).length

/-- The function `strncmp(s1, s2, n)`. -/
def strncmp : List Nat → List Nat → Nat → Int
  | _, _, 0 => 0
  | s1, s2, n + 1 =>
    let c1 := s1.headD 0
    let c2 := s2.headD 0
    if c1 ≠ c2 then (c1 : Int) - (c2 : Int)
    else if c1 = 0 then 0
    else strncmp s1.tail s2.tail n

/-- The function `strcmp(s1, s2)`. -/
def strcmp : List Nat → List Nat → Int
  | [], s2 => -((s2.headD 0 : Nat) : Int)
  | c1 :: r1, s2 =>
    let c2 := s2.headD 0
    if c1 ≠ c2 then (c1 : Int) - (c2 : Int)
    else if c1 = 0 then 0
    else strcmp r1 s2.tail

/-- The loop of `http_ui_url_decode`; `src` is the memory from `src + si` on and
`di` the write index. Every pass increments `di`, which the loop condition keeps
below `dest_size`, so the first argument, the number of passes that remain,
starts at `dest_size`. The result is `dest` after the final `dest[di] = 0`;
`none` when a store falls outside `dest`. -/
def http_ui_url_decode_loop (dest_size : Nat) :
    Nat → List Nat → List Nat → Nat → Option (List Nat)
  | 0, _, dest, di => storeAt dest di 0
  | fuel + 1, src, dest, di =>
    if src.headD 0 ≠ 0 ∧ di + 1 < dest_size then
      if src.headD 0 = 43 then
        (storeAt dest di 32).bind fun d =>
        http_ui_url_decode_loop dest_size fuel (src.drop 1) d (di + 1)
      else if src.headD 0 = 37 ∧ isxdigit (src.getD 1 0) = true ∧
          isxdigit (src.getD 2 0) = true then
        let hex := [src.getD 1 0, src.getD 2 0, 0]
        (storeAt dest di (strtol16 hex 0 % 256)).bind fun d =>
        http_ui_url_decode_loop dest_size fuel (src.drop (2 + 1)) d (di + 1)
      else
        (storeAt dest di (src.headD 0)).bind fun d =>
        http_ui_url_decode_loop dest_size fuel (src.drop 1) d (di + 1)
    else storeAt dest di 0

/-- The function `http_ui_url_decode(src, dest, dest_size)`: the content of
`dest` afterwards. -/
def http_ui_url_decode (src dest : List Nat) (dest_size : Nat) : Option (List Nat) :=
  http_ui_url_decode_loop dest_size dest_size src dest 0

/-- The static arrays `param_value[128]` and `decoded[128]` of `http_ui.c`. -/
structure http_ui_statics where
  param_value : List Nat
  decoded : List Nat
  deriving DecidableEq, Repr

/-- The part of `http_ui_find_param_in_kv` that is run when the key of a segment
matches: copy of the value (`p + val_start` up to `val_end`) into `param_value`,
decoding into `decoded`, copy back. -/
def http_ui_find_param_copy (st : http_ui_statics) (p : List Nat) (val_start val_end : Nat) :
    Option http_ui_statics :=
  let len := val_end - val_start
  let len := if len ≥ 128 then 128 - 1 else len
  (writeAt st.param_value 0 ((p.drop val_start).take len)).bind fun pv1 =>
  (storeAt pv1 len 0).bind fun pv2 =>
  /- URL decode in-place -/
  (http_ui_url_decode pv2 st.decoded 128).bind fun dec =>
  (strncpy pv2 dec 128).bind fun pv3 =>
  (storeAt pv3 (128 - 1) 0).bind fun pv4 =>
  some { param_value := pv4, decoded := dec }

/-- The loop `while (*p)` of `http_ui_find_param_in_kv`; `p` is the memory from
the pointer on. Every pass that does not leave the loop moves `p` forward, so
the first argument, the number of passes that remain, starts above the length
of the data. The result tells whether `param_value` is returned (`true`) or
`NULL` (`false`). -/
def http_ui_find_param_in_kv_loop (key : List Nat) (key_len : Nat) :
    Nat → List Nat → http_ui_statics → Option (Bool × http_ui_statics)
  | 0, _, st => some (false, st)
  | fuel + 1, p, st =>
    if p.headD 0 ≠ 0 then
      /- find start of key -/
      let eq := strchr p 61
      let amp := strchr p 38
      if eq = none ∨ (amp ≠ none ∧ eq.getD 0 > amp.getD 0) then
        /- malformed or no '=' before '&' -> skip segment -/
        match amp with
        | none => some (false, st)
        | some a => http_ui_find_param_in_kv_loop key key_len fuel (p.drop (a + 1)) st
      else
        /- p..eq-1 is key -/
        if eq.getD 0 = key_len ∧ strncmp p key key_len = 0 then
          /- value is eq+1..amp-1 or end -/
          let val_start := eq.getD 0 + 1
          let val_end := match amp with
            | some a => a
            | none => strlen p
          (http_ui_find_param_copy st p val_start val_end).map fun st1 => (true, st1)
        else
          match amp with
          | none => some (false, st)
          | some a => http_ui_find_param_in_kv_loop key key_len fuel (p.drop (a + 1)) st
    else some (false, st)

/-- The function `http_ui_find_param_in_kv(data, key)` for non-null arguments:
whether it returns `param_value` (`true`) or `NULL`, and the static arrays
afterwards. -/
def http_ui_find_param_in_kv (st : http_ui_statics) (data key : List Nat) :
    Option (Bool × http_ui_statics) :=
  if key.headD 0 = 0 then some (false, st)
  else http_ui_find_param_in_kv_loop key (strlen key) (data.length + 1) data st

/-- The string `"Content-Type:"`. -/
def content_type_name : List Nat := [67, 111, 110, 116, 101, 110, 116, 45, 84, 121, 112, 101, 58]

/-- The loop `while (p < end)` of `http_ui_get_content_type`; `p` and `end_` are
offsets from `headers`, the first argument bounds the number of passes. The
result is the content of `buf` when the function returns `true`: the bytes
copied and the NUL behind them (nothing behind that NUL is read by the callers),
and `none` when it returns `false`. -/
def http_ui_get_content_type_loop (headers : List Nat) (end_ buf_len : Nat) :
    Nat → Nat → Option (List Nat)
  | 0, _ => none
  | fuel + 1, p =>
    if p < end_ then
      let line_end :=
        match strstr (headers.drop p) [13, 10] with
        | none => end_
        | some k => p + k
      if line_end - p ≥ content_type_name.length ∧
          strncasecmp (headers.drop p) content_type_name content_type_name.length = 0 then
        let val0 := p + content_type_name.length
        let val := val0 + (((headers.drop val0).take (line_end - val0)).takeWhile
          (fun c => decide (c = 32 ∨ c = 9))).length
        let len := line_end - val
        let len := if len ≥ buf_len then buf_len - 1 else len
        some ((headers.drop val).take len ++ [0])
      else if line_end ≥ end_ then none
      else http_ui_get_content_type_loop headers end_ buf_len fuel (line_end + 2)
    else none

/-- The function `http_ui_get_content_type(req, buf, buf_len)` for a non-null
`req`; `mem` is the receive buffer the header view points into. Every pass of
the loop moves `p` forward by at least two bytes, so `headers_len` passes
suffice. -/
def http_ui_get_content_type (mem : List Nat) (req : http_srv_request_t) (buf_len : Nat) :
    Option (List Nat) :=
  match req.headers with
  | none => none
  | some h =>
    if buf_len = 0 then none
    else http_ui_get_content_type_loop (mem.drop h) req.headers_len buf_len req.headers_len 0
/-- The type `http_ui_param_source_t`. -/
inductive http_ui_param_source_t
  | HTTP_UI_PARAM_NONE
  | HTTP_UI_PARAM_QUERY
  | HTTP_UI_PARAM_FORM
  | HTTP_UI_PARAM_JSON
  deriving DecidableEq, Repr

/-- Modelled from the spec: the value tree of the external JSON library (`cJSON`),
which is not part of the sources: null, boolean, number, string, array, and
object with named fields. `ν` is the type of the numeric values (`double`);
strings and names are C strings. -/
inductive cJSON (ν : Type)
  | null
  | bool (b : Bool)
  | number (valuedouble : ν)
  | string (valuestring : List Nat)
  | array (child : List (cJSON ν))
  | object (child : List (List Nat × cJSON ν))

/-- Modelled from the spec: the operations the code takes from outside the
sources for JSON bodies: the parser of the JSON library, applied to the byte
span of the body (`none` for a null result), and the text that `printf` produces
for a number under the conversion `%g`. -/
structure JsonLib (ν : Type) where
  cJSON_ParseWithLength : List Nat → Option (cJSON ν)
  format_g : ν → List Nat

/-- Modelled from the spec: the library function
`cJSON_GetObjectItemCaseSensitive(root, key)`, the first field of the object
`root` whose name equals `key` exactly; a null result for other values. -/
def cJSON_GetObjectItemCaseSensitive {ν : Type} (root : cJSON ν) (key : List Nat) :
    Option (cJSON ν) :=
  match root with
  | cJSON.object child => (child.find? (fun f => decide (cstr f.1 = cstr key))).map (fun f => f.2)
  | _ => none

/-- The string `"application/json"`. -/
def mime_json : List Nat := [97, 112, 112, 108, 105, 99, 97, 116, 105, 111, 110, 47, 106, 115, 111, 110]

/-- The string `"application/x-www-form-urlencoded"`. -/
def mime_form : List Nat :=
  [97, 112, 112, 108, 105, 99, 97, 116, 105, 111, 110, 47, 120, 45, 119, 119, 119, 45,
   102, 111, 114, 109, 45, 117, 114, 108, 101, 110, 99, 111, 100, 101, 100]

/-- The function `http_ui_get_json_field(req, key)` for non-null `req` and `key`:
whether it returns `param_value` (`true`) or `NULL`, and the static arrays
afterwards. -/
def http_ui_get_json_field {ν : Type} (lib : JsonLib ν) (st : http_ui_statics)
    (mem : List Nat) (req : http_srv_request_t) (key : List Nat) :
    Option (Bool × http_ui_statics) :=
  match req.body with
  | none => some (false, st)
  | some b =>
    /- Check Content-Type is JSON-ish -/
    match http_ui_get_content_type mem req 64 with
    | none => some (false, st)
    | some ctype =>
      if strncasecmp ctype mime_json mime_json.length ≠ 0 then some (false, st)
      else
        match lib.cJSON_ParseWithLength ((mem.drop b).take req.body_len) with
        | none => some (false, st)
        | some root =>
          match cJSON_GetObjectItemCaseSensitive root key with
          | none => some (false, st)
          /- String -/
          | some (cJSON.string valuestring) =>
            let len := strlen valuestring
            let len := if len ≥ 128 then 128 - 1 else len
            (writeAt st.param_value 0 (valuestring.take len)).bind fun pv1 =>
            (storeAt pv1 len 0).bind fun pv2 =>
            some (true, { st with param_value := pv2 })
          /- Number -/
          | some (cJSON.number valuedouble) =>
            (writeAt st.param_value 0 ((lib.format_g valuedouble).take (128 - 1) ++ [0])).bind
              fun pv1 => some (true, { st with param_value := pv1 })
          /- Bool -/
          | some (cJSON.bool v) =>
            (strncpy st.param_value
              (if v then [116, 114, 117, 101, 0] else [102, 97, 108, 115, 101, 0]) 128).bind
              fun pv1 =>
            (storeAt pv1 (128 - 1) 0).bind fun pv2 =>
            some (true, { st with param_value := pv2 })
          /- Fallback: unsupported type -/
          | some _ => some (false, st)

/-- Step 2 of `http_ui_get_param_ex`, the check of a URL-encoded form body;
`has_ctype` is the result of `http_ui_get_content_type`. The local array `tmp`
is modelled by the bytes copied into it and the NUL behind them. -/
def http_ui_get_param_form (st : http_ui_statics) (mem : List Nat) (req : http_srv_request_t)
    (key : List Nat) (has_ctype : Option (List Nat)) : Option (Bool × http_ui_statics) :=
  match has_ctype, req.body with
  | some ctype, some b =>
    if strncasecmp ctype mime_form mime_form.length = 0 ∧ req.body_len > 0 then
      /- Body is key=value&key2=value2 -/
      let copy_len :=
        if req.body_len ≥ HTTP_SRV_RX_BUFFER_SIZE then HTTP_SRV_RX_BUFFER_SIZE - 1
        else req.body_len
      let tmp := (mem.drop b).take copy_len ++ [0]
      http_ui_find_param_in_kv st tmp key
    else some (false, st)
  | _, _ => some (false, st)

/-- Step 3 of `http_ui_get_param_ex`, the check of a JSON body. -/
def http_ui_get_param_json {ν : Type} (lib : JsonLib ν) (st : http_ui_statics)
    (mem : List Nat) (req : http_srv_request_t) (key : List Nat)
    (has_ctype : Option (List Nat)) : Option (Bool × http_ui_statics) :=
  match has_ctype with
  | some ctype =>
    if strncasecmp ctype mime_json mime_json.length = 0 then
      http_ui_get_json_field lib st mem req key
    else some (false, st)
  | none => some (false, st)

/-- The function `http_ui_get_param_ex(req, key, src_out)` for non-null
arguments: whether it returns `param_value` (`true`) or `NULL`, the value stored
in `*src_out`, and the static arrays afterwards. -/
def http_ui_get_param_ex {ν : Type} (lib : JsonLib ν) (st : http_ui_statics)
    (mem : List Nat) (req : http_srv_request_t) (key : List Nat) :
    Option (Bool × http_ui_param_source_t × http_ui_statics) :=
  if key.headD 0 = 0 then some (false, http_ui_param_source_t.HTTP_UI_PARAM_NONE, st)
  else
    /- 1) Check query string (GET) -/
    (if req.query.headD 0 ≠ 0 then http_ui_find_param_in_kv st req.query key
     else some (false, st)).bind fun q =>
    if q.1 then some (true, http_ui_param_source_t.HTTP_UI_PARAM_QUERY, q.2)
    else
      /- Get Content-Type -/
      let has_ctype := http_ui_get_content_type mem req 64
      /- 2) Check URL-encoded form body -/
      (http_ui_get_param_form q.2 mem req key has_ctype).bind fun f =>
      if f.1 then some (true, http_ui_param_source_t.HTTP_UI_PARAM_FORM, f.2)
      else
        /- 3) Check JSON (if Content-Type says so) -/
        (http_ui_get_param_json lib f.2 mem req key has_ctype).bind fun j =>
        if j.1 then some (true, http_ui_param_source_t.HTTP_UI_PARAM_JSON, j.2)
        else some (false, http_ui_param_source_t.HTTP_UI_PARAM_NONE, j.2)

/-- The function `http_ui_get_param(req, key)`, which calls
`http_ui_get_param_ex` without asking for the source. -/
def http_ui_get_param {ν : Type} (lib : JsonLib ν) (st : http_ui_statics)
    (mem : List Nat) (req : http_srv_request_t) (key : List Nat) :
    Option (Bool × http_ui_statics) :=
  (http_ui_get_param_ex lib st mem req key).map fun r => (r.1, r.2.2)

/-- The C string a lookup returns: the content of `param_value` when the result
is that array, `none` for `NULL` (and for an undefined call). -/
def returned (r : Option (Bool × http_ui_statics)) : Option (List Nat) :=
  match r with
  | some (true, st) => some (cstr st.param_value)
  | _ => none

/-- The static arrays as they are at program start. -/
def statics_zero : http_ui_statics :=
  { param_value := List.replicate 128 0, decoded := List.replicate 128 0 }

/-- A JSON library that parses nothing, for requests without a JSON body. -/
def json_none : JsonLib Nat :=
  { cJSON_ParseWithLength := fun _ => none, format_g := fun _ => [] }
/-! ## Vocabulary for the parameter lookup -/

/-- URL decoding, read left to right: `+` becomes a space, `%` followed by two
hexadecimal digits becomes the byte with that value, every other byte (also a
`%` that is not followed by two hexadecimal digits) is kept. -/
def urlDecode : List Nat → List Nat
  | [] => []
  | 37 :: h1 :: h2 :: rest =>
    if isxdigit h1 && isxdigit h2 then (16 * hexVal h1 + hexVal h2) :: urlDecode rest
    else 37 :: urlDecode (h1 :: h2 :: rest)
  | c :: rest => (if c = 43 then 32 else c) :: urlDecode rest

/-- The key of a segment `key=value`: the bytes before its first `=`. -/
def segKey (g : List Nat) : List Nat := g.takeWhile (fun c => decide (c ≠ 61))

/-- The value of a segment `key=value`: the bytes behind its first `=`. -/
def segValue (g : List Nat) : List Nat := (g.dropWhile (fun c => decide (c ≠ 61))).drop 1

/-- The raw value of the first `&`-separated segment of `s` that has the form
`k=value`: it contains a `=` and its key is exactly `k`. -/
def kvLookup (s k : List Nat) : Option (List Nat) :=
  ((s.splitOn 38).find? (fun g => decide (61 ∈ g ∧ segKey g = k))).map segValue

/-- The static arrays after a lookup that found the raw value `raw`: `decoded`
holds the decoding of the first 127 bytes of `raw` and a NUL, `param_value` the C
string of that decoding, padded with NUL. -/
def statics_after (st : http_ui_statics) (raw : List Nat) : http_ui_statics :=
  { param_value := padTo 128 (cstr (urlDecode (raw.take 127))),
    decoded := urlDecode (raw.take 127) ++ [0] ++
      st.decoded.drop ((urlDecode (raw.take 127)).length + 1) }

/-- The unreserved characters of a URI: letters, digits, `-`, `.`, `_`, `~`. -/
def unreserved (c : Nat) : Bool :=
  decide ((48 ≤ c ∧ c ≤ 57) ∨ (65 ≤ c ∧ c ≤ 90) ∨ (97 ≤ c ∧ c ≤ 122) ∨
    c = 45 ∨ c = 46 ∨ c = 95 ∨ c = 126)

/-- The hexadecimal digit (upper case) for a value below 16. -/
def hexChar (n : Nat) : Nat := if n < 10 then 48 + n else 55 + n

/-- Percent-encoding: unreserved characters are kept, every other byte is
written as `%XX`. -/
def pctEncode : List Nat → List Nat
  | [] => []
  | c :: r =>
    if unreserved c then c :: pctEncode r
    else 37 :: hexChar (c / 16) :: hexChar (c % 16) :: pctEncode r

/-- Sample script: a `POST` with the query `x=1` and the urlencoded form body
`x=2&y=3`. -/
def script_form : List RecvResult :=
  [RecvResult.data (bytes ("POST /s?x=1 HTTP/1.1\r\n" ++
    "Content-Type: application/x-www-form-urlencoded\r\n\r\nx=2&y=3"))]

/-- The JSON document of the examples. -/
def json_text : List Nat := bytes "\x7b\"ssid\":\"Home\",\"ch\":6,\"on\":true\x7d"

/-- The value tree of the JSON document of the examples. -/
def json_tree : cJSON Nat :=
  cJSON.object [(bytes "ssid", cJSON.string (bytes "Home")), (bytes "ch", cJSON.number 6),
    (bytes "on", cJSON.bool true)]

/-- A JSON library that knows the document of the examples, and writes the
numbers below ten. -/
def json_sample : JsonLib Nat :=
  { cJSON_ParseWithLength := fun b => if b = json_text then some json_tree else none,
    format_g := fun n => [48 + n] }

/-- Sample script: a `POST` with the JSON document of the examples as body. -/
def script_json : List RecvResult :=
  [RecvResult.data (bytes "POST /cfg HTTP/1.1\r\nContent-Type: application/json\r\n\r\n" ++
    json_text)]

/-- The C string `http_ui_get_json_field` returns for a field value: a string
verbatim, cut to 127 bytes; a number in the text of `%g`; a boolean as `true` or
`false`; `NULL` for the other types. -/
def json_field_text {ν : Type} (lib : JsonLib ν) : cJSON ν → Option (List Nat)
  | cJSON.string valuestring => some ((cstr valuestring).take 127)
  | cJSON.number valuedouble => some (cstr ((lib.format_g valuedouble).take 127))
  | cJSON.bool v => some (if v then bytes "true" else bytes "false")
  | _ => none

/-! ## Multipart file extraction (`http_ui.c`) -/

/-- The structure `http_ui_file_part_t`; `data` is an offset into the receive
buffer, `none` for a null pointer. -/
structure http_ui_file_part_t where
  data : Option Nat
  length : Nat
  filename : List Nat
  content_type : List Nat
  deriving DecidableEq, Repr

/-- The string `"multipart/form-data"`. -/
def mime_multipart : List Nat := bytes "multipart/form-data"

/-- The string `"boundary="`. -/
def boundary_eq : List Nat := bytes "boundary="

/-- The string `"Content-Disposition:"`. -/
def content_disposition : List Nat := bytes "Content-Disposition:"

/-- The string `name="`. -/
def name_eq : List Nat := bytes "name=\""

/-- The string `filename="`. -/
def filename_eq : List Nat := bytes "filename=\""

/-- The part of the loop body of `http_ui_get_file` behind the comparison of the
field name: it fills `out_part` and returns 0. `cd_line` is the local copy of
the `Content-Disposition` line, `part_hdr_end` the offset of the CR LF CR LF that
ends the header of the part. -/
def http_ui_get_file_part (mem : List Nat) (body_end : Nat) (boundary_start cd_line : List Nat)
    (part_hdr_end : Nat) (out_part : http_ui_file_part_t) :
    Option (Int × http_ui_file_part_t) :=
  /- Get filename if present -/
  (match strstr cd_line filename_eq with
    | some fp =>
      let fn_pos := fp + filename_eq.length
      let fn_len := match strchr (cd_line.drop fn_pos) 34 with
        | some e => e
        | none => 0
      let fn_len := if fn_len ≥ 64 then 64 - 1 else fn_len
      (writeAt out_part.filename 0 ((cd_line.drop fn_pos).take fn_len)).bind fun f1 =>
      storeAt f1 fn_len 0
    | none => storeAt out_part.filename 0 0).bind fun filename =>
  (storeAt out_part.content_type 0 0).bind fun content_type =>
  /- Data starts after header CRLFCRLF -/
  let data_start := part_hdr_end + 4
  /- Find next boundary to know data length -/
  let next_boundary := match strstr (mem.drop data_start) boundary_start with
    | some k => data_start + k
    | none => body_end
  let data_end := if next_boundary > body_end then body_end else next_boundary
  /- Trim trailing CRLF -/
  let region := (mem.drop data_start).take (data_end - data_start)
  let trimmed := (region.reverse.takeWhile (fun c => decide (c = 13 ∨ c = 10))).length
  let data_end := data_end - trimmed
  some (0, { data := some data_start,
             length := toUInt32 ((data_end : Int) - (data_start : Int)),
             filename := filename, content_type := content_type })

/-- The loop `while (p < body_end)` of `http_ui_get_file`; `p` and `body_end` are
offsets into the receive buffer `mem`. Every pass that does not leave the loop
moves `p` forward, so the first argument, the number of passes that remain,
starts above the length of the body. The local arrays `cd_line` and
`found_name` are modelled by the bytes copied into them and the NUL behind
them. -/
def http_ui_get_file_loop (mem : List Nat) (body_end : Nat) (boundary_start field_name : List Nat)
    (out_part : http_ui_file_part_t) : Nat → Nat → Option (Int × http_ui_file_part_t)
  | 0, _ => some (-1, out_part)
  | fuel + 1, p =>
    if p < body_end then
      /- Find next boundary -/
      match strstr (mem.drop p) boundary_start with
      | none => some (-1, out_part)
      | some k =>
        if p + k ≥ body_end then some (-1, out_part)
        else
          let b := p + k + strlen boundary_start
          if b + 2 > body_end then some (-1, out_part)
          else
            /- Skip CRLF after boundary -/
            let part_hdr := if mem.getD b 0 = 13 ∧ mem.getD (b + 1) 0 = 10 then b + 2 else b
            match strstr (mem.drop part_hdr) [13, 10, 13, 10] with
            | none => some (-1, out_part)
            | some k2 =>
              let part_hdr_end := part_hdr + k2
              if part_hdr_end ≥ body_end then some (-1, out_part)
              else
                /- Parse Content-Disposition header line -/
                match strstr (mem.drop part_hdr) [13, 10] with
                | none => some (-1, out_part)
                | some k3 =>
                  if part_hdr + k3 > part_hdr_end then some (-1, out_part)
                  else
                    let cd_len := if k3 ≥ 256 then 256 - 1 else k3
                    let cd_line := (mem.drop part_hdr).take cd_len ++ [0]
                    if strncasecmp cd_line content_disposition content_disposition.length ≠ 0 then
                      http_ui_get_file_loop mem body_end boundary_start field_name out_part fuel
                        (part_hdr_end + 4)
                    else
                      /- Look for name="field_name" and filename="..." -/
                      match strstr cd_line name_eq with
                      | none =>
                        http_ui_get_file_loop mem body_end boundary_start field_name out_part fuel
                          (part_hdr_end + 4)
                      | some np =>
                        let name_pos := np + name_eq.length
                        match strchr (cd_line.drop name_pos) 34 with
                        | none =>
                          http_ui_get_file_loop mem body_end boundary_start field_name out_part
                            fuel (part_hdr_end + 4)
                        | some name_len0 =>
                          let name_len := if name_len0 ≥ 64 then 64 - 1 else name_len0
                          let found_name := (cd_line.drop name_pos).take name_len ++ [0]
                          if strcmp found_name field_name ≠ 0 then
                            http_ui_get_file_loop mem body_end boundary_start field_name out_part
                              fuel (part_hdr_end + 4)
                          else
                            http_ui_get_file_part mem body_end boundary_start cd_line
                              part_hdr_end out_part
    else some (-1, out_part)

/-- The boundary token that `http_ui_get_file` copies from `bptr`: the bytes up
to the first NUL, `;` or white space, at most 63 of them. -/
def boundary_token (bptr : List Nat) : List Nat :=
  (bptr.takeWhile (fun c => decide (c ≠ 0) && decide (c ≠ 59) && !isspace c)).take (64 - 1)

/-- The function `http_ui_get_file(req, field_name, out_part)` for non-null
arguments: the return value and `*out_part` afterwards. The local arrays
`boundary` and `boundary_start` are modelled by their strings. -/
def http_ui_get_file (mem : List Nat) (req : http_srv_request_t) (field_name : List Nat)
    (out_part : http_ui_file_part_t) : Option (Int × http_ui_file_part_t) :=
  match req.body with
  | none => some (-1, out_part)
  | some body =>
    match http_ui_get_content_type mem req 64 with
    | none => some (-1, out_part)
    | some ctype =>
      if strncasecmp ctype mime_multipart mime_multipart.length ≠ 0 then some (-1, out_part)
      else
        /- Extract boundary=... -/
        match strstr ctype boundary_eq with
        | none => some (-1, out_part)
        | some k =>
          let boundary := boundary_token (ctype.drop (k + boundary_eq.length))
          if boundary.headD 0 = 0 then some (-1, out_part)
          else
            /- Construct boundary markers -/
            let boundary_start := ([45, 45] ++ boundary).take (80 - 1)
            http_ui_get_file_loop mem (body + req.body_len) boundary_start field_name out_part
              (req.body_len + 1) body

/-- An `http_ui_file_part_t` with zeroed arrays. -/
def part_zero : http_ui_file_part_t :=
  { data := none, length := 0, filename := List.replicate 64 0,
    content_type := List.replicate 64 0 }

/-- The body of a `multipart/form-data` request with one part: boundary `B`,
field name `N`, file name `F`, payload `P`. -/
def multipart_body (B N F P : List Nat) : List Nat :=
  [45, 45] ++ B ++ [13, 10] ++
  bytes "Content-Disposition: form-data; name=\"" ++ N ++ bytes "\"; filename=\"" ++ F ++
    [34] ++ [13, 10, 13, 10] ++
  P ++ [13, 10] ++ [45, 45] ++ B ++ [45, 45] ++ [13, 10]

/-- Sample script: the upload of the file `fw.bin` with the ten bytes
`0123456789` in the field `fw`, boundary `X`. -/
def script_upload : List RecvResult :=
  [RecvResult.data (bytes "POST /fw HTTP/1.1\r\nContent-Type: multipart/form-data; boundary=X\r\n\r\n" ++
    multipart_body (bytes "X") (bytes "fw") (bytes "fw.bin") (bytes "0123456789"))]

/-- The bytes `P` without the CR and LF bytes at their end. -/
def trimCRLF (P : List Nat) : List Nat :=
  (P.reverse.dropWhile (fun c => decide (c = 13 ∨ c = 10))).reverse

/-- The `Content-Disposition` line of a part with field name `N` and file name
`F`. -/
def cd_text (N F : List Nat) : List Nat :=
  bytes "Content-Disposition: form-data; name=\"" ++ N ++ bytes "\"; filename=\"" ++ F ++ [34]
/-- Sample script: a `POST` request with the content type
`multipart/form-data; boundary=B` and the body `multipart_body B N F P`. -/
def script_multipart (B N F P : List Nat) : List RecvResult :=
  [RecvResult.data (bytes "POST /fw HTTP/1.1\r\nContent-Type: multipart/form-data; boundary=" ++
    B ++ [13, 10, 13, 10] ++ multipart_body B N F P)]

/-- Sample script: a `POST` request with the content type
`multipart/form-data; boundary=X` and the given bytes as its body. -/
def script_body_X (body : List Nat) : List RecvResult :=
  [RecvResult.data (bytes "POST /fw HTTP/1.1\r\nContent-Type: multipart/form-data; boundary=X\r\n\r\n" ++
    body)]

/-- Sample body: one part whose `Content-Disposition` line has the parameter
`filename="a.bin"` before the parameter `name="fw"`. -/
def body_filename_first : List Nat :=
  bytes "--X\r\nContent-Disposition: form-data; filename=\"a.bin\"; name=\"fw\"\r\n\r\n0123456789\r\n--X--\r\n"

/-- Sample body: one part named `fw` whose header has the line
`Content-Type: application/octet-stream` behind the `Content-Disposition` line. -/
def body_part_type : List Nat :=
  bytes ("--X\r\nContent-Disposition: form-data; name=\"fw\"; filename=\"fw.bin\"\r\n" ++
    "Content-Type: application/octet-stream\r\n\r\n0123456789\r\n--X--\r\n")

/-- One part of a multipart body with its boundary line in front: `--B`, CR LF,
the `Content-Disposition` line for the field name `N` and the file name `F`, the
empty line, the payload `P` and CR LF. -/
def part_text (B N F P : List Nat) : List Nat :=
  ([45, 45] ++ B) ++ ([13, 10] ++ (cd_text N F ++ ([13, 10, 13, 10] ++ (P ++ [13, 10]))))

/-- The parts `(N, F, P)` of a multipart body, one behind the other. -/
def parts_text (B : List Nat) : List (List Nat × List Nat × List Nat) → List Nat
  | [] => []
  | q :: rest => part_text B q.1 q.2.1 q.2.2 ++ parts_text B rest

/-- A part `(N, F, P)` as the scan of `http_ui_get_file` can pass it: field name
and file name of at most 63 bytes without NUL and CR, the field name without
`"`, the payload without NUL and without `--B`. -/
def PartOk (B : List Nat) (q : List Nat × List Nat × List Nat) : Prop :=
  (∀ c ∈ q.1, c ≠ 0 ∧ c ≠ 34 ∧ c ≠ 13) ∧ q.1.length ≤ 63 ∧
  (∀ c ∈ q.2.1, c ≠ 0 ∧ c ≠ 13) ∧ q.2.1.length ≤ 63 ∧
  (∀ c ∈ q.2.2, c ≠ 0) ∧ ∀ i, ¬ ([45, 45] ++ B) <+: q.2.2.drop i

/-- Modelled from the spec: the return code `HTTP_OK` of `http_lib.h`, which is
not part of the sources: success, the integer 0. -/
def HTTP_OK : Int := 0

/-- Modelled from the spec: the return code `HTTP_ERR` of `http_lib.h`, which is
not part of the sources: failure, a negative integer (`http_srv_send_response`
tests the result of `send_all` with `rc < 0`), here -1. -/
def HTTP_ERR : Int := -1

/-- The transport as the sending side sees it: the results of the calls of
`net_sock_send` to come, and the calls made so far, each with the bytes offered
and its result. -/
structure Net where
  sends : List Int
  calls : List (List Nat × Int)
  deriving DecidableEq, Repr

/-- Modelled from the spec: the transport operation
`send(buffer, len) -> bytes_sent | error` behind `net_sock_send(sock, buf, len)`,
which is not part of the sources. The call takes the next result of the script
(an error, -1, when the script has no entry left) and the transport records the
`len` bytes offered together with the result. -/
def net_sock_send (net : Net) (buf : List Nat) (len : Nat) : Int × Net :=
  let rc : Int := match net.sends with
    | [] => -1
    | rc :: _ => rc
  (rc, { sends := net.sends.tail, calls := net.calls ++ [(buf.take len, rc)] })

/-- The loop `while (sent < len)` of `send_all`. Every pass that does not leave
the loop takes a result from the script, so the first argument, the number of
passes that remain, starts above the length of the script. -/
def send_all_loop (buf : List Nat) (len : Nat) : Nat → Net → Nat → Int × Net
  | 0, net, _ => (HTTP_ERR, net)
  | fuel + 1, net, sent =>
    if sent < len then
      let r := net_sock_send net (buf.drop sent) (len - sent)
      if r.1 ≤ 0 then (HTTP_ERR, r.2)
      else send_all_loop buf len fuel r.2 ((sent + r.1.toNat) % 2 ^ 32)
    else (HTTP_OK, net)

/-- The function `send_all(sock, buf, len)`; `buf` is the memory from the pointer
on. -/
def send_all (net : Net) (buf : List Nat) (len : Nat) : Int × Net :=
  send_all_loop buf len (net.sends.length + 1) net 0

/-- The text that `printf` produces for an `unsigned long` under the conversion
`%lu`: its decimal digits. -/
def fmt_lu (n : Nat) : List Nat := (Nat.toDigits 10 n).map Char.toNat

/-- The text that `printf` produces for an `int` under the conversion `%d`: a
minus sign for a negative value, and the decimal digits. -/
def fmt_d (z : Int) : List Nat := if z < 0 then 45 :: fmt_lu z.natAbs else fmt_lu z.toNat

/-- The function `snprintf(buf, size, ...)` for the formatted text `text`: the
content of `buf` (at most `size - 1` bytes of the text, and a NUL) and the return
value, the length of the whole text, negative when it exceeds `INT_MAX`. -/
def snprintf (size : Nat) (text : List Nat) : List Nat × Int :=
  (text.take (size - 1) ++ [0], if text.length < 2 ^ 31 then (text.length : Int) else -1)

/-- The text that the format of `http_srv_send_response` gives for its
arguments. -/
def response_header (status_code : Int) (reason content_type : List Nat) (body_len : Nat)
    (extra_headers : List Nat) : List Nat :=
  bytes "HTTP/1.1 " ++ fmt_d status_code ++ [32] ++ cstr reason ++ [13, 10] ++
  bytes "Content-Type: " ++ cstr content_type ++ [13, 10] ++
  bytes "Content-Length: " ++ fmt_lu body_len ++ [13, 10] ++
  cstr extra_headers ++
  bytes "Connection: close\r\n" ++
  [13, 10]

/-- The function `http_srv_send_response` for a non-null `hs`; `none` stands for
a null pointer argument. The local array `header` is modelled by the bytes that
`snprintf` stores. -/
def http_srv_send_response (hs : http_srv_t) (net : Net) (status_code : Int)
    (reason content_type : Option (List Nat)) (body : Option (List Nat)) (body_len : Nat)
    (extra_headers : Option (List Nat)) : Int × Net :=
  if hs.srv.sock = false then (HTTP_ERR, net)
  else
    let reason := reason.getD (bytes "OK")
    let content_type := content_type.getD (bytes "text/plain")
    let extra_headers := extra_headers.getD []
    let f := snprintf 256 (response_header status_code reason content_type body_len extra_headers)
    let header := f.1
    let header_len := f.2
    if header_len < 0 ∨ header_len ≥ 256 then (HTTP_ERR, net)
    else
      let s := send_all net header header_len.toNat
      if s.1 < 0 then (HTTP_ERR, s.2)
      else
        match body with
        | some b =>
          if body_len > 0 then
            let s2 := send_all s.2 b body_len
            if s2.1 < 0 then (HTTP_ERR, s2.2) else (HTTP_OK, s2.2)
          else (HTTP_OK, s.2)
        | none => (HTTP_OK, s.2)

/-- The bytes the transport has accepted in the calls `calls`: of each call with
a positive result `rc`, the first `rc` bytes offered. -/
def accepted (calls : List (List Nat × Int)) : List Nat :=
  (calls.map fun c => c.1.take c.2.toNat).flatten

/-- Every call of `calls` returned a positive count no larger than the number of
bytes offered. -/
def Accepting (calls : List (List Nat × Int)) : Prop :=
  ∀ c ∈ calls, 0 < c.2 ∧ c.2 ≤ (c.1.length : Int)

instance (calls : List (List Nat × Int)) : Decidable (Accepting calls) := by
  unfold Accepting; infer_instance

/-- A transport with the script `sends` and no call made yet. -/
def net_of (sends : List Int) : Net := { sends := sends, calls := [] }

/-! ## Router (`http_server.c`) -/

/-- Modelled from the spec: the return code `NET_OK` of the transport's header
`net.h`, which is not part of the sources: success, the integer 0. -/
def NET_OK : Int := 0

/-- Modelled from the spec: the return code `NET_ERR` of the transport's header
`net.h`, which is not part of the sources: failure, here -1. -/
def NET_ERR : Int := -1

/-- Modelled from the spec: the return code `NET_NOT_FOUND` of the transport's
header `net.h`, which is not part of the sources: a code other than `NET_OK`,
here -4. -/
def NET_NOT_FOUND : Int := -4

/-- The type `route_handler_t`: a handler is called with the server context, the
request and the transport, and gives its return value and the context and the
transport as it leaves them. -/
def route_handler_t : Type := http_srv_t → http_srv_request_t → Net → Int × http_srv_t × Net

/-- The structure `http_route_t`; `method` is `none` for a null pointer. -/
structure http_route_t where
  path : List Nat
  method : Option (List Nat)
  handler : route_handler_t

/-- The calls that the server makes, for the record of a run. -/
inductive Call
  | net_is_up (up : Bool)
  | http_srv_handle_once
  | net_srv_listen (rc : Int)
  | http_srv_recv_request (rc : HttpStatus)
  | handler (i : Nat) (rc : Int)
  | http_srv_send_response (rc : Int)
  | net_srv_next_conn
  | http_srv_restart
  | net_srv_close
  | HAL_Delay (ms : Nat)
  | net_srv_bind
  | http_srv_run
  | NVIC_SystemReset
  deriving DecidableEq, Repr

/-- The test of `http_srv_handle_once` on a route:
`strcmp(req.path, route_path) == 0 && (!route_method || strcmp(req.method, route_method) == 0)`. -/
def route_test (req : http_srv_request_t) (r : http_route_t) : Bool :=
  decide (strcmp req.path r.path = 0) &&
    (match r.method with
      | none => true
      | some route_method => decide (strcmp req.method route_method = 0))

/-- The loop `for (i = 0; i < routes_count; i++)` of `http_srv_handle_once` over
the routes from index `i` on: the index and the entry of the first route whose
test succeeds, `none` when the loop ends with `matched == false`. -/
def route_find (req : http_srv_request_t) : List http_route_t → Nat → Option (Nat × http_route_t)
  | [], _ => none
  | r :: rest, i =>
    if route_test req r then some (i, r)
    else route_find req rest (i + 1)

/-- The string `"404 Not Found\r\n"`. -/
def msg_404 : List Nat := bytes "404 Not Found\r\n"

/-- The function `http_srv_handle_once(hs)` with the route table `routes`:
`listen_rc` is the value that `net_srv_listen` returns and `script` the receive
results of the connection. The result is the return value, the server context,
the transport and the calls made, in order. The local `req` is filled by
`http_srv_recv_request`. `none` when a store of the request reader falls outside
its object. -/
def http_srv_handle_once (routes : List http_route_t) (hs : http_srv_t) (net : Net)
    (listen_rc : Int) (script : List RecvResult) :
    Option (Int × http_srv_t × Net × List Call) :=
  /- 1) Wait for a client connection -/
  if listen_rc ≠ NET_OK ∧ (listen_rc = NET_ERR ∨ listen_rc = NET_TIMEOUT) then
    some (HTTP_ERR, hs, net, [Call.net_srv_listen listen_rc, Call.net_srv_next_conn])
  else
    /- 2) Parse one HTTP request from this client -/
    (http_srv_recv_request hs req_zero script).bind fun r =>
    let rc := r.1
    let hs1 := r.2.1
    let req := r.2.2
    if rc = HttpStatus.HTTP_NO_REQUEST then
      some (HTTP_OK, hs1, net,
        [Call.net_srv_listen listen_rc, Call.http_srv_recv_request rc, Call.net_srv_next_conn])
    else if rc ≠ HttpStatus.HTTP_OK then
      some (HTTP_ERR, hs1, net,
        [Call.net_srv_listen listen_rc, Call.http_srv_recv_request rc, Call.net_srv_next_conn])
    else
      /- 3) Route dispatch -/
      match route_find req routes 0 with
      | some (i, route) =>
        let h := route.handler hs1 req net
        /- 4) Always close this client connection after one request -/
        some (h.1, h.2.1, h.2.2,
          [Call.net_srv_listen listen_rc, Call.http_srv_recv_request rc, Call.handler i h.1,
            Call.net_srv_next_conn])
      | none =>
        /- 404 response -/
        let s := http_srv_send_response hs1 net 404 (some (bytes "Not Found"))
          (some (bytes "text/plain")) (some msg_404) (strlen msg_404) none
        some (HTTP_OK, hs1, s.2,
          [Call.net_srv_listen listen_rc, Call.http_srv_recv_request rc,
            Call.http_srv_send_response s.1, Call.net_srv_next_conn])

/-! ## Server lifecycle (`http_server.c`) -/

/-- The constant `HTTP_ERR_LIMIT`. -/
def HTTP_ERR_LIMIT : Nat := 5

/-- The constant `HTTP_NET_DOWN_LIMIT`. -/
def HTTP_NET_DOWN_LIMIT : Nat := 3

/-- The function `net_srv_bind(nethnd, NULL, srv)` of `net_srv.c`: `create_rc` is
the value that `net_sock_create` returns and `start_ok` tells whether
`WIFI_StartServer` reports success. The result is the return value and `*srv`. -/
def net_srv_bind (nethnd : Bool) (srv : net_srv_conn_t) (create_rc : Int) (start_ok : Bool) :
    Int × net_srv_conn_t :=
  let rc := if nethnd then NET_OK else NET_NOT_FOUND
  if rc = NET_OK then
    let rc := create_rc
    if rc = NET_OK then
      if start_ok then (NET_OK, { srv with sock := true }) else (rc, srv)
    else (rc, srv)
  else (rc, srv)

/-- The value left by `memset(&hs->srv, 0, sizeof(hs->srv))`. -/
def srv_zero : net_srv_conn_t := { sock := false, localport := 0 }

/-- The value left by `memset(hs, 0, sizeof(*hs))`. -/
def hs_zero : http_srv_t :=
  { nethnd := false, srv := srv_zero, rxbuf := List.replicate HTTP_SRV_RX_BUFFER_SIZE 0,
    rxlen := 0, running := false, state := http_srv_state_t.HTTP_SRV_STATE_RUNNING, port := 0 }

/-- The function `http_srv_close(hs)` for a non-null `hs`: `net_srv_close` of
`net_srv.c` returns `NET_OK` on each of its paths and leaves `hs->srv` zeroed. -/
def http_srv_close (hs : http_srv_t) : Int × http_srv_t :=
  (HTTP_OK, { hs with running := false, srv := srv_zero })

/-- How `http_srv_init` goes on after `net_srv_bind`. -/
inductive InitStep
  | ret (rc : Int) (hs : http_srv_t)
  | run (hs : http_srv_t)

/-- The function `http_srv_init(hs, hnet, port)` for a non-null `hs`, up to its
call of `http_srv_run`: `ret HTTP_ERR` when `net_srv_bind` fails, else `run` with
the context with which it calls `http_srv_run(hs)`. -/
def http_srv_init (_hs : http_srv_t) (hnet : Bool) (port : Nat) (create_rc : Int)
    (start_ok : Bool) : InitStep :=
  let hs := hs_zero
  let hs := { hs with srv := { hs.srv with localport := port }, nethnd := hnet, port := port }
  let b := net_srv_bind hnet hs.srv create_rc start_ok
  let hs := { hs with srv := b.2 }
  if b.1 ≠ NET_OK then InitStep.ret HTTP_ERR hs
  else InitStep.run { hs with running := true }

/-- The local variables `err_count` and `netdown_count` of one activation of
`http_srv_run`. -/
structure run_locals where
  err_count : Nat
  netdown_count : Nat
  deriving DecidableEq, Repr

/-- The place in `http_srv_run` at which an activation waits for its call of
`http_srv_restart` to return: in the network supervision, or behind the error
count. -/
inductive RestartSite
  | net_down
  | error_storm
  deriving DecidableEq, Repr

/-- The state of a run of the server. `loop`: control is at the head of the loop
`while (hs->running)` of the innermost activation of `http_srv_run`, whose local
variables are `cur`; the activations that wait inside `http_srv_restart` (which
calls `http_srv_init`, which calls `http_srv_run`) are in `waiting`, the
innermost first. `reset`: `NVIC_SystemReset` was called. `returned`: the first
activation has returned. `log` holds the calls made so far. -/
inductive RunState
  | loop (hs : http_srv_t) (net : Net) (cur : run_locals)
      (waiting : List (RestartSite × run_locals)) (log : List Call)
  | reset (log : List Call)
  | returned (hs : http_srv_t) (net : Net) (log : List Call)

/-- What the environment gives to one pass through the loop of `http_srv_run`:
the result of `net_is_up`; for `http_srv_handle_once` the result of
`net_srv_listen` and the receive results of the connection; and, for a restart,
the results of `net_sock_create` and `WIFI_StartServer` inside `net_srv_bind`. -/
structure Cycle where
  link_up : Bool
  listen_rc : Int
  script : List RecvResult
  create_rc : Int
  start_ok : Bool
  deriving DecidableEq, Repr

/-- The local variables of an activation of `http_srv_run` when its call of
`http_srv_restart` at `site` has returned: in the network supervision both
counters are set to zero, behind the error count `err_count` is. -/
def after_restart (site : RestartSite) (cur : run_locals) : run_locals :=
  match site with
  | RestartSite.net_down => { err_count := 0, netdown_count := 0 }
  | RestartSite.error_storm => { cur with err_count := 0 }

/-- The delay of `http_srv_run` behind its call of `http_srv_restart` at `site`. -/
def delay_after (site : RestartSite) : Call :=
  match site with
  | RestartSite.net_down => Call.HAL_Delay 10
  | RestartSite.error_storm => Call.HAL_Delay 1

/-- The function `http_srv_restart(hs)` for a non-null `hs`, called at `site` by
the activation with the local variables `cur`: it closes the client and the
server, waits, and calls `http_srv_init`. When that returns `HTTP_ERR` (the bind
failed) the system is reset. Else `http_srv_init` has called `http_srv_run`: a
new activation starts with both counters zero, and the calling activation
waits. -/
def http_srv_restart (c : Cycle) (hs : http_srv_t) (net : Net) (cur : run_locals)
    (site : RestartSite) (waiting : List (RestartSite × run_locals)) (log : List Call) :
    RunState :=
  /- Close any active client, stop server completely -/
  let hs1 := (http_srv_close hs).2
  let log1 := log ++ [Call.http_srv_restart, Call.net_srv_next_conn, Call.net_srv_close,
    Call.HAL_Delay 50]
  /- Re-bind server -/
  match http_srv_init hs1 hs1.nethnd hs1.port c.create_rc c.start_ok with
  | InitStep.ret rc hs2 =>
    if rc = HTTP_ERR then RunState.reset (log1 ++ [Call.net_srv_bind, Call.NVIC_SystemReset])
    else
      RunState.loop hs2 net (after_restart site cur) waiting
        (log1 ++ [Call.net_srv_bind, delay_after site])
  | InitStep.run hs2 =>
    RunState.loop { hs2 with state := http_srv_state_t.HTTP_SRV_STATE_RUNNING } net
      { err_count := 0, netdown_count := 0 } ((site, cur) :: waiting)
      (log1 ++ [Call.net_srv_bind, Call.http_srv_run])

/-- One pass of the run from a loop head to the next, with what the environment
gives to it. At the head of the loop `while (hs->running)` of the innermost
activation of `http_srv_run`: when `hs->running` is false the activation
returns, through `http_srv_init` and `http_srv_restart`, into the activation that
waits for it (or to the caller of the first activation); else the body of the
loop is executed. A state that is not at a loop head stays as it is. `none` when
a store of the request reader falls outside its object. -/
def http_srv_run_pass (routes : List http_route_t) (c : Cycle) : RunState → Option RunState
  | RunState.loop hs net cur waiting log =>
    if hs.running = false then
      match waiting with
      | [] => some (RunState.returned hs net log)
      | (site, outer) :: rest =>
        some (RunState.loop hs net (after_restart site outer) rest (log ++ [delay_after site]))
    else
      /- 1) Network supervision -/
      if c.link_up = false then
        let netdown_count := (cur.netdown_count + 1) % 2 ^ 32
        if netdown_count ≥ HTTP_NET_DOWN_LIMIT then
          some (http_srv_restart c hs net { cur with netdown_count := netdown_count }
            RestartSite.net_down waiting (log ++ [Call.net_is_up false]))
        else
          some (RunState.loop hs net { cur with netdown_count := netdown_count } waiting
            (log ++ [Call.net_is_up false, Call.HAL_Delay 10]))
      else
        let netdown_count := 0
        /- 2) Serve one client/request -/
        (http_srv_handle_once routes hs net c.listen_rc c.script).bind fun r =>
        let rc := r.1
        let log1 := log ++ [Call.net_is_up true, Call.http_srv_handle_once] ++ r.2.2.2
        let err_count := if rc ≠ HTTP_OK then (cur.err_count + 1) % 2 ^ 32 else 0
        /- 3) Too many errors -> restart -/
        if err_count ≥ HTTP_ERR_LIMIT then
          some (http_srv_restart c r.2.1 r.2.2.1
            { err_count := err_count, netdown_count := netdown_count }
            RestartSite.error_storm waiting log1)
        else
          some (RunState.loop r.2.1 r.2.2.1
            { err_count := err_count, netdown_count := netdown_count } waiting
            (log1 ++ [Call.HAL_Delay 1]))
  | s => some s

/-- The passes through the loop for a list of cycles, one behind the other. -/
def http_srv_run_passes (routes : List http_route_t) : List Cycle → RunState → Option RunState
  | [], s => some s
  | c :: cs, s => (http_srv_run_pass routes c s).bind (http_srv_run_passes routes cs)

/-- The function `http_srv_run(hs)` at the head of its loop: the state in which a
run starts. -/
def http_srv_run (hs : http_srv_t) (net : Net) : RunState :=
  RunState.loop { hs with state := http_srv_state_t.HTTP_SRV_STATE_RUNNING } net
    { err_count := 0, netdown_count := 0 } [] [Call.http_srv_run]

/-- A route matches a request in the words of the specification: its path is
the path of the request, and it has no method or its method is the method of
the request, as strings. -/
def RouteMatches (req : http_srv_request_t) (r : http_route_t) : Prop :=
  cstr r.path = cstr req.path ∧ ∀ m, r.method = some m → cstr m = cstr req.method

/-- A sample handler: it answers with status 200 and the body `text`. -/
def sample_handler (text : List Nat) : route_handler_t :=
  fun hs _ net =>
    let s := http_srv_send_response hs net 200 (some (bytes "OK")) (some (bytes "text/plain"))
      (some text) text.length (some [])
    (s.1, hs, s.2)

/-- The route table of the example: `("/", "GET", h1)` and `("/", "POST", h2)`. -/
def routes_sample : List http_route_t :=
  [{ path := bytes "/", method := some (bytes "GET"), handler := sample_handler (bytes "h1") },
   { path := bytes "/", method := some (bytes "POST"), handler := sample_handler (bytes "h2") }]

/-- Sample script: the request `POST / HTTP/1.1` without body. -/
def script_post_root : List RecvResult :=
  [RecvResult.data (bytes "POST / HTTP/1.1\r\nHost: x\r\n\r\n")]

/-- Sample script: the request `GET /nope HTTP/1.1`. -/
def script_get_nope : List RecvResult :=
  [RecvResult.data (bytes "GET /nope HTTP/1.1\r\nHost: x\r\n\r\n")]

/-- The bytes of the 404 response. -/
def response_404 : List Nat :=
  bytes ("HTTP/1.1 404 Not Found\r\nContent-Type: text/plain\r\nContent-Length: 15\r\n" ++
    "Connection: close\r\n\r\n404 Not Found\r\n")

/-- The calls made up to a state of the run. -/
def RunState.log : RunState → List Call
  | RunState.loop _ _ _ _ log => log
  | RunState.reset log => log
  | RunState.returned _ _ log => log

/-- The counters of the activation of `http_srv_run` that executes the next pass:
`none` when the run is over. -/
def RunState.counters : RunState → Option run_locals
  | RunState.loop _ _ cur _ _ => some cur
  | _ => none

/-- The number of calls of `http_srv_restart` in a record of calls. -/
def restarts (log : List Call) : Nat := log.count Call.http_srv_restart

/-- The restart of a pass with the cycle `c` can bind again: the network handle
is set and `net_sock_create` succeeds. -/
def Rebinds (c : Cycle) (hs : http_srv_t) : Prop := hs.nethnd = true ∧ c.create_rc = NET_OK

instance (c : Cycle) (hs : http_srv_t) : Decidable (Rebinds c hs) := by
  unfold Rebinds; infer_instance

/-- Sample cycle: the link is up and the connection delivers `BAD` and an empty
line, which is no request line; a restart in this cycle binds again. -/
def cycle_bad : Cycle :=
  { link_up := true, listen_rc := 0, script := [RecvResult.data (bytes "BAD\r\n\r\n")],
    create_rc := 0, start_ok := true }

/-- Sample cycle: the link is down; a restart in this cycle binds again. -/
def cycle_down : Cycle :=
  { link_up := false, listen_rc := 0, script := [], create_rc := 0, start_ok := true }

/-- Sample cycle: the link is up and the connection delivers the request
`GET / HTTP/1.1`. -/
def cycle_get : Cycle :=
  { link_up := true, listen_rc := 0, script := script_get, create_rc := 0, start_ok := true }

/-- What one pass of the run does, seen from the state in which it starts: the
link check reports down; the link is up and `http_srv_handle_once` returns
`HTTP_OK`; the link is up and it returns another result; or the body of the loop
is not executed (the activation returns, or the run is over). -/
inductive PassKind
  | down
  | served_ok
  | served_fail
  | idle
  deriving DecidableEq, Repr

/-- The kind of the pass with the cycle `c` from the state at hand. -/
def pass_kind (routes : List http_route_t) (c : Cycle) : RunState → PassKind
  | RunState.loop hs net _ _ _ =>
    if hs.running = false then PassKind.idle
    else if c.link_up = false then PassKind.down
    else
      match http_srv_handle_once routes hs net c.listen_rc c.script with
      | some r => if r.1 ≠ HTTP_OK then PassKind.served_fail else PassKind.served_ok
      | none => PassKind.idle
  | _ => PassKind.idle

/-- The pass with the cycle `c` from the state at hand calls `http_srv_restart`:
the record of calls behind it holds one more such call. -/
def pass_restarts (routes : List http_route_t) (c : Cycle) (s : RunState) : Bool :=
  match http_srv_run_pass routes c s with
  | some s' => decide (restarts s'.log ≠ restarts s.log)
  | none => false

/-- From the state `s` on, the cycles `cs` are passes without a restart, each of
them a link-down check or a served cycle with a result other than `HTTP_OK`: the
number of the served ones; `none` when a pass is of another kind or restarts. -/
def failed_streak (routes : List http_route_t) : List Cycle → RunState → Option Nat
  | [], _ => some 0
  | c :: cs, s =>
    if pass_restarts routes c s then none
    else
      match pass_kind routes c s, http_srv_run_pass routes c s with
      | PassKind.down, some s' => failed_streak routes cs s'
      | PassKind.served_fail, some s' => (failed_streak routes cs s').map (fun n => n + 1)
      | _, _ => none

/-- The counters of the activation that runs the loop are below their limits,
and so are those that a waiting activation has when it resumes. -/
def CountersOk : RunState → Prop
  | RunState.loop _ _ cur waiting _ =>
    cur.err_count ≤ 4 ∧ cur.netdown_count ≤ 2 ∧
      ∀ w ∈ waiting, (after_restart w.1 w.2).netdown_count ≤ 2
  | _ => True

/-- The error counter of the activation that runs the loop counts the served
cycles of a stretch `b` at the end of the cycles `pre` of the run from `s0`, a
stretch without restart in which every served cycle failed. -/
def StreakOk (routes : List http_route_t) (s0 : RunState) (pre : List Cycle) : RunState → Prop
  | RunState.loop _ _ cur _ _ =>
    ∃ a b sa, pre = a ++ b ∧ http_srv_run_passes routes a s0 = some sa ∧
      failed_streak routes b sa = some cur.err_count
  | _ => True

/-- Sample cycle: the link is down and a restart in this cycle cannot bind. -/
def cycle_down_nobind : Cycle :=
  { link_up := false, listen_rc := 0, script := [], create_rc := -1, start_ok := false }
/-- The number of activations of `http_srv_run` that are active in a state of
the run: the one that executes the loop and the ones that wait inside
`http_srv_restart`; none when the run is over. -/
def activations : RunState → Nat
  | RunState.loop _ _ _ waiting _ => waiting.length + 1
  | _ => 0
/-- Sample script: a `POST` whose header block ends at offset 42 and declares
`Content-Length: 1358`, so that header end plus `Content-Length` is 1400, followed
by the 1358 bytes `A` of the body. -/
def script_full : List RecvResult :=
  [RecvResult.data (bytes "POST /a HTTP/1.1\r\nContent-Length: 1358\r\n\r\n"),
   RecvResult.data (List.replicate 1358 65)]
/-- The static arrays have their declared sizes, 128 bytes each. -/
def StaticsOk (st : http_ui_statics) : Prop :=
  st.param_value.length = 128 ∧ st.decoded.length = 128

/-- A lookup `f`, as a function of the static arrays it starts with, gives for
any two contents of these arrays the same answer: both calls return, both find a
value or both find none, a value found is the same C string in `param_value`,
and a call that finds none leaves the arrays as they are. -/
def StableLookup (f : http_ui_statics → Option (Bool × http_ui_statics)) : Prop :=
  ∀ st st', StaticsOk st → StaticsOk st' →
    ∃ r r', f st = some r ∧ f st' = some r' ∧ StaticsOk r.2 ∧ StaticsOk r'.2 ∧ r.1 = r'.1 ∧
      (r.1 = false → r.2 = st ∧ r'.2 = st') ∧
      (r.1 = true → cstr r.2.param_value = cstr r'.2.param_value)
/-! ## MQTT reconnect delay (`mqtt_app.c`) -/

/-- The constant `YIELD_MS` of `mqtt_app.h`. -/
def YIELD_MS : Nat := 200

/-- The constant `PUB_INTERVAL_MS` of `mqtt_app.h`. -/
def PUB_INTERVAL_MS : Nat := 60000

/-- The constant `RECONN_MIN_MS` of `mqtt_app.h`. -/
def RECONN_MIN_MS : Nat := 1000

/-- The constant `RECONN_MAX_MS` of `mqtt_app.h`. -/
def RECONN_MAX_MS : Nat := 30000

/-- Modelled from the spec: the return code `SUCCESS` of the MQTT client library
(`MQTTClient.h`), which is not part of the sources: the integer 0. -/
def SUCCESS : Int := 0

/-- What the environment gives to one pass through the loop `while (1)` of
`mqtt_main`: the result of `MQTTIsConnected`, the results of `MQTTConnect` and
`MQTTSubscribe` inside `mqtt_do_connect_and_subscribe`, the result of
`MQTTYield`, the tick that `HAL_GetTick` returns and the result of
`mqtt_client_publish`. -/
structure MqttCycle where
  connected : Bool
  connect_rc : Int
  subscribe_rc : Int
  yield_rc : Int
  now : Nat
  publish_rc : Int
  deriving DecidableEq, Repr

/-- The variables of `mqtt_main`: the static `backoff_ms`, the local `last_pub`,
and the record of the arguments of its calls of `HAL_Delay`. -/
structure mqtt_state where
  backoff_ms : Nat
  last_pub : Nat
  delays : List Nat
  deriving DecidableEq, Repr

/-- The function `mqtt_do_connect_and_subscribe`: the result of `MQTTConnect`
when it is not `SUCCESS`, else the result of `MQTTSubscribe`. -/
def mqtt_do_connect_and_subscribe (c : MqttCycle) : Int :=
  let rc := c.connect_rc
  if rc ≠ SUCCESS then rc
  else c.subscribe_rc

/-- One pass through the loop `while (1)` of `mqtt_main`, from its head to the
next `continue` or to the end of the body. -/
def mqtt_main_pass (c : MqttCycle) (st : mqtt_state) : mqtt_state :=
  /- 1) Ensure connected -/
  let connecting := !c.connected
  if connecting ∧ mqtt_do_connect_and_subscribe c ≠ SUCCESS then
    { st with
      delays := st.delays ++ [st.backoff_ms],
      backoff_ms :=
        if st.backoff_ms < RECONN_MAX_MS then (st.backoff_ms * 2) % 2 ^ 32 else RECONN_MAX_MS }
  else
    /- Success => reset backoff -/
    let st1 := if connecting then { st with backoff_ms := RECONN_MIN_MS } else st
    /- 2) Service keepalive + incoming packets -/
    if c.yield_rc ≠ SUCCESS then { st1 with delays := st1.delays ++ [500] }
    else
      /- 3) Publish periodically -/
      if (c.now + 2 ^ 32 - st1.last_pub) % 2 ^ 32 ≥ PUB_INTERVAL_MS then
        if c.publish_rc ≠ SUCCESS then { st1 with delays := st1.delays ++ [500] }
        else { st1 with last_pub := c.now }
      else st1

/-- The function `mqtt_main` for the passes that the list of cycles describes:
the variables at the head of the loop behind these passes. The static
`backoff_ms` has its initial value `RECONN_MIN_MS` and `last_pub` is 0. -/
def mqtt_main (cs : List MqttCycle) : mqtt_state :=
  cs.foldl (fun st c => mqtt_main_pass c st)
    { backoff_ms := RECONN_MIN_MS, last_pub := 0, delays := [] }

/-- Sample cycle: the client is not connected and `MQTTConnect` fails. -/
def mqtt_cycle_fail : MqttCycle :=
  { connected := false, connect_rc := -1, subscribe_rc := 0, yield_rc := 0, now := 0,
    publish_rc := 0 }

/-- Sample cycle: the client is not connected, and connects and subscribes. -/
def mqtt_cycle_connect : MqttCycle :=
  { connected := false, connect_rc := 0, subscribe_rc := 0, yield_rc := 0, now := 0,
    publish_rc := 0 }

/-- Sample payload: the ten bytes `0123`, NUL, `56789`. -/
def payload_nul : List Nat := [48, 49, 50, 51, 0, 53, 54, 55, 56, 57]

/-- Sample boundary token of 37 bytes. -/
def boundary_webkit : List Nat := bytes "----WebKitFormBoundary7MA4YWxkTrZu0gW"

/-- The bytes `s` stand in `mem` at the offset `off`. -/
def occurs_at (mem s : List Nat) (off : Nat) : Prop := s <+: mem.drop off

instance (mem s : List Nat) (off : Nat) : Decidable (occurs_at mem s off) := by
  unfold occurs_at; infer_instance

/-- The text `name="field_name"` that the `Content-Disposition` line of a part
must hold for `http_ui_get_file` to take the part for the field `field_name`;
for a field name of 63 bytes or more, which fills `found_name[64]`, the text
without the closing quote. -/
def name_text (field_name : List Nat) : List Nat :=
  name_eq ++ cstr field_name ++ (if (cstr field_name).length < 63 then [34] else [])

/-! # Theorems -/

/-! ## Header terminator search -/

theorem TermAt_lt {buf : List Nat} {i : Nat} (h : TermAt buf i) : i + 3 < buf.length := by
  obtain ⟨_, _, _, h3⟩ := h
  by_contra hc
  rw [List.getElem?_eq_none (by omega)] at h3
  cases h3

theorem crlfcrlf_at_append (buf tail : List Nat) (i : Nat) (hi : i + 3 < buf.length) :
    crlfcrlf_at (buf ++ tail) i = some (decide (TermAt buf i)) := by
  have e0 : (buf ++ tail)[i]? = buf[i]? := List.getElem?_append_left (by omega)
  have e1 : (buf ++ tail)[i + 1]? = buf[i + 1]? := List.getElem?_append_left (by omega)
  have e2 : (buf ++ tail)[i + 2]? = buf[i + 2]? := List.getElem?_append_left (by omega)
  have e3 : (buf ++ tail)[i + 3]? = buf[i + 3]? := List.getElem?_append_left (by omega)
  obtain ⟨b0, g0⟩ : ∃ b, buf[i]? = some b := ⟨_, List.getElem?_eq_getElem (by omega)⟩
  obtain ⟨b1, g1⟩ : ∃ b, buf[i + 1]? = some b := ⟨_, List.getElem?_eq_getElem (by omega)⟩
  obtain ⟨b2, g2⟩ : ∃ b, buf[i + 2]? = some b := ⟨_, List.getElem?_eq_getElem (by omega)⟩
  obtain ⟨b3, g3⟩ : ∃ b, buf[i + 3]? = some b := ⟨_, List.getElem?_eq_getElem (by omega)⟩
  simp only [crlfcrlf_at, TermAt, e0, e1, e2, e3, g0, g1, g2, g3]
  by_cases h0 : b0 = 13 <;> by_cases h1 : b1 = 10 <;>
    by_cases h2 : b2 = 13 <;> by_cases h3 : b3 = 10 <;>
    simp [h0, h1, h2, h3]

theorem toInt32_small (n : Nat) (h : n < 2 ^ 31) : toInt32 n = (n : Int) := by
  unfold toInt32
  have h1 : n % 2 ^ 32 = n := Nat.mod_eq_of_lt (by omega)
  rw [h1, if_pos h]

theorem http_find_headers_end_loop_spec (buf tail : List Nat) (hlen : buf.length < 2 ^ 31) :
    ∀ (fuel i : Nat), i + fuel = buf.length - 3 → 4 ≤ buf.length →
      (∀ j, i ≤ j → TermAt buf j → (∀ k, i ≤ k → k < j → ¬ TermAt buf k) →
        http_find_headers_end_loop (buf ++ tail) buf.length fuel i = some ((j : Int) + 4)) ∧
      ((∀ j, i ≤ j → ¬ TermAt buf j) →
        http_find_headers_end_loop (buf ++ tail) buf.length fuel i = some (-1)) := by
  intro fuel
  induction fuel with
  | zero =>
    intro i hi h4
    refine ⟨?_, fun _ => rfl⟩
    intro j hij hj _
    have := TermAt_lt hj
    omega
  | succ fuel ih =>
    intro i hi h4
    have hi3 : i + 3 < buf.length := by omega
    have hguard : i ≤ buf.length - 4 := by omega
    obtain ⟨ih1, ih2⟩ := ih (i + 1) (by omega) h4
    constructor
    · intro j hij hj hmin
      unfold http_find_headers_end_loop
      rw [if_pos hguard, crlfcrlf_at_append buf tail i hi3]
      by_cases hti : TermAt buf i
      · have hji : j = i := by
          by_contra hne
          exact hmin i (le_refl i) (by omega) hti
        subst hji
        have hj4 : j + 4 < 2 ^ 31 := by omega
        simp [hti, toInt32_small (j + 4) hj4]
      · have hne : i ≠ j := by
          intro h; subst h; exact hti hj
        simp only [hti, decide_False]
        exact ih1 j (by omega) hj (fun k hk hkj => hmin k (by omega) hkj)
    · intro hnone
      unfold http_find_headers_end_loop
      rw [if_pos hguard, crlfcrlf_at_append buf tail i hi3]
      simp only [hnone i (le_refl i), decide_False]
      exact ih2 (fun j hj => hnone j (by omega))

/-- The result of the search on a buffer of `buf.length` bytes, whatever is
stored behind it. -/
theorem http_find_headers_end_key (buf : List Nat) (hlen : buf.length < 2 ^ 31)
    (tl : List Nat) :
    (∀ i, TermAt buf i → (∀ k, k < i → ¬ TermAt buf k) →
      http_find_headers_end (buf ++ tl) buf.length = some ((i : Int) + 4)) ∧
    ((∀ i, ¬ TermAt buf i) → http_find_headers_end (buf ++ tl) buf.length = some (-1)) := by
  by_cases h4 : buf.length < 4
  · refine ⟨?_, fun _ => by simp [http_find_headers_end, h4]⟩
    intro i hi _
    have := TermAt_lt hi
    omega
  · obtain ⟨s1, s2⟩ := http_find_headers_end_loop_spec buf tl hlen (buf.length - 3) 0
      (by omega) (by omega)
    constructor
    · intro i hi hmin
      simp only [http_find_headers_end, h4, if_false]
      exact s1 i (Nat.zero_le i) hi (fun k _ hk => hmin k hk)
    · intro hnone
      simp only [http_find_headers_end, h4, if_false]
      exact s2 (fun j _ => hnone j)

/-- C1. For a buffer `buf` of `len = buf.length` bytes (followed in memory by any
bytes `tail`), `http_find_headers_end` returns `i + 4` for the smallest index `i`
at which CR LF CR LF stands, returns `-1` exactly when there is no such index (in
particular when `len < 4`), and its result does not depend on, nor does it read,
any byte at an index `>= len`: with no memory behind the buffer (`tail = []`) the
search still returns a value, where a read outside the buffer would give `none`. -/
theorem http_find_headers_end_spec (buf tail : List Nat) (hlen : buf.length < 2 ^ 31) :
    (∀ i, TermAt buf i → (∀ k, k < i → ¬ TermAt buf k) →
      http_find_headers_end (buf ++ tail) buf.length = some ((i : Int) + 4)) ∧
    ((¬ ∃ i, TermAt buf i) ↔ http_find_headers_end (buf ++ tail) buf.length = some (-1)) ∧
    (buf.length < 4 → http_find_headers_end (buf ++ tail) buf.length = some (-1)) ∧
    http_find_headers_end buf buf.length = http_find_headers_end (buf ++ tail) buf.length := by
  have key := http_find_headers_end_key buf hlen
  refine ⟨(key tail).1, ?_, ?_, ?_⟩
  · constructor
    · intro h
      exact (key tail).2 (fun i hi => h ⟨i, hi⟩)
    · intro h hex
      rw [(key tail).1 (Nat.find hex) (Nat.find_spec hex) (fun k hk => Nat.find_min hex hk)] at h
      have h' := Option.some.inj h
      omega
  · intro h4
    simp [http_find_headers_end, h4]
  · have k0 := key []
    rw [List.append_nil] at k0
    by_cases hex : ∃ i, TermAt buf i
    · rw [k0.1 (Nat.find hex) (Nat.find_spec hex) (fun k hk => Nat.find_min hex hk),
        (key tail).1 (Nat.find hex) (Nat.find_spec hex) (fun k hk => Nat.find_min hex hk)]
    · rw [k0.2 (fun i hi => hex ⟨i, hi⟩), (key tail).2 (fun i hi => hex ⟨i, hi⟩)]

/-- Witness for C1 on the 27-byte request `GET / HTTP/1.1\r\nHost: x\r\n\r\n`. -/
theorem http_find_headers_end_spec_witness :
    http_find_headers_end
      ([71, 69, 84, 32, 47, 32, 72, 84, 84, 80, 47, 49, 46, 49, 13, 10,
        72, 111, 115, 116, 58, 32, 120, 13, 10, 13, 10] ++ [0, 0, 0]) 27 = some 27 :=
  (http_find_headers_end_spec
    [71, 69, 84, 32, 47, 32, 72, 84, 84, 80, 47, 49, 46, 49, 13, 10,
      72, 111, 115, 116, 58, 32, 120, 13, 10, 13, 10] [0, 0, 0] (by decide!)).1 23
    (by decide!) (by decide!)

/-! ## Lists as memory -/

theorem getD_append_length (A B : List Nat) (d : Nat) :
    (A ++ B).getD A.length d = B.headD d := by
  induction A with
  | nil => cases B <;> simp
  | cons a A ih => simpa using ih

theorem set_append_length (A B : List Nat) (x v : Nat) :
    (A ++ x :: B).set A.length v = A ++ v :: B := by
  induction A with
  | nil => rfl
  | cons a A ih => simp [ih]

theorem takeWhile_eq_self_of_head (p : Nat → Bool) (pre x : List Nat)
    (hpre : ∀ c ∈ pre, p c = true) (hx : ∀ c, x.head? = some c → p c = false) :
    (pre ++ x).takeWhile p = pre := by
  rw [List.takeWhile_append_of_pos hpre]
  cases x with
  | nil => simp
  | cons c x =>
    have := hx c rfl
    simp [List.takeWhile_cons, this]

theorem dropWhile_eq_of_head (p : Nat → Bool) (pre x : List Nat)
    (hpre : ∀ c ∈ pre, p c = true) (hx : ∀ c, x.head? = some c → p c = false) :
    (pre ++ x).dropWhile p = x := by
  rw [List.dropWhile_append_of_pos hpre]
  cases x with
  | nil => simp
  | cons c x =>
    have := hx c rfl
    simp [List.dropWhile_cons, this]

theorem cstr_append_nul (s rest : List Nat) (hs : ∀ c ∈ s, c ≠ 0) (hr : rest.headD 0 = 0) :
    cstr (s ++ rest) = s := by
  unfold cstr
  apply takeWhile_eq_self_of_head
  · intro c hc; simpa using hs c hc
  · intro c hc
    cases rest with
    | nil => simp at hc
    | cons r rest =>
      simp at hc hr
      subst hc; simp [hr]

theorem cstr_append (s rest : List Nat) (hs : ∀ c ∈ s, c ≠ 0) :
    cstr (s ++ rest) = s ++ cstr rest := by
  unfold cstr
  exact List.takeWhile_append_of_pos (by intro c hc; simpa using hs c hc)

theorem cstr_no_nul (s : List Nat) : ∀ c ∈ cstr s, c ≠ 0 := by
  intro c hc
  have := List.mem_takeWhile_imp hc
  simpa using this

theorem cstr_self (s : List Nat) (hs : ∀ c ∈ s, c ≠ 0) : cstr s = s := by
  have := cstr_append_nul s [] hs rfl
  simpa using this

/-! ## `strtok` -/

theorem drop_app2 (A sp x : List Nat) : (A ++ (sp ++ x)).drop (A.length + sp.length) = x := by
  rw [← List.append_assoc, ← List.length_append, List.drop_left]

theorem getD_app2 (A sp x : List Nat) (d : Nat) :
    (A ++ (sp ++ x)).getD (A.length + sp.length) d = x.headD d := by
  rw [← List.append_assoc, ← List.length_append, getD_append_length]

theorem strtok_none (A sp rest : List Nat) (hsp : Spaces sp) (hr : rest.headD 0 = 0) :
    strtok (A ++ (sp ++ rest)) A.length = (none, A.length + sp.length, A ++ (sp ++ rest)) := by
  have h1 : (sp ++ rest).takeWhile (fun c => decide (c = 32)) = sp := by
    apply takeWhile_eq_self_of_head
    · intro c hc; simpa using hsp c hc
    · intro c hc
      cases rest with
      | nil => simp at hc
      | cons r rest => simp at hc hr; subst hc; simp [hr]
  unfold strtok
  simp only [List.drop_left, h1, getD_app2, hr, if_true]

theorem strtok_tok_end (A sp tok rest : List Nat) (hsp : Spaces sp) (htok : TokBytes tok)
    (hne : tok ≠ []) (hr : rest.headD 0 = 0) :
    strtok (A ++ (sp ++ (tok ++ rest))) A.length =
      (some (A.length + sp.length), A.length + sp.length + tok.length,
        A ++ (sp ++ (tok ++ rest))) := by
  obtain ⟨t, tok', rfl⟩ := List.exists_cons_of_ne_nil hne
  have ht := htok t (by simp)
  have h1 : (sp ++ (t :: tok' ++ rest)).takeWhile (fun c => decide (c = 32)) = sp := by
    apply takeWhile_eq_self_of_head
    · intro c hc; simpa using hsp c hc
    · intro c hc
      simp at hc; subst hc; simp [ht.1]
  have h2 : (t :: tok' ++ rest).takeWhile (fun c => decide (c ≠ 32 ∧ c ≠ 0)) = t :: tok' := by
    apply takeWhile_eq_self_of_head
    · intro c hc; simpa using htok c hc
    · intro c hc
      cases rest with
      | nil => simp at hc
      | cons r rest => simp at hc hr; subst hc; simp [hr]
  have h3 : (A ++ (sp ++ (t :: tok' ++ rest))).getD (A.length + sp.length + (t :: tok').length) 0
      = rest.headD 0 := by
    have : A ++ (sp ++ (t :: tok' ++ rest)) = (A ++ sp ++ (t :: tok')) ++ rest := by simp
    rw [this, ← List.length_append, ← List.length_append, getD_append_length]
  unfold strtok
  simp only [List.drop_left, h1, getD_app2, drop_app2, h2, h3, hr]
  simp [ht.2]

theorem strtok_tok_delim (A sp tok r : List Nat) (hsp : Spaces sp) (htok : TokBytes tok)
    (hne : tok ≠ []) :
    strtok (A ++ (sp ++ (tok ++ 32 :: r))) A.length =
      (some (A.length + sp.length), A.length + sp.length + tok.length + 1,
        A ++ (sp ++ (tok ++ 0 :: r))) := by
  obtain ⟨t, tok', rfl⟩ := List.exists_cons_of_ne_nil hne
  have ht := htok t (by simp)
  have h1 : (sp ++ (t :: tok' ++ 32 :: r)).takeWhile (fun c => decide (c = 32)) = sp := by
    apply takeWhile_eq_self_of_head
    · intro c hc; simpa using hsp c hc
    · intro c hc
      simp at hc; subst hc; simp [ht.1]
  have h2 : (t :: tok' ++ 32 :: r).takeWhile (fun c => decide (c ≠ 32 ∧ c ≠ 0)) = t :: tok' := by
    apply takeWhile_eq_self_of_head
    · intro c hc; simpa using htok c hc
    · intro c hc
      simp at hc; subst hc; simp
  have e : A ++ (sp ++ (t :: tok' ++ 32 :: r)) = (A ++ sp ++ (t :: tok')) ++ 32 :: r := by simp
  have h3 : (A ++ (sp ++ (t :: tok' ++ 32 :: r))).getD (A.length + sp.length + (t :: tok').length) 0
      = 32 := by
    rw [e, ← List.length_append, ← List.length_append, getD_append_length]; rfl
  have h4 : (A ++ (sp ++ (t :: tok' ++ 32 :: r))).set (A.length + sp.length + (t :: tok').length) 0
      = A ++ (sp ++ (t :: tok' ++ 0 :: r)) := by
    rw [e, ← List.length_append, ← List.length_append, set_append_length]; simp
  unfold strtok
  simp only [List.drop_left, h1, getD_app2, drop_app2, h2, h3, h4]
  simp [ht.2]

/-- Every memory content splits into leading spaces, a token and a rest that is
empty or starts with NUL or a space. -/
theorem tok_decomp (x : List Nat) :
    ∃ sp tok rest, x = sp ++ (tok ++ rest) ∧ Spaces sp ∧ TokBytes tok ∧
      (rest.headD 0 = 0 ∨ ∃ r, rest = 32 :: r) ∧ (tok = [] → rest.headD 0 = 0) := by
  refine ⟨x.takeWhile (fun c => decide (c = 32)),
    (x.dropWhile (fun c => decide (c = 32))).takeWhile (fun c => decide (c ≠ 32 ∧ c ≠ 0)),
    (x.dropWhile (fun c => decide (c = 32))).dropWhile (fun c => decide (c ≠ 32 ∧ c ≠ 0)),
    ?_, ?_, ?_, ?_, ?_⟩
  · simp
  · intro c hc
    simpa using List.mem_takeWhile_imp hc
  · intro c hc
    simpa using List.mem_takeWhile_imp hc
  · generalize x.dropWhile (fun c => decide (c = 32)) = y
    have h := List.head?_dropWhile_not (fun c => decide (c ≠ 32 ∧ c ≠ 0)) y
    cases hz : y.dropWhile (fun c => decide (c ≠ 32 ∧ c ≠ 0)) with
    | nil => left; rfl
    | cons z zs =>
      rw [hz] at h
      simp at h
      by_cases hz32 : z = 32
      · right; exact ⟨zs, by rw [hz32]⟩
      · left; simpa using h hz32
  · intro htok
    have h := List.head?_dropWhile_not (fun c => decide (c = 32)) x
    generalize x.dropWhile (fun c => decide (c = 32)) = y at h htok ⊢
    cases y with
    | nil => rfl
    | cons z zs =>
      simp at h
      simp [List.takeWhile_cons] at htok
      simp [List.dropWhile_cons]
      by_cases hz0 : z = 0
      · simp [hz0]
      · exact absurd (htok h) hz0

/-! ## Copies into the fields of the request -/

theorem strncpy_store (dst src : List Nat) (n : Nat) (h : dst.length = n + 1) :
    (strncpy dst src n).bind (fun f => storeAt f n 0) = some (padTo (n + 1) ((cstr src).take n)) := by
  have hl : ((cstr src).take n ++ List.replicate (n - ((cstr src).take n).length) 0).length = n := by
    have : ((cstr src).take n).length ≤ n := by simp [List.length_take]
    simp only [List.length_append, List.length_replicate]
    omega
  obtain ⟨d, hd⟩ : ∃ d, dst.drop n = [d] := by
    have hdl : (dst.drop n).length = 1 := by simp [h]
    match hx : dst.drop n, hdl with
    | [d], _ => exact ⟨d, rfl⟩
  unfold strncpy writeAt
  rw [if_pos (by rw [hl, h]; omega)]
  simp only [Option.some_bind, List.take_zero, List.nil_append, Nat.zero_add, hl, hd]
  unfold storeAt
  rw [if_pos (by simp only [List.length_append, hl, List.length_singleton]; omega)]
  have hset := set_append_length
    ((cstr src).take n ++ List.replicate (n - ((cstr src).take n).length) 0) [] d 0
  rw [hl] at hset
  rw [hset]
  unfold padTo
  have hk : n + 1 - ((cstr src).take n).length = (n - ((cstr src).take n).length) + 1 := by
    have : ((cstr src).take n).length ≤ n := by simp [List.length_take]
    omega
  rw [hk, List.replicate_succ']
  simp

theorem strchr_found (pa qu : List Nat) (hpa : ∀ c ∈ pa, c ≠ 63 ∧ c ≠ 0) :
    strchr (pa ++ 63 :: qu) 63 = some pa.length := by
  induction pa with
  | nil => simp [strchr]
  | cons a pa ih =>
    have ha := hpa a (by simp)
    have ih' := ih (fun c hc => hpa c (by simp [hc]))
    simp [strchr, ha.1, ha.2, ih']

theorem strchr_none (s rest : List Nat) (hs : ∀ c ∈ s, c ≠ 63 ∧ c ≠ 0)
    (hr : rest.headD 0 = 0) : strchr (s ++ rest) 63 = none := by
  induction s with
  | nil =>
    cases rest with
    | nil => rfl
    | cons r rest => simp at hr; simp [strchr, hr]
  | cons a s ih =>
    have ha := hs a (by simp)
    have ih' := ih (fun c hc => hs c (by simp [hc]))
    simp [strchr, ha.1, ha.2, ih']

theorem uri_split (u : List Nat) (h : 63 ∈ u) : u = uriPath u ++ 63 :: uriQuery u := by
  induction u with
  | nil => simp at h
  | cons a u ih =>
    by_cases ha : a = 63
    · subst ha; simp [uriPath, uriQuery]
    · have hu : 63 ∈ u := by
        rcases List.mem_cons.mp h with h | h
        · exact absurd h.symm ha
        · exact h
      have := ih hu
      simp only [uriPath, uriQuery, List.takeWhile_cons, List.dropWhile_cons] at this ⊢
      simp only [ha, ne_eq, not_false_eq_true, decide_True, if_true, List.cons_append]
      rw [← this]

theorem uri_nosplit (u : List Nat) (h : 63 ∉ u) : uriPath u = u ∧ uriQuery u = [] := by
  induction u with
  | nil => simp [uriPath, uriQuery]
  | cons a u ih =>
    have ha : a ≠ 63 := fun e => h (by simp [e])
    have hu : 63 ∉ u := fun e => h (by simp [e])
    have := ih hu
    simp only [uriPath, uriQuery, List.takeWhile_cons, List.dropWhile_cons] at this ⊢
    simp only [ha, ne_eq, not_false_eq_true, decide_True, if_true]
    exact ⟨by rw [this.1], this.2⟩

theorem uriPath_no_qmark (u : List Nat) : ∀ c ∈ uriPath u, c ≠ 63 := by
  intro c hc
  simpa using List.mem_takeWhile_imp hc

theorem strncpy_store_k {α : Type} (dst src : List Nat) (n : Nat) (h : dst.length = n + 1)
    (k : List Nat → Option α) :
    ((strncpy dst src n).bind fun f => (storeAt f n 0).bind k) =
      k (padTo (n + 1) ((cstr src).take n)) := by
  have := strncpy_store dst src n h
  cases hs : strncpy dst src n with
  | none => rw [hs] at this; simp at this
  | some f =>
    rw [hs] at this
    simp only [Option.some_bind] at this ⊢
    rw [this]
    rfl

theorem storeAt_zero (dst : List Nat) (h : 0 < dst.length) :
    storeAt dst 0 0 = some (dst.set 0 0) := by
  unfold storeAt
  rw [if_pos h]

/-- The fields of the request after the three tokens `m`, `u`, `v` have been cut
out of the line by `strtok`. -/
theorem fields_spec (P m Q u R v rest : List Nat) (req : http_srv_request_t)
    (method uri vers : Nat)
    (hmeth : method = P.length) (huri : uri = P.length + m.length + 1 + Q.length)
    (hvers : vers = uri + u.length + 1 + R.length)
    (hm : TokBytes m) (hu : TokBytes u) (hv : TokBytes v) (hr : rest.headD 0 = 0)
    (h1 : req.method.length = 8) (h2 : req.path.length = 128) (h3 : req.query.length = 128) :
    ∃ u', u'.length = u.length ∧
      http_parse_request_line_fields
        (P ++ (m ++ 0 :: (Q ++ (u ++ 0 :: (R ++ (v ++ rest)))))) method uri vers req =
      some ((parsed_line req m u v).1,
        P ++ (m ++ 0 :: (Q ++ (u' ++ 0 :: (R ++ (v ++ rest))))),
        (parsed_line req m u v).2) := by
  have e7 : (8 : Nat) - 1 = 7 := rfl
  have e127 : (128 : Nat) - 1 = 127 := rfl
  have hm0 : ∀ c ∈ m, c ≠ 0 := fun c hc => (hm c hc).2
  have hu0 : ∀ c ∈ u, c ≠ 0 := fun c hc => (hu c hc).2
  have hv0 : ∀ c ∈ v, c ≠ 0 := fun c hc => (hv c hc).2
  -- the method token
  have dmeth : (P ++ (m ++ 0 :: (Q ++ (u ++ 0 :: (R ++ (v ++ rest)))))).drop method =
      m ++ 0 :: (Q ++ (u ++ 0 :: (R ++ (v ++ rest)))) := by
    rw [hmeth, List.drop_left]
  have cmeth : cstr (m ++ 0 :: (Q ++ (u ++ 0 :: (R ++ (v ++ rest))))) = m :=
    cstr_append_nul m _ hm0 rfl
  unfold http_parse_request_line_fields
  rw [e7, e127, dmeth, strncpy_store_k req.method _ 7 h1, cmeth]
  by_cases hq : 63 ∈ u
  · -- the URI has a query part
    have hsplit := uri_split u hq
    have hpa : ∀ c ∈ uriPath u, c ≠ 63 ∧ c ≠ 0 := by
      intro c hc
      refine ⟨uriPath_no_qmark u c hc, ?_⟩
      exact hu0 c (by rw [hsplit]; simp [hc])
    have hqu : ∀ c ∈ uriQuery u, c ≠ 0 := by
      intro c hc
      exact hu0 c (by rw [hsplit]; simp [hc])
    have hlen : u.length = (uriPath u).length + 1 + (uriQuery u).length := by
      conv_lhs => rw [hsplit]
      simp; omega
    generalize uriPath u = pa at hsplit hpa hlen ⊢
    generalize uriQuery u = qu at hsplit hqu hlen ⊢
    subst hsplit
    refine ⟨pa ++ 0 :: qu, by simp, ?_⟩
    have duri : (P ++ (m ++ 0 :: (Q ++ ((pa ++ 63 :: qu) ++ 0 :: (R ++ (v ++ rest)))))).drop uri =
        pa ++ 63 :: (qu ++ 0 :: (R ++ (v ++ rest))) := by
      have : P ++ (m ++ 0 :: (Q ++ ((pa ++ 63 :: qu) ++ 0 :: (R ++ (v ++ rest))))) =
          (P ++ m ++ 0 :: Q) ++ (pa ++ 63 :: (qu ++ 0 :: (R ++ (v ++ rest)))) := by simp
      rw [this]
      exact List.drop_left' (by simp; omega)
    have hset : (P ++ (m ++ 0 :: (Q ++ ((pa ++ 63 :: qu) ++ 0 :: (R ++ (v ++ rest)))))).set
        (uri + pa.length) 0 =
        P ++ (m ++ 0 :: (Q ++ ((pa ++ 0 :: qu) ++ 0 :: (R ++ (v ++ rest))))) := by
      have e1 : P ++ (m ++ 0 :: (Q ++ ((pa ++ 63 :: qu) ++ 0 :: (R ++ (v ++ rest))))) =
          (P ++ m ++ 0 :: Q ++ pa) ++ 63 :: (qu ++ 0 :: (R ++ (v ++ rest))) := by simp
      have e2 : uri + pa.length = (P ++ m ++ 0 :: Q ++ pa).length := by simp; omega
      rw [e1, e2, set_append_length]
      simp
    have dq : (P ++ (m ++ 0 :: (Q ++ ((pa ++ 0 :: qu) ++ 0 :: (R ++ (v ++ rest)))))).drop
        (uri + pa.length + 1) = qu ++ 0 :: (R ++ (v ++ rest)) := by
      have : P ++ (m ++ 0 :: (Q ++ ((pa ++ 0 :: qu) ++ 0 :: (R ++ (v ++ rest))))) =
          (P ++ m ++ 0 :: Q ++ pa ++ [0]) ++ (qu ++ 0 :: (R ++ (v ++ rest))) := by simp
      rw [this]
      exact List.drop_left' (by simp; omega)
    have dp : (P ++ (m ++ 0 :: (Q ++ ((pa ++ 0 :: qu) ++ 0 :: (R ++ (v ++ rest)))))).drop uri =
        pa ++ 0 :: (qu ++ 0 :: (R ++ (v ++ rest))) := by
      have : P ++ (m ++ 0 :: (Q ++ ((pa ++ 0 :: qu) ++ 0 :: (R ++ (v ++ rest))))) =
          (P ++ m ++ 0 :: Q) ++ (pa ++ 0 :: (qu ++ 0 :: (R ++ (v ++ rest)))) := by simp
      rw [this]
      exact List.drop_left' (by simp; omega)
    have dv : (P ++ (m ++ 0 :: (Q ++ ((pa ++ 0 :: qu) ++ 0 :: (R ++ (v ++ rest)))))).drop vers =
        v ++ rest := by
      have : P ++ (m ++ 0 :: (Q ++ ((pa ++ 0 :: qu) ++ 0 :: (R ++ (v ++ rest))))) =
          (P ++ m ++ 0 :: Q ++ pa ++ 0 :: qu ++ 0 :: R) ++ (v ++ rest) := by simp
      rw [this]
      exact List.drop_left' (by simp at hvers ⊢; omega)
    have cq : cstr (qu ++ 0 :: (R ++ (v ++ rest))) = qu := cstr_append_nul qu _ hqu rfl
    have cp : cstr (pa ++ 0 :: (qu ++ 0 :: (R ++ (v ++ rest)))) = pa :=
      cstr_append_nul pa _ (fun c hc => (hpa c hc).2) rfl
    have cv : cstr (v ++ rest) = v := cstr_append_nul v rest hv0 hr
    have hver : sscanf_version (v ++ rest) = sscanf_version v := by
      unfold sscanf_version
      rw [cv, cstr_self v hv0]
    have hpath : uriPath (pa ++ 63 :: qu) = pa := by
      unfold uriPath
      apply takeWhile_eq_self_of_head
      · intro c hc; simpa using (hpa c hc).1
      · intro c hc; simp at hc; subst hc; simp
    have hquery : uriQuery (pa ++ 63 :: qu) = qu := by
      unfold uriQuery
      rw [dropWhile_eq_of_head]
      · rfl
      · intro c hc; simpa using (hpa c hc).1
      · intro c hc; simp at hc; subst hc; simp
    rw [duri, strchr_found pa _ hpa]
    simp only [hset, dq, Option.some_bind]
    rw [strncpy_store_k req.query _ 127 h3, cq]
    simp only [Option.some_bind, dp]
    rw [strncpy_store_k req.path _ 127 h2, cp, dv, hver]
    unfold parsed_line
    simp only [hq, if_true, hpath, hquery]
    cases sscanf_version v with
    | none => rfl
    | some mm => rfl
  · -- no query part
    have hns := uri_nosplit u hq
    refine ⟨u, rfl, ?_⟩
    have hu63 : ∀ c ∈ u, c ≠ 63 ∧ c ≠ 0 := by
      intro c hc
      exact ⟨fun e => hq (e ▸ hc), hu0 c hc⟩
    have duri : (P ++ (m ++ 0 :: (Q ++ (u ++ 0 :: (R ++ (v ++ rest)))))).drop uri =
        u ++ 0 :: (R ++ (v ++ rest)) := by
      have : P ++ (m ++ 0 :: (Q ++ (u ++ 0 :: (R ++ (v ++ rest))))) =
          (P ++ m ++ 0 :: Q) ++ (u ++ 0 :: (R ++ (v ++ rest))) := by simp
      rw [this]
      exact List.drop_left' (by simp; omega)
    have dv : (P ++ (m ++ 0 :: (Q ++ (u ++ 0 :: (R ++ (v ++ rest)))))).drop vers =
        v ++ rest := by
      have : P ++ (m ++ 0 :: (Q ++ (u ++ 0 :: (R ++ (v ++ rest))))) =
          (P ++ m ++ 0 :: Q ++ u ++ 0 :: R) ++ (v ++ rest) := by simp
      rw [this]
      exact List.drop_left' (by simp; omega)
    have cp : cstr (u ++ 0 :: (R ++ (v ++ rest))) = u := cstr_append_nul u _ hu0 rfl
    have cv : cstr (v ++ rest) = v := cstr_append_nul v rest hv0 hr
    have hver : sscanf_version (v ++ rest) = sscanf_version v := by
      unfold sscanf_version
      rw [cv, cstr_self v hv0]
    rw [duri, strchr_none u (0 :: (R ++ (v ++ rest))) hu63 rfl]
    simp only [storeAt_zero req.query (by omega), Option.some_bind, duri]
    rw [strncpy_store_k req.path _ 127 h2, cp, dv, hver]
    unfold parsed_line
    simp only [hq, if_false, hns.1]
    cases sscanf_version v with
    | none => rfl
    | some mm => rfl

/-! ## Tokens of a line -/

theorem tokens_nil : tokens [] = [] := by
  simp [tokens, List.splitOn, List.splitOnP_nil]

theorem tokens_spaces (sp x : List Nat) (hsp : Spaces sp) : tokens (sp ++ x) = tokens x := by
  induction sp with
  | nil => rfl
  | cons a sp ih =>
    have ha : a = 32 := hsp a (by simp)
    have ih' := ih (fun c hc => hsp c (by simp [hc]))
    subst ha
    unfold tokens at ih' ⊢
    simp only [List.splitOn, List.cons_append] at ih' ⊢
    rw [List.splitOnP_cons]
    simp only [beq_self_eq_true, if_true]
    rw [List.filter_cons_of_neg (by simp)]
    exact ih'

theorem tokens_tok_delim (tok r : List Nat) (htok : TokBytes tok) (hne : tok ≠ []) :
    tokens (tok ++ 32 :: r) = tok :: tokens r := by
  unfold tokens
  simp only [List.splitOn]
  rw [List.splitOnP_first (fun c => c == 32) tok (by intro c hc; simpa using (htok c hc).1) 32
    (by simp) r]
  simp [hne]

theorem tokens_tok_end (tok : List Nat) (htok : TokBytes tok) (hne : tok ≠ []) :
    tokens tok = [tok] := by
  unfold tokens
  simp only [List.splitOn]
  rw [List.splitOnP_eq_single (fun c => c == 32) tok (by intro c hc; simpa using (htok c hc).1)]
  simp [hne]

theorem cstr_head_nul (rest : List Nat) (hr : rest.headD 0 = 0) : cstr rest = [] := by
  have := cstr_append_nul [] rest (by simp) hr
  simpa using this

theorem cstr_split (x : List Nat) : x = cstr x ++ x.drop (cstr x).length := by
  unfold cstr
  induction x with
  | nil => rfl
  | cons a x ih =>
    by_cases ha : a = 0
    · simp [ha]
    · simp only [List.takeWhile_cons, ha, ne_eq, not_false_eq_true, decide_True, if_true,
        List.length_cons, List.drop_succ_cons, List.cons_append]
      rw [← ih]

/-- The three ways a call of `strtok` on the memory `A ++ x` from offset
`A.length` can go, with the tokens of the string `x` in each case. -/
theorem strtok_cases (A x : List Nat) :
    (tokens (cstr x) = [] ∧ ∃ sv, strtok (A ++ x) A.length = (none, sv, A ++ x)) ∨
    (∃ sp tok rest, Spaces sp ∧ TokBytes tok ∧ tok ≠ [] ∧ rest.headD 0 = 0 ∧
      x = sp ++ (tok ++ rest) ∧ tokens (cstr x) = [tok] ∧
      strtok (A ++ x) A.length =
        (some (A.length + sp.length), A.length + sp.length + tok.length, A ++ x) ∧
      strtok (A ++ x) (A.length + sp.length + tok.length) =
        (none, A.length + sp.length + tok.length, A ++ x)) ∨
    (∃ sp tok r, Spaces sp ∧ TokBytes tok ∧ tok ≠ [] ∧
      x = sp ++ (tok ++ 32 :: r) ∧ tokens (cstr x) = tok :: tokens (cstr r) ∧
      strtok (A ++ x) A.length =
        (some (A.length + sp.length), A.length + sp.length + tok.length + 1,
          A ++ (sp ++ (tok ++ 0 :: r)))) := by
  obtain ⟨sp, tok, rest, hx, hsp, htok, hrest, hempty⟩ := tok_decomp x
  have hsp0 : ∀ c ∈ sp, c ≠ 0 := by
    intro c hc; rw [hsp c hc]; decide
  have htok0 : ∀ c ∈ tok, c ≠ 0 := fun c hc => (htok c hc).2
  by_cases hne : tok = []
  · left
    have hr := hempty hne
    subst hne
    subst hx
    constructor
    · rw [List.nil_append, cstr_append sp rest hsp0, cstr_head_nul rest hr, List.append_nil]
      have := tokens_spaces sp [] hsp
      rw [List.append_nil] at this
      rw [this, tokens_nil]
    · exact ⟨_, by simpa using strtok_none A sp rest hsp hr⟩
  · rcases hrest with hr | ⟨r, hr⟩
    · right; left
      refine ⟨sp, tok, rest, hsp, htok, hne, hr, hx, ?_, ?_, ?_⟩
      · rw [hx, cstr_append sp _ hsp0, cstr_append_nul tok rest htok0 hr, tokens_spaces sp tok hsp,
          tokens_tok_end tok htok hne]
      · rw [hx]; exact strtok_tok_end A sp tok rest hsp htok hne hr
      · have := strtok_none (A ++ (sp ++ tok)) [] rest (by intro c hc; simp at hc) hr
        simp only [List.nil_append, List.length_append, List.length_nil, Nat.add_zero,
          List.append_assoc] at this
        rw [hx, ← Nat.add_assoc] at *
        exact this
    · right; right
      subst hr
      refine ⟨sp, tok, r, hsp, htok, hne, hx, ?_, ?_⟩
      · rw [hx, cstr_append sp _ hsp0, cstr_append tok _ htok0, tokens_spaces sp _ hsp]
        have : cstr (32 :: r) = 32 :: cstr r := by simp [cstr]
        rw [this, tokens_tok_delim tok _ htok hne]
      · rw [hx]; exact strtok_tok_delim A sp tok r hsp htok hne

theorem strtok_cases_at (mem : List Nat) (p : Nat) (A x : List Nat) (hmem : mem = A ++ x)
    (hp : p = A.length) :
    (tokens (cstr x) = [] ∧ ∃ sv, strtok mem p = (none, sv, mem)) ∨
    (∃ sp tok rest, Spaces sp ∧ TokBytes tok ∧ tok ≠ [] ∧ rest.headD 0 = 0 ∧
      x = sp ++ (tok ++ rest) ∧ tokens (cstr x) = [tok] ∧
      strtok mem p = (some (p + sp.length), p + sp.length + tok.length, mem) ∧
      strtok mem (p + sp.length + tok.length) = (none, p + sp.length + tok.length, mem)) ∨
    (∃ sp tok r, Spaces sp ∧ TokBytes tok ∧ tok ≠ [] ∧
      x = sp ++ (tok ++ 32 :: r) ∧ tokens (cstr x) = tok :: tokens (cstr r) ∧
      strtok mem p =
        (some (p + sp.length), p + sp.length + tok.length + 1, A ++ (sp ++ (tok ++ 0 :: r)))) := by
  subst hmem; subst hp
  exact strtok_cases A x

theorem fields_spec_at (mem P m Q u R v rest : List Nat) (req : http_srv_request_t)
    (method uri vers : Nat)
    (hmem : mem = P ++ (m ++ 0 :: (Q ++ (u ++ 0 :: (R ++ (v ++ rest))))))
    (hmeth : method = P.length) (huri : uri = P.length + m.length + 1 + Q.length)
    (hvers : vers = uri + u.length + 1 + R.length)
    (hm : TokBytes m) (hu : TokBytes u) (hv : TokBytes v) (hr : rest.headD 0 = 0)
    (h1 : req.method.length = 8) (h2 : req.path.length = 128) (h3 : req.query.length = 128) :
    ∃ u', u'.length = u.length ∧
      http_parse_request_line_fields mem method uri vers req =
      some ((parsed_line req m u v).1,
        P ++ (m ++ 0 :: (Q ++ (u' ++ 0 :: (R ++ (v ++ rest))))),
        (parsed_line req m u v).2) := by
  subst hmem
  exact fields_spec P m Q u R v rest req method uri vers hmeth huri hvers hm hu hv hr h1 h2 h3

theorem nul_free_spaces (sp : List Nat) (hsp : Spaces sp) : ∀ c ∈ sp, c ≠ 0 := by
  intro c hc; rw [hsp c hc]; decide

theorem nul_free_tok (tok : List Nat) (htok : TokBytes tok) : ∀ c ∈ tok, c ≠ 0 :=
  fun c hc => (htok c hc).2

/-- What `http_parse_request_line` does, in terms of the tokens of the line: with
fewer than three tokens it returns `HTTP_ERR` and leaves the request as it was;
otherwise it fills the request from the first three tokens, accepts or rejects
on the version token alone, and changes memory only inside the line. -/
theorem http_parse_request_line_spec (line : List Nat) (req : http_srv_request_t)
    (h1 : req.method.length = 8) (h2 : req.path.length = 128) (h3 : req.query.length = 128) :
    (∀ m u v ts, tokens (cstr line) = m :: u :: v :: ts →
      ∃ L', L'.length = (cstr line).length ∧ TokBytes m ∧ TokBytes u ∧ TokBytes v ∧
        http_parse_request_line line req =
          some ((parsed_line req m u v).1, L' ++ line.drop (cstr line).length,
            (parsed_line req m u v).2)) ∧
    ((tokens (cstr line)).length < 3 →
      (http_parse_request_line line req).map (fun r => (r.1, r.2.2)) =
        some (HttpStatus.HTTP_ERR, req)) := by
  rcases strtok_cases_at line 0 [] line rfl rfl with
    ⟨hT1, sv1, hs1⟩ | ⟨sp1, m, rest1, -, -, -, -, -, hT1, hs1, hs1'⟩ |
    ⟨sp1, m, r1, hsp1, hm, hmne, hx1, hT1, hs1⟩
  · -- no token at all
    refine ⟨?_, ?_⟩
    · intro m' u' v' ts h; rw [hT1] at h; cases h
    · intro _
      unfold http_parse_request_line
      simp only [hs1, Option.map_some']
  · -- one token, the string ends behind it
    refine ⟨?_, ?_⟩
    · intro m' u' v' ts h; rw [hT1] at h; cases h
    · intro _
      unfold http_parse_request_line
      simp only [hs1, hs1', Option.map_some']
  · rcases strtok_cases_at ([] ++ (sp1 ++ (m ++ 0 :: r1))) (0 + sp1.length + m.length + 1)
        (sp1 ++ (m ++ [0])) r1 (by simp)
        (by simp only [List.length_append, List.length_cons, List.length_nil]; omega) with
      ⟨hT2, sv2, hs2⟩ | ⟨sp2, u, rest2, -, -, -, -, -, hT2, hs2, hs2'⟩ |
      ⟨sp2, u, r2, hsp2, hu, hune, hx2, hT2, hs2⟩
    · -- one token
      refine ⟨?_, ?_⟩
      · intro m' u' v' ts h; rw [hT1, hT2] at h; cases h
      · intro _
        unfold http_parse_request_line
        simp only [hs1, hs2, Option.map_some']
    · -- two tokens, the string ends behind the second
      refine ⟨?_, ?_⟩
      · intro m' u' v' ts h; rw [hT1, hT2] at h; cases h
      · intro _
        unfold http_parse_request_line
        simp only [hs1, hs2, hs2', Option.map_some']
    · rcases strtok_cases_at ((sp1 ++ (m ++ [0])) ++ (sp2 ++ (u ++ 0 :: r2)))
          (0 + sp1.length + m.length + 1 + sp2.length + u.length + 1)
          ((sp1 ++ (m ++ [0])) ++ (sp2 ++ (u ++ [0]))) r2 (by simp)
          (by simp only [List.length_append, List.length_cons, List.length_nil]; omega) with
        ⟨hT3, sv3, hs3⟩ | ⟨sp3, v, rest3, hsp3, hv, hvne, hr3, hx3, hT3, hs3, -⟩ |
        ⟨sp3, v, r3, hsp3, hv, hvne, hx3, hT3, hs3⟩
      · -- two tokens
        refine ⟨?_, ?_⟩
        · intro m' u' v' ts h; rw [hT1, hT2, hT3] at h; cases h
        · intro _
          unfold http_parse_request_line
          simp only [hs1, hs2, hs3, Option.map_some']
      · -- three tokens, the string ends behind the third
        refine ⟨?_, ?_⟩
        · intro m' u' v' ts h
          rw [hT1, hT2, hT3] at h
          injection h with e1 h; injection h with e2 h; injection h with e3 h
          subst e1; subst e2; subst e3
          obtain ⟨u', hu', hf⟩ := fields_spec_at
            ((sp1 ++ (m ++ [0])) ++ (sp2 ++ (u ++ 0 :: r2))) sp1 m sp2 u sp3 v rest3 req
            (0 + sp1.length) (0 + sp1.length + m.length + 1 + sp2.length)
            (0 + sp1.length + m.length + 1 + sp2.length + u.length + 1 + sp3.length)
            (by rw [hx3]; simp) (by simp) (by simp) (by simp) hm hu hv hr3 h1 h2 h3
          refine ⟨sp1 ++ (m ++ 0 :: (sp2 ++ (u' ++ 0 :: (sp3 ++ v)))), ?_, hm, hu, hv, ?_⟩
          · have hc : cstr line = sp1 ++ (m ++ 32 :: (sp2 ++ (u ++ 32 :: (sp3 ++ v)))) := by
              rw [hx1, hx2, hx3]
              have e : sp1 ++ (m ++ 32 :: (sp2 ++ (u ++ 32 :: (sp3 ++ (v ++ rest3))))) =
                  (sp1 ++ (m ++ 32 :: (sp2 ++ (u ++ 32 :: (sp3 ++ v))))) ++ rest3 := by simp
              rw [e]
              apply cstr_append_nul _ _ _ hr3
              intro c hc
              simp only [List.mem_append, List.mem_cons] at hc
              rcases hc with h | h | h | h | h | h | h | h
              · exact nul_free_spaces sp1 hsp1 c h
              · exact nul_free_tok m hm c h
              · rw [h]; decide
              · exact nul_free_spaces sp2 hsp2 c h
              · exact nul_free_tok u hu c h
              · rw [h]; decide
              · exact nul_free_spaces sp3 hsp3 c h
              · exact nul_free_tok v hv c h
            rw [hc]; simp [hu']
          · have hc : cstr line = sp1 ++ (m ++ 32 :: (sp2 ++ (u ++ 32 :: (sp3 ++ v)))) := by
              rw [hx1, hx2, hx3]
              have e : sp1 ++ (m ++ 32 :: (sp2 ++ (u ++ 32 :: (sp3 ++ (v ++ rest3))))) =
                  (sp1 ++ (m ++ 32 :: (sp2 ++ (u ++ 32 :: (sp3 ++ v))))) ++ rest3 := by simp
              rw [e]
              apply cstr_append_nul _ _ _ hr3
              intro c hc
              simp only [List.mem_append, List.mem_cons] at hc
              rcases hc with h | h | h | h | h | h | h | h
              · exact nul_free_spaces sp1 hsp1 c h
              · exact nul_free_tok m hm c h
              · rw [h]; decide
              · exact nul_free_spaces sp2 hsp2 c h
              · exact nul_free_tok u hu c h
              · rw [h]; decide
              · exact nul_free_spaces sp3 hsp3 c h
              · exact nul_free_tok v hv c h
            have hd : line.drop (cstr line).length = rest3 := by
              rw [hc]
              conv_lhs => rw [hx1, hx2, hx3]
              have e : sp1 ++ (m ++ 32 :: (sp2 ++ (u ++ 32 :: (sp3 ++ (v ++ rest3))))) =
                  (sp1 ++ (m ++ 32 :: (sp2 ++ (u ++ 32 :: (sp3 ++ v))))) ++ rest3 := by simp
              rw [e, List.drop_left]
            unfold http_parse_request_line
            simp only [hs1, hs2, hs3]
            rw [hf, hd]
            simp
        · intro hlt
          rw [hT1, hT2, hT3] at hlt
          simp only [List.length_cons, List.length_nil] at hlt
          omega
      · -- three tokens and more text
        refine ⟨?_, ?_⟩
        · intro m' u' v' ts h
          rw [hT1, hT2, hT3] at h
          injection h with e1 h; injection h with e2 h; injection h with e3 h
          subst e1; subst e2; subst e3
          obtain ⟨u', hu', hf⟩ := fields_spec_at
            (((sp1 ++ (m ++ [0])) ++ (sp2 ++ (u ++ [0]))) ++ (sp3 ++ (v ++ 0 :: r3)))
            sp1 m sp2 u sp3 v (0 :: r3) req
            (0 + sp1.length) (0 + sp1.length + m.length + 1 + sp2.length)
            (0 + sp1.length + m.length + 1 + sp2.length + u.length + 1 + sp3.length)
            (by simp) (by simp) (by simp) (by simp) hm hu hv rfl h1 h2 h3
          have hc : cstr line =
              sp1 ++ (m ++ 32 :: (sp2 ++ (u ++ 32 :: (sp3 ++ (v ++ 32 :: cstr r3))))) := by
            rw [hx1, hx2, hx3]
            have e : sp1 ++ (m ++ 32 :: (sp2 ++ (u ++ 32 :: (sp3 ++ (v ++ 32 :: r3))))) =
                (sp1 ++ (m ++ 32 :: (sp2 ++ (u ++ 32 :: (sp3 ++ (v ++ [32])))))) ++ r3 := by simp
            rw [e, cstr_append]
            · simp
            · intro c hc
              simp only [List.mem_append, List.mem_cons, List.mem_singleton] at hc
              rcases hc with h | h | h | h | h | h | h | h | h
              · exact nul_free_spaces sp1 hsp1 c h
              · exact nul_free_tok m hm c h
              · rw [h]; decide
              · exact nul_free_spaces sp2 hsp2 c h
              · exact nul_free_tok u hu c h
              · rw [h]; decide
              · exact nul_free_spaces sp3 hsp3 c h
              · exact nul_free_tok v hv c h
              · rcases h with h | h
                · rw [h]; decide
                · cases h
          have hd : line.drop (cstr line).length = r3.drop (cstr r3).length := by
            rw [hc]
            conv_lhs => rw [hx1, hx2, hx3]
            have e : sp1 ++ (m ++ 32 :: (sp2 ++ (u ++ 32 :: (sp3 ++ (v ++ 32 :: r3))))) =
                (sp1 ++ (m ++ 32 :: (sp2 ++ (u ++ 32 :: (sp3 ++ (v ++ [32])))))) ++ r3 := by simp
            have e2 : (sp1 ++ (m ++ 32 :: (sp2 ++ (u ++ 32 :: (sp3 ++ (v ++ 32 :: cstr r3)))))).length
                = (sp1 ++ (m ++ 32 :: (sp2 ++ (u ++ 32 :: (sp3 ++ (v ++ [32])))))).length
                  + (cstr r3).length := by simp; omega
            rw [e, e2, List.drop_append]
          refine ⟨sp1 ++ (m ++ 0 :: (sp2 ++ (u' ++ 0 :: (sp3 ++ (v ++ 0 :: cstr r3))))), ?_,
            hm, hu, hv, ?_⟩
          · rw [hc]; simp [hu']
          · unfold http_parse_request_line
            simp only [hs1, hs2, hs3]
            rw [hf, hd]
            have := cstr_split r3
            simp only [List.append_assoc, List.cons_append]
            rw [← this]
        · intro hlt
          rw [hT1, hT2, hT3] at hlt
          simp only [List.length_cons, List.length_nil] at hlt
          omega

/-! ## Claims on the request line -/

theorem cstr_padTo (n : Nat) (s : List Nat) (hs : ∀ c ∈ s, c ≠ 0) : cstr (padTo n s) = s := by
  unfold padTo
  apply cstr_append_nul s _ hs
  cases n - s.length <;> rfl

theorem length_padTo (n : Nat) (s : List Nat) (h : s.length ≤ n) : (padTo n s).length = n := by
  unfold padTo
  simp only [List.length_append, List.length_replicate]
  omega

theorem mem_padTo_zero (n : Nat) (s : List Nat) (h : s.length < n) : 0 ∈ padTo n s := by
  unfold padTo
  have : n - s.length = (n - s.length - 1) + 1 := by omega
  rw [this, List.replicate_succ]
  simp

theorem parsed_line_status (req : http_srv_request_t) (m u v : List Nat) :
    (parsed_line req m u v).1 = HttpStatus.HTTP_OK ↔ (sscanf_version v).isSome = true := by
  unfold parsed_line
  cases sscanf_version v with
  | none => simp
  | some mm => simp

theorem parsed_line_fields (req : http_srv_request_t) (m u v : List Nat) :
    (parsed_line req m u v).2.method = padTo 8 (m.take 7) ∧
    (parsed_line req m u v).2.path = padTo 128 ((uriPath u).take 127) ∧
    (parsed_line req m u v).2.query =
      (if 63 ∈ u then padTo 128 ((uriQuery u).take 127) else req.query.set 0 0) := by
  unfold parsed_line
  cases sscanf_version v with
  | none => exact ⟨rfl, rfl, rfl⟩
  | some mm => exact ⟨rfl, rfl, rfl⟩

/-- C8 (as amended). `http_parse_request_line` returns `HTTP_ERR` for every line
with fewer than three space-separated tokens, and it accepts a line exactly when
the line has at least three tokens and the third one scans as
`HTTP/<major>.<minor>`; tokens after the third are ignored. -/
theorem http_parse_request_line_accepts (line : List Nat) (req : http_srv_request_t)
    (h1 : req.method.length = 8) (h2 : req.path.length = 128) (h3 : req.query.length = 128) :
    ((tokens (cstr line)).length < 3 →
      (http_parse_request_line line req).map (fun r => r.1) = some HttpStatus.HTTP_ERR) ∧
    ((http_parse_request_line line req).map (fun r => r.1) = some HttpStatus.HTTP_OK ↔
      ∃ m u v ts, tokens (cstr line) = m :: u :: v :: ts ∧ (sscanf_version v).isSome = true) := by
  obtain ⟨s3, s2⟩ := http_parse_request_line_spec line req h1 h2 h3
  have hlt : (tokens (cstr line)).length < 3 →
      (http_parse_request_line line req).map (fun r => r.1) = some HttpStatus.HTTP_ERR := by
    intro h
    have := s2 h
    cases hp : http_parse_request_line line req with
    | none => rw [hp] at this; simp at this
    | some r =>
      rw [hp] at this
      simp only [Option.map_some', Option.some.injEq, Prod.mk.injEq] at this ⊢
      exact this.1
  refine ⟨hlt, ?_, ?_⟩
  · intro hok
    match hT : tokens (cstr line) with
    | [] => rw [hlt (by rw [hT]; decide)] at hok; cases hok
    | [_] => rw [hlt (by rw [hT]; simp)] at hok; cases hok
    | [_, _] => rw [hlt (by rw [hT]; simp)] at hok; cases hok
    | m :: u :: v :: ts =>
      obtain ⟨L', _, _, _, _, hp⟩ := s3 m u v ts hT
      rw [hp] at hok
      simp only [Option.map_some', Option.some.injEq] at hok
      exact ⟨m, u, v, ts, rfl, (parsed_line_status req m u v).mp hok⟩
  · rintro ⟨m, u, v, ts, hT, hv⟩
    obtain ⟨L', _, _, _, _, hp⟩ := s3 m u v ts hT
    rw [hp]
    simp only [Option.map_some', Option.some.injEq]
    exact (parsed_line_status req m u v).mpr hv

/-- Witness for C8 (as amended): the line `GET / HTTP/1.1 x` has four tokens and
is accepted. -/
theorem http_parse_request_line_accepts_witness :
    (http_parse_request_line (bytes "GET / HTTP/1.1 x") req_zero).map (fun r => r.1) =
        some HttpStatus.HTTP_OK ↔
      ∃ m u v ts, tokens (cstr (bytes "GET / HTTP/1.1 x")) = m :: u :: v :: ts ∧
        (sscanf_version v).isSome = true :=
  (http_parse_request_line_accepts (bytes "GET / HTTP/1.1 x") req_zero
    (by decide!) (by decide!) (by decide!)).2

/-- C8, counterexample: the line `GET / HTTP/1.1 x` splits on spaces into four
tokens, not three, and `http_parse_request_line` accepts it. -/
theorem http_parse_request_line_four_tokens :
    (tokens (bytes "GET / HTTP/1.1 x")).length = 4 ∧
    (http_parse_request_line (bytes "GET / HTTP/1.1 x") req_zero).map (fun r => r.1) =
      some HttpStatus.HTTP_OK := by
  decide!

/-- C9. For an accepted request line with URI `u` (its second token) whose parts
fit the fields, `path` is the part of `u` before its first `?` and `query` the
part after it, so that `path ++ "?" ++ query = u`; when `u` has no `?`, `path`
is `u` and `query` is empty. -/
theorem http_parse_request_line_path_query (line : List Nat) (req : http_srv_request_t)
    (h1 : req.method.length = 8) (h2 : req.path.length = 128) (h3 : req.query.length = 128)
    (m u v : List Nat) (ts : List (List Nat)) (hT : tokens (cstr line) = m :: u :: v :: ts)
    (hok : (http_parse_request_line line req).map (fun r => r.1) = some HttpStatus.HTTP_OK)
    (hp : (uriPath u).length ≤ 127) (hq : (uriQuery u).length ≤ 127) :
    ∃ mem' req', http_parse_request_line line req = some (HttpStatus.HTTP_OK, mem', req') ∧
      cstr req'.path = uriPath u ∧ cstr req'.query = uriQuery u ∧
      (63 ∈ u → cstr req'.path ++ 63 :: cstr req'.query = u) ∧
      (63 ∉ u → cstr req'.path = u ∧ cstr req'.query = []) := by
  obtain ⟨s3, -⟩ := http_parse_request_line_spec line req h1 h2 h3
  obtain ⟨L', _, _, hu, _, hpr⟩ := s3 m u v ts hT
  rw [hpr] at hok
  simp only [Option.map_some', Option.some.injEq] at hok
  rw [hok] at hpr
  obtain ⟨_, fp, fq⟩ := parsed_line_fields req m u v
  have hu0 : ∀ c ∈ u, c ≠ 0 := nul_free_tok u hu
  have hpath0 : ∀ c ∈ uriPath u, c ≠ 0 := by
    intro c hc
    exact hu0 c ((List.takeWhile_prefix _).subset hc)
  have hquery0 : ∀ c ∈ uriQuery u, c ≠ 0 := by
    intro c hc
    exact hu0 c ((List.dropWhile_suffix _).subset (List.mem_of_mem_drop hc))
  have cpath : cstr (parsed_line req m u v).2.path = uriPath u := by
    rw [fp, List.take_of_length_le hp, cstr_padTo _ _ hpath0]
  have cquery : cstr (parsed_line req m u v).2.query = uriQuery u := by
    rw [fq]
    by_cases h63 : 63 ∈ u
    · rw [if_pos h63, List.take_of_length_le hq, cstr_padTo _ _ hquery0]
    · rw [if_neg h63, (uri_nosplit u h63).2]
      apply cstr_head_nul
      match hqq : req.query, h3 with
      | q0 :: qs, _ => rfl
  refine ⟨_, _, hpr, cpath, cquery, ?_, ?_⟩
  · intro h63
    rw [cpath, cquery]
    exact (uri_split u h63).symm
  · intro h63
    rw [cpath, cquery]
    exact uri_nosplit u h63

/-- Witness for C9 on the line `GET /a?b=1 HTTP/1.1`. -/
theorem http_parse_request_line_path_query_witness :
    ∃ mem' req', http_parse_request_line (bytes "GET /a?b=1 HTTP/1.1") req_zero =
        some (HttpStatus.HTTP_OK, mem', req') ∧
      cstr req'.path = uriPath (bytes "/a?b=1") ∧ cstr req'.query = uriQuery (bytes "/a?b=1") ∧
      (63 ∈ bytes "/a?b=1" → cstr req'.path ++ 63 :: cstr req'.query = bytes "/a?b=1") ∧
      (63 ∉ bytes "/a?b=1" → cstr req'.path = bytes "/a?b=1" ∧ cstr req'.query = []) :=
  http_parse_request_line_path_query (bytes "GET /a?b=1 HTTP/1.1") req_zero
    (by decide!) (by decide!) (by decide!) (bytes "GET") (bytes "/a?b=1") (bytes "HTTP/1.1") []
    (by decide!) (by decide!) (by decide!) (by decide!)

theorem take_min_length (s : List Nat) (n : Nat) : s.take (min s.length n) = s.take n := by
  rcases Nat.le_total s.length n with h | h
  · rw [Nat.min_eq_left h, List.take_of_length_le (le_refl _), List.take_of_length_le h]
  · rw [Nat.min_eq_right h]

/-- C10. For an accepted request line with tokens `m` (method) and `u` (URI), the
call stores nothing outside the fields (it returns a value, and the fields keep
their sizes 8, 128 and 128), and `method`, `path` and `query` are NUL-terminated
strings equal to the first `min n 7`, `min n 127` and `min n 127` bytes of `m`,
of the part of `u` before its first `?` and of the part after it, whatever the
lengths `n` of these are. -/
theorem http_parse_request_line_truncates (line : List Nat) (req : http_srv_request_t)
    (h1 : req.method.length = 8) (h2 : req.path.length = 128) (h3 : req.query.length = 128)
    (m u v : List Nat) (ts : List (List Nat)) (hT : tokens (cstr line) = m :: u :: v :: ts)
    (hok : (http_parse_request_line line req).map (fun r => r.1) = some HttpStatus.HTTP_OK) :
    ∃ mem' req', http_parse_request_line line req = some (HttpStatus.HTTP_OK, mem', req') ∧
      req'.method.length = 8 ∧ req'.path.length = 128 ∧ req'.query.length = 128 ∧
      cstr req'.method = m.take (min m.length 7) ∧
      cstr req'.path = (uriPath u).take (min (uriPath u).length 127) ∧
      cstr req'.query = (uriQuery u).take (min (uriQuery u).length 127) ∧
      (cstr req'.method).length < 8 ∧ (cstr req'.path).length < 128 ∧
      (cstr req'.query).length < 128 := by
  obtain ⟨s3, -⟩ := http_parse_request_line_spec line req h1 h2 h3
  obtain ⟨L', _, hm, hu, _, hpr⟩ := s3 m u v ts hT
  rw [hpr] at hok
  simp only [Option.map_some', Option.some.injEq] at hok
  rw [hok] at hpr
  obtain ⟨fm, fp, fq⟩ := parsed_line_fields req m u v
  have hm0 : ∀ c ∈ m.take 7, c ≠ 0 := fun c hc => nul_free_tok m hm c (List.mem_of_mem_take hc)
  have hu0 : ∀ c ∈ u, c ≠ 0 := nul_free_tok u hu
  have hpath0 : ∀ c ∈ (uriPath u).take 127, c ≠ 0 := by
    intro c hc
    exact hu0 c ((List.takeWhile_prefix _).subset (List.mem_of_mem_take hc))
  have hquery0 : ∀ c ∈ (uriQuery u).take 127, c ≠ 0 := by
    intro c hc
    exact hu0 c ((List.dropWhile_suffix _).subset (List.mem_of_mem_drop (List.mem_of_mem_take hc)))
  have lm : (m.take 7).length ≤ 7 := by simp [List.length_take]
  have lp : ((uriPath u).take 127).length ≤ 127 := by simp [List.length_take]
  have lq : ((uriQuery u).take 127).length ≤ 127 := by simp [List.length_take]
  have cm : cstr (parsed_line req m u v).2.method = m.take 7 := by
    rw [fm, cstr_padTo _ _ hm0]
  have cp : cstr (parsed_line req m u v).2.path = (uriPath u).take 127 := by
    rw [fp, cstr_padTo _ _ hpath0]
  have cq : cstr (parsed_line req m u v).2.query = (uriQuery u).take 127 := by
    rw [fq]
    by_cases h63 : 63 ∈ u
    · rw [if_pos h63, cstr_padTo _ _ hquery0]
    · rw [if_neg h63, (uri_nosplit u h63).2]
      apply cstr_head_nul
      match hqq : req.query, h3 with
      | q0 :: qs, _ => rfl
  have lenq : (parsed_line req m u v).2.query.length = 128 := by
    rw [fq]
    by_cases h63 : 63 ∈ u
    · rw [if_pos h63, length_padTo _ _ (by omega)]
    · rw [if_neg h63, List.length_set, h3]
  refine ⟨_, _, hpr, ?_, ?_, lenq, ?_, ?_, ?_, ?_, ?_, ?_⟩
  · rw [fm, length_padTo _ _ (by omega)]
  · rw [fp, length_padTo _ _ (by omega)]
  · rw [cm, take_min_length]
  · rw [cp, take_min_length]
  · rw [cq, take_min_length]
  · rw [cm]; omega
  · rw [cp]; omega
  · rw [cq]; omega

/-- Witness for C10 on a line whose method token has twelve bytes. -/
theorem http_parse_request_line_truncates_witness :
    ∃ mem' req', http_parse_request_line (bytes "GETGETGETGET /a?b=1 HTTP/1.1") req_zero =
        some (HttpStatus.HTTP_OK, mem', req') ∧
      req'.method.length = 8 ∧ req'.path.length = 128 ∧ req'.query.length = 128 ∧
      cstr req'.method = (bytes "GETGETGETGET").take (min (bytes "GETGETGETGET").length 7) ∧
      cstr req'.path =
        (uriPath (bytes "/a?b=1")).take (min (uriPath (bytes "/a?b=1")).length 127) ∧
      cstr req'.query =
        (uriQuery (bytes "/a?b=1")).take (min (uriQuery (bytes "/a?b=1")).length 127) ∧
      (cstr req'.method).length < 8 ∧ (cstr req'.path).length < 128 ∧
      (cstr req'.query).length < 128 :=
  http_parse_request_line_truncates (bytes "GETGETGETGET /a?b=1 HTTP/1.1") req_zero
    (by decide!) (by decide!) (by decide!) (bytes "GETGETGETGET") (bytes "/a?b=1")
    (bytes "HTTP/1.1") [] (by decide!) (by decide!)

/-! ## `Content-Length` lookup -/

theorem strstr_crlf_cons (c : Nat) (rest : List Nat) :
    strstr (c :: rest) [13, 10] =
      if c = 13 ∧ rest.head? = some 10 then some 0
      else if c = 0 then none
      else (strstr rest [13, 10]).map (fun k => k + 1) := by
  have hn : cstr [13, 10] = [13, 10] := by decide
  rw [strstr, hn]
  by_cases hc0 : c = 0
  · subst hc0
    simp [cstr]
  · have hc : cstr (c :: rest) = c :: cstr rest := by simp [cstr, hc0]
    rw [hc]
    cases rest with
    | nil => simp [cstr, hc0]
    | cons d rest =>
      by_cases hd0 : d = 0
      · subst hd0
        simp [cstr, hc0]
      · have hd : cstr (d :: rest) = d :: cstr rest := by simp [cstr, hd0]
        rw [hd]
        have e13 : (13 == c) = decide (c = 13) := by
          by_cases h : c = 13
          · subst h; rfl
          · simp [h, Ne.symm h]
        have e10 : (10 == d) = decide (d = 10) := by
          by_cases h : d = 10
          · subst h; rfl
          · simp [h, Ne.symm h]
        simp only [List.isPrefixOf_cons₂, List.isPrefixOf_nil_left, e13, e10, List.head?_cons]
        by_cases h13 : c = 13 <;> by_cases h10 : d = 10 <;> simp [h13, h10, hc0]

theorem strstr_crlf_nil : strstr [] [13, 10] = none := by
  decide

theorem strncasecmp_eq_zero (nd : List Nat) (hnd : ∀ c ∈ nd, tolower c ≠ 0) :
    ∀ s : List Nat, strncasecmp s nd nd.length = 0 ↔
      (s.take nd.length).map tolower = nd.map tolower := by
  induction nd with
  | nil => intro s; simp [strncasecmp]
  | cons d nd ih =>
    intro s
    have hd : tolower d ≠ 0 := hnd d (by simp)
    have ih' := ih (fun c hc => hnd c (by simp [hc]))
    cases s with
    | nil =>
      have h0 : tolower 0 = 0 := by decide
      have hne : (0 : Int) - (tolower d : Int) ≠ 0 := by omega
      simp [strncasecmp, h0, Ne.symm hd, hne, hd]
    | cons a s =>
      simp only [List.length_cons, strncasecmp, List.headD_cons, List.tail_cons,
        List.take_succ_cons, List.map_cons, List.cons.injEq]
      by_cases hEq : tolower a = tolower d
      · have ha : tolower a ≠ 0 := by rw [hEq]; exact hd
        simp only [hEq, ne_eq, not_true_eq_false, if_false, hd, true_and]
        exact ih' s
      · have hne : (tolower a : Int) - (tolower d : Int) ≠ 0 := by omega
        simp [hEq, hne]

theorem needle_tolower : ∀ c ∈ needle, tolower c ≠ 0 := by decide

theorem beginsWithCI_iff (l : List Nat) :
    beginsWithCI l needle = true ↔
      15 ≤ l.length ∧ (l.take 15).map tolower = needle.map tolower := by
  unfold beginsWithCI
  have : needle.length = 15 := rfl
  simp [this]

theorem strncasecmp_needle (s : List Nat) :
    strncasecmp s needle needle.length = 0 ↔ (s.take 15).map tolower = needle.map tolower :=
  strncasecmp_eq_zero needle needle_tolower s

theorem splitCRLF_ne_nil : ∀ s : List Nat, splitCRLF s ≠ []
  | [] => by simp [splitCRLF]
  | [c] => by
    by_cases h : c = 13 <;> simp [splitCRLF]
  | c :: d :: rest => by
    by_cases h : c = 13 ∧ d = 10
    · obtain ⟨rfl, rfl⟩ := h
      simp [splitCRLF]
    · rw [splitCRLF.eq_3 c (d :: rest) (by
        intro r hc hr
        cases hr
        exact h ⟨hc, rfl⟩)]
      cases splitCRLF (d :: rest) <;> simp

theorem splitCRLF_cons_other (c : Nat) (rest : List Nat)
    (h : ¬ (c = 13 ∧ rest.head? = some 10)) :
    ∃ l ls, splitCRLF rest = l :: ls ∧ splitCRLF (c :: rest) = (c :: l) :: ls := by
  have hne := splitCRLF_ne_nil rest
  obtain ⟨l, ls, hl⟩ := List.exists_cons_of_ne_nil hne
  refine ⟨l, ls, hl, ?_⟩
  rw [splitCRLF.eq_3 c rest (by
    intro r hc hr
    subst hr
    exact h ⟨hc, rfl⟩), hl]

/-- A prefix without CR stays inside the first line. -/
theorem splitCRLF_prefix (X Y : List Nat) (hX : 13 ∉ X) :
    ∃ l ls, splitCRLF (X ++ Y) = (X ++ l) :: ls := by
  induction X with
  | nil =>
    obtain ⟨l, ls, hl⟩ := List.exists_cons_of_ne_nil (splitCRLF_ne_nil Y)
    exact ⟨l, ls, by simpa using hl⟩
  | cons a X ih =>
    have ha : a ≠ 13 := fun e => hX (by simp [e])
    obtain ⟨l, ls, hl⟩ := ih (fun e => hX (by simp [e]))
    obtain ⟨l', ls', h1, h2⟩ := splitCRLF_cons_other a (X ++ Y) (fun h => ha h.1)
    rw [hl] at h1
    injection h1 with e1 e2
    subst e1; subst e2
    exact ⟨l, ls, by simpa using h2⟩

/-- When `strstr` finds the first CR LF of the memory at `k`, inside the first
`n` bytes, the first line of these `n` bytes is the `k` bytes before it and the
other lines are those of the bytes behind it. -/
theorem splitCRLF_of_strstr : ∀ (mem : List Nat) (k n : Nat),
    strstr mem [13, 10] = some k → k + 2 ≤ n →
    splitCRLF (mem.take n) = mem.take k :: splitCRLF ((mem.drop (k + 2)).take (n - (k + 2)))
  | [], k, n, h, _ => by rw [strstr_crlf_nil] at h; cases h
  | c :: rest, k, n, h, hn => by
    rw [strstr_crlf_cons] at h
    by_cases hc : c = 13 ∧ rest.head? = some 10
    · rw [if_pos hc] at h
      injection h with hk
      subst hk
      obtain ⟨rfl, h10⟩ := hc
      match rest, h10 with
      | d :: rest', h10 =>
        simp only [List.head?_cons, Option.some.injEq] at h10
        subst h10
        obtain ⟨n', rfl⟩ : ∃ n', n = n' + 2 := ⟨n - 2, by omega⟩
        simp [splitCRLF]
    · rw [if_neg hc] at h
      by_cases hc0 : c = 0
      · rw [if_pos hc0] at h; cases h
      · rw [if_neg hc0] at h
        cases hs : strstr rest [13, 10] with
        | none => rw [hs] at h; cases h
        | some k' =>
          rw [hs] at h
          simp only [Option.map_some', Option.some.injEq] at h
          subst h
          obtain ⟨n', rfl⟩ : ∃ n', n = n' + 1 := ⟨n - 1, by omega⟩
          have ih := splitCRLF_of_strstr rest k' n' hs (by omega)
          have hc' : ¬ (c = 13 ∧ (rest.take n').head? = some 10) := by
            rintro ⟨h13, h10⟩
            apply hc
            refine ⟨h13, ?_⟩
            cases rest with
            | nil => simp at h10
            | cons d rest' =>
              cases n' with
              | zero => simp at h10
              | succ n'' => simpa using h10
          obtain ⟨l, ls, h1, h2⟩ := splitCRLF_cons_other c (rest.take n') hc'
          rw [ih] at h1
          injection h1 with e1 e2
          subst e1; subst e2
          simp only [List.take_succ_cons, h2, List.drop_succ_cons]
          have : n' + 1 - (k' + 1 + 2) = n' - (k' + 2) := by omega
          rw [this]

/-- A line that is followed by another one ends at a CR LF, and that is where
`strstr` finds the first CR LF when the line has no NUL. -/
theorem splitCRLF_inv : ∀ (block l : List Nat) (ls : List (List Nat)),
    splitCRLF block = l :: ls → ls ≠ [] →
    ∃ B', block = l ++ 13 :: 10 :: B' ∧ ls = splitCRLF B' ∧
      ((∀ c ∈ l, c ≠ 0) → ∀ post, strstr (block ++ post) [13, 10] = some l.length)
  | [], l, ls, h, hne => by
    simp [splitCRLF] at h
    exact absurd h.2 hne
  | c :: rest, l, ls, h, hne => by
    by_cases hc : c = 13 ∧ rest.head? = some 10
    · obtain ⟨rfl, h10⟩ := hc
      match rest, h10 with
      | d :: rest', h10 =>
        simp only [List.head?_cons, Option.some.injEq] at h10
        subst h10
        rw [splitCRLF.eq_2] at h
        injection h with e1 e2
        subst e1; subst e2
        refine ⟨rest', rfl, rfl, ?_⟩
        intro _ post
        rw [List.cons_append, strstr_crlf_cons]
        simp
    · obtain ⟨l0, ls0, h1, h2⟩ := splitCRLF_cons_other c rest hc
      rw [h2] at h
      injection h with e1 e2
      subst e1; subst e2
      obtain ⟨B', hB, hls, hstr⟩ := splitCRLF_inv rest l0 ls0 h1 hne
      refine ⟨B', by rw [hB]; rfl, hls, ?_⟩
      intro hl post
      have hc0 : c ≠ 0 := hl c (by simp)
      have hl0 : ∀ x ∈ l0, x ≠ 0 := fun x hx => hl x (by simp [hx])
      have hc' : ¬ (c = 13 ∧ (rest ++ post).head? = some 10) := by
        rintro ⟨h13, h10⟩
        apply hc
        refine ⟨h13, ?_⟩
        rw [hB] at h10 ⊢
        cases l0 with
        | nil => simp at h10
        | cons x xs => simpa using h10
      rw [List.cons_append, strstr_crlf_cons, if_neg hc', if_neg hc0, hstr hl0 post]
      rfl

theorem needle_no_cr (X : List Nat) (h : X.map tolower = needle.map tolower) :
    13 ∉ X ∧ X.length = 15 := by
  have hlen : X.length = 15 := by
    have := congrArg List.length h
    simpa using this
  refine ⟨?_, hlen⟩
  intro h13
  have : tolower 13 ∈ X.map tolower := List.mem_map_of_mem tolower h13
  rw [h] at this
  revert this
  decide

/-- When the comparison with the name succeeds on the first 15 of `n >= 15`
bytes, the first line of these `n` bytes begins with the name. -/
theorem head_begins (mem : List Nat) (n : Nat) (hn : 15 ≤ n)
    (hcmp : (mem.take 15).map tolower = needle.map tolower) :
    ∃ l ls, splitCRLF (mem.take n) = l :: ls ∧ beginsWithCI l needle = true := by
  obtain ⟨h13, hlen⟩ := needle_no_cr _ hcmp
  have hsplit : mem.take n = mem.take 15 ++ (mem.drop 15).take (n - 15) := by
    have : n = 15 + (n - 15) := by omega
    conv_lhs => rw [this]
    rw [List.take_add]
  obtain ⟨l, ls, hl⟩ := splitCRLF_prefix (mem.take 15) ((mem.drop 15).take (n - 15)) h13
  refine ⟨_, ls, by rw [hsplit]; exact hl, ?_⟩
  rw [beginsWithCI_iff]
  refine ⟨by simp only [List.length_append, hlen]; omega, ?_⟩
  rw [List.take_append_of_le_length (by omega), List.take_of_length_le (by omega)]
  exact hcmp

theorem line_len_le (o : Option Nat) (n : Nat) :
    (match o with
      | none => n
      | some k => if k > n then n else k) ≤ n := by
  cases o with
  | none => exact le_refl n
  | some k =>
    simp only
    split <;> omega

/-- The lookup returns 0 when no line of the block begins with the name. -/
theorem content_length_scan_zero : ∀ (fuel : Nat) (mem : List Nat) (n : Nat),
    (∀ l ∈ splitCRLF (mem.take n), beginsWithCI l needle = false) →
    content_length_scan fuel mem n = 0
  | 0, _, _, _ => rfl
  | fuel + 1, mem, n, h => by
    unfold content_length_scan
    by_cases hn : 0 < n
    · rw [if_pos hn]
      have hle0 := line_len_le (strstr mem [13, 10]) n
      generalize hlen : (match strstr mem [13, 10] with
          | none => n
          | some k => if k > n then n else k) = len at hle0
      have hle : len ≤ n := hle0
      simp only []
      by_cases htest : len ≥ needle.length ∧ strncasecmp mem needle needle.length = 0
      · exfalso
        have h15 : needle.length = 15 := rfl
        rw [h15] at htest
        obtain ⟨l, ls, hl, hb⟩ := head_begins mem n (by omega) ((strncasecmp_needle mem).mp htest.2)
        have := h l (by rw [hl]; simp)
        rw [hb] at this
        cases this
      · rw [if_neg htest]
        by_cases hge : len ≥ n
        · rw [if_pos hge]
        · rw [if_neg hge]
          cases hs : strstr mem [13, 10] with
          | none => rw [hs] at hlen; simp only at hlen; omega
          | some k =>
            rw [hs] at hlen
            simp only at hlen
            have hk : k = len := by
              split at hlen
              · omega
              · exact hlen
            subst hk
            by_cases h2 : k + 2 ≤ n
            · apply content_length_scan_zero fuel
              intro l hl
              apply h
              rw [splitCRLF_of_strstr mem k n hs h2]
              simp [hl]
            · have : n - (k + 2) = 0 := by omega
              rw [this]
              cases fuel <;> simp [content_length_scan]
    · rw [if_neg hn]

theorem digitsVal_append (r Y : List Nat) (c : Nat) (hc : isdigit c = false) :
    ∀ acc, digitsVal (r ++ c :: Y) acc = digitsVal r acc := by
  induction r with
  | nil => intro acc; simp [digitsVal, hc]
  | cons a r ih =>
    intro acc
    simp only [List.cons_append, digitsVal]
    split
    · exact ih _
    · rfl

theorem signedVal_append (X Y : List Nat) (c : Nat) (hc : isdigit c = false) (hX : X ≠ []) :
    signedVal (X ++ c :: Y) = signedVal X := by
  obtain ⟨a, r, rfl⟩ := List.exists_cons_of_ne_nil hX
  by_cases h45 : a = 45
  · subst h45
    simp only [List.cons_append, signedVal, digitsVal_append r Y c hc]
  · by_cases h43 : a = 43
    · subst h43
      simp only [List.cons_append, signedVal, digitsVal_append r Y c hc]
    · have e1 : signedVal (a :: r ++ c :: Y) =
          clampInt ((digitsVal (a :: r ++ c :: Y) 0 : Nat) : Int) := by
        simp only [List.cons_append]
        unfold signedVal
        split
        · next h => injection h with h; exact absurd h h45
        · next h => injection h with h; exact absurd h h43
        · rfl
      have e2 : signedVal (a :: r) = clampInt ((digitsVal (a :: r) 0 : Nat) : Int) := by
        unfold signedVal
        split
        · next h => injection h with h; exact absurd h h45
        · next h => injection h with h; exact absurd h h43
        · rfl
      rw [e1, e2, digitsVal_append (a :: r) Y c hc]

theorem dropWhile_append_of_exists (p : Nat → Bool) (X Z : List Nat)
    (h : ∃ c ∈ X, p c = false) :
    (X ++ Z).dropWhile p = X.dropWhile p ++ Z ∧ X.dropWhile p ≠ [] := by
  induction X with
  | nil => obtain ⟨c, hc, _⟩ := h; cases hc
  | cons a X ih =>
    by_cases ha : p a = true
    · obtain ⟨c, hc, hpc⟩ := h
      have hcX : c ∈ X := by
        rcases List.mem_cons.mp hc with e | e
        · subst e; rw [ha] at hpc; cases hpc
        · exact e
      have := ih ⟨c, hcX, hpc⟩
      simp only [List.cons_append, List.dropWhile_cons, ha, if_true]
      exact this
    · simp [List.dropWhile_cons, ha]

theorem atoi_append (X Y : List Nat) (c : Nat) (hc : isdigit c = false)
    (h : ∃ x ∈ X, isspace x = false) : atoi (X ++ c :: Y) = atoi X := by
  unfold atoi
  obtain ⟨e, hne⟩ := dropWhile_append_of_exists isspace X (c :: Y) h
  rw [e, signedVal_append _ Y c hc hne]

theorem atoi_skip (Z : List Nat) :
    atoi (Z.dropWhile (fun c => decide (c = 32 ∨ c = 9))) = atoi Z := by
  unfold atoi
  congr 1
  induction Z with
  | nil => rfl
  | cons a Z ih =>
    by_cases ha : a = 32 ∨ a = 9
    · have hsp : isspace a = true := by
        rcases ha with rfl | rfl <;> decide
      simp only [List.dropWhile_cons, ha, decide_True, if_true, hsp]
      exact ih
    · have e : (a :: Z).dropWhile (fun c => decide (c = 32 ∨ c = 9)) = a :: Z := by
        simp [List.dropWhile_cons, ha]
      rw [e]

theorem lineValue_eq (l : List Nat) (k : Nat) : lineValue l k = toUInt32 (atoi (l.drop k)) := by
  unfold lineValue
  rw [atoi_skip]

theorem lineValue_append (l Y : List Nat) (hl : 15 ≤ l.length)
    (h : ∃ x ∈ l.drop 15, isspace x = false) :
    lineValue (l ++ 13 :: Y) 15 = lineValue l 15 := by
  rw [lineValue_eq, lineValue_eq, List.drop_append_of_le_length hl,
    atoi_append _ Y 13 (by decide) h]

/-- The lookup returns the value of the first line that begins with the name,
when that line and the lines before it have no NUL, another line follows it and
its value is not blank. -/
theorem content_length_scan_value : ∀ (pre : List (List Nat)) (fuel : Nat)
    (block post l : List Nat) (ls : List (List Nat)),
    splitCRLF block = pre ++ l :: ls → ls ≠ [] →
    (∀ l' ∈ pre, beginsWithCI l' needle = false ∧ ∀ c ∈ l', c ≠ 0) →
    (∀ c ∈ l, c ≠ 0) → beginsWithCI l needle = true →
    (∃ x ∈ l.drop 15, isspace x = false) → block.length ≤ fuel →
    content_length_scan fuel (block ++ post) block.length = lineValue l 15
  | [], fuel, block, post, l, ls, hsplit, hls, _, hl0, hb, hval, hfuel => by
    obtain ⟨B', hB, _, hstr⟩ := splitCRLF_inv block l ls (by simpa using hsplit) hls
    have hs := hstr hl0 post
    have hn : block.length = l.length + 2 + B'.length := by rw [hB]; simp; omega
    obtain ⟨f, rfl⟩ : ∃ f, fuel = f + 1 := ⟨fuel - 1, by omega⟩
    obtain ⟨h15, hcmp⟩ := (beginsWithCI_iff l).mp hb
    have htake : (block ++ post).take 15 = l.take 15 := by
      rw [hB, List.append_assoc, List.take_append_of_le_length h15]
    have hinner : (if l.length > block.length then block.length else l.length) = l.length :=
      if_neg (by omega)
    unfold content_length_scan
    rw [if_pos (by omega), hs]
    simp only [hinner]
    have h15' : needle.length = 15 := rfl
    rw [if_pos ⟨by rw [h15']; exact h15, (strncasecmp_needle _).mpr (by rw [htake]; exact hcmp)⟩,
      h15', hB, List.append_assoc]
    exact lineValue_append l _ h15 hval
  | l0 :: pre, fuel, block, post, l, ls, hsplit, hls, hpre, hl0, hb, hval, hfuel => by
    obtain ⟨B', hB, hrest, hstr⟩ := splitCRLF_inv block l0 (pre ++ l :: ls)
      (by simpa using hsplit) (by simp)
    obtain ⟨hnb, hnul⟩ := hpre l0 (by simp)
    have hs := hstr hnul post
    have hn : block.length = l0.length + 2 + B'.length := by rw [hB]; simp; omega
    obtain ⟨f, rfl⟩ : ∃ f, fuel = f + 1 := ⟨fuel - 1, by omega⟩
    have htest : ¬ (l0.length ≥ needle.length ∧
        strncasecmp (block ++ post) needle needle.length = 0) := by
      rintro ⟨hlen, hcmp⟩
      have h15' : needle.length = 15 := rfl
      rw [h15'] at hlen
      have htake : (block ++ post).take 15 = l0.take 15 := by
        rw [hB, List.append_assoc, List.take_append_of_le_length hlen]
      have := (beginsWithCI_iff l0).mpr ⟨hlen, by
        rw [← htake]; exact (strncasecmp_needle _).mp hcmp⟩
      rw [hnb] at this
      cases this
    have hdrop : (block ++ post).drop (l0.length + 2) = B' ++ post := by
      rw [hB]
      have : (l0 ++ 13 :: 10 :: B') ++ post = (l0 ++ [13, 10]) ++ (B' ++ post) := by simp
      rw [this]
      exact List.drop_left' (by simp)
    have hinner : (if l0.length > block.length then block.length else l0.length) = l0.length :=
      if_neg (by omega)
    unfold content_length_scan
    rw [if_pos (by omega), hs]
    simp only [hinner]
    rw [if_neg htest, if_neg (by omega), hdrop]
    have hn' : block.length - (l0.length + 2) = B'.length := by omega
    rw [hn']
    exact content_length_scan_value pre f B' post l ls hrest.symm hls
      (fun l' hl' => hpre l' (by simp [hl'])) hl0 hb hval (by omega)

theorem http_parse_content_length_loop_eq (headers : List Nat) (end_ : Nat) :
    ∀ (fuel p : Nat), http_parse_content_length_loop headers end_ fuel p =
      content_length_scan fuel (headers.drop p) (end_ - p)
  | 0, _ => rfl
  | fuel + 1, p => by
    unfold http_parse_content_length_loop content_length_scan
    by_cases hp : p < end_
    · have h0 : 0 < end_ - p := by omega
      have hle := line_len_le (strstr (headers.drop p) [13, 10]) (end_ - p)
      have hline : (match strstr (headers.drop p) [13, 10] with
          | none => end_
          | some k => if p + k > end_ then end_ else p + k) =
          p + (match strstr (headers.drop p) [13, 10] with
          | none => end_ - p
          | some k => if k > end_ - p then end_ - p else k) := by
        cases strstr (headers.drop p) [13, 10] with
        | none => simp only; omega
        | some k =>
          simp only
          by_cases hk : k > end_ - p
          · rw [if_pos hk, if_pos (by omega)]; omega
          · rw [if_neg hk, if_neg (by omega)]
      simp only [hp, h0, if_true, hline]
      generalize (match strstr (headers.drop p) [13, 10] with
          | none => end_ - p
          | some k => if k > end_ - p then end_ - p else k) = len at hle
      have e1 : p + len - p = len := by omega
      have e2 : (p + len ≥ end_) = (len ≥ end_ - p) := by
        apply propext; constructor <;> intro h <;> omega
      have e3 : end_ - (p + len + 2) = end_ - p - (len + 2) := by omega
      have e4 : headers.drop (p + len + 2) = (headers.drop p).drop (len + 2) := by
        rw [List.drop_drop]; congr 1
      have e5 : headers.drop (p + needle.length) = (headers.drop p).drop needle.length := by
        rw [List.drop_drop]
      rw [e1, http_parse_content_length_loop_eq headers end_ fuel (p + len + 2), e3, e4, e5]
      unfold lineValue
      simp only [e2]
    · have h0 : ¬ 0 < end_ - p := by omega
      simp only [hp, h0, if_false]

theorem http_parse_content_length_eq (headers : List Nat) (headers_len : Nat) :
    http_parse_content_length headers headers_len =
      content_length_scan headers_len headers headers_len := by
  unfold http_parse_content_length
  rw [http_parse_content_length_loop_eq]
  simp

/-- C5 (as amended). For every header block `block` (followed in memory by any
bytes `post`): `http_parse_content_length` returns 0 when no CRLF-delimited line
of the block begins with `Content-Length:` compared case-insensitively; and when
the first line `l` that does is followed by CR LF inside the block, `l` and the
lines before it hold no NUL byte and the value of `l` has a byte that is not
white space, it returns that value as `atoi` reads it after the leading spaces
and tabs, converted to `uint32_t`. -/
theorem http_parse_content_length_spec (block post : List Nat) :
    ((∀ l ∈ splitCRLF block, beginsWithCI l needle = false) →
      http_parse_content_length (block ++ post) block.length = 0) ∧
    (∀ (pre : List (List Nat)) (l : List Nat) (ls : List (List Nat)),
      splitCRLF block = pre ++ l :: ls → ls ≠ [] →
      (∀ l' ∈ pre, beginsWithCI l' needle = false) → beginsWithCI l needle = true →
      (∀ l' ∈ pre, ∀ c ∈ l', c ≠ 0) → (∀ c ∈ l, c ≠ 0) →
      (∃ x ∈ l.drop 15, isspace x = false) →
      http_parse_content_length (block ++ post) block.length = lineValue l 15) := by
  constructor
  · intro h
    rw [http_parse_content_length_eq]
    apply content_length_scan_zero
    rw [List.take_left]
    exact h
  · intro pre l ls hsplit hls hpre hb hpre0 hl0 hval
    rw [http_parse_content_length_eq]
    exact content_length_scan_value pre block.length block post l ls hsplit hls
      (fun l' hl' => ⟨hpre l' hl', hpre0 l' hl'⟩) hl0 hb hval (le_refl _)

/-- Witness for C5 (as amended): the block
`Host: x\r\ncontent-LENGTH: \t 42\r\n\r\n`, followed by the body `7`. -/
theorem http_parse_content_length_spec_witness :
    http_parse_content_length (bytes "Host: x\r\ncontent-LENGTH: \t 42\r\n\r\n" ++ bytes "7")
      (bytes "Host: x\r\ncontent-LENGTH: \t 42\r\n\r\n").length =
    lineValue (bytes "content-LENGTH: \t 42") 15 :=
  (http_parse_content_length_spec (bytes "Host: x\r\ncontent-LENGTH: \t 42\r\n\r\n")
    (bytes "7")).2 [bytes "Host: x"] (bytes "content-LENGTH: \t 42") [[], []]
    (by decide!) (by decide!) (by decide!) (by decide!) (by decide!) (by decide!) (by decide!)

/-- C5, counterexample. In the block `A\0\r\nContent-Length: 5\r\n\r\n` the
second line begins with the name and has the value 5, but the function returns
0: the NUL ends the search for the end of the first line. For the block
`Content-Length:\r\n\r\n` followed by the body byte `7` the function returns
7, which is not in the line that begins with the name (its value is blank). -/
theorem http_parse_content_length_nul_blank :
    (splitCRLF (bytes "A\x00\r\nContent-Length: 5\r\n\r\n") =
        [[65, 0], bytes "Content-Length: 5", [], []] ∧
      beginsWithCI [65, 0] needle = false ∧
      beginsWithCI (bytes "Content-Length: 5") needle = true ∧
      lineValue (bytes "Content-Length: 5") 15 = 5 ∧
      http_parse_content_length (bytes "A\x00\r\nContent-Length: 5\r\n\r\n") 26 = 0) ∧
    (splitCRLF (bytes "Content-Length:\r\n\r\n") = [bytes "Content-Length:", [], []] ∧
      lineValue (bytes "Content-Length:") 15 = 0 ∧
      http_parse_content_length (bytes "Content-Length:\r\n\r\n" ++ bytes "7") 19 = 7) := by
  decide!

/-! ## The first loop of `http_srv_recv_request` -/

theorem writeAt_acc (acc chunk : List Nat) (h : acc.length + chunk.length ≤ 1400) :
    writeAt (acc ++ List.replicate (1400 - acc.length) 0) acc.length chunk =
      some ((acc ++ chunk) ++ List.replicate (1400 - (acc ++ chunk).length) 0) := by
  unfold writeAt
  rw [if_pos (by simp only [List.length_append, List.length_replicate]; omega)]
  rw [List.take_left, List.drop_append, List.drop_replicate]
  simp only [List.length_append, List.append_assoc]
  have : 1400 - acc.length - chunk.length = 1400 - (acc.length + chunk.length) := by omega
  rw [this]

theorem storeAt_acc (acc : List Nat) (h : acc.length ≤ 1399) :
    storeAt (acc ++ List.replicate (1400 - acc.length) 0) acc.length 0 =
      some (acc ++ List.replicate (1400 - acc.length) 0) := by
  unfold storeAt
  rw [if_pos (by simp only [List.length_append, List.length_replicate]; omega)]
  have : 1400 - acc.length = (1400 - acc.length - 1) + 1 := by omega
  rw [this, List.replicate_succ, set_append_length]

theorem TermAt_append {acc : List Nat} {i : Nat} (Z : List Nat) (h : TermAt acc i) :
    TermAt (acc ++ Z) i := by
  have hlt := TermAt_lt h
  obtain ⟨h0, h1, h2, h3⟩ := h
  refine ⟨?_, ?_, ?_, ?_⟩
  · rw [List.getElem?_append_left (by omega)]; exact h0
  · rw [List.getElem?_append_left (by omega)]; exact h1
  · rw [List.getElem?_append_left (by omega)]; exact h2
  · rw [List.getElem?_append_left (by omega)]; exact h3

/-- One pass through the loop body when the transport hands over the bytes
`bs`. -/
theorem recv_headers_step_data (hs : http_srv_t) (acc bs : List Nat) (hinv : RxInv hs acc)
    (hlt : acc.length < 1399) :
    (bs.take (1399 - acc.length) = [] →
      ∃ st hs', recv_headers_step (RecvResult.data bs) hs = some (HdrStep.ret st hs') ∧
        (st = HttpStatus.HTTP_NO_REQUEST ∨ st = HttpStatus.HTTP_ERR)) ∧
    (bs.take (1399 - acc.length) ≠ [] →
      ∃ hs', RxInv hs' (acc ++ bs.take (1399 - acc.length)) ∧
        ((∀ i, ¬ TermAt (acc ++ bs.take (1399 - acc.length)) i) →
          recv_headers_step (RecvResult.data bs) hs = some (HdrStep.cont (-1) hs')) ∧
        (∀ i, TermAt (acc ++ bs.take (1399 - acc.length)) i →
          (∀ j, j < i → ¬ TermAt (acc ++ bs.take (1399 - acc.length)) j) →
          recv_headers_step (RecvResult.data bs) hs = some (HdrStep.brk ((i : Int) + 4) hs'))) := by
  obtain ⟨hbuf, hlen, hle⟩ := hinv
  have hmax : HTTP_SRV_RX_BUFFER_SIZE - 1 - hs.rxlen = 1399 - acc.length := by
    rw [hlen]; rfl
  generalize hchunk : bs.take (1399 - acc.length) = chunk
  have hcl : chunk.length ≤ 1399 - acc.length := by
    rw [← hchunk, List.length_take]; omega
  have hw := writeAt_acc acc chunk (by omega)
  have hrecv : net_sock_recv (RecvResult.data bs) hs.rxbuf hs.rxlen
      (HTTP_SRV_RX_BUFFER_SIZE - 1 - hs.rxlen) =
      some ((chunk.length : Int), (acc ++ chunk) ++ List.replicate (1400 - (acc ++ chunk).length) 0) := by
    have hmax' : HTTP_SRV_RX_BUFFER_SIZE - 1 - acc.length = 1399 - acc.length := rfl
    unfold net_sock_recv
    simp only [hbuf, hlen, hmax', hchunk, hw, Option.map_some']
  constructor
  · intro hnil
    subst hnil
    unfold recv_headers_step
    rw [hrecv]
    simp only [Option.some_bind, List.length_nil, Int.ofNat_zero, Nat.cast_zero, true_or, if_true]
    by_cases h0 : hs.rxlen = 0
    · rw [if_pos h0]; exact ⟨_, _, rfl, Or.inl rfl⟩
    · rw [if_neg h0]; exact ⟨_, _, rfl, Or.inr rfl⟩
  · intro hne
    have hpos : 0 < chunk.length := List.length_pos.mpr hne
    have hacc' : (acc ++ chunk).length ≤ 1399 := by
      simp only [List.length_append]; omega
    have hrx : (hs.rxlen + ((chunk.length : Int)).toNat) % 2 ^ 32 = (acc ++ chunk).length := by
      rw [hlen, Int.toNat_ofNat, List.length_append]
      apply Nat.mod_eq_of_lt
      omega
    have hst := storeAt_acc (acc ++ chunk) hacc'
    refine ⟨{ hs with rxbuf := (acc ++ chunk) ++ List.replicate (1400 - (acc ++ chunk).length) 0,
                       rxlen := (acc ++ chunk).length }, ⟨rfl, rfl, hacc'⟩, ?_, ?_⟩
    · intro hno
      have hfind := (http_find_headers_end_key (acc ++ chunk) (by omega)
        (List.replicate (1400 - (acc ++ chunk).length) 0)).2 hno
      unfold recv_headers_step
      rw [hrecv]
      have c1 : ¬ (((chunk.length : Int)) = 0 ∨ ((chunk.length : Int)) = NET_TIMEOUT) := by
        unfold NET_TIMEOUT; omega
      have c2 : ¬ ((chunk.length : Int)) < 0 := by omega
      simp only [Option.some_bind, c1, c2, if_false, hrx, hst, hfind]
      rfl
    · intro i hi hmin
      have hfind := (http_find_headers_end_key (acc ++ chunk) (by omega)
        (List.replicate (1400 - (acc ++ chunk).length) 0)).1 i hi hmin
      unfold recv_headers_step
      rw [hrecv]
      have c1 : ¬ (((chunk.length : Int)) = 0 ∨ ((chunk.length : Int)) = NET_TIMEOUT) := by
        unfold NET_TIMEOUT; omega
      have c2 : ¬ ((chunk.length : Int)) < 0 := by omega
      have c3 : ((i : Int) + 4) ≥ 0 := by omega
      simp only [Option.some_bind, c1, c2, if_false, hrx, hst, hfind, c3, if_true]

theorem recv_headers_step_fail (hs : http_srv_t) (n : Nat) :
    ∃ st hs', recv_headers_step (RecvResult.fail n) hs = some (HdrStep.ret st hs') ∧
      (st = HttpStatus.HTTP_NO_REQUEST ∨ st = HttpStatus.HTTP_ERR) := by
  unfold recv_headers_step net_sock_recv
  simp only [Option.some_bind]
  by_cases c1 : (-(n : Int) = 0 ∨ -(n : Int) = NET_TIMEOUT)
  · rw [if_pos c1]
    by_cases h0 : hs.rxlen = 0
    · rw [if_pos h0]; exact ⟨_, _, rfl, Or.inl rfl⟩
    · rw [if_neg h0]; exact ⟨_, _, rfl, Or.inr rfl⟩
  · rw [if_neg c1]
    have c2 : -(n : Int) < 0 := by omega
    rw [if_pos c2]
    exact ⟨_, _, rfl, Or.inr rfl⟩

theorem recv_headers_loop_exit (script : List RecvResult) (hs : http_srv_t) (he : Int)
    (h : ¬ hs.rxlen < 1399) :
    recv_headers_loop script hs he = some (HdrLoop.left he hs script) := by
  have h' : ¬ hs.rxlen < HTTP_SRV_RX_BUFFER_SIZE - 1 := h
  cases script with
  | nil => unfold recv_headers_loop; rw [if_neg h']
  | cons ev rest => unfold recv_headers_loop; rw [if_neg h']

theorem take_eq_self_of_length_lt (bs : List Nat) (m : Nat) (h : (bs.take m).length < m) :
    bs.take m = bs := by
  apply List.take_of_length_le
  rw [List.length_take] at h
  omega

/-- The three ways the first loop can end, started with the bytes `acc` in the
buffer and no terminator among them: a `return` with `HTTP_NO_REQUEST` or
`HTTP_ERR`; left with `hdr_end < 0`; or left with `hdr_end = i + 4` for the first
terminator index `i` of the bytes `acc'` then in the buffer, which are the bytes
offered up to there apart from the end `lost` of the last piece that did not fit. -/
theorem recv_headers_loop_spec : ∀ (script : List RecvResult) (hs : http_srv_t)
    (hdr_end : Int) (acc : List Nat),
    RxInv hs acc → (∀ i, ¬ TermAt acc i) → hdr_end < 0 →
    (∃ st hs', recv_headers_loop script hs hdr_end = some (HdrLoop.ret st hs') ∧
      (st = HttpStatus.HTTP_NO_REQUEST ∨ st = HttpStatus.HTTP_ERR)) ∨
    (∃ he hs' rest, recv_headers_loop script hs hdr_end = some (HdrLoop.left he hs' rest) ∧
      he < 0) ∨
    (∃ (i : Nat) (hs' : http_srv_t) (rest : List RecvResult) (acc' lost : List Nat),
      recv_headers_loop script hs hdr_end = some (HdrLoop.left ((i : Int) + 4) hs' rest) ∧
      RxInv hs' acc' ∧ TermAt acc' i ∧ (∀ j, j < i → ¬ TermAt acc' j) ∧
      acc ++ stream script = acc' ++ lost ++ stream rest)
  | [], hs, hdr_end, acc, hinv, _, hneg => by
    by_cases hg : hs.rxlen < 1399
    · left
      obtain ⟨st, hs', hstep, hst⟩ := recv_headers_step_fail hs 0
      refine ⟨st, hs', ?_, hst⟩
      have hg' : hs.rxlen < HTTP_SRV_RX_BUFFER_SIZE - 1 := hg
      unfold recv_headers_loop
      rw [if_pos hg']
      simp only [nextRecv, hstep, Option.some_bind]
    · right; left
      exact ⟨hdr_end, hs, [], recv_headers_loop_exit [] hs hdr_end hg, hneg⟩
  | ev :: rest, hs, hdr_end, acc, hinv, hno, hneg => by
    by_cases hg : hs.rxlen < 1399
    · have hg' : hs.rxlen < HTTP_SRV_RX_BUFFER_SIZE - 1 := hg
      have hlt : acc.length < 1399 := by rw [← hinv.2.1]; exact hg
      cases ev with
      | fail n =>
        left
        obtain ⟨st, hs', hstep, hst⟩ := recv_headers_step_fail hs n
        refine ⟨st, hs', ?_, hst⟩
        unfold recv_headers_loop
        rw [if_pos hg']
        simp only [hstep, Option.some_bind]
      | data bs =>
        obtain ⟨hnil, hcons⟩ := recv_headers_step_data hs acc bs hinv hlt
        by_cases hc : bs.take (1399 - acc.length) = []
        · left
          obtain ⟨st, hs', hstep, hst⟩ := hnil hc
          refine ⟨st, hs', ?_, hst⟩
          unfold recv_headers_loop
          rw [if_pos hg']
          simp only [hstep, Option.some_bind]
        · obtain ⟨hs', hinv', hcont, hbrk⟩ := hcons hc
          by_cases hex : ∃ i, TermAt (acc ++ bs.take (1399 - acc.length)) i
          · right; right
            have hstep := hbrk (Nat.find hex) (Nat.find_spec hex)
              (fun j hj => Nat.find_min hex hj)
            refine ⟨Nat.find hex, hs', rest, acc ++ bs.take (1399 - acc.length),
              bs.drop (1399 - acc.length), ?_, hinv', Nat.find_spec hex,
              fun j hj => Nat.find_min hex hj, ?_⟩
            · unfold recv_headers_loop
              rw [if_pos hg']
              simp only [hstep, Option.some_bind]
            · simp only [stream, List.append_assoc]
              rw [← List.append_assoc (bs.take _), List.take_append_drop]
          · have hno' : ∀ i, ¬ TermAt (acc ++ bs.take (1399 - acc.length)) i :=
              fun i hi => hex ⟨i, hi⟩
            have hstep := hcont hno'
            have hrec : recv_headers_loop (RecvResult.data bs :: rest) hs hdr_end =
                recv_headers_loop rest hs' (-1) := by
              conv_lhs => unfold recv_headers_loop
              rw [if_pos hg']
              simp only [hstep, Option.some_bind]
            rw [hrec]
            by_cases hg2 : hs'.rxlen < 1399
            · have hfull : bs.take (1399 - acc.length) = bs := by
                apply take_eq_self_of_length_lt
                have := hinv'.2.1
                rw [List.length_append] at this
                omega
              rw [hfull] at hinv' hno'
              rcases recv_headers_loop_spec rest hs' (-1) (acc ++ bs) hinv' hno' (by omega) with
                h1 | h2 | ⟨i, hs'', rest'', acc'', lost, hl, hi1, hi2, hi3, hi4⟩
              · left; exact h1
              · right; left; exact h2
              · right; right
                refine ⟨i, hs'', rest'', acc'', lost, hl, hi1, hi2, hi3, ?_⟩
                rw [← hi4]
                simp only [stream, List.append_assoc]
            · right; left
              exact ⟨-1, hs', rest, recv_headers_loop_exit rest hs' (-1) hg2, by omega⟩
    · right; left
      exact ⟨hdr_end, hs, ev :: rest, recv_headers_loop_exit _ hs hdr_end hg, hneg⟩

theorem RxInv_reset (hs : http_srv_t) :
    RxInv { hs with rxlen := 0, rxbuf := List.replicate HTTP_SRV_RX_BUFFER_SIZE 0 } [] :=
  ⟨rfl, rfl, by decide⟩

/-- How steps 1 to 4 end for a script, in terms of the first loop: the first
loop returned, or it was left without a terminator, or it was left with the
bytes `acc'` in the buffer and the first terminator at `i`. -/
theorem recv_head_cases (hs : http_srv_t) (req : http_srv_request_t)
    (script : List RecvResult) :
    (∃ st hs' req', http_srv_recv_request_head hs req script =
        some (HeadResult.ret st hs' req') ∧
      (st = HttpStatus.HTTP_NO_REQUEST ∨ st = HttpStatus.HTTP_ERR)) ∨
    (∃ (i : Nat) (hs1 : http_srv_t) (rest : List RecvResult) (acc' lost : List Nat),
      recv_headers_loop script
        { hs with rxlen := 0, rxbuf := List.replicate HTTP_SRV_RX_BUFFER_SIZE 0 } (-1) =
        some (HdrLoop.left ((i : Int) + 4) hs1 rest) ∧
      RxInv hs1 acc' ∧ TermAt acc' i ∧ (∀ j, j < i → ¬ TermAt acc' j) ∧
      stream script = acc' ++ lost ++ stream rest) := by
  rcases recv_headers_loop_spec script
      { hs with rxlen := 0, rxbuf := List.replicate HTTP_SRV_RX_BUFFER_SIZE 0 } (-1) []
      (RxInv_reset hs) (by intro i h; have := TermAt_lt h; simp at this) (by omega) with
    ⟨st, hs', hl, hst⟩ | ⟨he, hs', rest, hl, hneg⟩ | ⟨i, hs', rest, acc', lost, hl, h1, h2, h3, h4⟩
  · left
    refine ⟨st, hs', req_zero, ?_, hst⟩
    unfold http_srv_recv_request_head
    simp only [hl, Option.some_bind]
  · left
    refine ⟨HttpStatus.HTTP_ERR, hs', req_zero, ?_, Or.inr rfl⟩
    unfold http_srv_recv_request_head
    simp only [hl, Option.some_bind, hneg, if_true]
  · right
    exact ⟨i, hs', rest, acc', lost, hl, h1, h2, h3, by simpa using h4⟩

/-- C2. For every script of receive results whose bytes are fewer than 4 or
contain no CR LF CR LF, `http_srv_recv_request` returns `HTTP_NO_REQUEST` or
`HTTP_ERR`, never `HTTP_OK`; a script that fills the buffer without a
terminator is such a script. -/
theorem http_srv_recv_request_no_terminator (hs : http_srv_t) (req : http_srv_request_t)
    (script : List RecvResult)
    (h : (stream script).length < 4 ∨ ∀ i, ¬ TermAt (stream script) i) :
    ∃ st hs' req', http_srv_recv_request hs req script = some (st, hs', req') ∧
      (st = HttpStatus.HTTP_NO_REQUEST ∨ st = HttpStatus.HTTP_ERR) := by
  have hno : ∀ i, ¬ TermAt (stream script) i := by
    rcases h with h | h
    · intro i hi
      have := TermAt_lt hi
      omega
    · exact h
  rcases recv_head_cases hs req script with
    ⟨st, hs', req', hh, hst⟩ | ⟨i, hs', rest, acc', lost, -, -, h2, -, h4⟩
  · refine ⟨st, hs', req', ?_, hst⟩
    unfold http_srv_recv_request
    simp only [hh, Option.some_bind]
  · exfalso
    apply hno i
    rw [h4, List.append_assoc]
    exact TermAt_append _ h2

/-- Witness for C2: 2000 bytes `A` fill the buffer without a terminator. -/
theorem http_srv_recv_request_no_terminator_witness :
    ∃ st hs' req',
      http_srv_recv_request
        { nethnd := true, srv := { sock := true, localport := 80 }, rxbuf := [], rxlen := 0,
          running := true,
          state := http_srv_state_t.HTTP_SRV_STATE_RUNNING, port := 80 }
        req_zero [RecvResult.data (List.replicate 2000 65)] = some (st, hs', req') ∧
      (st = HttpStatus.HTTP_NO_REQUEST ∨ st = HttpStatus.HTTP_ERR) :=
  http_srv_recv_request_no_terminator _ _ [RecvResult.data (List.replicate 2000 65)]
    (Or.inr (by
      intro i hi
      have h0 := hi.1
      simp only [stream, List.append_nil, List.getElem?_replicate] at h0
      split at h0 <;> simp at h0))

/-! ## The second loop of `http_srv_recv_request` -/

theorem writeAt_some (mem : List Nat) (off : Nat) (bs : List Nat) (r : List Nat)
    (h : writeAt mem off bs = some r) :
    off + bs.length ≤ mem.length ∧ r = mem.take off ++ bs ++ mem.drop (off + bs.length) := by
  unfold writeAt at h
  by_cases hc : off + bs.length ≤ mem.length
  · rw [if_pos hc] at h
    exact ⟨hc, (Option.some.inj h).symm⟩
  · rw [if_neg hc] at h; cases h

theorem writeAt_take_drop (mem : List Nat) (off : Nat) (bs : List Nat)
    (h : off + bs.length ≤ mem.length) (n : Nat) :
    (mem.take off ++ bs ++ mem.drop (off + bs.length)).length = mem.length ∧
    (mem.take off ++ bs ++ mem.drop (off + bs.length)).take (off + bs.length) =
      mem.take off ++ bs ∧
    (mem.take off ++ bs ++ mem.drop (off + bs.length)).drop (off + bs.length + n) =
      mem.drop (off + bs.length + n) := by
  have hl : (mem.take off ++ bs).length = off + bs.length := by
    simp only [List.length_append, List.length_take]; omega
  refine ⟨?_, ?_, ?_⟩
  · simp only [List.length_append, List.length_take, List.length_drop]; omega
  · rw [← hl, List.take_left]
  · rw [← hl, List.drop_append, List.drop_drop, hl]

/-- A successful run of the second loop stored exactly `needed` further bytes
behind the body received so far, taken in order from the script. -/
theorem recv_body_loop_ok : ∀ (rest : List RecvResult) (rxbuf : List Nat)
    (req : http_srv_request_t) (needed b : Nat) (rxbuf' : List Nat) (req' : http_srv_request_t),
    req.body = some b → rxbuf.length ≤ 1400 → b + req.body_len ≤ rxbuf.length →
    needed < 2 ^ 32 →
    recv_body_loop rest rxbuf req needed = some (HttpStatus.HTTP_OK, rxbuf', req') →
    ∃ more Z, more.length = needed ∧ b + req.body_len + needed ≤ rxbuf.length ∧
      rxbuf' = rxbuf.take (b + req.body_len) ++ more ++ rxbuf.drop (b + req.body_len + needed) ∧
      req' = { req with body_len := req.body_len + needed } ∧ stream rest = more ++ Z
  | [], rxbuf, req, needed, b, rxbuf', req', _, _, hfit, _, h => by
    unfold recv_body_loop at h
    by_cases hn : needed > 0
    · rw [if_pos hn] at h; cases h
    · rw [if_neg hn] at h
      have hn0 : needed = 0 := by omega
      subst hn0
      injection h with h
      injection h with _ h
      injection h with h1 h2
      subst h1; subst h2
      exact ⟨[], [], rfl, by omega, by simp, rfl, rfl⟩
  | ev :: rest, rxbuf, req, needed, b, rxbuf', req', hb, hlen, hfit, hn32, h => by
    unfold recv_body_loop at h
    by_cases hn : needed > 0
    · rw [if_pos hn] at h
      cases ev with
      | fail n =>
        simp only [net_sock_recv, Option.some_bind] at h
        have : -(n : Int) ≤ 0 := by omega
        rw [if_pos this] at h
        cases h
      | data bs =>
        have hoff : req.body.getD 0 = b := by rw [hb]; rfl
        simp only [net_sock_recv] at h
        rw [hoff] at h
        cases hw : writeAt rxbuf (b + req.body_len) (bs.take needed) with
        | none => rw [hw] at h; cases h
        | some r =>
          rw [hw] at h
          simp only [Option.map_some', Option.some_bind] at h
          obtain ⟨hwfit, hr⟩ := writeAt_some _ _ _ _ hw
          by_cases hrc : ((bs.take needed).length : Int) ≤ 0
          · rw [if_pos hrc] at h; cases h
          · rw [if_neg hrc] at h
            have hcl : (bs.take needed).length ≤ needed := by
              rw [List.length_take]; omega
            have hcpos : 0 < (bs.take needed).length := by omega
            have e1 : (req.body_len + ((bs.take needed).length : Int).toNat) % 2 ^ 32 =
                req.body_len + (bs.take needed).length := by
              rw [Int.toNat_ofNat]
              apply Nat.mod_eq_of_lt
              omega
            have e2 : (needed + 2 ^ 32 - ((bs.take needed).length : Int).toNat % 2 ^ 32) % 2 ^ 32 =
                needed - (bs.take needed).length := by
              rw [Int.toNat_ofNat]
              have : (bs.take needed).length % 2 ^ 32 = (bs.take needed).length :=
                Nat.mod_eq_of_lt (by omega)
              rw [this]
              have : needed + 2 ^ 32 - (bs.take needed).length =
                  (needed - (bs.take needed).length) + 2 ^ 32 := by omega
              rw [this, Nat.add_mod_right]
              exact Nat.mod_eq_of_lt (by omega)
            rw [e1, e2] at h
            obtain ⟨l1, l2, l3⟩ := writeAt_take_drop rxbuf (b + req.body_len) (bs.take needed)
              hwfit (needed - (bs.take needed).length)
            obtain ⟨more, Z, hm1, hm2, hm3, hm4, hm5⟩ := recv_body_loop_ok rest r
              { req with body_len := req.body_len + (bs.take needed).length }
              (needed - (bs.take needed).length) b rxbuf' req' hb
              (by rw [hr, l1]; exact hlen)
              (by rw [hr, l1]; simp only; omega) (by omega) h
            simp only at hm2 hm3 hm4
            rw [hr, l1] at hm2
            refine ⟨bs.take needed ++ more, bs.drop needed ++ Z ++ [] , ?_, by omega, ?_, ?_, ?_⟩
            · rw [List.length_append, hm1]; omega
            · rw [hm3, hr]
              have a1 : b + (req.body_len + (bs.take needed).length) =
                  b + req.body_len + (bs.take needed).length := by omega
              have a2 : b + req.body_len + (bs.take needed).length +
                  (needed - (bs.take needed).length) = b + req.body_len + needed := by omega
              rw [a1, l2, l3, a2]
              simp only [List.append_assoc]
            · rw [hm4]
              have : req.body_len + (bs.take needed).length + (needed - (bs.take needed).length) =
                  req.body_len + needed := by omega
              simp only [this]
            · by_cases hfull : bs.length ≤ needed
              · rw [List.take_of_length_le hfull, List.drop_of_length_le hfull]
                simp only [stream, hm5, List.append_assoc, List.nil_append, List.append_nil]
              · have hlt : (bs.take needed).length = needed := by
                  rw [List.length_take]; omega
                have hm0 : more = [] := by
                  apply List.eq_nil_of_length_eq_zero
                  rw [hm1, hlt]; omega
                subst hm0
                simp only [stream, List.append_nil, List.nil_append] at hm5 ⊢
                rw [hm5, ← List.append_assoc, List.take_append_drop]
    · rw [if_neg hn] at h
      have hn0 : needed = 0 := by omega
      subst hn0
      injection h with h
      injection h with _ h
      injection h with h1 h2
      subst h1; subst h2
      exact ⟨[], stream (ev :: rest), rfl, by omega, by simp, rfl, rfl⟩

theorem recv_body_loop_zero (script : List RecvResult) (rxbuf : List Nat)
    (req : http_srv_request_t) :
    recv_body_loop script rxbuf req 0 = some (HttpStatus.HTTP_OK, rxbuf, req) := by
  cases script <;> simp [recv_body_loop]

/-- When the next receive results `good` all hand over bytes, at least `needed`
in total, and these fit in the buffer, the second loop ends with `HTTP_OK` and
`needed` more body bytes. -/
theorem recv_body_loop_supplied : ∀ (good tail : List RecvResult) (rxbuf : List Nat)
    (req : http_srv_request_t) (needed b : Nat),
    req.body = some b → rxbuf.length ≤ 1400 → b + req.body_len + needed ≤ rxbuf.length →
    (∀ ev ∈ good, ∃ bs, ev = RecvResult.data bs ∧ bs ≠ []) →
    needed ≤ (stream good).length →
    ∃ rxbuf', recv_body_loop (good ++ tail) rxbuf req needed =
      some (HttpStatus.HTTP_OK, rxbuf', { req with body_len := req.body_len + needed })
  | [], tail, rxbuf, req, needed, b, _, _, _, _, hsup => by
    have hn0 : needed = 0 := by simpa [stream] using hsup
    subst hn0
    exact ⟨rxbuf, by rw [List.nil_append, recv_body_loop_zero]; rfl⟩
  | ev :: good, tail, rxbuf, req, needed, b, hb, hlen, hfit, hgood, hsup => by
    by_cases hn : needed > 0
    · obtain ⟨bs, rfl, hbs⟩ := hgood ev (by simp)
      have hoff : req.body.getD 0 = b := by rw [hb]; rfl
      have hcl : (bs.take needed).length ≤ needed := by
        rw [List.length_take]; omega
      have hcpos : 0 < (bs.take needed).length := by
        rw [List.length_take]
        have : 0 < bs.length := List.length_pos.mpr hbs
        omega
      have hw : writeAt rxbuf (b + req.body_len) (bs.take needed) =
          some (rxbuf.take (b + req.body_len) ++ bs.take needed ++
            rxbuf.drop (b + req.body_len + (bs.take needed).length)) := by
        unfold writeAt
        rw [if_pos (by omega)]
      have e1 : (req.body_len + ((bs.take needed).length : Int).toNat) % 2 ^ 32 =
          req.body_len + (bs.take needed).length := by
        rw [Int.toNat_ofNat]
        apply Nat.mod_eq_of_lt
        omega
      have e2 : (needed + 2 ^ 32 - ((bs.take needed).length : Int).toNat % 2 ^ 32) % 2 ^ 32 =
          needed - (bs.take needed).length := by
        rw [Int.toNat_ofNat]
        have : (bs.take needed).length % 2 ^ 32 = (bs.take needed).length :=
          Nat.mod_eq_of_lt (by omega)
        rw [this]
        have : needed + 2 ^ 32 - (bs.take needed).length =
            (needed - (bs.take needed).length) + 2 ^ 32 := by omega
        rw [this, Nat.add_mod_right]
        exact Nat.mod_eq_of_lt (by omega)
      obtain ⟨l1, -, -⟩ := writeAt_take_drop rxbuf (b + req.body_len) (bs.take needed)
        (by omega) 0
      have hsup' : needed - (bs.take needed).length ≤ (stream good).length := by
        simp only [stream, List.length_append] at hsup
        rw [List.length_take]
        omega
      obtain ⟨rxbuf', hrec⟩ := recv_body_loop_supplied good tail
        (rxbuf.take (b + req.body_len) ++ bs.take needed ++
          rxbuf.drop (b + req.body_len + (bs.take needed).length))
        { req with body_len := req.body_len + (bs.take needed).length }
        (needed - (bs.take needed).length) b hb (by rw [l1]; exact hlen)
        (by rw [l1]; simp only; omega)
        (fun ev hev => hgood ev (by simp [hev])) hsup'
      refine ⟨rxbuf', ?_⟩
      have hrc : ¬ ((bs.take needed).length : Int) ≤ 0 := by omega
      rw [List.cons_append]
      unfold recv_body_loop
      rw [if_pos hn]
      simp only [net_sock_recv]
      rw [hoff, hw]
      simp only [Option.map_some', Option.some_bind]
      rw [if_neg hrc, e1, e2, hrec]
      have : req.body_len + (bs.take needed).length + (needed - (bs.take needed).length) =
          req.body_len + needed := by omega
      simp only [this]
    · have hn0 : needed = 0 := by omega
      subst hn0
      exact ⟨rxbuf, by rw [recv_body_loop_zero]; rfl⟩

/-! ## Steps 1 to 4 of `http_srv_recv_request` -/

theorem strstr_crlf_some : ∀ (mem : List Nat) (k : Nat), strstr mem [13, 10] = some k →
    ∃ line after, mem = line ++ 13 :: 10 :: after ∧ line.length = k ∧ (∀ c ∈ line, c ≠ 0) ∧
      (∀ j, j < k → ¬ (mem[j]? = some 13 ∧ mem[j + 1]? = some 10))
  | [], k, h => by rw [strstr_crlf_nil] at h; cases h
  | c :: rest, k, h => by
    rw [strstr_crlf_cons] at h
    by_cases hc : c = 13 ∧ rest.head? = some 10
    · rw [if_pos hc] at h
      injection h with hk
      subst hk
      obtain ⟨rfl, h10⟩ := hc
      match rest, h10 with
      | d :: rest', h10 =>
        simp only [List.head?_cons, Option.some.injEq] at h10
        subst h10
        exact ⟨[], rest', rfl, rfl, by simp, by intro j hj; omega⟩
    · rw [if_neg hc] at h
      by_cases hc0 : c = 0
      · rw [if_pos hc0] at h; cases h
      · rw [if_neg hc0] at h
        cases hs : strstr rest [13, 10] with
        | none => rw [hs] at h; cases h
        | some k' =>
          rw [hs] at h
          simp only [Option.map_some', Option.some.injEq] at h
          subst h
          obtain ⟨line, after, hm, hl, hnul, hfirst⟩ := strstr_crlf_some rest k' hs
          refine ⟨c :: line, after, by rw [hm]; rfl, by simp [hl], ?_, ?_⟩
          · intro x hx
            rcases List.mem_cons.mp hx with e | e
            · rw [e]; exact hc0
            · exact hnul x e
          · intro j hj
            cases j with
            | zero =>
              rintro ⟨h13, h10⟩
              apply hc
              simp only [List.getElem?_cons_zero, Option.some.injEq] at h13
              refine ⟨h13, ?_⟩
              cases rest with
              | nil => simp at h10
              | cons d rest' => simpa using h10
            | succ j' =>
              have := hfirst j' (by omega)
              simpa using this

theorem toUInt32_ofNat (n : Nat) (h : n < 2 ^ 32) : toUInt32 (n : Int) = n := by
  unfold toUInt32
  have : ((n : Int) % 2 ^ 32) = (n : Int) := Int.emod_eq_of_lt (by omega) (by omega)
  rw [this, Int.toNat_ofNat]

theorem req_zero_lengths :
    req_zero.method.length = 8 ∧ req_zero.path.length = 128 ∧ req_zero.query.length = 128 := by
  decide

/-- The state after steps 1 to 4 when they end with the request parsed: the
bytes `acc` received so far hold the first terminator at `i` and begin with the
request line `line` and its CR LF; the request line has the tokens `m`, `u`,
`v`; the buffer holds `acc` with only the bytes of the request line and its CR
changed; and the views and lengths of the request are as stated. -/
theorem recv_head_parsed (hs : http_srv_t) (req : http_srv_request_t)
    (script : List RecvResult) (he : Int) (hs2 : http_srv_t) (req3 : http_srv_request_t)
    (rest : List RecvResult)
    (h : http_srv_recv_request_head hs req script = some (HeadResult.parsed he hs2 req3 rest)) :
    ∃ (i : Nat) (acc lost line after L' m u v : List Nat) (ts : List (List Nat)),
      he = (i : Int) + 4 ∧ TermAt acc i ∧ (∀ j, j < i → ¬ TermAt acc j) ∧ acc.length ≤ 1399 ∧
      stream script = acc ++ lost ++ stream rest ∧
      acc = line ++ 13 :: 10 :: after ∧ (∀ c ∈ line, c ≠ 0) ∧ line.length ≤ i ∧
      (∀ j, j < line.length → ¬ (acc[j]? = some 13 ∧ acc[j + 1]? = some 10)) ∧
      tokens line = m :: u :: v :: ts ∧ TokBytes m ∧ TokBytes u ∧ TokBytes v ∧
      (parsed_line req_zero m u v).1 = HttpStatus.HTTP_OK ∧
      L'.length = line.length ∧
      hs2.rxbuf = L' ++ 0 :: 10 :: after ++ List.replicate (1400 - acc.length) 0 ∧
      hs2.rxlen = acc.length ∧
      req3 = { (parsed_line req_zero m u v).2 with
        headers := some (line.length + 2),
        headers_len := i + 4 - (line.length + 2),
        body := some (i + 4),
        body_len := acc.length - (i + 4),
        content_length :=
          http_parse_content_length (hs2.rxbuf.drop (line.length + 2))
            (i + 4 - (line.length + 2)) } := by
  rcases recv_headers_loop_spec script
      { hs with rxlen := 0, rxbuf := List.replicate HTTP_SRV_RX_BUFFER_SIZE 0 } (-1) []
      (RxInv_reset hs) (by intro i h; have := TermAt_lt h; simp at this) (by omega) with
    ⟨st, hs', hl, hst⟩ | ⟨he', hs', rest', hl, hneg⟩ |
    ⟨i, hs1, rest', acc, lost, hl, hinv, hterm, hmin, hstream⟩
  · unfold http_srv_recv_request_head at h
    simp only [hl, Option.some_bind] at h
    cases h
  · unfold http_srv_recv_request_head at h
    simp only [hl, Option.some_bind, hneg, if_true] at h
    cases h
  · obtain ⟨hbuf, hrxlen, hacc⟩ := hinv
    have hi3 := TermAt_lt hterm
    unfold http_srv_recv_request_head at h
    simp only [hl, Option.some_bind] at h
    rw [if_neg (by omega)] at h
    cases hs : strstr hs1.rxbuf [13, 10] with
    | none => rw [hs] at h; cases h
    | some k =>
      rw [hs] at h
      simp only at h
      obtain ⟨line, after', hmem, hk, hnul, hfirst⟩ := strstr_crlf_some _ _ hs
      subst hk
      -- the first CR LF lies before the terminator
      have hfirst' : ∀ j, j < line.length → ¬ (acc[j]? = some 13 ∧ acc[j + 1]? = some 10) := by
        intro j hj hc
        apply hfirst j hj
        have hj1 : j + 1 < acc.length := by
          by_contra hge
          have := hc.2
          rw [List.getElem?_eq_none (by omega)] at this
          cases this
        rw [hbuf, List.getElem?_append_left (by omega), List.getElem?_append_left hj1]
        exact hc
      have hki : line.length ≤ i := by
        by_contra hlt
        exact hfirst' i (by omega) ⟨hterm.1, hterm.2.1⟩
      -- the bytes behind the request line
      have hsplit : acc = line ++ 13 :: 10 :: after'.take (acc.length - (line.length + 2)) ∧
          after' = after'.take (acc.length - (line.length + 2)) ++
            List.replicate (1400 - acc.length) 0 := by
        have e := hbuf.symm.trans hmem
        have e1 := congrArg (List.take acc.length) e
        have e2 := congrArg (List.drop acc.length) e
        rw [List.take_left] at e1
        rw [List.drop_left] at e2
        have hl2 : (line ++ [13, 10]).length = line.length + 2 := by simp
        have e3 : line ++ 13 :: 10 :: after' = (line ++ [13, 10]) ++ after' := by simp
        have hn : acc.length = (line ++ [13, 10]).length + (acc.length - (line.length + 2)) := by
          rw [hl2]; omega
        rw [e3] at e1 e2
        rw [hn, List.take_append] at e1
        rw [hn, List.drop_append] at e2
        rw [← hn] at e2
        constructor
        · exact e1.trans (by simp)
        · rw [e2, List.take_append_drop]
      generalize after'.take (acc.length - (line.length + 2)) = after at hsplit
      obtain ⟨hacc_eq, hafter⟩ := hsplit
      have hset : hs1.rxbuf.set line.length 0 = line ++ 0 :: 10 :: after' := by
        rw [hmem, set_append_length]
      have hcstr : cstr (line ++ 0 :: 10 :: after') = line := cstr_append_nul line _ hnul rfl
      obtain ⟨z1, z2, z3⟩ := req_zero_lengths
      obtain ⟨s3, s2⟩ := http_parse_request_line_spec (line ++ 0 :: 10 :: after') req_zero z1 z2 z3
      rw [hset] at h
      rw [hcstr] at s3 s2
      have hdrop : (line ++ 0 :: 10 :: after').drop line.length = 0 :: 10 :: after' :=
        List.drop_left _ _
      match hT : tokens line with
      | [] =>
        have := s2 (by rw [hT]; decide)
        cases hp : http_parse_request_line (line ++ 0 :: 10 :: after') req_zero with
        | none => rw [hp] at h; cases h
        | some r =>
          rw [hp] at this h
          simp only [Option.map_some', Option.some.injEq, Prod.mk.injEq] at this
          simp only [Option.some_bind, this.1, ne_eq] at h
          rw [if_pos (by decide)] at h
          cases h
      | [_] =>
        have := s2 (by rw [hT]; simp)
        cases hp : http_parse_request_line (line ++ 0 :: 10 :: after') req_zero with
        | none => rw [hp] at h; cases h
        | some r =>
          rw [hp] at this h
          simp only [Option.map_some', Option.some.injEq, Prod.mk.injEq] at this
          simp only [Option.some_bind, this.1, ne_eq] at h
          rw [if_pos (by decide)] at h
          cases h
      | [_, _] =>
        have := s2 (by rw [hT]; simp)
        cases hp : http_parse_request_line (line ++ 0 :: 10 :: after') req_zero with
        | none => rw [hp] at h; cases h
        | some r =>
          rw [hp] at this h
          simp only [Option.map_some', Option.some.injEq, Prod.mk.injEq] at this
          simp only [Option.some_bind, this.1, ne_eq] at h
          rw [if_pos (by decide)] at h
          cases h
      | m :: u :: v :: ts =>
        obtain ⟨L', hL', hm, hu, hv, hp⟩ := s3 m u v ts hT
        rw [hp, hdrop] at h
        simp only [Option.some_bind] at h
        by_cases hok : (parsed_line req_zero m u v).1 = HttpStatus.HTTP_OK
        · rw [if_neg (by simp [hok])] at h
          injection h with h
          injection h with e1 e2 e3 e4
          subst e1; subst e4
          have c1 : ((i : Int) + 4).toNat = i + 4 := by omega
          have c2 : toUInt32 ((i : Int) + 4) = i + 4 := by
            have := toUInt32_ofNat (i + 4) (by omega)
            simpa using this
          have c3 : toInt32 (line.length + 2) = ((line.length + 2 : Nat) : Int) :=
            toInt32_small _ (by omega)
          have c4 : toUInt32 ((i : Int) + 4 - toInt32 (line.length + 2)) =
              i + 4 - (line.length + 2) := by
            rw [c3]
            have : ((i : Int) + 4 - ((line.length + 2 : Nat) : Int)) =
                ((i + 4 - (line.length + 2) : Nat) : Int) := by omega
            rw [this]
            exact toUInt32_ofNat _ (by omega)
          have c5 : (hs1.rxlen + 2 ^ 32 - (i + 4)) % 2 ^ 32 = acc.length - (i + 4) := by
            rw [hrxlen]
            have : acc.length + 2 ^ 32 - (i + 4) = (acc.length - (i + 4)) + 2 ^ 32 := by omega
            rw [this, Nat.add_mod_right]
            exact Nat.mod_eq_of_lt (by omega)
          refine ⟨i, acc, lost, line, after, L', m, u, v, ts, rfl, hterm, hmin, hacc, ?_,
            hacc_eq, hnul, hki, hfirst', hT, hm, hu, hv, hok, hL', ?_, ?_, ?_⟩
          · simpa using hstream
          · rw [← e2]
            simp only
            rw [hafter]
            simp
          · rw [← e2]; exact hrxlen
          · rw [← e3, ← e2]
            simp only [c1, c2, c4, c5]
        · rw [if_pos (by simp [hok])] at h
          cases h

theorem toUInt32_lt (z : Int) : toUInt32 z < 2 ^ 32 := by
  unfold toUInt32
  have h1 : 0 ≤ z % 2 ^ 32 := Int.emod_nonneg _ (by norm_num)
  have h2 : z % 2 ^ 32 < 2 ^ 32 := Int.emod_lt_of_pos _ (by norm_num)
  omega

theorem content_length_scan_lt : ∀ (fuel : Nat) (mem : List Nat) (n : Nat),
    content_length_scan fuel mem n < 2 ^ 32
  | 0, _, _ => by unfold content_length_scan; norm_num
  | fuel + 1, mem, n => by
    unfold content_length_scan
    split
    · simp only
      split
      · unfold lineValue; exact toUInt32_lt _
      · split
        · norm_num
        · exact content_length_scan_lt fuel _ _
    · norm_num

theorem http_parse_content_length_lt (headers : List Nat) (n : Nat) :
    http_parse_content_length headers n < 2 ^ 32 := by
  rw [http_parse_content_length_eq]
  exact content_length_scan_lt _ _ _

/-- Steps 1 to 4 never end with a `return` of `HTTP_OK`. -/
theorem recv_head_ret (hs : http_srv_t) (req : http_srv_request_t) (script : List RecvResult)
    (st : HttpStatus) (hs1 : http_srv_t) (req1 : http_srv_request_t)
    (h : http_srv_recv_request_head hs req script = some (HeadResult.ret st hs1 req1)) :
    st = HttpStatus.HTTP_NO_REQUEST ∨ st = HttpStatus.HTTP_ERR := by
  rcases recv_headers_loop_spec script
      { hs with rxlen := 0, rxbuf := List.replicate HTTP_SRV_RX_BUFFER_SIZE 0 } (-1) []
      (RxInv_reset hs) (by intro i h; have := TermAt_lt h; simp at this) (by omega) with
    ⟨st', hs', hl, hst⟩ | ⟨he', hs', rest', hl, hneg⟩ |
    ⟨i, hs1', rest', acc, lost, hl, -, -, -, -⟩
  · unfold http_srv_recv_request_head at h
    simp only [hl, Option.some_bind] at h
    injection h with h
    injection h with e1 _ _
    rw [← e1]; exact hst
  · unfold http_srv_recv_request_head at h
    simp only [hl, Option.some_bind, hneg, if_true] at h
    injection h with h
    injection h with e1 _ _
    rw [← e1]; exact Or.inr rfl
  · unfold http_srv_recv_request_head at h
    simp only [hl, Option.some_bind] at h
    rw [if_neg (by omega)] at h
    cases hs : strstr hs1'.rxbuf [13, 10] with
    | none =>
      rw [hs] at h
      injection h with h
      injection h with e1 _ _
      rw [← e1]; exact Or.inr rfl
    | some k =>
      rw [hs] at h
      simp only at h
      cases hp : http_parse_request_line (hs1'.rxbuf.set k 0) req_zero with
      | none => rw [hp] at h; cases h
      | some pr =>
        rw [hp] at h
        simp only [Option.some_bind] at h
        by_cases hok : pr.1 ≠ HttpStatus.HTTP_OK
        · rw [if_pos hok] at h
          injection h with h
          injection h with e1 _ _
          rw [← e1]; exact Or.inr rfl
        · rw [if_neg hok] at h
          cases h

/-- What a successful call of `http_srv_recv_request` leaves behind. The bytes
`acc` were received while the headers were read and `more` while the body was
completed; `acc` begins with the request line `line` (tokens `m`, `u`, `v`) and
its CR LF, and holds the first terminator at `i`. The buffer holds these bytes
with only the request line and its CR changed; the header view starts behind
the CR LF of the request line and ends where the body view starts, behind the
terminator; the body view ends with the last byte received. -/
theorem recv_request_ok (hs : http_srv_t) (req : http_srv_request_t)
    (script : List RecvResult) (hs' : http_srv_t) (req' : http_srv_request_t)
    (h : http_srv_recv_request hs req script = some (HttpStatus.HTTP_OK, hs', req')) :
    ∃ (i : Nat) (acc lost more Z line after L' m u v : List Nat) (ts : List (List Nat)),
      TermAt acc i ∧ (∀ j, j < i → ¬ TermAt acc j) ∧
      stream script = acc ++ lost ++ (more ++ Z) ∧
      acc = line ++ 13 :: 10 :: after ∧ (∀ c ∈ line, c ≠ 0) ∧ line.length ≤ i ∧
      (∀ j, j < line.length → ¬ (acc[j]? = some 13 ∧ acc[j + 1]? = some 10)) ∧
      tokens line = m :: u :: v :: ts ∧ TokBytes m ∧ TokBytes u ∧ TokBytes v ∧
      (parsed_line req_zero m u v).1 = HttpStatus.HTTP_OK ∧
      L'.length = line.length ∧ acc.length + more.length ≤ 1400 ∧
      hs'.rxbuf = L' ++ 0 :: 10 :: after ++ more ++
        List.replicate (1400 - acc.length - more.length) 0 ∧
      req'.method = (parsed_line req_zero m u v).2.method ∧
      req'.path = (parsed_line req_zero m u v).2.path ∧
      req'.query = (parsed_line req_zero m u v).2.query ∧
      req'.http_major = (parsed_line req_zero m u v).2.http_major ∧
      req'.http_minor = (parsed_line req_zero m u v).2.http_minor ∧
      req'.headers = some (line.length + 2) ∧
      req'.headers_len = i + 4 - (line.length + 2) ∧
      req'.body = some (i + 4) ∧
      req'.body_len = acc.length - (i + 4) + more.length ∧
      req'.content_length ≤ req'.body_len ∧
      (more ≠ [] → req'.body_len = req'.content_length) := by
  unfold http_srv_recv_request at h
  cases hh : http_srv_recv_request_head hs req script with
  | none => rw [hh] at h; cases h
  | some r =>
    rw [hh] at h
    simp only [Option.some_bind] at h
    cases r with
    | ret st hs1 req1 =>
      simp only at h
      injection h with h
      injection h with e1 _
      have := recv_head_ret hs req script st hs1 req1 hh
      rw [e1] at this
      rcases this with c | c <;> cases c
    | parsed he hs2 req3 rest =>
      simp only at h
      obtain ⟨i, acc, lost, line, after, L', m, u, v, ts, rfl, hterm, hmin, hacc, hstream,
        hacc_eq, hnul, hki, hfirst, hT, hm, hu, hv, hok, hL', hbuf, hrxlen, hreq3⟩ :=
        recv_head_parsed hs req script he hs2 req3 rest hh
      have hi3 := TermAt_lt hterm
      have hacclen : acc.length = line.length + 2 + after.length := by
        rw [hacc_eq]; simp; omega
      have hpre : (L' ++ 0 :: 10 :: after).length = acc.length := by
        simp [hL', hacclen]; omega
      have hbuflen : hs2.rxbuf.length = 1400 := by
        rw [hbuf]
        simp only [List.length_append, List.length_cons, List.length_replicate, hL']
        omega
      have hb3 : req3.body = some (i + 4) := by rw [hreq3]
      have hbl3 : req3.body_len = acc.length - (i + 4) := by rw [hreq3]
      have hcl3 : req3.content_length < 2 ^ 32 := by
        rw [hreq3]; exact http_parse_content_length_lt _ _
      unfold http_srv_recv_request_body at h
      by_cases hgt : req3.content_length > req3.body_len
      · rw [if_pos hgt] at h
        simp only at h
        by_cases hchk : (toUInt32 ((i : Int) + 4) + req3.content_length) % 2 ^ 32 >
            HTTP_SRV_RX_BUFFER_SIZE
        · rw [if_pos hchk] at h; cases h
        · rw [if_neg hchk] at h
          cases hloop : recv_body_loop rest hs2.rxbuf req3
              (req3.content_length - req3.body_len) with
          | none => rw [hloop] at h; cases h
          | some b =>
            rw [hloop] at h
            simp only [Option.some_bind] at h
            obtain ⟨b1, brx, breq⟩ := b
            by_cases hb1 : b1 ≠ HttpStatus.HTTP_OK
            · simp only [hb1, ne_eq, not_false_eq_true, if_true] at h
              cases h
            · have hb1' : b1 = HttpStatus.HTTP_OK := by
                by_contra hc; exact hb1 hc
              subst hb1'
              simp only [ne_eq, not_true_eq_false, if_false] at h
              injection h with h
              injection h with _ h
              injection h with e2 e3
              obtain ⟨more, Z, hm1, hm2, hm3, hm4, hm5⟩ := recv_body_loop_ok rest hs2.rxbuf req3
                (req3.content_length - req3.body_len) (i + 4) brx breq hb3
                (by omega) (by rw [hbl3, hbuflen]; omega) (by omega) hloop
              rw [hbl3] at hm1 hm2 hm3 hm4
              rw [hbuflen] at hm2
              have hoff : i + 4 + (acc.length - (i + 4)) = acc.length := by omega
              have htake : hs2.rxbuf.take acc.length = L' ++ 0 :: 10 :: after := by
                rw [hbuf]
                have : L' ++ 0 :: 10 :: after ++ List.replicate (1400 - acc.length) 0 =
                    (L' ++ 0 :: 10 :: after) ++ List.replicate (1400 - acc.length) 0 := by simp
                rw [this, ← hpre, List.take_left]
              have hdrop : hs2.rxbuf.drop (acc.length + more.length) =
                  List.replicate (1400 - acc.length - more.length) 0 := by
                rw [hbuf]
                have : L' ++ 0 :: 10 :: after ++ List.replicate (1400 - acc.length) 0 =
                    (L' ++ 0 :: 10 :: after) ++ List.replicate (1400 - acc.length) 0 := by simp
                rw [this, ← hpre, List.drop_append, List.drop_replicate]
              rw [hoff, ← hm1, htake, hdrop] at hm3
              have hclv : req3.content_length =
                  acc.length - (i + 4) + more.length := by
                rw [hbl3] at hgt
                omega
              have hbreq : breq = { req3 with body_len := acc.length - (i + 4) + more.length } := by
                rw [hm4, ← hm1]
              refine ⟨i, acc, lost, more, Z, line, after, L', m, u, v, ts, hterm, hmin, ?_,
                hacc_eq, hnul, hki, hfirst, hT, hm, hu, hv, hok, hL', by omega, ?_,
                ?_, ?_, ?_, ?_, ?_, ?_, ?_, ?_, ?_, ?_, ?_⟩
              · rw [hstream, hm5]
              · rw [← e2]; simp only; rw [hm3]
              · rw [← e3, hbreq, hreq3]
              · rw [← e3, hbreq, hreq3]
              · rw [← e3, hbreq, hreq3]
              · rw [← e3, hbreq, hreq3]
              · rw [← e3, hbreq, hreq3]
              · rw [← e3, hbreq, hreq3]
              · rw [← e3, hbreq, hreq3]
              · rw [← e3, hbreq, hreq3]
              · rw [← e3, hbreq]
              · rw [← e3, hbreq]; simp only; rw [hclv]
              · intro _; rw [← e3, hbreq]; simp only; rw [hclv]
      · rw [if_neg hgt] at h
        injection h with h
        injection h with _ h
        injection h with e2 e3
        refine ⟨i, acc, lost, [], stream rest, line, after, L', m, u, v, ts, hterm, hmin, ?_,
          hacc_eq, hnul, hki, hfirst, hT, hm, hu, hv, hok, hL', by simp; omega, ?_,
          ?_, ?_, ?_, ?_, ?_, ?_, ?_, ?_, ?_, ?_, ?_⟩
        · simpa using hstream
        · rw [← e2, hbuf]; simp
        all_goals rw [← e3]
        · rw [hreq3]
        · rw [hreq3]
        · rw [hreq3]
        · rw [hreq3]
        · rw [hreq3]
        · rw [hreq3]
        · rw [hreq3]
        · rw [hreq3]
        · simp only [List.length_nil, Nat.add_zero]; rw [hreq3]
        · simp only; omega
        · intro hc; exact absurd rfl hc

theorem TermAt_of_append {acc Z : List Nat} {j : Nat} (h : TermAt (acc ++ Z) j)
    (hj : j + 3 < acc.length) : TermAt acc j := by
  obtain ⟨h0, h1, h2, h3⟩ := h
  rw [List.getElem?_append_left (by omega)] at h0 h1 h2 h3
  exact ⟨h0, h1, h2, h3⟩

theorem view_append_left (A B : List Nat) (n : Nat) :
    view (A ++ B) A.length n = B.take n := by
  unfold view
  rw [List.drop_left]

/-- A successful call that has received all the bytes the script offers: the
input is the request line `line`, CR LF and the bytes `after`; the first
terminator of the input is at `i`; the header view is the part of `after` up to
the end of the terminator and the body view is the rest of `after`. -/
theorem recv_request_whole (hs : http_srv_t) (req : http_srv_request_t)
    (script : List RecvResult) (hs' : http_srv_t) (req' : http_srv_request_t)
    (h : http_srv_recv_request hs req script = some (HttpStatus.HTTP_OK, hs', req'))
    (hall : (stream script).length = req'.body.getD 0 + req'.body_len) :
    ∃ (i : Nat) (line after m u v : List Nat) (ts : List (List Nat)),
      stream script = line ++ 13 :: 10 :: after ∧
      TermAt (stream script) i ∧ (∀ j, j < i → ¬ TermAt (stream script) j) ∧
      (∀ c ∈ line, c ≠ 0) ∧ line.length ≤ i ∧ i + 2 ≤ line.length + after.length ∧
      (∀ j, j < line.length →
        ¬ ((stream script)[j]? = some 13 ∧ (stream script)[j + 1]? = some 10)) ∧
      tokens line = m :: u :: v :: ts ∧ TokBytes m ∧ TokBytes u ∧ TokBytes v ∧
      (parsed_line req_zero m u v).1 = HttpStatus.HTTP_OK ∧
      req'.method = (parsed_line req_zero m u v).2.method ∧
      req'.path = (parsed_line req_zero m u v).2.path ∧
      req'.query = (parsed_line req_zero m u v).2.query ∧
      req'.http_major = (parsed_line req_zero m u v).2.http_major ∧
      req'.http_minor = (parsed_line req_zero m u v).2.http_minor ∧
      req'.headers = some (line.length + 2) ∧
      req'.headers_len = i + 4 - (line.length + 2) ∧
      req'.body = some (i + 4) ∧
      req'.body_len = line.length + after.length - (i + 2) ∧
      view hs'.rxbuf (line.length + 2) req'.headers_len = after.take (i + 2 - line.length) ∧
      view hs'.rxbuf (i + 4) req'.body_len = after.drop (i + 2 - line.length) := by
  obtain ⟨i, acc, lost, more, Z, line, after, L', m, u, v, ts, hterm, hmin, hstream, hacc_eq,
    hnul, hki, hfirst, hT, hm, hu, hv, hok, hL', hfit, hbuf, f1, f2, f3, f4, f5, f6, f7, f8, f9,
    -, -⟩ := recv_request_ok hs req script hs' req' h
  have hi3 := TermAt_lt hterm
  have hacclen : acc.length = line.length + 2 + after.length := by
    rw [hacc_eq]; simp; omega
  rw [f8, f9] at hall
  have hlen := congrArg List.length hstream
  simp only [List.length_append, Option.getD_some] at hlen hall
  have hlost : lost = [] := List.eq_nil_of_length_eq_zero (by omega)
  have hZ : Z = [] := List.eq_nil_of_length_eq_zero (by omega)
  subst hlost; subst hZ
  have hs1 : stream script = acc ++ more := by simpa using hstream
  have hs2 : stream script = line ++ 13 :: 10 :: (after ++ more) := by
    rw [hs1, hacc_eq]; simp
  refine ⟨i, line, after ++ more, m, u, v, ts, hs2, ?_, ?_, hnul, hki, ?_, ?_, hT, hm, hu, hv,
    hok, f1, f2, f3, f4, f5, f6, f7, f8, ?_, ?_, ?_⟩
  · rw [hs1]; exact TermAt_append _ hterm
  · intro j hj hc
    rw [hs1] at hc
    exact hmin j hj (TermAt_of_append hc (by omega))
  · simp only [List.length_append]; omega
  · intro j hj hc
    apply hfirst j hj
    rw [hs1, List.getElem?_append_left (by omega), List.getElem?_append_left (by omega)] at hc
    exact hc
  · rw [f9]; simp only [List.length_append]; omega
  · rw [hbuf, f7]
    have e : L' ++ 0 :: 10 :: after ++ more ++
        List.replicate (1400 - acc.length - more.length) 0 =
        (L' ++ [0, 10]) ++ (after ++ (more ++
          List.replicate (1400 - acc.length - more.length) 0)) := by simp
    have el : line.length + 2 = (L' ++ [0, 10]).length := by simp [hL']
    rw [e, el, view_append_left]
    have hn : i + 4 - (L' ++ [0, 10]).length = i + 2 - line.length := by
      rw [← el]; omega
    rw [hn, List.take_append_of_le_length (by omega), List.take_append_of_le_length (by omega)]
  · rw [hbuf, f9]
    have e : L' ++ 0 :: 10 :: after ++ more ++
        List.replicate (1400 - acc.length - more.length) 0 =
        (L' ++ [0, 10] ++ after.take (i + 2 - line.length)) ++
          ((after.drop (i + 2 - line.length) ++ more) ++
            List.replicate (1400 - acc.length - more.length) 0) := by
      have := List.take_append_drop (i + 2 - line.length) after
      conv_lhs => rw [← this]
      simp only [List.append_assoc, List.cons_append, List.nil_append, List.singleton_append]
    have el : i + 4 = (L' ++ [0, 10] ++ after.take (i + 2 - line.length)).length := by
      simp only [List.length_append, List.length_cons, List.length_nil, List.length_take, hL']
      omega
    rw [e, el, view_append_left]
    have hn : acc.length - (L' ++ [0, 10] ++ after.take (i + 2 - line.length)).length +
        more.length = (after.drop (i + 2 - line.length) ++ more).length := by
      rw [← el]
      simp only [List.length_append, List.length_drop]
      omega
    rw [hn, List.take_left, List.drop_append_of_le_length (by omega)]

/-- C4. If, after the headers, the buffered body is shorter than the declared
`Content-Length`, header-end offset plus `Content-Length` is at most the buffer
size, and the next receive results `good` each hand over at least one byte and
together at least the missing ones (every body receive then returns a positive
count, never more than requested), then `http_srv_recv_request` returns
`HTTP_OK` with `body_len = content_length`; and in every `HTTP_OK` return
`body_len >= content_length`. -/
theorem http_srv_recv_request_body_complete (hs : http_srv_t) (req : http_srv_request_t)
    (script : List RecvResult) :
    (∀ (he : Int) (hs2 : http_srv_t) (req3 : http_srv_request_t)
        (rest good tail : List RecvResult),
      http_srv_recv_request_head hs req script = some (HeadResult.parsed he hs2 req3 rest) →
      req3.body_len < req3.content_length →
      he + (req3.content_length : Int) ≤ 1400 →
      rest = good ++ tail →
      (∀ ev ∈ good, ev.positive = true) →
      req3.content_length - req3.body_len ≤ (stream good).length →
      ∃ hs' req', http_srv_recv_request hs req script = some (HttpStatus.HTTP_OK, hs', req') ∧
        req'.body_len = req'.content_length) ∧
    (∀ hs' req', http_srv_recv_request hs req script = some (HttpStatus.HTTP_OK, hs', req') →
      req'.content_length ≤ req'.body_len) := by
  constructor
  · intro he hs2 req3 rest good tail hh hshort hfit hrest hgood hsup
    obtain ⟨i, acc, lost, line, after, L', m, u, v, ts, rfl, hterm, hmin, hacc, hstream,
      hacc_eq, hnul, hki, hfirst, hT, hm, hu, hv, hok, hL', hbuf, hrxlen, hreq3⟩ :=
      recv_head_parsed hs req script he hs2 req3 rest hh
    have hi3 := TermAt_lt hterm
    have hgood' : ∀ ev ∈ good, ∃ bs, ev = RecvResult.data bs ∧ bs ≠ [] := by
      intro ev hev
      have hp := hgood ev hev
      cases ev with
      | fail n => cases hp
      | data bs =>
        refine ⟨bs, rfl, ?_⟩
        intro hnil
        subst hnil
        cases hp
    have hacclen : acc.length = line.length + 2 + after.length := by
      rw [hacc_eq]; simp; omega
    have hbuflen : hs2.rxbuf.length = 1400 := by
      rw [hbuf]
      simp only [List.length_append, List.length_cons, List.length_replicate, hL']
      omega
    have hb3 : req3.body = some (i + 4) := by rw [hreq3]
    have hbl3 : req3.body_len = acc.length - (i + 4) := by rw [hreq3]
    have c2 : toUInt32 ((i : Int) + 4) = i + 4 := by
      have := toUInt32_ofNat (i + 4) (by omega)
      simpa using this
    have hchk : ¬ (toUInt32 ((i : Int) + 4) + req3.content_length) % 2 ^ 32 >
        HTTP_SRV_RX_BUFFER_SIZE := by
      rw [c2, Nat.mod_eq_of_lt (by omega)]
      unfold HTTP_SRV_RX_BUFFER_SIZE
      omega
    obtain ⟨rxbuf', hloop⟩ := recv_body_loop_supplied good tail hs2.rxbuf req3
      (req3.content_length - req3.body_len) (i + 4) hb3 (by omega)
      (by rw [hbl3, hbuflen]; rw [hbl3] at hshort; omega) hgood' hsup
    refine ⟨{ hs2 with rxbuf := rxbuf' },
      { req3 with body_len := req3.body_len + (req3.content_length - req3.body_len),
                  srv := true }, ?_, ?_⟩
    · unfold http_srv_recv_request
      rw [hh]
      simp only [Option.some_bind]
      unfold http_srv_recv_request_body
      rw [if_pos hshort]
      simp only
      rw [if_neg hchk, hrest, hloop]
      simp only [Option.some_bind, ne_eq, not_true_eq_false, if_false]
    · simp only
      omega
  · intro hs' req' h
    obtain ⟨i, acc, lost, more, Z, line, after, L', m, u, v, ts, -, -, -, -, -, -, -, -, -, -,
      -, -, -, -, -, -, -, -, -, -, -, -, -, -, hle, -⟩ := recv_request_ok hs req script hs' req' h
    exact hle

/-- Witness for C4: the headers arrive with two of the five body bytes, the
other three in a second piece. -/
theorem http_srv_recv_request_body_complete_witness :
    ∃ hs' req',
      http_srv_recv_request hs_init req_zero
        [RecvResult.data (bytes "POST /a HTTP/1.1\r\nContent-Length: 5\r\n\r\nab"),
         RecvResult.data (bytes "cde")] = some (HttpStatus.HTTP_OK, hs', req') ∧
      req'.body_len = req'.content_length :=
  (http_srv_recv_request_body_complete hs_init req_zero
    [RecvResult.data (bytes "POST /a HTTP/1.1\r\nContent-Length: 5\r\n\r\nab"),
     RecvResult.data (bytes "cde")]).1 39
    (headOf [RecvResult.data (bytes "POST /a HTTP/1.1\r\nContent-Length: 5\r\n\r\nab"),
      RecvResult.data (bytes "cde")]).hs
    (headOf [RecvResult.data (bytes "POST /a HTTP/1.1\r\nContent-Length: 5\r\n\r\nab"),
      RecvResult.data (bytes "cde")]).req
    [RecvResult.data (bytes "cde")] [RecvResult.data (bytes "cde")] []
    (by decide!) (by decide!) (by decide!) (by decide!) (by decide!) (by decide!)

/-! ## Views and round trip -/

theorem TermAt_take {s : List Nat} {i : Nat} (h : TermAt s i) :
    (s.drop i).take 4 = [13, 10, 13, 10] := by
  have hlt := TermAt_lt h
  obtain ⟨h0, h1, h2, h3⟩ := h
  rw [List.getElem?_eq_getElem (by omega)] at h0 h1 h2 h3
  injection h0 with h0; injection h1 with h1; injection h2 with h2; injection h3 with h3
  rw [List.drop_eq_getElem_cons (by omega : i < s.length),
    List.drop_eq_getElem_cons (by omega : i + 1 < s.length),
    List.drop_eq_getElem_cons (by omega : i + 1 + 1 < s.length),
    List.drop_eq_getElem_cons (by omega : i + 1 + 1 + 1 < s.length)]
  simp only [List.take_succ_cons, List.take_zero]
  rw [h0, h1, h2, h3]

/-- C6 (as amended). For every successfully received request, taken whole from
the script: with `k` the index of the first CR LF of the input (the end of the
request line) and `i` the index of its first CR LF CR LF, the header view starts
right behind the CR LF of the request line and runs to the end of the
terminator, which it includes: with at least one header line (`k < i`) it is the
bytes between the request line and the terminator followed by the four bytes of
the terminator. The body view is exactly the bytes behind the terminator. -/
theorem http_srv_recv_request_views (hs : http_srv_t) (req : http_srv_request_t)
    (script : List RecvResult) (hs' : http_srv_t) (req' : http_srv_request_t)
    (h : http_srv_recv_request hs req script = some (HttpStatus.HTTP_OK, hs', req'))
    (hall : (stream script).length = req'.body.getD 0 + req'.body_len) :
    ∃ k i : Nat,
      ((stream script)[k]? = some 13 ∧ (stream script)[k + 1]? = some 10) ∧
      (∀ j, j < k → ¬ ((stream script)[j]? = some 13 ∧ (stream script)[j + 1]? = some 10)) ∧
      TermAt (stream script) i ∧ (∀ j, j < i → ¬ TermAt (stream script) j) ∧
      req'.headers = some (k + 2) ∧ req'.body = some (i + 4) ∧
      k + 2 + req'.headers_len = i + 4 ∧
      view hs'.rxbuf (k + 2) req'.headers_len =
        ((stream script).drop (k + 2)).take (i + 4 - (k + 2)) ∧
      (k < i → view hs'.rxbuf (k + 2) req'.headers_len =
        ((stream script).drop (k + 2)).take (i - (k + 2)) ++ [13, 10, 13, 10]) ∧
      view hs'.rxbuf (i + 4) req'.body_len = (stream script).drop (i + 4) := by
  obtain ⟨i, line, after, m, u, v, ts, hs2, hterm, hmin, hnul, hki, hia, hfirst, -, -, -, -, -,
    -, -, -, -, -, f6, f7, f8, f9, hv1, hv2⟩ := recv_request_whole hs req script hs' req' h hall
  have hd : (stream script).drop (line.length + 2) = after := by
    rw [hs2]
    have : line ++ 13 :: 10 :: after = (line ++ [13, 10]) ++ after := by simp
    rw [this]
    exact List.drop_left' (by simp)
  have hk0 : (stream script)[line.length]? = some 13 := by
    rw [hs2, List.getElem?_append_right (le_refl _)]; simp
  have hk1 : (stream script)[line.length + 1]? = some 10 := by
    rw [hs2, List.getElem?_append_right (by omega)]; simp
  refine ⟨line.length, i, ⟨hk0, hk1⟩, hfirst, hterm, hmin, f6, f8, by rw [f7]; omega, ?_, ?_, ?_⟩
  · rw [hv1, hd]
    congr 1
    omega
  · intro hlt
    have hk2 : line.length + 2 ≤ i := by
      by_contra hc
      have hi : i = line.length + 1 := by omega
      have := hterm.1
      rw [hi, hk1] at this
      cases this
    rw [hv1, hd]
    have hn : i + 2 - line.length = (i - (line.length + 2)) + 4 := by omega
    rw [hn, List.take_add]
    congr 1
    have := TermAt_take hterm
    rw [← hd, List.drop_drop]
    have hi : line.length + 2 + (i - (line.length + 2)) = i := by omega
    rw [hi]
    exact this
  · rw [hv2, ← hd, List.drop_drop]
    congr 1
    omega

/-- Witness for C6 (as amended), on the sample request `script_get`. -/
theorem http_srv_recv_request_views_witness :
    ∃ k i : Nat,
      ((stream script_get)[k]? = some 13 ∧ (stream script_get)[k + 1]? = some 10) ∧
      (∀ j, j < k →
        ¬ ((stream script_get)[j]? = some 13 ∧ (stream script_get)[j + 1]? = some 10)) ∧
      TermAt (stream script_get) i ∧ (∀ j, j < i → ¬ TermAt (stream script_get) j) ∧
      (recvOf script_get).2.2.headers = some (k + 2) ∧
      (recvOf script_get).2.2.body = some (i + 4) ∧
      k + 2 + (recvOf script_get).2.2.headers_len = i + 4 ∧
      view (recvOf script_get).2.1.rxbuf (k + 2) (recvOf script_get).2.2.headers_len =
        ((stream script_get).drop (k + 2)).take (i + 4 - (k + 2)) ∧
      (k < i →
        view (recvOf script_get).2.1.rxbuf (k + 2) (recvOf script_get).2.2.headers_len =
          ((stream script_get).drop (k + 2)).take (i - (k + 2)) ++ [13, 10, 13, 10]) ∧
      view (recvOf script_get).2.1.rxbuf (i + 4) (recvOf script_get).2.2.body_len =
        (stream script_get).drop (i + 4) :=
  http_srv_recv_request_views hs_init req_zero script_get
    (recvOf script_get).2.1 (recvOf script_get).2.2 (by decide!) (by decide!)

/-- C6, counterexample. For the request `GET / HTTP/1.1\r\nHost: x\r\n\r\n`,
which has one header line, the header view is the eleven bytes
`Host: x\r\n\r\n`: it holds the four bytes of the terminator, and is not the
seven bytes `Host: x` between the request line and the terminator. -/
theorem http_srv_recv_request_header_view_terminator :
    http_srv_recv_request hs_init req_zero script_get = some (recvOf script_get) ∧
    (recvOf script_get).1 = HttpStatus.HTTP_OK ∧
    (recvOf script_get).2.2.headers = some 16 ∧
    (recvOf script_get).2.2.headers_len = 11 ∧
    view (recvOf script_get).2.1.rxbuf 16 11 = bytes "Host: x\r\n\r\n" ∧
    view (recvOf script_get).2.1.rxbuf 16 11 ≠ bytes "Host: x" := by
  decide!

theorem parsed_line_cstr (req : http_srv_request_t) (m u v : List Nat)
    (hm : TokBytes m) (hu : TokBytes u) (h3 : req.query.length = 128) :
    cstr (parsed_line req m u v).2.method = m.take 7 ∧
    cstr (parsed_line req m u v).2.path = (uriPath u).take 127 ∧
    cstr (parsed_line req m u v).2.query = (uriQuery u).take 127 := by
  obtain ⟨fm, fp, fq⟩ := parsed_line_fields req m u v
  have hm0 : ∀ c ∈ m.take 7, c ≠ 0 := fun c hc => nul_free_tok m hm c (List.mem_of_mem_take hc)
  have hu0 : ∀ c ∈ u, c ≠ 0 := nul_free_tok u hu
  have hpath0 : ∀ c ∈ (uriPath u).take 127, c ≠ 0 := by
    intro c hc
    exact hu0 c ((List.takeWhile_prefix _).subset (List.mem_of_mem_take hc))
  have hquery0 : ∀ c ∈ (uriQuery u).take 127, c ≠ 0 := by
    intro c hc
    exact hu0 c ((List.dropWhile_suffix _).subset (List.mem_of_mem_drop (List.mem_of_mem_take hc)))
  refine ⟨by rw [fm, cstr_padTo _ _ hm0], by rw [fp, cstr_padTo _ _ hpath0], ?_⟩
  rw [fq]
  by_cases h63 : 63 ∈ u
  · rw [if_pos h63, cstr_padTo _ _ hquery0]
  · rw [if_neg h63, (uri_nosplit u h63).2]
    apply cstr_head_nul
    match hqq : req.query, h3 with
    | q0 :: qs, _ => rfl

theorem parsed_line_version (req : http_srv_request_t) (m u v : List Nat)
    (h : (parsed_line req m u v).1 = HttpStatus.HTTP_OK) :
    sscanf_version v =
      some ((parsed_line req m u v).2.http_major, (parsed_line req m u v).2.http_minor) := by
  unfold parsed_line at h ⊢
  cases hs : sscanf_version v with
  | none => rw [hs] at h; cases h
  | some mm => rfl

/-- C7 (as amended). For every well-formed request
`m SP u SP v CR LF R` (method `m`, URI `u` and version token `v` without space,
NUL or LF, the method at most 7 bytes, the two parts of the URI at most 127),
received whole and with success: `method`, `path` and `query` are `m` and the
parts of `u` before and after its first `?`, the version numbers are those of
`v`, and the input is reproduced byte for byte by
`method SP path [? query] SP v CR LF` followed by the header view and the body
view. The separators and the version token are not kept in the request. -/
theorem http_srv_recv_request_roundtrip (hs : http_srv_t) (req : http_srv_request_t)
    (script : List RecvResult) (hs' : http_srv_t) (req' : http_srv_request_t)
    (m u v R : List Nat)
    (h : http_srv_recv_request hs req script = some (HttpStatus.HTTP_OK, hs', req'))
    (hall : (stream script).length = req'.body.getD 0 + req'.body_len)
    (hin : stream script = m ++ 32 :: (u ++ 32 :: (v ++ 13 :: 10 :: R)))
    (hm : TokBytes m) (hu : TokBytes u) (hv : TokBytes v)
    (hmne : m ≠ []) (hune : u ≠ []) (hvne : v ≠ [])
    (hlf : 10 ∉ m ∧ 10 ∉ u ∧ 10 ∉ v)
    (hml : m.length ≤ 7) (hpl : (uriPath u).length ≤ 127) (hql : (uriQuery u).length ≤ 127) :
    cstr req'.method = m ∧ cstr req'.path = uriPath u ∧ cstr req'.query = uriQuery u ∧
    sscanf_version v = some (req'.http_major, req'.http_minor) ∧
    stream script =
      cstr req'.method ++ 32 ::
        ((cstr req'.path ++ (if 63 ∈ u then 63 :: cstr req'.query else [])) ++ 32 ::
          (v ++ 13 :: 10 ::
            (view hs'.rxbuf (req'.headers.getD 0) req'.headers_len ++
              view hs'.rxbuf (req'.body.getD 0) req'.body_len))) := by
  obtain ⟨i, line, after, m', u', v', ts, hs2, hterm, hmin, hnul, hki, hia, hfirst, hT, hm', hu',
    hv', hok, f1, f2, f3, f4, f5, f6, f7, f8, f9, hv1, hv2⟩ :=
    recv_request_whole hs req script hs' req' h hall
  -- the request line of the input is `m SP u SP v`
  have hX : m ++ 32 :: (u ++ 32 :: (v ++ 13 :: 10 :: R)) =
      (m ++ 32 :: (u ++ 32 :: v)) ++ 13 :: 10 :: R := by simp
  generalize hXdef : m ++ 32 :: (u ++ 32 :: v) = X at hX
  have hlfX : 10 ∉ X := by
    rw [← hXdef]
    simp only [List.mem_append, List.mem_cons, not_or]
    exact ⟨hlf.1, by decide, hlf.2.1, by decide, hlf.2.2⟩
  have hsX : stream script = X ++ 13 :: 10 :: R := by rw [hin, hX]
  have hlen : line.length = X.length := by
    rcases Nat.lt_trichotomy X.length line.length with hlt | heq | hgt
    · exfalso
      apply hfirst X.length hlt
      rw [hsX]
      constructor
      · rw [List.getElem?_append_right (le_refl _)]; simp
      · rw [List.getElem?_append_right (by omega)]; simp
    · exact heq.symm
    · exfalso
      have h10 : (stream script)[line.length + 1]? = some 10 := by
        rw [hs2, List.getElem?_append_right (by omega)]; simp
      rw [hsX] at h10
      by_cases hc : line.length + 1 < X.length
      · rw [List.getElem?_append_left hc] at h10
        exact hlfX (List.getElem?_mem h10)
      · have : line.length + 1 = X.length := by omega
        rw [this, List.getElem?_append_right (le_refl _)] at h10
        simp at h10
  have hboth : line ++ 13 :: 10 :: after = X ++ 13 :: 10 :: R := by rw [← hs2, hsX]
  obtain ⟨hline, hrest⟩ := List.append_inj hboth hlen
  have hafter : after = R := by
    injection hrest with _ hr
    injection hr
  -- its tokens
  have htok : tokens line = [m, u, v] := by
    rw [hline, ← hXdef, tokens_tok_delim m _ hm hmne, tokens_tok_delim u _ hu hune,
      tokens_tok_end v hv hvne]
  rw [htok] at hT
  injection hT with e1 hT
  injection hT with e2 hT
  injection hT with e3 _
  subst e1; subst e2; subst e3
  obtain ⟨z1, z2, z3⟩ := req_zero_lengths
  obtain ⟨cm, cp, cq⟩ := parsed_line_cstr req_zero m u v hm hu z3
  have hcm : cstr req'.method = m := by rw [f1, cm, List.take_of_length_le hml]
  have hcp : cstr req'.path = uriPath u := by rw [f2, cp, List.take_of_length_le hpl]
  have hcq : cstr req'.query = uriQuery u := by rw [f3, cq, List.take_of_length_le hql]
  have hver := parsed_line_version req_zero m u v hok
  refine ⟨hcm, hcp, hcq, by rw [f4, f5]; exact hver, ?_⟩
  have huri : cstr req'.path ++ (if 63 ∈ u then 63 :: cstr req'.query else []) = u := by
    rw [hcp, hcq]
    by_cases h63 : 63 ∈ u
    · rw [if_pos h63]; exact (uri_split u h63).symm
    · rw [if_neg h63, List.append_nil]; exact (uri_nosplit u h63).1
  have hviews : view hs'.rxbuf (req'.headers.getD 0) req'.headers_len ++
      view hs'.rxbuf (req'.body.getD 0) req'.body_len = R := by
    rw [f6, f8]
    simp only [Option.getD_some]
    rw [hv1, hv2, List.take_append_drop, hafter]
  rw [hcm, huri, hviews]
  exact hin

/-- Witness for C7 (as amended), on the sample request `script_post`. -/
theorem http_srv_recv_request_roundtrip_witness :
    cstr (recvOf script_post).2.2.method = bytes "POST" ∧
    cstr (recvOf script_post).2.2.path = uriPath (bytes "/a?x=1") ∧
    cstr (recvOf script_post).2.2.query = uriQuery (bytes "/a?x=1") ∧
    sscanf_version (bytes "HTTP/1.1") =
      some ((recvOf script_post).2.2.http_major, (recvOf script_post).2.2.http_minor) ∧
    stream script_post =
      cstr (recvOf script_post).2.2.method ++ 32 ::
        ((cstr (recvOf script_post).2.2.path ++
            (if 63 ∈ bytes "/a?x=1" then 63 :: cstr (recvOf script_post).2.2.query else [])) ++
          32 :: (bytes "HTTP/1.1" ++ 13 :: 10 ::
            (view (recvOf script_post).2.1.rxbuf ((recvOf script_post).2.2.headers.getD 0)
                (recvOf script_post).2.2.headers_len ++
              view (recvOf script_post).2.1.rxbuf ((recvOf script_post).2.2.body.getD 0)
                (recvOf script_post).2.2.body_len))) :=
  http_srv_recv_request_roundtrip hs_init req_zero script_post
    (recvOf script_post).2.1 (recvOf script_post).2.2
    (bytes "POST") (bytes "/a?x=1") (bytes "HTTP/1.1") (bytes "Content-Length: 5\r\n\r\nabcde")
    (by decide!) (by decide!) (by decide!) (by decide!) (by decide!) (by decide!)
    (by decide!) (by decide!) (by decide!) (by decide!) (by decide!) (by decide!) (by decide!)

/-- C7, counterexample. For the well-formed request
`GET / HTTP/1.1\r\nHost: x\r\n\r\n` (no body, no `Content-Length`) the call
succeeds, and method + path + query + header view + body view is
`GET/Host: x\r\n\r\n`, which is not the input: the spaces, the version token and
the CR LF of the request line are missing. -/
theorem http_srv_recv_request_concat_differs :
    http_srv_recv_request hs_init req_zero script_get = some (recvOf script_get) ∧
    (recvOf script_get).1 = HttpStatus.HTTP_OK ∧
    cstr (recvOf script_get).2.2.method ++ cstr (recvOf script_get).2.2.path ++
        cstr (recvOf script_get).2.2.query ++
        view (recvOf script_get).2.1.rxbuf ((recvOf script_get).2.2.headers.getD 0)
          (recvOf script_get).2.2.headers_len ++
        view (recvOf script_get).2.1.rxbuf ((recvOf script_get).2.2.body.getD 0)
          (recvOf script_get).2.2.body_len =
      bytes "GET/Host: x\r\n\r\n" ∧
    bytes "GET/Host: x\r\n\r\n" ≠ stream script_get := by
  decide!

/-! ## The check of `Content-Length` against the buffer size -/

/-- C3, the code at the failing input. For the request with the header
`Content-Length: -1` the headers end at offset 40 and the declared length is
4294967295, so offset + length exceeds 1400; the sum wraps to 39 in `uint32_t`,
the check passes, and the call goes on receiving: the next byte `A` is stored
at offset 40 of the buffer (the call then returns `HTTP_ERR` only because the
transport has no more data), and when 1361 bytes follow the store leaves the
1400-byte buffer. -/
theorem http_srv_recv_request_content_length_wrap :
    http_srv_recv_request_head hs_init req_zero script_neg =
      some (HeadResult.parsed 40 (headOf script_neg).hs (headOf script_neg).req
        [RecvResult.data (bytes "A")]) ∧
    (headOf script_neg).req.content_length = 4294967295 ∧
    (headOf script_neg).req.body_len = 0 ∧
    40 + (headOf script_neg).req.content_length > HTTP_SRV_RX_BUFFER_SIZE ∧
    (toUInt32 40 + (headOf script_neg).req.content_length) % 2 ^ 32 = 39 ∧
    http_srv_recv_request hs_init req_zero script_neg = some (recvOf script_neg) ∧
    (recvOf script_neg).1 = HttpStatus.HTTP_ERR ∧
    (headOf script_neg).hs.rxbuf[40]? = some 0 ∧
    (recvOf script_neg).2.1.rxbuf[40]? = some 65 ∧
    (recvOf script_neg).2.2.body_len = 1 ∧
    http_srv_recv_request hs_init req_zero script_neg_long = none := by
  decide!

/-! ## Version token (C11) -/

theorem digitsVal_foldl : ∀ (ds rest : List Nat) (acc : Nat), (∀ c ∈ ds, isdigit c = true) →
    rest.takeWhile isdigit = [] →
    digitsVal (ds ++ rest) acc = ds.foldl (fun a c => a * 10 + (c - 48)) acc
  | [], rest, acc, _, hr => by
    cases rest with
    | nil => rfl
    | cons c r =>
      have hc : isdigit c = false := by
        cases h : isdigit c with
        | false => rfl
        | true => simp [List.takeWhile, h] at hr
      simp [digitsVal, hc]
  | d :: ds, rest, acc, hd, hr => by
    have h1 : isdigit d = true := hd d (List.mem_cons_self _ _)
    simp only [List.cons_append, digitsVal, h1, if_true, List.foldl_cons]
    exact digitsVal_foldl ds rest _ (fun c hc => hd c (List.mem_cons_of_mem _ hc)) hr

theorem isdigit_not_space (c : Nat) (h : isdigit c = true) :
    isspace c = false ∧ c ≠ 45 ∧ c ≠ 43 := by
  simp only [isdigit, decide_eq_true_eq] at h
  refine ⟨?_, by omega, by omega⟩
  simp only [isspace, decide_eq_false_iff_not]
  omega

/-- What `scan_int` does on an integer text followed by a byte that is not a
digit: it reads the text and leaves the rest. -/
theorem scan_int_text (ws sg ds rest : List Nat) (hws : ∀ c ∈ ws, isspace c = true)
    (hsg : sg = [] ∨ sg = [45] ∨ sg = [43]) (hds : Digits ds)
    (hr : rest.takeWhile isdigit = []) :
    scan_int (ws ++ sg ++ ds ++ rest) = some (signedVal (sg ++ ds ++ rest), rest) := by
  obtain ⟨hne, hdig⟩ := hds
  obtain ⟨d, ds', rfl⟩ := List.exists_cons_of_ne_nil hne
  have hd := isdigit_not_space d (hdig d (List.mem_cons_self _ _))
  have hdd : isdigit d = true := hdig d (List.mem_cons_self _ _)
  have hdrop : (ws ++ sg ++ (d :: ds') ++ rest).dropWhile isspace = sg ++ (d :: ds') ++ rest := by
    rw [List.append_assoc, List.append_assoc, List.dropWhile_append_of_pos hws]
    rcases hsg with rfl | rfl | rfl
    · simp [List.dropWhile, hd.1]
    · simp [List.dropWhile, isspace]
    · simp [List.dropWhile, isspace]
  have htw : ((d :: ds') ++ rest).takeWhile isdigit = d :: ds' := by
    rw [List.takeWhile_append_of_pos hdig, hr, List.append_nil]
  have hdw : ((d :: ds') ++ rest).dropWhile isdigit = rest := by
    rw [List.dropWhile_append_of_pos hdig]
    cases rest with
    | nil => rfl
    | cons c r =>
      have hc : isdigit c = false := by
        cases h : isdigit c with
        | false => rfl
        | true => simp [List.takeWhile, h] at hr
      simp [List.dropWhile, hc]
  unfold scan_int
  simp only [hdrop]
  simp only [List.cons_append, List.nil_append, List.singleton_append, List.append_assoc]
    at htw hdw ⊢
  rcases hsg with rfl | rfl | rfl
  · simp only [List.nil_append]
    split
    · next h =>
      exfalso
      split at h
      · next h' => simp only [List.cons.injEq] at h'; exact absurd h'.1 hd.2.1
      · next h' => simp only [List.cons.injEq] at h'; exact absurd h'.1 hd.2.2
      · rw [htw] at h; cases h
    · congr 2
      split
      · next h' => simp only [List.cons.injEq] at h'; exact absurd h'.1 hd.2.1
      · next h' => simp only [List.cons.injEq] at h'; exact absurd h'.1 hd.2.2
      · exact hdw
  · simp only [List.singleton_append, htw, hdw]
    simp
  · simp only [List.singleton_append, htw, hdw]
    simp

/-- Whatever `scan_int` accepts is an integer text followed by the unread rest. -/
theorem scan_int_some (s : List Nat) (z : Int) (r : List Nat) (h : scan_int s = some (z, r)) :
    ∃ a, s = a ++ r ∧ IntText a := by
  unfold scan_int at h
  simp only at h
  split at h
  · cases h
  · next hne =>
    simp only [Option.some.injEq, Prod.mk.injEq] at h
    obtain ⟨-, hr⟩ := h
    have hs : s = s.takeWhile isspace ++ s.dropWhile isspace :=
      (List.takeWhile_append_dropWhile isspace s).symm
    have key : ∃ sg s2, s.dropWhile isspace = sg ++ s2 ∧ (sg = [] ∨ sg = [45] ∨ sg = [43]) ∧
        s2.takeWhile isdigit ≠ [] ∧ s2.dropWhile isdigit = r := by
      revert hne hr
      split
      · next r' heq => intro hne hr; exact ⟨[45], r', by rw [heq]; rfl, Or.inr (Or.inl rfl), hne, hr⟩
      · next r' heq => intro hne hr; exact ⟨[43], r', by rw [heq]; rfl, Or.inr (Or.inr rfl), hne, hr⟩
      · intro hne hr; exact ⟨[], _, rfl, Or.inl rfl, hne, hr⟩
    obtain ⟨sg, s2, h1, hsg, h2, h3⟩ := key
    refine ⟨s.takeWhile isspace ++ sg ++ s2.takeWhile isdigit, ?_, ?_⟩
    · rw [← h3, List.append_assoc, List.append_assoc, List.takeWhile_append_dropWhile, ← h1]
      exact hs
    · refine ⟨s.takeWhile isspace, sg, s2.takeWhile isdigit, rfl, ?_, hsg, h2, ?_⟩
      · intro c hc; exact (List.mem_takeWhile_imp hc)
      · intro c hc; exact (List.mem_takeWhile_imp hc)

theorem takeWhile_dropWhile_nil (p : Nat → Bool) : ∀ l : List Nat,
    (l.dropWhile p).takeWhile p = []
  | [] => rfl
  | c :: l => by
    cases h : p c with
    | true => simp only [List.dropWhile, h]; exact takeWhile_dropWhile_nil p l
    | false => simp [List.dropWhile, List.takeWhile, h]

theorem clampInt_small (n : Nat) (h : n < 2 ^ 31) : clampInt (n : Int) = (n : Int) := by
  unfold clampInt
  have h1 : ((n : Int)) ≤ 2 ^ 31 - 1 := by
    have : (n : Int) < 2 ^ 31 := by exact_mod_cast h
    omega
  rw [min_eq_left h1, max_eq_right (by omega)]

/-- Value read from a string of digits followed by a byte that is not a digit. -/
theorem signedVal_digits (ds rest : List Nat) (hds : Digits ds)
    (hr : rest.takeWhile isdigit = []) (hv : decVal ds < 2 ^ 31) :
    signedVal (ds ++ rest) = (decVal ds : Int) := by
  obtain ⟨hne, hdig⟩ := hds
  obtain ⟨d, ds', rfl⟩ := List.exists_cons_of_ne_nil hne
  have hd := isdigit_not_space d (hdig d (List.mem_cons_self _ _))
  have hval : digitsVal ((d :: ds') ++ rest) 0 = decVal (d :: ds') :=
    digitsVal_foldl (d :: ds') rest 0 hdig hr
  unfold signedVal
  simp only [List.cons_append] at hval ⊢
  split
  · next h' => simp only [List.cons.injEq] at h'; exact absurd h'.1 hd.2.1
  · next h' => simp only [List.cons.injEq] at h'; exact absurd h'.1 hd.2.2
  · rw [hval]; exact clampInt_small _ hv

/-- The scan of a version token `HTTP/<dM>.<dN>` whose numbers fit an `int`. -/
theorem sscanf_version_digits (dM dN : List Nat) (hM : Digits dM) (hN : Digits dN)
    (vM : decVal dM < 2 ^ 31) (vN : decVal dN < 2 ^ 31) :
    sscanf_version ([72, 84, 84, 80, 47] ++ dM ++ 46 :: dN) =
      some ((decVal dM : Int), (decVal dN : Int)) := by
  have hn0 : ∀ c ∈ [72, 84, 84, 80, 47] ++ dM ++ 46 :: dN, c ≠ 0 := by
    intro c hc
    simp only [List.append_assoc, List.mem_append, List.mem_cons] at hc
    rcases hc with hc | hc | hc | hc
    · revert hc; simp only [List.mem_cons, List.mem_singleton, List.not_mem_nil, or_false]
      omega
    · have := hM.2 c hc; simp only [isdigit, decide_eq_true_eq] at this; omega
    · omega
    · have := hN.2 c hc; simp only [isdigit, decide_eq_true_eq] at this; omega
  have h1 : scan_int (dM ++ 46 :: dN) = some ((decVal dM : Int), 46 :: dN) := by
    have := scan_int_text [] [] dM (46 :: dN) (by simp) (Or.inl rfl) hM (by simp [List.takeWhile, isdigit])
    simp only [List.nil_append] at this
    rw [this, signedVal_digits dM (46 :: dN) hM (by simp [List.takeWhile, isdigit]) vM]
  have h2 : scan_int dN = some ((decVal dN : Int), []) := by
    have := scan_int_text [] [] dN [] (by simp) (Or.inl rfl) hN rfl
    simp only [List.nil_append, List.append_nil] at this
    have e := signedVal_digits dN [] hN rfl vN
    simp only [List.append_nil] at e
    rw [this, e]
  unfold sscanf_version
  rw [cstr_self _ hn0]
  simp only [List.cons_append, List.nil_append, h1, h2]

/-- The scan `HTTP/%d.%d` finds both integers exactly in the tokens that begin
with `HTTP/`, an integer text, a dot and an integer text. -/
theorem sscanf_version_iff (v : List Nat) (hv : ∀ c ∈ v, c ≠ 0) :
    (sscanf_version v).isSome = true ↔ VersionPrefix v := by
  constructor
  · intro h
    unfold sscanf_version at h
    rw [cstr_self v hv] at h
    split at h
    · next rest =>
      split at h
      · cases h
      · next major r1 h1 =>
        split at h
        · next r2 =>
          split at h
          · cases h
          · next minor r3 h2 =>
            obtain ⟨a, ha, hai⟩ := scan_int_some _ _ _ h1
            obtain ⟨b, hb, hbi⟩ := scan_int_some _ _ _ h2
            refine ⟨a, b, r3, ?_, hai, hbi⟩
            rw [show bytes "HTTP/" = [72, 84, 84, 80, 47] from rfl, ha, hb]
            simp
        · cases h
    · cases h
  · rintro ⟨a, b, t, hveq, ⟨ws, sg, ds, rfl, hws, hsg, hds⟩, ⟨ws2, sg2, ds2, rfl, hws2, hsg2, hds2⟩⟩
    rw [show bytes "HTTP/" = [72, 84, 84, 80, 47] from rfl] at hveq
    subst hveq
    have h1 := scan_int_text ws sg ds (46 :: (ws2 ++ sg2 ++ ds2 ++ t)) hws hsg hds
      (by simp [List.takeWhile, isdigit])
    have hds2' : Digits (ds2 ++ t.takeWhile isdigit) := by
      refine ⟨by simp [hds2.1], ?_⟩
      intro c hc
      rcases List.mem_append.mp hc with hc | hc
      · exact hds2.2 c hc
      · exact List.mem_takeWhile_imp hc
    have h2 := scan_int_text ws2 sg2 (ds2 ++ t.takeWhile isdigit) (t.dropWhile isdigit)
      hws2 hsg2 hds2' (takeWhile_dropWhile_nil _ _)
    have et : ws2 ++ sg2 ++ (ds2 ++ t.takeWhile isdigit) ++ t.dropWhile isdigit =
        ws2 ++ sg2 ++ ds2 ++ t := by
      simp only [List.append_assoc, List.takeWhile_append_dropWhile]
    rw [et] at h2
    unfold sscanf_version
    rw [cstr_self _ hv]
    simp only [List.cons_append, List.nil_append, List.append_assoc] at h1 h2 ⊢
    simp only [h1, h2, Option.isSome_some]

/-- C11 (as amended). For a request line whose third token is `v`: when `v` is
`HTTP/` followed by the decimal digits of `M`, a dot and the decimal digits of
`N` (both below `2^31`), `http_parse_request_line` succeeds with `http_major = M`
and `http_minor = N`; it succeeds exactly when `v` begins with `HTTP/`, an
integer text, a dot and an integer text (whatever follows the second integer is
ignored), and returns `HTTP_ERR` for every other `v`. -/
theorem http_parse_request_line_version (line : List Nat) (req : http_srv_request_t)
    (h1 : req.method.length = 8) (h2 : req.path.length = 128) (h3 : req.query.length = 128)
    (m u v : List Nat) (ts : List (List Nat)) (hT : tokens (cstr line) = m :: u :: v :: ts) :
    (∀ dM dN, Digits dM → Digits dN → decVal dM < 2 ^ 31 → decVal dN < 2 ^ 31 →
      v = bytes "HTTP/" ++ dM ++ 46 :: dN →
      ∃ mem' req', http_parse_request_line line req = some (HttpStatus.HTTP_OK, mem', req') ∧
        req'.http_major = (decVal dM : Int) ∧ req'.http_minor = (decVal dN : Int)) ∧
    ((http_parse_request_line line req).map (fun r => r.1) = some HttpStatus.HTTP_OK ↔
      VersionPrefix v) ∧
    (¬ VersionPrefix v →
      (http_parse_request_line line req).map (fun r => r.1) = some HttpStatus.HTTP_ERR) := by
  obtain ⟨s3, -⟩ := http_parse_request_line_spec line req h1 h2 h3
  obtain ⟨L', _, _, _, hv, hpr⟩ := s3 m u v ts hT
  have hv0 : ∀ c ∈ v, c ≠ 0 := fun c hc => (hv c hc).2
  have hiff : (parsed_line req m u v).1 = HttpStatus.HTTP_OK ↔ VersionPrefix v :=
    (parsed_line_status req m u v).trans (sscanf_version_iff v hv0)
  refine ⟨?_, ?_, ?_⟩
  · intro dM dN hM hN vM vN hveq
    have hs : sscanf_version v = some ((decVal dM : Int), (decVal dN : Int)) := by
      rw [hveq, show bytes "HTTP/" = [72, 84, 84, 80, 47] from rfl]
      exact sscanf_version_digits dM dN hM hN vM vN
    have hok : (parsed_line req m u v).1 = HttpStatus.HTTP_OK :=
      (parsed_line_status req m u v).mpr (by rw [hs]; rfl)
    have hver := parsed_line_version req m u v hok
    rw [hs] at hver
    simp only [Option.some.injEq, Prod.mk.injEq] at hver
    refine ⟨L' ++ List.drop (cstr line).length line, (parsed_line req m u v).2, ?_,
      hver.1.symm, hver.2.symm⟩
    rw [hpr, hok]
  · rw [hpr]
    simp only [Option.map_some', Option.some.injEq]
    exact hiff
  · intro hnot
    rw [hpr]
    simp only [Option.map_some', Option.some.injEq]
    have hne : (parsed_line req m u v).1 ≠ HttpStatus.HTTP_OK := fun h => hnot (hiff.mp h)
    revert hne
    unfold parsed_line
    cases sscanf_version v with
    | none => intro _; rfl
    | some mm => intro hne; exact absurd rfl hne

/-- Witness for C11 (as amended): the line `GET / HTTP/1.0` is accepted with
version 1.0. -/
theorem http_parse_request_line_version_witness :
    ∃ mem' req', http_parse_request_line (bytes "GET / HTTP/1.0") req_zero =
        some (HttpStatus.HTTP_OK, mem', req') ∧
      req'.http_major = (decVal [49] : Int) ∧ req'.http_minor = (decVal [48] : Int) :=
  (http_parse_request_line_version (bytes "GET / HTTP/1.0") req_zero (by decide!) (by decide!)
    (by decide!) (bytes "GET") (bytes "/") (bytes "HTTP/1.0") [] (by decide!)).1 [49] [48]
    ⟨by decide, by decide⟩ ⟨by decide, by decide⟩ (by decide) (by decide) (by decide)

/-- C11, counterexample: the version token `HTTP/1.1x` is not of the form
`HTTP/<major>.<minor>` (digits, a dot, digits), and `http_parse_request_line`
accepts the line `GET / HTTP/1.1x`, with version 1.1. -/
theorem http_parse_request_line_version_trailing :
    (¬ ∃ dM dN, Digits dM ∧ Digits dN ∧ bytes "HTTP/1.1x" = bytes "HTTP/" ++ dM ++ 46 :: dN) ∧
    (http_parse_request_line (bytes "GET / HTTP/1.1x") req_zero).map
      (fun r => (r.1, r.2.2.http_major, r.2.2.http_minor)) =
        some (HttpStatus.HTTP_OK, 1, 1) := by
  refine ⟨?_, by decide!⟩
  rintro ⟨dM, dN, hM, hN, h⟩
  have hx : 120 ∈ bytes "HTTP/" ++ dM ++ 46 :: dN := by rw [← h]; decide
  simp only [List.append_assoc, List.mem_append, List.mem_cons] at hx
  rcases hx with hx | hx | hx | hx
  · revert hx; decide
  · have := hM.2 120 hx; revert this; decide
  · omega
  · have := hN.2 120 hx; revert this; decide

/-! ## Non-positive receive results (C12) -/

theorem rc_nonpos_cases (ev : RecvResult) (h : ev.rc ≤ 0) :
    ev = RecvResult.data [] ∨ ∃ n, ev = RecvResult.fail n := by
  cases ev with
  | fail n => exact Or.inr ⟨n, rfl⟩
  | data bs =>
    left
    cases bs with
    | nil => rfl
    | cons c r => simp [RecvResult.rc] at h; omega

theorem positive_iff_rc (ev : RecvResult) : ev.positive = true ↔ 0 < ev.rc := by
  cases ev with
  | fail n => simp [RecvResult.positive, RecvResult.rc]
  | data bs =>
    cases bs with
    | nil => simp [RecvResult.positive, RecvResult.rc]
    | cons c r => simp [RecvResult.positive, RecvResult.rc]

/-- One pass of the first loop on a non-positive receive result: it returns,
with `HTTP_NO_REQUEST` when the result is zero or `NET_TIMEOUT` and `rxlen` is
zero, with `HTTP_ERR` otherwise. -/
theorem recv_headers_step_nonpos (ev : RecvResult) (hs : http_srv_t) (h : ev.rc ≤ 0)
    (hlen : hs.rxlen ≤ hs.rxbuf.length) :
    ∃ hs', recv_headers_step ev hs = some (HdrStep.ret
      (if hs.rxlen = 0 ∧ (ev.rc = 0 ∨ ev.rc = NET_TIMEOUT) then HttpStatus.HTTP_NO_REQUEST
       else HttpStatus.HTTP_ERR) hs') := by
  rcases rc_nonpos_cases ev h with rfl | ⟨n, rfl⟩
  · have hw : writeAt hs.rxbuf hs.rxlen [] = some hs.rxbuf := by
      unfold writeAt
      rw [if_pos (by simpa using hlen)]
      simp
    unfold recv_headers_step net_sock_recv
    simp only [List.take_nil, hw, Option.map_some', Option.some_bind, List.length_nil,
      Nat.cast_zero, true_or, if_true, RecvResult.rc, and_true]
    by_cases h0 : hs.rxlen = 0
    · rw [if_pos h0, if_pos h0]; exact ⟨_, rfl⟩
    · rw [if_neg h0, if_neg h0]; exact ⟨_, rfl⟩
  · unfold recv_headers_step net_sock_recv
    simp only [Option.some_bind, RecvResult.rc]
    by_cases c1 : (-(n : Int) = 0 ∨ -(n : Int) = NET_TIMEOUT)
    · rw [if_pos c1]
      by_cases h0 : hs.rxlen = 0
      · rw [if_pos h0, if_pos ⟨h0, c1⟩]; exact ⟨_, rfl⟩
      · rw [if_neg h0, if_neg (fun hh => h0 hh.1)]; exact ⟨_, rfl⟩
    · have c3 : ¬ (hs.rxlen = 0 ∧ (-(n : Int) = 0 ∨ -(n : Int) = NET_TIMEOUT)) :=
        fun hh => c1 hh.2
      have c2 : -(n : Int) < 0 := by omega
      rw [if_neg c1, if_neg c3, if_pos c2]
      exact ⟨_, rfl⟩

theorem RxInv_len (hs : http_srv_t) (acc : List Nat) (h : RxInv hs acc) :
    hs.rxlen ≤ hs.rxbuf.length ∧ hs.rxbuf.length = 1400 := by
  obtain ⟨h1, h2, h3⟩ := h
  rw [h1, h2]
  simp only [List.length_append, List.length_replicate]
  omega

/-- The first loop on receive results `good` that all hand over bytes, fewer
than 1399 in total and without a terminator, followed by a non-positive result:
the loop returns at that result. -/
theorem recv_headers_loop_nonpos : ∀ (good : List RecvResult) (ev : RecvResult)
    (tail : List RecvResult) (hs : http_srv_t) (he : Int) (acc : List Nat),
    RxInv hs acc → (∀ e ∈ good, e.positive = true) →
    acc.length + (stream good).length < 1399 →
    (∀ i, ¬ TermAt (acc ++ stream good) i) → ev.rc ≤ 0 →
    ∃ hs', recv_headers_loop (good ++ ev :: tail) hs he = some (HdrLoop.ret
      (if (acc = [] ∧ good = []) ∧ (ev.rc = 0 ∨ ev.rc = NET_TIMEOUT)
        then HttpStatus.HTTP_NO_REQUEST else HttpStatus.HTTP_ERR) hs')
  | [], ev, tail, hs, he, acc, hinv, _, hlt, _, hrc => by
    have hg' : hs.rxlen < HTTP_SRV_RX_BUFFER_SIZE - 1 := by
      rw [hinv.2.1]; simp only [stream, List.length_nil] at hlt
      unfold HTTP_SRV_RX_BUFFER_SIZE; omega
    obtain ⟨hs', hstep⟩ := recv_headers_step_nonpos ev hs hrc (RxInv_len hs acc hinv).1
    refine ⟨hs', ?_⟩
    rw [List.nil_append]
    unfold recv_headers_loop
    rw [if_pos hg']
    simp only [hstep, Option.some_bind]
    have e : (hs.rxlen = 0) = (acc = [] ∧ ([] : List RecvResult) = []) := by
      rw [hinv.2.1]
      simp [List.length_eq_zero]
    simp only [e]
  | g :: good, ev, tail, hs, he, acc, hinv, hgood, hlt, hno, hrc => by
    have hgp := hgood g (List.mem_cons_self _ _)
    cases g with
    | fail n => cases hgp
    | data bs =>
      have hbs : bs ≠ [] := by
        intro hnil; subst hnil; cases hgp
      simp only [stream, List.length_append] at hlt
      have hlt' : acc.length < 1399 := by omega
      have hg' : hs.rxlen < HTTP_SRV_RX_BUFFER_SIZE - 1 := by
        rw [hinv.2.1]; unfold HTTP_SRV_RX_BUFFER_SIZE; omega
      have hfull : bs.take (1399 - acc.length) = bs := List.take_of_length_le (by omega)
      obtain ⟨-, hcons⟩ := recv_headers_step_data hs acc bs hinv hlt'
      obtain ⟨hs1, hinv1, hcont, -⟩ := hcons (by rw [hfull]; exact hbs)
      rw [hfull] at hinv1 hcont
      have hno1 : ∀ i, ¬ TermAt (acc ++ bs) i := by
        intro i hi
        apply hno i
        simp only [stream]
        rw [← List.append_assoc]
        exact TermAt_append _ hi
      have hstep := hcont hno1
      obtain ⟨hs', hrec⟩ := recv_headers_loop_nonpos good ev tail hs1 (-1) (acc ++ bs) hinv1
        (fun e he => hgood e (List.mem_cons_of_mem _ he))
        (by rw [List.length_append]; omega)
        (by intro i hi; apply hno i; simpa [stream, List.append_assoc] using hi) hrc
      refine ⟨hs', ?_⟩
      rw [List.cons_append]
      unfold recv_headers_loop
      rw [if_pos hg']
      simp only [hstep, Option.some_bind]
      rw [hrec]
      have e1 : ¬ ((acc ++ bs = [] ∧ good = []) ∧ (ev.rc = 0 ∨ ev.rc = NET_TIMEOUT)) := by
        intro hh
        have := hh.1.1
        simp at this
        exact hbs this.2
      have e2 : ¬ ((acc = [] ∧ RecvResult.data bs :: good = []) ∧
          (ev.rc = 0 ∨ ev.rc = NET_TIMEOUT)) := by
        intro hh
        have := hh.1.2
        cases this
      rw [if_neg e1, if_neg e2]

/-- The first loop returns `HTTP_NO_REQUEST` only at its first receive result,
and only when that result is zero or `NET_TIMEOUT`. -/
theorem recv_headers_loop_no_request : ∀ (script : List RecvResult) (hs : http_srv_t)
    (he : Int) (acc : List Nat) (hs' : http_srv_t), RxInv hs acc →
    recv_headers_loop script hs he = some (HdrLoop.ret HttpStatus.HTTP_NO_REQUEST hs') →
    acc = [] ∧ ((nextRecv script).rc = 0 ∨ (nextRecv script).rc = NET_TIMEOUT)
  | [], hs, he, acc, hs', hinv, h => by
    by_cases hg : hs.rxlen < HTTP_SRV_RX_BUFFER_SIZE - 1
    · obtain ⟨hs1, hstep⟩ := recv_headers_step_nonpos (RecvResult.fail 0) hs
        (by simp [RecvResult.rc]) (RxInv_len hs acc hinv).1
      unfold recv_headers_loop at h
      rw [if_pos hg] at h
      simp only [nextRecv, hstep, Option.some_bind, Option.some.injEq, HdrLoop.ret.injEq] at h
      by_cases c : hs.rxlen = 0 ∧ ((RecvResult.fail 0).rc = 0 ∨ (RecvResult.fail 0).rc = NET_TIMEOUT)
      · refine ⟨?_, c.2⟩
        have := c.1
        rw [hinv.2.1] at this
        exact List.length_eq_zero.mp this
      · rw [if_neg c] at h
        exact absurd h.1 (by decide)
    · unfold recv_headers_loop at h
      rw [if_neg hg] at h
      cases h
  | ev :: rest, hs, he, acc, hs', hinv, h => by
    by_cases hg : hs.rxlen < HTTP_SRV_RX_BUFFER_SIZE - 1
    · have hlt' : acc.length < 1399 := by
        rw [← hinv.2.1]; exact hg
      by_cases hp : ev.positive = true
      · exfalso
        cases ev with
        | fail n => cases hp
        | data bs =>
          have hbs : bs ≠ [] := by
            intro hnil; subst hnil; cases hp
          obtain ⟨-, hcons⟩ := recv_headers_step_data hs acc bs hinv hlt'
          have hne : bs.take (1399 - acc.length) ≠ [] := by
            intro hh
            rcases List.take_eq_nil_iff.mp hh with h0 | h0
            · omega
            · exact hbs h0
          obtain ⟨hs1, hinv1, hcont, hbrk⟩ := hcons hne
          by_cases hex : ∃ i, TermAt (acc ++ bs.take (1399 - acc.length)) i
          · have hstep := hbrk (Nat.find hex) (Nat.find_spec hex)
              (fun j hj => Nat.find_min hex hj)
            unfold recv_headers_loop at h
            rw [if_pos hg] at h
            simp only [hstep, Option.some_bind] at h
            cases h
          · have hstep := hcont (fun i hi => hex ⟨i, hi⟩)
            unfold recv_headers_loop at h
            rw [if_pos hg] at h
            simp only [hstep, Option.some_bind] at h
            have := (recv_headers_loop_no_request rest hs1 (-1) _ hs' hinv1 h).1
            exact hne (List.append_eq_nil.mp this).2
      · have hrc : ev.rc ≤ 0 := by
          by_contra hc
          exact hp ((positive_iff_rc ev).mpr (by omega))
        obtain ⟨hs1, hstep⟩ := recv_headers_step_nonpos ev hs hrc (RxInv_len hs acc hinv).1
        unfold recv_headers_loop at h
        rw [if_pos hg] at h
        simp only [hstep, Option.some_bind, Option.some.injEq, HdrLoop.ret.injEq] at h
        by_cases c : hs.rxlen = 0 ∧ (ev.rc = 0 ∨ ev.rc = NET_TIMEOUT)
        · refine ⟨?_, c.2⟩
          have := c.1
          rw [hinv.2.1] at this
          exact List.length_eq_zero.mp this
        · rw [if_neg c] at h
          exact absurd h.1 (by decide)
    · unfold recv_headers_loop at h
      rw [if_neg hg] at h
      cases h
/-- The second loop on receive results `good` that hand over fewer bytes than
are needed, followed by a non-positive result: it returns `HTTP_ERR`. -/
theorem recv_body_loop_short : ∀ (good : List RecvResult) (ev : RecvResult)
    (tail : List RecvResult) (rxbuf : List Nat) (req : http_srv_request_t) (needed b : Nat),
    req.body = some b → rxbuf.length ≤ 1400 → b + req.body_len + needed ≤ rxbuf.length →
    (∀ e ∈ good, e.positive = true) → (stream good).length < needed → ev.rc ≤ 0 →
    ∃ rxbuf' req', recv_body_loop (good ++ ev :: tail) rxbuf req needed =
      some (HttpStatus.HTTP_ERR, rxbuf', req')
  | [], ev, tail, rxbuf, req, needed, b, hb, _, hfit, _, hlt, hrc => by
    have hn : needed > 0 := by simp only [stream, List.length_nil] at hlt; exact hlt
    have hoff : req.body.getD 0 = b := by rw [hb]; rfl
    rw [List.nil_append]
    unfold recv_body_loop
    rw [if_pos hn, hoff]
    rcases rc_nonpos_cases ev hrc with rfl | ⟨n, rfl⟩
    · have hw : writeAt rxbuf (b + req.body_len) [] = some rxbuf := by
        unfold writeAt
        rw [if_pos (by simp only [List.length_nil]; omega)]
        simp
      unfold net_sock_recv
      simp only [List.take_nil, hw, Option.map_some', Option.some_bind, List.length_nil,
        Nat.cast_zero, le_refl, if_true]
      exact ⟨_, _, rfl⟩
    · unfold net_sock_recv
      have c : -(n : Int) ≤ 0 := by omega
      simp only [Option.some_bind, c, if_true]
      exact ⟨_, _, rfl⟩
  | g :: good, ev, tail, rxbuf, req, needed, b, hb, hlen, hfit, hgood, hlt, hrc => by
    have hgp := hgood g (List.mem_cons_self _ _)
    cases g with
    | fail n => cases hgp
    | data bs =>
      have hbs : bs ≠ [] := by
        intro hnil; subst hnil; cases hgp
      have hpos : 0 < bs.length := List.length_pos.mpr hbs
      simp only [stream, List.length_append] at hlt
      have hn : needed > 0 := by omega
      have hoff : req.body.getD 0 = b := by rw [hb]; rfl
      have hfull : bs.take needed = bs := List.take_of_length_le (by omega)
      have hw : writeAt rxbuf (b + req.body_len) bs =
          some (rxbuf.take (b + req.body_len) ++ bs ++
            rxbuf.drop (b + req.body_len + bs.length)) := by
        unfold writeAt
        rw [if_pos (by omega)]
      have e1 : (req.body_len + ((bs.length : Int)).toNat) % 2 ^ 32 =
          req.body_len + bs.length := by
        rw [Int.toNat_ofNat]
        apply Nat.mod_eq_of_lt
        omega
      have e2 : (needed + 2 ^ 32 - ((bs.length : Int)).toNat % 2 ^ 32) % 2 ^ 32 =
          needed - bs.length := by
        rw [Int.toNat_ofNat]
        have : bs.length % 2 ^ 32 = bs.length := Nat.mod_eq_of_lt (by omega)
        rw [this]
        have : needed + 2 ^ 32 - bs.length = (needed - bs.length) + 2 ^ 32 := by omega
        rw [this, Nat.add_mod_right]
        exact Nat.mod_eq_of_lt (by omega)
      obtain ⟨l1, -, -⟩ := writeAt_take_drop rxbuf (b + req.body_len) bs (by omega) 0
      obtain ⟨rxbuf', req', hrec⟩ := recv_body_loop_short good ev tail
        (rxbuf.take (b + req.body_len) ++ bs ++ rxbuf.drop (b + req.body_len + bs.length))
        { req with body_len := req.body_len + bs.length }
        (needed - bs.length) b hb (by rw [l1]; exact hlen)
        (by rw [l1]; simp only; omega)
        (fun e he => hgood e (List.mem_cons_of_mem _ he)) (by omega) hrc
      refine ⟨rxbuf', req', ?_⟩
      have hrcp : ¬ ((bs.length : Int)) ≤ 0 := by omega
      rw [List.cons_append]
      unfold recv_body_loop
      rw [if_pos hn, hoff]
      unfold net_sock_recv
      simp only [hfull, hw, Option.map_some', Option.some_bind, hrcp, if_false, e1, e2]
      exact hrec

/-- Steps 1 to 4 return `HTTP_NO_REQUEST` only when the first loop does. -/
theorem recv_head_no_request (hs : http_srv_t) (req : http_srv_request_t)
    (script : List RecvResult) (hs1 : http_srv_t) (req1 : http_srv_request_t)
    (h : http_srv_recv_request_head hs req script =
      some (HeadResult.ret HttpStatus.HTTP_NO_REQUEST hs1 req1)) :
    recv_headers_loop script
      { hs with rxlen := 0, rxbuf := List.replicate HTTP_SRV_RX_BUFFER_SIZE 0 } (-1) =
      some (HdrLoop.ret HttpStatus.HTTP_NO_REQUEST hs1) := by
  unfold http_srv_recv_request_head at h
  cases hl : recv_headers_loop script
      { hs with rxlen := 0, rxbuf := List.replicate HTTP_SRV_RX_BUFFER_SIZE 0 } (-1) with
  | none => simp only [hl, Option.none_bind] at h; cases h
  | some l =>
    simp only [hl, Option.some_bind] at h
    cases l with
    | ret st hs' =>
      simp only [Option.some.injEq, HeadResult.ret.injEq] at h
      rw [h.1, h.2.1]
    | left he hs' rest =>
      exfalso
      simp only at h
      by_cases hneg : he < 0
      · rw [if_pos hneg] at h
        simp only [Option.some.injEq, HeadResult.ret.injEq] at h
        exact absurd h.1 (by decide)
      · rw [if_neg hneg] at h
        cases hstr : strstr hs'.rxbuf [13, 10] with
        | none =>
          rw [hstr] at h
          simp only [Option.some.injEq, HeadResult.ret.injEq] at h
          exact absurd h.1 (by decide)
        | some k =>
          rw [hstr] at h
          simp only at h
          cases hp : http_parse_request_line (hs'.rxbuf.set k 0) req_zero with
          | none => rw [hp] at h; cases h
          | some pr =>
            rw [hp] at h
            simp only [Option.some_bind] at h
            by_cases hok : pr.1 ≠ HttpStatus.HTTP_OK
            · rw [if_pos hok] at h
              simp only [Option.some.injEq, HeadResult.ret.injEq] at h
              exact absurd h.1 (by decide)
            · rw [if_neg hok] at h
              cases h

/-- Step 5 never returns `HTTP_NO_REQUEST`. -/
theorem recv_body_not_no_request (he : Int) (hs : http_srv_t) (req : http_srv_request_t)
    (rest : List RecvResult) (hs' : http_srv_t) (req' : http_srv_request_t) :
    http_srv_recv_request_body he hs req rest ≠
      some (HttpStatus.HTTP_NO_REQUEST, hs', req') := by
  intro h
  unfold http_srv_recv_request_body at h
  split at h
  · simp only at h
    split at h
    · simp only [Option.some.injEq, Prod.mk.injEq] at h
      exact absurd h.1 (by decide)
    · cases hb : recv_body_loop rest hs.rxbuf req (req.content_length - req.body_len) with
      | none => rw [hb] at h; cases h
      | some b =>
        rw [hb] at h
        simp only [Option.some_bind] at h
        split at h
        · simp only [Option.some.injEq, Prod.mk.injEq] at h
          exact absurd h.1 (by decide)
        · simp only [Option.some.injEq, Prod.mk.injEq] at h
          exact absurd h.1 (by decide)
  · simp only [Option.some.injEq, Prod.mk.injEq] at h
    exact absurd h.1 (by decide)
/-- C12. A receive result `ev` that is not positive, seen by
`http_srv_recv_request`:
while the headers are read (after results `good` that each hand over bytes,
fewer than 1399 in total and without a terminator) the call returns
`HTTP_NO_REQUEST` when `ev` is zero or `NET_TIMEOUT` and no byte has been
accumulated (`good` is empty), and `HTTP_ERR` in every other case;
while the body is completed (after results `good` that hand over fewer bytes
than are missing) it returns `HTTP_ERR`;
and `HTTP_NO_REQUEST` is returned only when the first receive result of the call
is zero or `NET_TIMEOUT`. -/
theorem http_srv_recv_request_nonpositive (hs : http_srv_t) (req : http_srv_request_t) :
    (∀ (good : List RecvResult) (ev : RecvResult) (tail : List RecvResult),
      (∀ e ∈ good, e.positive = true) → (stream good).length < 1399 →
      (∀ i, ¬ TermAt (stream good) i) → ev.rc ≤ 0 →
      ∃ hs' req', http_srv_recv_request hs req (good ++ ev :: tail) =
        some (if good = [] ∧ (ev.rc = 0 ∨ ev.rc = NET_TIMEOUT) then HttpStatus.HTTP_NO_REQUEST
              else HttpStatus.HTTP_ERR, hs', req')) ∧
    (∀ (script : List RecvResult) (he : Int) (hs2 : http_srv_t) (req3 : http_srv_request_t)
        (good : List RecvResult) (ev : RecvResult) (tail : List RecvResult),
      http_srv_recv_request_head hs req script =
        some (HeadResult.parsed he hs2 req3 (good ++ ev :: tail)) →
      req3.body_len < req3.content_length →
      he + (req3.content_length : Int) ≤ 1400 →
      (∀ e ∈ good, e.positive = true) →
      (stream good).length < req3.content_length - req3.body_len → ev.rc ≤ 0 →
      ∃ hs' req', http_srv_recv_request hs req script =
        some (HttpStatus.HTTP_ERR, hs', req')) ∧
    (∀ (script : List RecvResult) (hs' : http_srv_t) (req' : http_srv_request_t),
      http_srv_recv_request hs req script = some (HttpStatus.HTTP_NO_REQUEST, hs', req') →
      (nextRecv script).rc = 0 ∨ (nextRecv script).rc = NET_TIMEOUT) := by
  refine ⟨?_, ?_, ?_⟩
  · intro good ev tail hgood hlt hno hrc
    obtain ⟨hs', hl⟩ := recv_headers_loop_nonpos good ev tail
      { hs with rxlen := 0, rxbuf := List.replicate HTTP_SRV_RX_BUFFER_SIZE 0 } (-1) []
      (RxInv_reset hs) hgood (by simpa using hlt) (by simpa using hno) hrc
    refine ⟨hs', req_zero, ?_⟩
    unfold http_srv_recv_request http_srv_recv_request_head
    simp only [hl, Option.some_bind, true_and]
  · intro script he hs2 req3 good ev tail hh hshort hfit hgood hlt hrc
    obtain ⟨i, acc, lost, line, after, L', m, u, v, ts, rfl, hterm, hmin, hacc, hstream,
      hacc_eq, hnul, hki, hfirst, hT, hm, hu, hv, hok, hL', hbuf, hrxlen, hreq3⟩ :=
      recv_head_parsed hs req script he hs2 req3 (good ++ ev :: tail) hh
    have hi3 := TermAt_lt hterm
    have hacclen : acc.length = line.length + 2 + after.length := by
      rw [hacc_eq]; simp; omega
    have hbuflen : hs2.rxbuf.length = 1400 := by
      rw [hbuf]
      simp only [List.length_append, List.length_cons, List.length_replicate, hL']
      omega
    have hb3 : req3.body = some (i + 4) := by rw [hreq3]
    have hbl3 : req3.body_len = acc.length - (i + 4) := by rw [hreq3]
    have c2 : toUInt32 ((i : Int) + 4) = i + 4 := by
      have := toUInt32_ofNat (i + 4) (by omega)
      simpa using this
    have hchk : ¬ (toUInt32 ((i : Int) + 4) + req3.content_length) % 2 ^ 32 >
        HTTP_SRV_RX_BUFFER_SIZE := by
      rw [c2, Nat.mod_eq_of_lt (by omega)]
      unfold HTTP_SRV_RX_BUFFER_SIZE
      omega
    obtain ⟨rxbuf', req', hloop⟩ := recv_body_loop_short good ev tail hs2.rxbuf req3
      (req3.content_length - req3.body_len) (i + 4) hb3 (by omega)
      (by rw [hbl3, hbuflen]; rw [hbl3] at hshort; omega) hgood hlt hrc
    refine ⟨{ hs2 with rxbuf := rxbuf' }, req', ?_⟩
    unfold http_srv_recv_request
    rw [hh]
    simp only [Option.some_bind]
    unfold http_srv_recv_request_body
    rw [if_pos hshort]
    simp only
    rw [if_neg hchk, hloop]
    simp only [Option.some_bind, ne_eq, not_false_eq_true, if_true, reduceCtorEq]
  · intro script hs' req' h
    unfold http_srv_recv_request at h
    cases hh : http_srv_recv_request_head hs req script with
    | none => rw [hh] at h; cases h
    | some r =>
      rw [hh] at h
      simp only [Option.some_bind] at h
      cases r with
      | ret st hs1 req1 =>
        simp only [Option.some.injEq, Prod.mk.injEq] at h
        obtain ⟨rfl, rfl, rfl⟩ := h
        have hl := recv_head_no_request hs req script _ _ hh
        exact (recv_headers_loop_no_request script _ (-1) [] _ (RxInv_reset hs) hl).2
      | parsed he hs2 req3 rest =>
        exact absurd h (recv_body_not_no_request he hs2 req3 rest hs' req')

/-- Witness for C12: a time-out as the first receive result gives
`HTTP_NO_REQUEST`; a closed connection after the two bytes `GE` gives
`HTTP_ERR`; a closed connection while two body bytes are missing gives
`HTTP_ERR`. -/
theorem http_srv_recv_request_nonpositive_witness :
    (∃ hs' req', http_srv_recv_request hs_init req_zero ([] ++ RecvResult.fail 3 :: []) =
      some (if ([] : List RecvResult) = [] ∧
          ((RecvResult.fail 3).rc = 0 ∨ (RecvResult.fail 3).rc = NET_TIMEOUT)
        then HttpStatus.HTTP_NO_REQUEST else HttpStatus.HTTP_ERR, hs', req')) ∧
    (∃ hs' req', http_srv_recv_request hs_init req_zero
        ([RecvResult.data (bytes "GE")] ++ RecvResult.fail 0 :: []) =
      some (if [RecvResult.data (bytes "GE")] = [] ∧
          ((RecvResult.fail 0).rc = 0 ∨ (RecvResult.fail 0).rc = NET_TIMEOUT)
        then HttpStatus.HTTP_NO_REQUEST else HttpStatus.HTTP_ERR, hs', req')) ∧
    (∃ hs' req', http_srv_recv_request hs_init req_zero script_short =
      some (HttpStatus.HTTP_ERR, hs', req')) :=
  ⟨(http_srv_recv_request_nonpositive hs_init req_zero).1 [] (RecvResult.fail 3) []
      (by decide) (by decide) (fun i h => by have := TermAt_lt h; simp [stream] at this)
      (by decide),
   (http_srv_recv_request_nonpositive hs_init req_zero).1 [RecvResult.data (bytes "GE")]
      (RecvResult.fail 0) [] (by decide) (by decide)
      (fun i h => by
        have := TermAt_lt h
        have e : (stream [RecvResult.data (bytes "GE")]).length = 2 := by decide
        omega)
      (by decide),
   (http_srv_recv_request_nonpositive hs_init req_zero).2.1 script_short 39
      (headOf script_short).hs (headOf script_short).req
      [RecvResult.data (bytes "c")] (RecvResult.fail 0) []
      (by decide!) (by decide!) (by decide!) (by decide!) (by decide!) (by decide!)⟩

/-! ## URL decoding (C14) -/

theorem storeAt_eq (mem : List Nat) (i v : Nat) (h : i < mem.length) :
    storeAt mem i v = some (mem.take i ++ [v] ++ mem.drop (i + 1)) := by
  unfold storeAt
  rw [if_pos h]
  congr 1
  rw [List.set_eq_take_append_cons_drop, if_pos h]
  simp

theorem isxdigit_zero : isxdigit 0 = false := by decide

theorem strtol16_two (h1 h2 : Nat) (x1 : isxdigit h1 = true) (x2 : isxdigit h2 = true) :
    strtol16 [h1, h2, 0] 0 % 256 = 16 * hexVal h1 + hexVal h2 := by
  have b1 : hexVal h1 < 16 := by
    simp only [isxdigit, decide_eq_true_eq] at x1
    unfold hexVal
    split_ifs <;> omega
  have b2 : hexVal h2 < 16 := by
    simp only [isxdigit, decide_eq_true_eq] at x2
    unfold hexVal
    split_ifs <;> omega
  simp only [strtol16, x1, x2, if_true, isxdigit_zero, Bool.false_eq_true, if_false]
  omega

/-- One step of URL decoding, in the shape of the loop body of
`http_ui_url_decode`. -/
theorem urlDecode_cons (c : Nat) (rest : List Nat) :
    urlDecode (c :: rest) =
      if c = 43 then 32 :: urlDecode rest
      else if c = 37 ∧ isxdigit (rest.getD 0 0) = true ∧ isxdigit (rest.getD 1 0) = true then
        (16 * hexVal (rest.getD 0 0) + hexVal (rest.getD 1 0)) :: urlDecode (rest.drop 2)
      else c :: urlDecode rest := by
  by_cases h43 : c = 43
  · subst h43
    rw [if_pos rfl, urlDecode.eq_3 43 rest (by intro _ _ _ h; cases h)]
    simp
  · rw [if_neg h43]
    by_cases h37 : c = 37
    · subst h37
      match rest with
      | [] =>
        rw [urlDecode.eq_3 37 [] (by intro _ _ _ _ h; cases h)]
        simp [isxdigit_zero]
      | [h1] =>
        rw [urlDecode.eq_3 37 [h1] (by intro _ _ _ _ h; cases h)]
        simp [isxdigit_zero]
      | h1 :: h2 :: r =>
        rw [urlDecode.eq_2]
        simp only [List.getD_cons_zero, List.getD_cons_succ, List.drop_succ_cons, List.drop_zero,
          Bool.and_eq_true, true_and]
    · rw [if_neg (fun hh => h37 hh.1),
        urlDecode.eq_3 c rest (by intro _ _ _ h; exact absurd h h37), if_neg h43]

theorem urlDecode_length_le : ∀ (n : Nat) (s : List Nat), s.length ≤ n →
    (urlDecode s).length ≤ s.length
  | 0, s, h => by
    have : s = [] := List.length_eq_zero.mp (by omega)
    subst this; simp [urlDecode]
  | n + 1, [], _ => by simp [urlDecode]
  | n + 1, c :: rest, h => by
    rw [urlDecode_cons]
    simp only [List.length_cons] at h
    split_ifs
    · simp only [List.length_cons]
      have := urlDecode_length_le n rest (by omega); omega
    · simp only [List.length_cons]
      have := urlDecode_length_le n (rest.drop 2) (by rw [List.length_drop]; omega)
      rw [List.length_drop] at this; omega
    · simp only [List.length_cons]
      have := urlDecode_length_le n rest (by omega); omega

theorem getD_append_nul (s rest : List Nat) (i : Nat) (hr : rest.headD 0 = 0)
    (hi : i ≤ s.length) : (s ++ rest).getD i 0 = s.getD i 0 := by
  by_cases h : i < s.length
  · simp only [List.getD_eq_getElem?_getD]
    rw [List.getElem?_append_left h]
  · have : i = s.length := by omega
    subst this
    rw [getD_append_length]
    simp only [List.getD_eq_getElem?_getD]
    rw [List.getElem?_eq_none (by omega), hr]
    rfl

/-- The loop of `http_ui_url_decode` on a source string `s` (without NUL, and
terminated) whose decoding fits behind `di`: it writes the decoding of `s` and a
NUL from `di` on. -/
theorem http_ui_url_decode_loop_spec (dest_size : Nat) : ∀ (fuel : Nat) (s rest dest : List Nat)
    (di : Nat), (∀ c ∈ s, c ≠ 0) → rest.headD 0 = 0 →
    di + (urlDecode s).length < dest_size → dest_size ≤ dest.length →
    (urlDecode s).length ≤ fuel →
    http_ui_url_decode_loop dest_size fuel (s ++ rest) dest di =
      some (dest.take di ++ (urlDecode s ++ [0]) ++
        dest.drop (di + (urlDecode s ++ [0]).length))
  | fuel, [], rest, dest, di, _, hr, hfit, hlen, _ => by
    have e : urlDecode [] = [] := rfl
    rw [e] at hfit ⊢
    simp only [List.length_nil, Nat.add_zero] at hfit
    have hs : storeAt dest di 0 = some (dest.take di ++ [0] ++ dest.drop (di + 1)) :=
      storeAt_eq dest di 0 (by omega)
    cases fuel with
    | zero => unfold http_ui_url_decode_loop; simpa using hs
    | succ f =>
      unfold http_ui_url_decode_loop
      simp only [List.nil_append, hr, ne_eq, not_true_eq_false, false_and, if_false]
      simpa using hs
  | 0, c :: r, rest, dest, di, _, _, _, _, hfuel => by
    exfalso
    rw [urlDecode_cons] at hfuel
    split_ifs at hfuel <;> simp at hfuel
  | fuel + 1, c :: r, rest, dest, di, hs, hr, hfit, hlen, hfuel => by
    have hc : c ≠ 0 := hs c (List.mem_cons_self _ _)
    have hs' : ∀ x ∈ r, x ≠ 0 := fun x hx => hs x (List.mem_cons_of_mem _ hx)
    have hdi : di < dest.length := by omega
    have hg1 : (c :: r ++ rest).getD 1 0 = r.getD 0 0 := by
      simp only [List.cons_append, List.getD_cons_succ]
      exact getD_append_nul r rest 0 hr (by omega)
    have key : ∀ (x : Nat) (r' : List Nat), (∀ y ∈ r', y ≠ 0) →
        urlDecode (c :: r) = x :: urlDecode r' →
        (storeAt dest di x).bind (fun d =>
          http_ui_url_decode_loop dest_size fuel (r' ++ rest) d (di + 1)) =
        some (dest.take di ++ (urlDecode (c :: r) ++ [0]) ++
          dest.drop (di + (urlDecode (c :: r) ++ [0]).length)) := by
      intro x r' hr' hdec
      rw [hdec] at hfit hfuel ⊢
      simp only [List.length_cons] at hfit hfuel
      obtain ⟨l1, l2, l3⟩ := writeAt_take_drop dest di [x] (by simpa using hdi)
        ((urlDecode r' ++ [0]).length)
      simp only [List.length_singleton] at l1 l2 l3
      rw [storeAt_eq dest di x hdi]
      simp only [Option.some_bind]
      rw [http_ui_url_decode_loop_spec dest_size fuel r' rest _ (di + 1) hr' hr (by omega)
        (by rw [l1]; exact hlen) (by omega)]
      rw [l2, l3]
      have e : di + 1 + (urlDecode r' ++ [0]).length = di + (x :: urlDecode r' ++ [0]).length := by
        simp only [List.length_append, List.length_cons, List.length_nil]; omega
      rw [e]
      simp only [List.append_assoc, List.cons_append, List.nil_append, List.singleton_append]
    unfold http_ui_url_decode_loop
    have hcond : (c :: r ++ rest).headD 0 ≠ 0 ∧ di + 1 < dest_size := by
      refine ⟨by simpa using hc, ?_⟩
      have : 0 < (urlDecode (c :: r)).length := by
        rw [urlDecode_cons]; split_ifs <;> simp
      omega
    rw [if_pos hcond]
    simp only [List.cons_append, List.headD_cons, List.drop_succ_cons, List.drop_zero]
    by_cases h43 : c = 43
    · rw [if_pos h43]
      exact key 32 r hs' (by rw [urlDecode_cons, if_pos h43])
    · rw [if_neg h43]
      by_cases hesc : c = 37 ∧ isxdigit (r.getD 0 0) = true ∧ isxdigit (r.getD 1 0) = true
      · obtain ⟨h37, x1, x2⟩ := hesc
        rcases r with _ | ⟨h1, _ | ⟨h2, r2⟩⟩
        · simp [isxdigit_zero] at x1
        · simp [isxdigit_zero] at x2
        · simp only [List.getD_cons_zero, List.getD_cons_succ] at x1 x2
          have hcnd : c = 37 ∧ isxdigit ((c :: h1 :: (h2 :: r2 ++ rest)).getD 1 0) = true ∧
              isxdigit ((c :: h1 :: (h2 :: r2 ++ rest)).getD 2 0) = true := by
            simp only [List.getD_cons_succ, List.getD_cons_zero, List.cons_append]
            exact ⟨h37, x1, x2⟩
          simp only [List.cons_append] at hcnd ⊢
          rw [if_pos hcnd]
          simp only [List.getD_cons_succ, List.getD_cons_zero, List.drop_succ_cons,
            List.drop_zero]
          rw [strtol16_two h1 h2 x1 x2]
          exact key _ r2 (fun y hy => hs' y (by simp [hy])) (by
            rw [urlDecode_cons, if_neg h43, if_pos (by simpa using ⟨h37, x1, x2⟩)]
            simp)
      · have hcnd : ¬ (c = 37 ∧ isxdigit ((c :: (r ++ rest)).getD 1 0) = true ∧
            isxdigit ((c :: (r ++ rest)).getD 2 0) = true) := by
          intro hh
          apply hesc
          obtain ⟨h37, x1, x2⟩ := hh
          simp only [List.getD_cons_succ] at x1 x2
          rw [getD_append_nul r rest 0 hr (by omega)] at x1
          have hr1 : 1 ≤ r.length := by
            by_contra hlt
            have : r = [] := List.length_eq_zero.mp (by omega)
            subst this
            simp [isxdigit_zero] at x1
          rw [getD_append_nul r rest 1 hr hr1] at x2
          exact ⟨h37, x1, x2⟩
        rw [if_neg hcnd]
        exact key c r hs' (by rw [urlDecode_cons, if_neg h43, if_neg hesc])
/-! ## Lookup in a `key=value` string (C13, C17, C18) -/

theorem strchr_found_gen (x : Nat) (pa qu : List Nat) (hpa : ∀ c ∈ pa, c ≠ x ∧ c ≠ 0) :
    strchr (pa ++ x :: qu) x = some pa.length := by
  induction pa with
  | nil => simp [strchr]
  | cons a pa ih =>
    have ha := hpa a (by simp)
    have ih' := ih (fun c hc => hpa c (by simp [hc]))
    simp [strchr, ha.1, ha.2, ih']

theorem strchr_none_gen (x : Nat) (s rest : List Nat) (hs : ∀ c ∈ s, c ≠ x ∧ c ≠ 0)
    (hr : rest.headD 0 = 0) (hx : x ≠ 0) : strchr (s ++ rest) x = none := by
  induction s with
  | nil =>
    cases rest with
    | nil => rfl
    | cons r rest =>
      simp at hr
      subst hr
      simp [strchr, Ne.symm hx]
  | cons a s ih =>
    have ha := hs a (by simp)
    have ih' := ih (fun c hc => hs c (by simp [hc]))
    simp [strchr, ha.1, ha.2, ih']

theorem strncmp_eq_iff : ∀ (a b x y : List Nat), a.length = b.length → (∀ c ∈ b, c ≠ 0) →
    (strncmp (a ++ x) (b ++ y) b.length = 0 ↔ a = b)
  | [], [], x, y, _, _ => by simp [strncmp]
  | [], d :: b, _, _, h, _ => by simp at h
  | c :: a, [], _, _, h, _ => by simp at h
  | c :: a, d :: b, x, y, h, hb => by
    have hd : d ≠ 0 := hb d (List.mem_cons_self _ _)
    have ih := strncmp_eq_iff a b x y (by simpa using h)
      (fun c hc => hb c (List.mem_cons_of_mem _ hc))
    simp only [List.cons_append, List.length_cons, strncmp, List.headD_cons, List.tail_cons]
    by_cases hcd : c = d
    · subst hcd
      simp only [ne_eq, not_true_eq_false, if_false, hd, List.cons.injEq, true_and]
      exact ih
    · simp only [ne_eq, hcd, not_false_eq_true, if_true, List.cons.injEq, false_and, iff_false]
      omega

/-- A string either does not contain the byte `x`, or splits at its first `x`. -/
theorem char_split (x : Nat) : ∀ s : List Nat,
    x ∉ s ∨ ∃ g s2, s = g ++ x :: s2 ∧ x ∉ g
  | [] => Or.inl (by simp)
  | c :: s => by
    by_cases hc : c = x
    · right; exact ⟨[], s, by simp [hc], by simp⟩
    · rcases char_split x s with h | ⟨g, s2, h, hg⟩
      · left
        simp only [List.mem_cons, not_or]
        exact ⟨fun e => hc e.symm, h⟩
      · right
        refine ⟨c :: g, s2, by simp [h], ?_⟩
        simp only [List.mem_cons, not_or]
        exact ⟨fun e => hc e.symm, hg⟩

theorem segKey_split (gk gv : List Nat) (h : 61 ∉ gk) :
    segKey (gk ++ 61 :: gv) = gk ∧ segValue (gk ++ 61 :: gv) = gv := by
  have hp : ∀ a ∈ gk, (fun c => decide (c ≠ 61)) a = true := by
    intro a ha
    simp only [ne_eq, decide_not, Bool.not_eq_true', decide_eq_false_iff_not]
    intro e; subst e; exact h ha
  unfold segKey segValue
  rw [List.takeWhile_append_of_pos hp, List.dropWhile_append_of_pos hp]
  simp [List.takeWhile, List.dropWhile]

theorem kvLookup_first (g s2 k : List Nat) (hg : 38 ∉ g) :
    kvLookup (g ++ 38 :: s2) k =
      if 61 ∈ g ∧ segKey g = k then some (segValue g) else kvLookup s2 k := by
  unfold kvLookup
  simp only [List.splitOn]
  rw [List.splitOnP_first (fun c => c == 38) g
    (by intro c hc; simp only [beq_iff_eq]; intro e; subst e; exact hg hc) 38 (by simp) s2]
  by_cases hc : 61 ∈ g ∧ segKey g = k
  · rw [if_pos hc, List.find?_cons_of_pos _ (by simpa using hc)]
    rfl
  · rw [if_neg hc, List.find?_cons_of_neg _ (by simpa using hc)]

theorem kvLookup_single (g k : List Nat) (hg : 38 ∉ g) :
    kvLookup g k = if 61 ∈ g ∧ segKey g = k then some (segValue g) else none := by
  unfold kvLookup
  simp only [List.splitOn]
  rw [List.splitOnP_eq_single (fun c => c == 38) g
    (by intro c hc; simp only [beq_iff_eq]; intro e; subst e; exact hg hc)]
  by_cases hc : 61 ∈ g ∧ segKey g = k
  · rw [if_pos hc, List.find?_cons_of_pos _ (by simpa using hc)]
    rfl
  · rw [if_neg hc, List.find?_cons_of_neg _ (by simpa using hc)]
    rfl

theorem cstr_append_zero (x y : List Nat) : cstr (x ++ 0 :: y) = cstr x := by
  unfold cstr
  induction x with
  | nil => simp [List.takeWhile]
  | cons a x ih =>
    by_cases ha : a = 0
    · subst ha; simp [List.takeWhile]
    · simpa [List.takeWhile, ha] using ih

theorem cstr_length_le (x : List Nat) : (cstr x).length ≤ x.length := by
  unfold cstr
  exact (List.takeWhile_sublist _).length_le

/-- The copy of a matched value: for the segment `gk=gv` at `p`, the static
arrays afterwards are `statics_after st gv`. -/
theorem http_ui_find_param_copy_spec (st : http_ui_statics) (gk gv after : List Nat)
    (h1 : st.param_value.length = 128) (h2 : st.decoded.length = 128)
    (hgv : ∀ c ∈ gv, c ≠ 0) :
    http_ui_find_param_copy st (gk ++ 61 :: gv ++ after) (gk.length + 1)
      (gk.length + 1 + gv.length) = some (statics_after st gv) := by
  have hraw : ∀ c ∈ gv.take 127, c ≠ 0 := fun c hc => hgv c (List.mem_of_mem_take hc)
  have hrl : (gv.take 127).length ≤ 127 := by simp [List.length_take]
  have hdl := urlDecode_length_le _ (gv.take 127) (le_refl _)
  have hlen : (if gk.length + 1 + gv.length - (gk.length + 1) ≥ 128 then 128 - 1
      else gk.length + 1 + gv.length - (gk.length + 1)) = (gv.take 127).length := by
    rw [List.length_take]
    split_ifs <;> omega
  have hsrc : ((gk ++ 61 :: gv ++ after).drop (gk.length + 1)).take (gv.take 127).length =
      gv.take 127 := by
    have e : gk ++ 61 :: gv ++ after = (gk ++ [61]) ++ (gv ++ after) := by simp
    have e2 : gk.length + 1 = (gk ++ [61]).length := by simp
    rw [e, e2, List.drop_left, List.length_take, List.take_append_eq_append_take]
    have : min 127 gv.length - gv.length = 0 := by omega
    rw [this, List.take_zero, List.append_nil, Nat.min_comm]
    exact take_min_length gv 127
  have hw1 : writeAt st.param_value 0 (gv.take 127) =
      some (st.param_value.take 0 ++ gv.take 127 ++ st.param_value.drop (0 + (gv.take 127).length)) := by
    unfold writeAt
    rw [if_pos (by omega)]
  obtain ⟨l1, l2, l3⟩ := writeAt_take_drop st.param_value 0 (gv.take 127) (by omega) 1
  have hst : storeAt (st.param_value.take 0 ++ gv.take 127 ++
      st.param_value.drop (0 + (gv.take 127).length)) (gv.take 127).length 0 =
      some (gv.take 127 ++ 0 :: st.param_value.drop ((gv.take 127).length + 1)) := by
    rw [storeAt_eq _ _ _ (by rw [l1]; omega)]
    congr 1
    have := l2
    simp only [Nat.zero_add, List.take_zero, List.nil_append] at this l3 ⊢
    rw [this, l3]
    simp
  have hdec := http_ui_url_decode_loop_spec 128 128 (gv.take 127)
    (0 :: st.param_value.drop ((gv.take 127).length + 1)) st.decoded 0 hraw rfl
    (by omega) (by omega) (by omega)
  have hcs : cstr (urlDecode (gv.take 127) ++ [0] ++
      st.decoded.drop (0 + (urlDecode (gv.take 127) ++ [0]).length)) =
      cstr (urlDecode (gv.take 127)) := by
    rw [List.append_assoc, List.singleton_append, cstr_append_zero]
  have hcl : (cstr (urlDecode (gv.take 127))).length ≤ 127 := by
    have := cstr_length_le (urlDecode (gv.take 127)); omega
  unfold http_ui_find_param_copy
  simp only [hlen, hsrc, hw1, Option.some_bind, hst]
  unfold http_ui_url_decode
  rw [hdec]
  simp only [Option.some_bind, List.take_zero, List.nil_append]
  unfold strncpy
  rw [hcs, List.take_of_length_le (by omega : (cstr (urlDecode (gv.take 127))).length ≤ 128)]
  have hpl : (cstr (urlDecode (gv.take 127)) ++
      List.replicate (128 - (cstr (urlDecode (gv.take 127))).length) 0).length = 128 := by
    simp only [List.length_append, List.length_replicate]; omega
  have hpv2 : (gv.take 127 ++ 0 :: st.param_value.drop ((gv.take 127).length + 1)).length =
      128 := by
    simp only [List.length_append, List.length_cons, List.length_drop]; omega
  unfold writeAt
  rw [if_pos (by rw [hpl, hpv2])]
  simp only [List.take_zero, List.nil_append, Nat.zero_add, hpl, Option.some_bind]
  rw [List.drop_of_length_le (by rw [hpv2]), List.append_nil]
  unfold storeAt
  rw [if_pos (by rw [hpl]; omega)]
  simp only [Option.some_bind, statics_after, padTo, Option.some.injEq,
    http_ui_statics.mk.injEq]
  refine ⟨?_, by simp [List.append_assoc]⟩
  rw [List.set_append_right _ _ (by omega)]
  congr 1
  have : 128 - (cstr (urlDecode (gv.take 127))).length =
      (128 - 1 - (cstr (urlDecode (gv.take 127))).length) + 1 := by omega
  rw [this]
  apply List.ext_getElem
  · simp
  · intro i hi1 hi2
    simp only [List.getElem_set, List.getElem_replicate]
    split_ifs <;> rfl
theorem strchr_after (x y : Nat) (g t : List Nat) (hg : ∀ c ∈ g, c ≠ x ∧ c ≠ 0)
    (hyx : y ≠ x) (hy0 : y ≠ 0) :
    strchr (g ++ y :: t) x = (strchr t x).map (fun e => e + (g.length + 1)) := by
  induction g with
  | nil =>
    simp only [List.nil_append, strchr, hyx, hy0, if_false, List.length_nil, Nat.zero_add]
  | cons a g ih =>
    have ha := hg a (by simp)
    have ih' := ih (fun c hc => hg c (by simp [hc]))
    have e : strchr ((a :: g) ++ y :: t) x = (strchr (g ++ y :: t) x).map (fun k => k + 1) := by
      simp [strchr, ha.1, ha.2]
    rw [e, ih', Option.map_map]
    cases strchr t x with
    | none => rfl
    | some e =>
      simp only [Option.map_some', Function.comp, List.length_cons]
      rfl

/-- The test of `http_ui_find_param_in_kv` on the key of a segment: it holds
exactly when the bytes before the `=` are the key. -/
theorem key_test (k krest gk x : List Nat) (hk : ∀ c ∈ k, c ≠ 0) :
    (gk.length = k.length ∧ strncmp (gk ++ x) (k ++ krest) k.length = 0) ↔ gk = k := by
  constructor
  · rintro ⟨hl, hc⟩
    exact (strncmp_eq_iff gk k x krest hl hk).mp hc
  · intro h
    subst h
    exact ⟨rfl, (strncmp_eq_iff gk gk x krest rfl hk).mpr rfl⟩

/-- The loop of `http_ui_find_param_in_kv` on the string `s`: it finds the first
segment of the form `k=value` and leaves the decoding of its value in the static
arrays. -/
theorem http_ui_find_param_in_kv_loop_spec (k krest : List Nat) (hk : ∀ c ∈ k, c ≠ 0) :
    ∀ (fuel : Nat) (s rest : List Nat) (st : http_ui_statics), (∀ c ∈ s, c ≠ 0) →
    rest.headD 0 = 0 → s.length < fuel →
    st.param_value.length = 128 → st.decoded.length = 128 →
    http_ui_find_param_in_kv_loop (k ++ krest) k.length fuel (s ++ rest) st =
      some (match kvLookup s k with
        | none => (false, st)
        | some raw => (true, statics_after st raw))
  | 0, s, _, _, _, _, hf, _, _ => by omega
  | fuel + 1, [], rest, st, _, hr, _, _, _ => by
    unfold http_ui_find_param_in_kv_loop
    simp only [List.nil_append, hr, ne_eq, not_true_eq_false, if_false]
    rw [kvLookup_single [] k (by simp)]
    simp
  | fuel + 1, c :: s', rest, st, hs, hr, hf, h1, h2 => by
    have hc : c ≠ 0 := hs c (List.mem_cons_self _ _)
    have hhead : (c :: s' ++ rest).headD 0 ≠ 0 := by simpa using hc
    unfold http_ui_find_param_in_kv_loop
    rw [if_pos hhead]
    generalize hsdef : c :: s' = s at hs hf ⊢
    rcases char_split 38 s with hno | ⟨g, s2, rfl, hg⟩
    · /- last segment -/
      have hamp : strchr (s ++ rest) 38 = none :=
        strchr_none_gen 38 s rest
          (fun c hc => ⟨fun e => hno (e ▸ hc), hs c hc⟩) hr (by decide)
      rcases char_split 61 s with hnoeq | ⟨gk, gv, rfl, hgk⟩
      · have heq : strchr (s ++ rest) 61 = none :=
          strchr_none_gen 61 s rest
            (fun c hc => ⟨fun e => hnoeq (e ▸ hc), hs c hc⟩) hr (by decide)
        simp only [heq, hamp, true_or, if_true]
        rw [kvLookup_single s k hno, if_neg (fun h => hnoeq h.1)]
      · have hgk0 : ∀ c ∈ gk, c ≠ 61 ∧ c ≠ 0 :=
          fun c hc => ⟨fun e => hgk (e ▸ hc), hs c (by simp [hc])⟩
        have hgv0 : ∀ c ∈ gv, c ≠ 0 := fun c hc => hs c (by simp [hc])
        have heq : strchr (gk ++ 61 :: gv ++ rest) 61 = some gk.length := by
          have := strchr_found_gen 61 gk (gv ++ rest) hgk0
          simpa using this
        have hsl : strlen (gk ++ 61 :: gv ++ rest) = gk.length + 1 + gv.length := by
          unfold strlen
          rw [cstr_append_nul _ rest hs hr]
          simp; omega
        obtain ⟨sk, sv⟩ := segKey_split gk gv hgk
        have hkt := key_test k krest gk (61 :: gv ++ rest) hk
        simp only [List.append_assoc, List.cons_append] at hkt heq hsl hamp ⊢
        simp only [heq, hamp, Option.getD_some, ne_eq, not_true_eq_false, false_and,
          or_false, reduceCtorEq, if_false, hkt, hsl]
        rw [kvLookup_single _ k hno, sk, sv]
        by_cases hm : gk = k
        · rw [if_pos hm, if_pos ⟨by simp, hm⟩]
          have := http_ui_find_param_copy_spec st gk gv rest h1 h2 hgv0
          simp only [List.append_assoc, List.cons_append] at this
          rw [this]
          rfl
        · rw [if_neg hm, if_neg (fun h => hm h.2)]
    · /- a segment followed by `&` -/
      have hg0 : ∀ c ∈ g, c ≠ 38 ∧ c ≠ 0 :=
        fun c hc => ⟨fun e => hg (e ▸ hc), hs c (by simp [hc])⟩
      have hs2 : ∀ c ∈ s2, c ≠ 0 := fun c hc => hs c (by simp [hc])
      have hamp : strchr (g ++ 38 :: s2 ++ rest) 38 = some g.length := by
        have := strchr_found_gen 38 g (s2 ++ rest) hg0
        simpa using this
      have hdrop : (g ++ 38 :: s2 ++ rest).drop (g.length + 1) = s2 ++ rest := by
        have e : g ++ 38 :: s2 ++ rest = (g ++ [38]) ++ (s2 ++ rest) := by simp
        have e2 : g.length + 1 = (g ++ [38]).length := by simp
        rw [e, e2, List.drop_left]
      have hfl : s2.length < fuel := by
        simp only [List.length_append, List.length_cons] at hf; omega
      have ih := http_ui_find_param_in_kv_loop_spec k krest hk fuel s2 rest st hs2 hr hfl h1 h2
      rcases char_split 61 g with hnoeq | ⟨gk, gv, rfl, hgk⟩
      · have heq : strchr (g ++ 38 :: s2 ++ rest) 61 =
            (strchr (s2 ++ rest) 61).map (fun e => e + (g.length + 1)) := by
          have := strchr_after 61 38 g (s2 ++ rest)
            (fun c hc => ⟨fun e => hnoeq (e ▸ hc), (hg0 c hc).2⟩) (by decide) (by decide)
          simpa using this
        have hcond : strchr (g ++ 38 :: s2 ++ rest) 61 = none ∨
            (strchr (g ++ 38 :: s2 ++ rest) 38 ≠ none ∧
              (strchr (g ++ 38 :: s2 ++ rest) 61).getD 0 >
                (strchr (g ++ 38 :: s2 ++ rest) 38).getD 0) := by
          rw [heq, hamp]
          cases strchr (s2 ++ rest) 61 with
          | none => left; rfl
          | some e =>
            right
            refine ⟨by simp, ?_⟩
            simp only [Option.map_some', Option.getD_some]
            omega
        simp only [hcond, if_true]
        simp only [hamp, hdrop]
        rw [ih, kvLookup_first g s2 k hg, if_neg (fun h => hnoeq h.1)]
      · have hgk0 : ∀ c ∈ gk, c ≠ 61 ∧ c ≠ 0 :=
          fun c hc => ⟨fun e => hgk (e ▸ hc), hs c (by simp [hc])⟩
        have hgv0 : ∀ c ∈ gv, c ≠ 0 := fun c hc => hs c (by simp [hc])
        have heq : strchr (gk ++ 61 :: gv ++ 38 :: s2 ++ rest) 61 = some gk.length := by
          have := strchr_found_gen 61 gk (gv ++ 38 :: s2 ++ rest) hgk0
          simpa using this
        obtain ⟨sk, sv⟩ := segKey_split gk gv hgk
        have hkt := key_test k krest gk (61 :: gv ++ 38 :: s2 ++ rest) hk
        have hcond : ¬ (strchr (gk ++ 61 :: gv ++ 38 :: s2 ++ rest) 61 = none ∨
            (strchr (gk ++ 61 :: gv ++ 38 :: s2 ++ rest) 38 ≠ none ∧
              (strchr (gk ++ 61 :: gv ++ 38 :: s2 ++ rest) 61).getD 0 >
                (strchr (gk ++ 61 :: gv ++ 38 :: s2 ++ rest) 38).getD 0)) := by
          rw [heq, hamp]
          simp only [reduceCtorEq, Option.getD_some, false_or, not_and, not_lt,
            List.length_append, List.length_cons]
          intro _; omega
        have hve : (gk ++ 61 :: gv).length = gk.length + 1 + gv.length := by
          simp only [List.length_append, List.length_cons]; omega
        have hkl := kvLookup_first (gk ++ 61 :: gv) s2 k hg
        rw [sk, sv] at hkl
        simp only [hcond, if_false]
        simp only [heq, hamp, hdrop, Option.getD_some]
        simp only [hve]
        simp only [List.append_assoc, List.cons_append] at hkt hkl ⊢
        simp only [hkt]
        rw [ih, hkl]
        by_cases hm : gk = k
        · rw [if_pos hm, if_pos ⟨by simp, hm⟩]
          have := http_ui_find_param_copy_spec st gk gv (38 :: s2 ++ rest) h1 h2 hgv0
          simp only [List.append_assoc, List.cons_append] at this
          rw [this]
          rfl
        · rw [if_neg hm, if_neg (fun h => hm h.2)]
theorem cstr_rest_head (x : List Nat) : (x.drop (cstr x).length).headD 0 = 0 := by
  unfold cstr
  induction x with
  | nil => rfl
  | cons a x ih =>
    by_cases ha : a = 0
    · simp [ha]
    · simpa [List.takeWhile_cons, ha] using ih

theorem cstr_eq_nil_iff (x : List Nat) : cstr x = [] ↔ x.headD 0 = 0 := by
  unfold cstr
  cases x with
  | nil => simp
  | cons a x =>
    by_cases ha : a = 0
    · simp [ha]
    · simp [List.takeWhile_cons, ha]

/-- What `http_ui_find_param_in_kv(data, key)` does, in terms of the C strings
at `data` and `key`: with an empty key the result is `NULL`; otherwise it looks
up the first segment of the form `key=value` and, when there is one, leaves the
decoding of the first 127 bytes of its value in the static arrays. -/
theorem http_ui_find_param_in_kv_spec (st : http_ui_statics) (data key : List Nat)
    (h1 : st.param_value.length = 128) (h2 : st.decoded.length = 128) :
    http_ui_find_param_in_kv st data key =
      some (match (if cstr key = [] then none else kvLookup (cstr data) (cstr key)) with
        | none => (false, st)
        | some raw => (true, statics_after st raw)) := by
  unfold http_ui_find_param_in_kv
  by_cases hk : key.headD 0 = 0
  · rw [if_pos hk, if_pos ((cstr_eq_nil_iff key).mpr hk)]
  · rw [if_neg hk, if_neg (fun h => hk ((cstr_eq_nil_iff key).mp h))]
    have hl : strlen key = (cstr key).length := rfl
    have e := http_ui_find_param_in_kv_loop_spec (cstr key) (key.drop (cstr key).length)
      (cstr_no_nul key) (data.length + 1) (cstr data) (data.drop (cstr data).length) st
      (cstr_no_nul data) (cstr_rest_head data)
      (by have := cstr_length_le data; omega) h1 h2
    rw [← cstr_split key, ← cstr_split data] at e
    rw [hl, e]

/-- The C string a lookup in a `key=value` string returns. -/
theorem returned_find_param (st : http_ui_statics) (data key : List Nat)
    (h1 : st.param_value.length = 128) (h2 : st.decoded.length = 128) :
    returned (http_ui_find_param_in_kv st data key) =
      (if cstr key = [] then none else kvLookup (cstr data) (cstr key)).map
        (fun raw => cstr (urlDecode (raw.take 127))) := by
  rw [http_ui_find_param_in_kv_spec st data key h1 h2]
  cases (if cstr key = [] then none else kvLookup (cstr data) (cstr key)) with
  | none => rfl
  | some raw =>
    simp only [returned, statics_after, Option.map_some']
    rw [cstr_padTo 128 _ (cstr_no_nul _)]

theorem statics_after_length (st : http_ui_statics) (raw : List Nat)
    (h2 : st.decoded.length = 128) :
    (statics_after st raw).param_value.length = 128 ∧
    (statics_after st raw).decoded.length = 128 := by
  have hrl : (raw.take 127).length ≤ 127 := by simp [List.length_take]
  have hdl := urlDecode_length_le _ (raw.take 127) (le_refl _)
  have hcl := cstr_length_le (urlDecode (raw.take 127))
  constructor
  · exact length_padTo 128 _ (by omega)
  · simp only [statics_after, List.length_append, List.length_cons, List.length_nil,
      List.length_drop]
    omega

/-- C14. For a source string `s` (followed by its NUL) whose decoding fits the
destination of `dest_size` bytes, `http_ui_url_decode` leaves in `dest` the URL
decoding of `s` and a NUL: read left to right, each `+` has become a space, each
`%` followed by two hexadecimal digits the byte with that value, and every other
byte, also a `%` not followed by two hexadecimal digits, is copied. -/
theorem http_ui_url_decode_spec (s rest dest : List Nat) (dest_size : Nat)
    (hs : ∀ c ∈ s, c ≠ 0) (hr : rest.headD 0 = 0)
    (hfit : (urlDecode s).length < dest_size) (hlen : dest_size ≤ dest.length) :
    http_ui_url_decode (s ++ rest) dest dest_size =
      some (urlDecode s ++ [0] ++ dest.drop ((urlDecode s).length + 1)) ∧
    (∀ r, urlDecode (43 :: r) = 32 :: urlDecode r) ∧
    (∀ h1 h2 r, isxdigit h1 = true → isxdigit h2 = true →
      urlDecode (37 :: h1 :: h2 :: r) = (16 * hexVal h1 + hexVal h2) :: urlDecode r) ∧
    (∀ c r, c ≠ 43 → ¬ (c = 37 ∧ isxdigit (r.getD 0 0) = true ∧ isxdigit (r.getD 1 0) = true) →
      urlDecode (c :: r) = c :: urlDecode r) := by
  refine ⟨?_, ?_, ?_, ?_⟩
  · unfold http_ui_url_decode
    rw [http_ui_url_decode_loop_spec dest_size dest_size s rest dest 0 hs hr (by omega) hlen
      (by omega)]
    simp
  · intro r
    rw [urlDecode_cons, if_pos rfl]
  · intro h1 h2 r x1 x2
    rw [urlDecode.eq_2, if_pos (by simp [x1, x2])]
  · intro c r h43 hesc
    rw [urlDecode_cons, if_neg h43, if_neg hesc]

/-- Witness for C14: the string `a+b%41%4z` decodes to `a bA%4z` in a
destination of 16 bytes. -/
theorem http_ui_url_decode_spec_witness :
    http_ui_url_decode (bytes "a+b%41%4z" ++ [0]) (List.replicate 16 7) 16 =
      some (urlDecode (bytes "a+b%41%4z") ++ [0] ++
        (List.replicate 16 7).drop ((urlDecode (bytes "a+b%41%4z")).length + 1)) :=
  (http_ui_url_decode_spec (bytes "a+b%41%4z") [0] (List.replicate 16 7) 16
    (by decide) (by decide) (by decide) (by decide)).1

theorem http_ui_get_param_ex_query {ν : Type} (lib : JsonLib ν) (st : http_ui_statics)
    (mem : List Nat) (req : http_srv_request_t) (key raw : List Nat)
    (h1 : st.param_value.length = 128) (h2 : st.decoded.length = 128)
    (hk : cstr key ≠ []) (hq : kvLookup (cstr req.query) (cstr key) = some raw) :
    http_ui_get_param_ex lib st mem req key =
      some (true, http_ui_param_source_t.HTTP_UI_PARAM_QUERY, statics_after st raw) := by
  have hk0 : ¬ key.headD 0 = 0 := fun h => hk ((cstr_eq_nil_iff key).mpr h)
  have hq0 : req.query.headD 0 ≠ 0 := by
    intro h
    rw [(cstr_eq_nil_iff _).mpr h, kvLookup_single [] _ (by simp)] at hq
    simp at hq
  unfold http_ui_get_param_ex
  rw [if_neg hk0, if_pos hq0, http_ui_find_param_in_kv_spec st req.query key h1 h2,
    if_neg hk, hq]
  simp

/-- C13 (as amended). For a non-empty key, `http_ui_find_param_in_kv(data, key)`
finds the first `&`-separated segment of the form `key=value` (the bytes before
the first `=` of the segment are exactly the key) and returns the URL decoding of
the first 127 bytes of its value, as a C string; for a value of at most 127
bytes whose decoding has no NUL this is the URL-decoded value. It returns `NULL`
when no segment has that key. For the query string `a=1&b=hello%20world`,
`http_ui_get_param_ex(req, "b")` returns `hello world` with source
`HTTP_UI_PARAM_QUERY`. -/
theorem http_ui_find_param_in_kv_value (st : http_ui_statics) (data key : List Nat)
    (h1 : st.param_value.length = 128) (h2 : st.decoded.length = 128) (hk : cstr key ≠ []) :
    (∀ raw, kvLookup (cstr data) (cstr key) = some raw →
      returned (http_ui_find_param_in_kv st data key) =
        some (cstr (urlDecode (raw.take 127))) ∧
      (raw.length ≤ 127 → 0 ∉ urlDecode raw →
        returned (http_ui_find_param_in_kv st data key) = some (urlDecode raw))) ∧
    (kvLookup (cstr data) (cstr key) = none →
      returned (http_ui_find_param_in_kv st data key) = none) ∧
    (∀ {ν : Type} (lib : JsonLib ν) (mem : List Nat) (req : http_srv_request_t),
      cstr req.query = bytes "a=1&b=hello%20world" →
      ∃ st', http_ui_get_param_ex lib st mem req (bytes "b") =
          some (true, http_ui_param_source_t.HTTP_UI_PARAM_QUERY, st') ∧
        cstr st'.param_value = bytes "hello world") := by
  have hret := returned_find_param st data key h1 h2
  rw [if_neg hk] at hret
  refine ⟨?_, ?_, ?_⟩
  · intro raw hraw
    rw [hraw, Option.map_some'] at hret
    refine ⟨hret, ?_⟩
    intro hlen hnul
    rw [hret, List.take_of_length_le hlen,
      cstr_self _ (fun c hc e => hnul (e ▸ hc))]
  · intro hnone
    rw [hnone] at hret
    exact hret
  · intro ν lib mem req hq
    refine ⟨statics_after st (bytes "hello%20world"), ?_, ?_⟩
    · exact http_ui_get_param_ex_query lib st mem req (bytes "b") (bytes "hello%20world") h1 h2
        (by decide) (by rw [hq]; decide)
    · simp only [statics_after]
      rw [cstr_padTo 128 _ (cstr_no_nul _)]
      decide

/-- Witness for C13 (as amended): in `a=1&b=hello%20world` the key `b` has the
value `hello world`. -/
theorem http_ui_find_param_in_kv_value_witness :
    returned (http_ui_find_param_in_kv statics_zero (bytes "a=1&b=hello%20world") (bytes "b")) =
      some (urlDecode (bytes "hello%20world")) :=
  ((http_ui_find_param_in_kv_value statics_zero (bytes "a=1&b=hello%20world") (bytes "b")
    (by decide!) (by decide!) (by decide)).1 (bytes "hello%20world") (by decide)).2
    (by decide) (by decide)

/-- C13, counterexample: for the string `k=` followed by 128 bytes `a`, the
segment `k=value` has a value of 128 bytes, which is its own URL decoding, and
`http_ui_find_param_in_kv` returns 127 bytes `a`. -/
theorem http_ui_find_param_in_kv_cut :
    kvLookup (bytes "k=" ++ List.replicate 128 97) (bytes "k") = some (List.replicate 128 97) ∧
    urlDecode (List.replicate 128 97) = List.replicate 128 97 ∧
    returned (http_ui_find_param_in_kv statics_zero
      (bytes "k=" ++ List.replicate 128 97 ++ [0]) (bytes "k" ++ [0])) =
      some (List.replicate 127 97) := by
  decide!

/-- C17. For every data string `d`, every key and every segment `g` that
contains neither `=` nor `&` (nor NUL), looking the key up in `g&d` gives the
same result, and leaves the static arrays the same, as looking it up in `d`: the
segment `g` is skipped. -/
theorem http_ui_find_param_in_kv_skip (st : http_ui_statics) (g d key : List Nat)
    (h1 : st.param_value.length = 128) (h2 : st.decoded.length = 128)
    (hg : ∀ c ∈ g, c ≠ 61 ∧ c ≠ 38 ∧ c ≠ 0) :
    http_ui_find_param_in_kv st (g ++ 38 :: d) key = http_ui_find_param_in_kv st d key := by
  rw [http_ui_find_param_in_kv_spec st _ key h1 h2, http_ui_find_param_in_kv_spec st d key h1 h2]
  have hc : cstr (g ++ 38 :: d) = g ++ 38 :: cstr d := by
    rw [cstr_append g _ (fun c hc => (hg c hc).2.2)]
    congr 1
  have hl : kvLookup (g ++ 38 :: cstr d) (cstr key) = kvLookup (cstr d) (cstr key) := by
    rw [kvLookup_first g (cstr d) (cstr key) (fun h => (hg 38 h).2.1 rfl)]
    exact if_neg (fun h => (hg 61 h.1).1 rfl)
  rw [hc, hl]

/-- Witness for C17: the segment `junk` in front of `a=1&b=2`. -/
theorem http_ui_find_param_in_kv_skip_witness :
    http_ui_find_param_in_kv statics_zero (bytes "junk" ++ 38 :: bytes "a=1&b=2") (bytes "b") =
      http_ui_find_param_in_kv statics_zero (bytes "a=1&b=2") (bytes "b") :=
  http_ui_find_param_in_kv_skip statics_zero (bytes "junk") (bytes "a=1&b=2") (bytes "b")
    (by decide!) (by decide!) (by decide)

theorem getD_take_zero (r : List Nat) (n i : Nat) :
    (r.take n).getD i 0 = if i < n then r.getD i 0 else 0 := by
  simp only [List.getD_eq_getElem?_getD, List.getElem?_take]
  split_ifs <;> rfl

/-- The decoding of the first `n` bytes is a prefix of the decoding of the whole,
when neither of the last two of these bytes is `%` (no escape is cut). -/
theorem urlDecode_take_pre : ∀ (m : Nat) (raw : List Nat) (n : Nat), raw.length ≤ m →
    (∀ i, i < n → n ≤ i + 2 → raw.getD i 0 ≠ 37) →
    urlDecode (raw.take n) <+: urlDecode raw
  | _, [], n, _, _ => by simp
  | _, c :: r, 0, _, _ => by simp [urlDecode]
  | 0, c :: r, n + 1, hm, _ => by simp at hm
  | m + 1, c :: r, n + 1, hm, hcut => by
    have hm' : r.length ≤ m := by simpa using hm
    have ih1 : urlDecode (r.take n) <+: urlDecode r :=
      urlDecode_take_pre m r n hm' (fun i hi hn => by
        have := hcut (i + 1) (by omega) (by omega)
        simpa using this)
    rw [List.take_succ_cons, urlDecode_cons c r, urlDecode_cons c (r.take n)]
    by_cases h43 : c = 43
    · rw [if_pos h43, if_pos h43]
      exact List.cons_prefix_cons.mpr ⟨rfl, ih1⟩
    · rw [if_neg h43, if_neg h43]
      by_cases hE' : c = 37 ∧ isxdigit ((r.take n).getD 0 0) = true ∧
          isxdigit ((r.take n).getD 1 0) = true
      · obtain ⟨h37, x1, x2⟩ := hE'
        rw [getD_take_zero] at x1 x2
        have hn : 1 < n := by
          by_contra hlt
          rw [if_neg hlt] at x2
          simp [isxdigit_zero] at x2
        rw [if_pos (by omega)] at x1
        rw [if_pos hn] at x2
        have e0 : (r.take n).getD 0 0 = r.getD 0 0 := by
          rw [getD_take_zero, if_pos (by omega)]
        have e1 : (r.take n).getD 1 0 = r.getD 1 0 := by
          rw [getD_take_zero, if_pos hn]
        rw [if_pos ⟨h37, by rw [e0]; exact x1, by rw [e1]; exact x2⟩, if_pos ⟨h37, x1, x2⟩,
          e0, e1, List.drop_take]
        refine List.cons_prefix_cons.mpr ⟨rfl, ?_⟩
        exact urlDecode_take_pre m (r.drop 2) (n - 2)
          (by rw [List.length_drop]; omega) (fun i hi hn2 => by
            have := hcut (i + 3) (by omega) (by omega)
            simpa [List.getD_eq_getElem?_getD, List.getElem?_drop, Nat.add_comm] using this)
      · rw [if_neg hE']
        by_cases hE : c = 37 ∧ isxdigit (r.getD 0 0) = true ∧ isxdigit (r.getD 1 0) = true
        · exfalso
          obtain ⟨h37, x1, x2⟩ := hE
          by_cases hn : 1 < n
          · apply hE'
            refine ⟨h37, ?_, ?_⟩
            · rw [getD_take_zero, if_pos (by omega)]; exact x1
            · rw [getD_take_zero, if_pos hn]; exact x2
          · have := hcut 0 (by omega) (by omega)
            simp at this
            exact this h37
        · rw [if_neg hE]
          exact List.cons_prefix_cons.mpr ⟨rfl, ih1⟩

/-- C18 (as amended). However long the value `raw` of the matched segment is,
the stores of `http_ui_find_param_in_kv` stay inside the static arrays, and the
value returned has at most 127 bytes: it is the URL decoding of the first 127
bytes of `raw`, as a C string. It is a prefix of the complete URL-decoded value
when `raw` has at most 127 bytes or neither of the bytes 125 and 126 of `raw` is
`%`, that is, when the cut does not fall inside an escape. -/
theorem http_ui_find_param_in_kv_bounded (st : http_ui_statics) (data key raw : List Nat)
    (h1 : st.param_value.length = 128) (h2 : st.decoded.length = 128) (hk : cstr key ≠ [])
    (hraw : kvLookup (cstr data) (cstr key) = some raw) :
    ∃ st', http_ui_find_param_in_kv st data key = some (true, st') ∧
      st'.param_value.length = 128 ∧ st'.decoded.length = 128 ∧
      (cstr st'.param_value).length ≤ 127 ∧
      cstr st'.param_value = cstr (urlDecode (raw.take 127)) ∧
      ((raw.length ≤ 127 ∨ (raw.getD 125 0 ≠ 37 ∧ raw.getD 126 0 ≠ 37)) →
        cstr st'.param_value <+: urlDecode raw) := by
  have hspec := http_ui_find_param_in_kv_spec st data key h1 h2
  rw [if_neg hk, hraw] at hspec
  have hval : cstr (statics_after st raw).param_value = cstr (urlDecode (raw.take 127)) := by
    simp only [statics_after]
    rw [cstr_padTo 128 _ (cstr_no_nul _)]
  have hrl : (raw.take 127).length ≤ 127 := by simp [List.length_take]
  have hdl := urlDecode_length_le _ (raw.take 127) (le_refl _)
  have hcl := cstr_length_le (urlDecode (raw.take 127))
  refine ⟨statics_after st raw, hspec, (statics_after_length st raw h2).1,
    (statics_after_length st raw h2).2, by rw [hval]; omega, hval, ?_⟩
  intro hcut
  rw [hval]
  have hp1 : cstr (urlDecode (raw.take 127)) <+: urlDecode (raw.take 127) :=
    List.takeWhile_prefix _
  refine hp1.trans ?_
  rcases hcut with hle | ⟨c1, c2⟩
  · rw [List.take_of_length_le hle]
  · apply urlDecode_take_pre raw.length raw 127 (le_refl _)
    intro i hi hn
    have : i = 125 ∨ i = 126 := by omega
    rcases this with rfl | rfl
    · exact c1
    · exact c2

/-- Witness for C18 (as amended): a value of 200 bytes `a` is returned cut to 127
bytes, a prefix of the whole value. -/
theorem http_ui_find_param_in_kv_bounded_witness :
    ∃ st', http_ui_find_param_in_kv statics_zero (bytes "k=" ++ List.replicate 200 97)
        (bytes "k") = some (true, st') ∧
      st'.param_value.length = 128 ∧ st'.decoded.length = 128 ∧
      (cstr st'.param_value).length ≤ 127 ∧
      cstr st'.param_value = cstr (urlDecode ((List.replicate 200 97).take 127)) ∧
      (((List.replicate 200 97).length ≤ 127 ∨
          ((List.replicate 200 97).getD 125 0 ≠ 37 ∧ (List.replicate 200 97).getD 126 0 ≠ 37)) →
        cstr st'.param_value <+: urlDecode (List.replicate 200 97)) :=
  http_ui_find_param_in_kv_bounded statics_zero (bytes "k=" ++ List.replicate 200 97)
    (bytes "k") (List.replicate 200 97) (by decide!) (by decide!) (by decide) (by decide!)

/-- C18, counterexample: for the value of 126 bytes `a` followed by `%41`, whose
URL decoding is 126 bytes `a` and `A`, `http_ui_find_param_in_kv` returns 126
bytes `a` and `%`, which is not a prefix of the decoded value. -/
theorem http_ui_find_param_in_kv_cut_escape :
    kvLookup (bytes "k=" ++ List.replicate 126 97 ++ bytes "%41") (bytes "k") =
      some (List.replicate 126 97 ++ bytes "%41") ∧
    urlDecode (List.replicate 126 97 ++ bytes "%41") = List.replicate 126 97 ++ [65] ∧
    returned (http_ui_find_param_in_kv statics_zero
      (bytes "k=" ++ List.replicate 126 97 ++ bytes "%41" ++ [0]) (bytes "k" ++ [0])) =
      some (List.replicate 126 97 ++ [37]) ∧
    ¬ (List.replicate 126 97 ++ [37] <+: urlDecode (List.replicate 126 97 ++ bytes "%41")) := by
  decide!

/-! ## Round trip through the query string (C15) -/

theorem hexChar_spec (n : Nat) (h : n < 16) :
    isxdigit (hexChar n) = true ∧ hexVal (hexChar n) = n ∧ hexChar n ≠ 0 ∧ hexChar n ≠ 38 ∧
      hexChar n ≠ 61 := by
  unfold hexChar
  by_cases h10 : n < 10
  · rw [if_pos h10]
    refine ⟨by simp only [isxdigit, decide_eq_true_eq]; omega, ?_, by omega, by omega, by omega⟩
    unfold hexVal
    rw [if_pos (by omega)]
    omega
  · rw [if_neg h10]
    refine ⟨by simp only [isxdigit, decide_eq_true_eq]; omega, ?_, by omega, by omega, by omega⟩
    unfold hexVal
    rw [if_neg (by omega), if_neg (by omega)]
    omega

theorem unreserved_spec (c : Nat) (h : unreserved c = true) :
    c ≠ 0 ∧ c ≠ 38 ∧ c ≠ 61 ∧ c ≠ 43 ∧ c ≠ 37 := by
  simp only [unreserved, decide_eq_true_eq] at h
  omega

/-- Decoding undoes percent-encoding. -/
theorem urlDecode_pctEncode : ∀ v : List Nat, (∀ c ∈ v, c < 256) →
    urlDecode (pctEncode v) = v
  | [], _ => rfl
  | c :: r, hv => by
    have hc : c < 256 := hv c (List.mem_cons_self _ _)
    have ih := urlDecode_pctEncode r (fun x hx => hv x (List.mem_cons_of_mem _ hx))
    unfold pctEncode
    by_cases hu : unreserved c = true
    · obtain ⟨-, -, -, h43, h37⟩ := unreserved_spec c hu
      rw [if_pos hu, urlDecode_cons, if_neg h43, if_neg (fun h => h37 h.1), ih]
    · rw [if_neg hu]
      obtain ⟨x1, v1, -⟩ := hexChar_spec (c / 16) (by omega)
      obtain ⟨x2, v2, -⟩ := hexChar_spec (c % 16) (by omega)
      rw [urlDecode.eq_2, if_pos (by simp [x1, x2]), v1, v2, ih]
      congr 1
      omega

theorem pctEncode_chars : ∀ v : List Nat, (∀ c ∈ v, c ≠ 0 ∧ c < 256) →
    ∀ x ∈ pctEncode v, x ≠ 0 ∧ x ≠ 38 ∧ x ≠ 61
  | [], _ => by simp [pctEncode]
  | c :: r, hv => by
    have hc := hv c (List.mem_cons_self _ _)
    have ih := pctEncode_chars r (fun x hx => hv x (List.mem_cons_of_mem _ hx))
    intro x hx
    unfold pctEncode at hx
    by_cases hu : unreserved c = true
    · rw [if_pos hu] at hx
      obtain ⟨a, b, d, -, -⟩ := unreserved_spec c hu
      rcases List.mem_cons.mp hx with rfl | hx
      · exact ⟨a, b, d⟩
      · exact ih x hx
    · rw [if_neg hu] at hx
      obtain ⟨-, -, a1, b1, d1⟩ := hexChar_spec (c / 16) (by omega)
      obtain ⟨-, -, a2, b2, d2⟩ := hexChar_spec (c % 16) (by omega)
      simp only [List.mem_cons] at hx
      rcases hx with rfl | rfl | rfl | hx
      · decide
      · exact ⟨a1, b1, d1⟩
      · exact ⟨a2, b2, d2⟩
      · exact ih x hx

/-- Round trip on the field: when the field `query` holds `k=`, the
percent-encoding of `v` and a NUL, for a non-empty key `k` of unreserved
characters and a value `v` without NUL whose encoding has at most 127 bytes,
`http_ui_get_param(req, k)` returns `v`. -/
theorem http_ui_get_param_query_value {ν : Type} (lib : JsonLib ν) (st : http_ui_statics)
    (mem : List Nat) (req : http_srv_request_t) (k v krest qrest : List Nat)
    (h1 : st.param_value.length = 128) (h2 : st.decoded.length = 128)
    (hk : k ≠ []) (hku : ∀ c ∈ k, unreserved c = true)
    (hv : ∀ c ∈ v, c ≠ 0 ∧ c < 256) (henc : (pctEncode v).length ≤ 127)
    (hq : req.query = k ++ 61 :: pctEncode v ++ 0 :: qrest) (hkr : krest.headD 0 = 0) :
    returned (http_ui_get_param lib st mem req (k ++ krest)) = some v := by
  have hk0 : ∀ c ∈ k, c ≠ 0 := fun c hc => (unreserved_spec c (hku c hc)).1
  have hkey : cstr (k ++ krest) = k := cstr_append_nul k krest hk0 hkr
  have hencc := pctEncode_chars v hv
  have hqs : cstr req.query = k ++ 61 :: pctEncode v := by
    rw [hq]
    have e : k ++ 61 :: pctEncode v ++ 0 :: qrest = (k ++ 61 :: pctEncode v) ++ 0 :: qrest := by
      simp
    rw [e, cstr_append_zero, cstr_self]
    intro c hc
    simp only [List.mem_append, List.mem_cons] at hc
    rcases hc with hc | rfl | hc
    · exact hk0 c hc
    · decide
    · exact (hencc c hc).1
  have h38 : 38 ∉ k ++ 61 :: pctEncode v := by
    intro hc
    simp only [List.mem_append, List.mem_cons] at hc
    rcases hc with hc | hc | hc
    · exact (unreserved_spec 38 (hku 38 hc)).2.1 rfl
    · omega
    · exact (hencc 38 hc).2.1 rfl
  have h61 : 61 ∉ k := fun hc => (unreserved_spec 61 (hku 61 hc)).2.2.1 rfl
  obtain ⟨sk, sv⟩ := segKey_split k (pctEncode v) h61
  have hlook : kvLookup (cstr req.query) (cstr (k ++ krest)) = some (pctEncode v) := by
    rw [hqs, hkey, kvLookup_single _ k h38, sk, sv, if_pos ⟨by simp, rfl⟩]
  have hex := http_ui_get_param_ex_query lib st mem req (k ++ krest) (pctEncode v) h1 h2
    (by rw [hkey]; exact hk) hlook
  unfold http_ui_get_param
  rw [hex]
  simp only [Option.map_some', returned, statics_after]
  rw [cstr_padTo 128 _ (cstr_no_nul _), List.take_of_length_le henc,
    urlDecode_pctEncode v (fun c hc => (hv c hc).2), cstr_self v (fun c hc => (hv c hc).1)]

theorem uriQuery_append (p q : List Nat) (hp : 63 ∉ p) : uriQuery (p ++ 63 :: q) = q := by
  unfold uriQuery
  induction p with
  | nil => simp
  | cons c r ih =>
    have hc : c ≠ 63 := fun h => hp (by simp [h])
    have hr : 63 ∉ r := fun h => hp (List.mem_cons_of_mem _ h)
    simp only [List.cons_append]
    rw [List.dropWhile_cons_of_pos (by simpa using hc)]
    exact ih hr

/-- C15 (as amended). Round trip: for every non-empty key `k` of unreserved
characters and every value `v` without NUL such that `k=` followed by the
percent-encoding of `v` has at most 127 bytes (what the field `query` of the
request holds), when the URI of the request line is a path followed by `?`, `k=`
and the percent-encoding of `v`, `http_parse_request_line` stores `k=` and the
encoding in `query` uncut, and `http_ui_get_param(req, k)` on the request it
leaves returns exactly `v`. -/
theorem http_ui_get_param_roundtrip {ν : Type} (lib : JsonLib ν) (st : http_ui_statics)
    (mem line : List Nat) (req : http_srv_request_t) (m p k v ver krest : List Nat)
    (ts : List (List Nat))
    (h1 : st.param_value.length = 128) (h2 : st.decoded.length = 128)
    (r1 : req.method.length = 8) (r2 : req.path.length = 128) (r3 : req.query.length = 128)
    (hk : k ≠ []) (hku : ∀ c ∈ k, unreserved c = true)
    (hv : ∀ c ∈ v, c ≠ 0 ∧ c < 256)
    (hfit : k.length + 1 + (pctEncode v).length ≤ 127)
    (hp : 63 ∉ p)
    (hT : tokens (cstr line) = m :: (p ++ 63 :: (k ++ 61 :: pctEncode v)) :: ver :: ts)
    (hkr : krest.headD 0 = 0) :
    ∃ s line' req', http_parse_request_line line req = some (s, line', req') ∧
      req'.query.length = 128 ∧ cstr req'.query = k ++ 61 :: pctEncode v ∧
      returned (http_ui_get_param lib st mem req' (k ++ krest)) = some v := by
  obtain ⟨s3, -⟩ := http_parse_request_line_spec line req r1 r2 r3
  obtain ⟨L', _, _, hu, _, hpr⟩ := s3 m _ ver ts hT
  obtain ⟨_, _, fq⟩ := parsed_line_fields req m (p ++ 63 :: (k ++ 61 :: pctEncode v)) ver
  have h63 : 63 ∈ p ++ 63 :: (k ++ 61 :: pctEncode v) := by simp
  have hlen : (k ++ 61 :: pctEncode v).length ≤ 127 := by
    simp only [List.length_append, List.length_cons]; omega
  rw [if_pos h63, uriQuery_append p _ hp, List.take_of_length_le hlen] at fq
  have hk0 : ∀ c ∈ k, c ≠ 0 := fun c hc => (unreserved_spec c (hku c hc)).1
  have hencc := pctEncode_chars v hv
  have hq0 : ∀ c ∈ k ++ 61 :: pctEncode v, c ≠ 0 := by
    intro c hc
    simp only [List.mem_append, List.mem_cons] at hc
    rcases hc with hc | rfl | hc
    · exact hk0 c hc
    · decide
    · exact (hencc c hc).1
  have hpad : padTo 128 (k ++ 61 :: pctEncode v) =
      k ++ 61 :: pctEncode v ++ 0 :: List.replicate (127 - (k ++ 61 :: pctEncode v).length) 0 := by
    unfold padTo
    rw [show 128 - (k ++ 61 :: pctEncode v).length =
      (127 - (k ++ 61 :: pctEncode v).length) + 1 by omega, List.replicate_succ]
  refine ⟨_, _, _, hpr, ?_, ?_, ?_⟩
  · rw [fq, length_padTo _ _ (by omega)]
  · rw [fq, cstr_padTo _ _ hq0]
  · exact http_ui_get_param_query_value lib st mem _ k v krest _ h1 h2 hk hku hv
      (by omega) (by rw [fq, hpad]) hkr

/-- Witness for C15 (as amended): the value `a b&c=d` under the key `k`, in the
request line `GET /p?k=a%20b%26c%3Dd HTTP/1.1`. -/
theorem http_ui_get_param_roundtrip_witness :
    ∃ s line' req', http_parse_request_line (bytes "GET /p?k=a%20b%26c%3Dd HTTP/1.1") req_zero =
        some (s, line', req') ∧
      req'.query.length = 128 ∧ cstr req'.query = bytes "k" ++ 61 :: pctEncode (bytes "a b&c=d") ∧
      returned (http_ui_get_param json_none statics_zero [] req' (bytes "k" ++ [0])) =
        some (bytes "a b&c=d") :=
  http_ui_get_param_roundtrip json_none statics_zero [] (bytes "GET /p?k=a%20b%26c%3Dd HTTP/1.1")
    req_zero (bytes "GET") (bytes "/p") (bytes "k") (bytes "a b&c=d") (bytes "HTTP/1.1") [0] []
    (by decide!) (by decide!) (by decide!) (by decide!) (by decide!) (by decide) (by decide)
    (by decide) (by decide) (by decide) (by decide!) (by decide)

/-- C15, counterexample: the key `k` and the value of 126 bytes `a`, which is its
own percent-encoding, of 126 bytes. Of the query string `k=aa...a` of the
request line `GET /p?k=aa...a HTTP/1.1`, `http_parse_request_line` stores the
first 127 bytes in the field `query`, and `http_ui_get_param(req, k)` returns
125 bytes `a`. With the empty key, for the value `a` placed in the query string
as `=a`, `http_ui_get_param` returns `NULL`. -/
theorem http_ui_get_param_roundtrip_limits :
    pctEncode (List.replicate 126 97) = List.replicate 126 97 ∧
    (∀ c ∈ bytes "k", unreserved c = true) ∧
    ((http_parse_request_line
        (bytes "GET /p?k=" ++ List.replicate 126 97 ++ bytes " HTTP/1.1") req_zero).map
        fun r => (r.1, cstr r.2.2.query,
          returned (http_ui_get_param json_none statics_zero [] r.2.2 (bytes "k" ++ [0])))) =
      some (HttpStatus.HTTP_OK, bytes "k=" ++ List.replicate 125 97,
        some (List.replicate 125 97)) ∧
    pctEncode (bytes "a") = bytes "a" ∧
    ((http_parse_request_line (bytes "GET /p?=a HTTP/1.1") req_zero).map
        fun r => (r.1, cstr r.2.2.query,
          returned (http_ui_get_param json_none statics_zero [] r.2.2 [0]))) =
      some (HttpStatus.HTTP_OK, bytes "=a", none) := by
  decide!

/-! ## Order of the sources (C16) -/

theorem mime_json_not_form (ct : List Nat)
    (h : strncasecmp ct mime_json mime_json.length = 0) :
    ¬ strncasecmp ct mime_form mime_form.length = 0 := by
  intro hf
  have hj := (strncasecmp_eq_zero mime_json (by decide) ct).mp h
  have hf' := (strncasecmp_eq_zero mime_form (by decide) ct).mp hf
  have e : ((ct.take mime_form.length).map tolower).take 16 = (ct.take 16).map tolower := by
    rw [← List.map_take, List.take_take]
    rfl
  rw [hf'] at e
  have hj' : (ct.take 16).map tolower = mime_json.map tolower := hj
  rw [hj'] at e
  revert e
  decide

/-- C16 (as amended). For a non-empty key, `http_ui_get_param_ex` checks the
query string, then the urlencoded form body, then the JSON body, and reports the
first source that holds the key: a key that the query string holds is returned
from the query with source `QUERY`, whatever the body; a key that the query
string does not hold and that a non-empty `application/x-www-form-urlencoded`
body holds is returned from the body with source `FORM`; a key that only a JSON
body gives is returned with source `JSON`; and the result is `NULL` exactly when
the reported source is `NONE`. -/
theorem http_ui_get_param_ex_order {ν : Type} (lib : JsonLib ν) (st : http_ui_statics)
    (mem : List Nat) (req : http_srv_request_t) (key : List Nat)
    (h1 : st.param_value.length = 128) (h2 : st.decoded.length = 128) (hk : cstr key ≠ []) :
    (∀ raw, kvLookup (cstr req.query) (cstr key) = some raw →
      http_ui_get_param_ex lib st mem req key =
        some (true, http_ui_param_source_t.HTTP_UI_PARAM_QUERY, statics_after st raw)) ∧
    (∀ ct b raw, kvLookup (cstr req.query) (cstr key) = none →
      http_ui_get_content_type mem req 64 = some ct →
      strncasecmp ct mime_form mime_form.length = 0 →
      req.body = some b → 0 < req.body_len →
      kvLookup (cstr ((mem.drop b).take (min req.body_len 1399))) (cstr key) = some raw →
      http_ui_get_param_ex lib st mem req key =
        some (true, http_ui_param_source_t.HTTP_UI_PARAM_FORM, statics_after st raw)) ∧
    (∀ ct stj, kvLookup (cstr req.query) (cstr key) = none →
      http_ui_get_content_type mem req 64 = some ct →
      strncasecmp ct mime_json mime_json.length = 0 →
      http_ui_get_json_field lib st mem req key = some (true, stj) →
      http_ui_get_param_ex lib st mem req key =
        some (true, http_ui_param_source_t.HTTP_UI_PARAM_JSON, stj)) ∧
    (∀ found src st', http_ui_get_param_ex lib st mem req key = some (found, src, st') →
      (found = false ↔ src = http_ui_param_source_t.HTTP_UI_PARAM_NONE)) := by
  have hk0 : ¬ key.headD 0 = 0 := fun h => hk ((cstr_eq_nil_iff key).mpr h)
  /- the query step, when the query does not hold the key -/
  have hqnone : kvLookup (cstr req.query) (cstr key) = none →
      (if req.query.headD 0 ≠ 0 then http_ui_find_param_in_kv st req.query key
        else some (false, st)) = some (false, st) := by
    intro hq
    by_cases hq0 : req.query.headD 0 ≠ 0
    · rw [if_pos hq0, http_ui_find_param_in_kv_spec st req.query key h1 h2, if_neg hk, hq]
    · rw [if_neg hq0]
  refine ⟨?_, ?_, ?_, ?_⟩
  · intro raw hq
    exact http_ui_get_param_ex_query lib st mem req key raw h1 h2 hk hq
  · intro ct b raw hq hct hform hb hlen hbody
    have hcopy : (if req.body_len ≥ HTTP_SRV_RX_BUFFER_SIZE then HTTP_SRV_RX_BUFFER_SIZE - 1
        else req.body_len) = min req.body_len 1399 := by
      unfold HTTP_SRV_RX_BUFFER_SIZE
      split_ifs <;> omega
    have hc : cstr ((mem.drop b).take (min req.body_len 1399) ++ [0]) =
        cstr ((mem.drop b).take (min req.body_len 1399)) := cstr_append_zero _ []
    have hstep : http_ui_get_param_form st mem req key (some ct) =
        some (true, statics_after st raw) := by
      unfold http_ui_get_param_form
      simp only [hb, hform, hlen, gt_iff_lt, and_self, if_true, hcopy]
      rw [http_ui_find_param_in_kv_spec st _ key h1 h2, if_neg hk, hc, hbody]
    unfold http_ui_get_param_ex
    rw [if_neg hk0, hqnone hq]
    simp only [Option.some_bind, Bool.false_eq_true, if_false, hct, hstep, if_true]
  · intro ct stj hq hct hjson hj
    have hnf := mime_json_not_form ct hjson
    have hformstep : http_ui_get_param_form st mem req key (some ct) = some (false, st) := by
      unfold http_ui_get_param_form
      cases req.body with
      | none => rfl
      | some b => simp only [hnf, false_and, if_false]
    have hjstep : http_ui_get_param_json lib st mem req key (some ct) = some (true, stj) := by
      unfold http_ui_get_param_json
      simp only [hjson, if_true, hj]
    unfold http_ui_get_param_ex
    rw [if_neg hk0, hqnone hq]
    simp only [Option.some_bind, Bool.false_eq_true, if_false, hct, hformstep, hjstep, if_true]
  · intro found src st' h
    unfold http_ui_get_param_ex at h
    rw [if_neg hk0] at h
    cases hq : (if req.query.headD 0 ≠ 0 then http_ui_find_param_in_kv st req.query key
        else some (false, st)) with
    | none => rw [hq] at h; cases h
    | some q =>
      rw [hq] at h
      simp only [Option.some_bind] at h
      by_cases hq1 : q.1 = true
      · rw [if_pos hq1] at h
        simp only [Option.some.injEq, Prod.mk.injEq] at h
        obtain ⟨rfl, rfl, -⟩ := h
        simp
      · rw [if_neg hq1] at h
        cases hf : http_ui_get_param_form q.2 mem req key
            (http_ui_get_content_type mem req 64) with
        | none => rw [hf] at h; cases h
        | some f =>
          rw [hf] at h
          simp only [Option.some_bind] at h
          by_cases hf1 : f.1 = true
          · rw [if_pos hf1] at h
            simp only [Option.some.injEq, Prod.mk.injEq] at h
            obtain ⟨rfl, rfl, -⟩ := h
            simp
          · rw [if_neg hf1] at h
            cases hj : http_ui_get_param_json lib f.2 mem req key
                (http_ui_get_content_type mem req 64) with
            | none => rw [hj] at h; cases h
            | some j =>
              rw [hj] at h
              simp only [Option.some_bind] at h
              by_cases hj1 : j.1 = true
              · rw [if_pos hj1] at h
                simp only [Option.some.injEq, Prod.mk.injEq] at h
                obtain ⟨rfl, rfl, -⟩ := h
                simp
              · rw [if_neg hj1] at h
                simp only [Option.some.injEq, Prod.mk.injEq] at h
                obtain ⟨rfl, rfl, -⟩ := h
                simp

/-- Witness for C16 (as amended): in the request `POST /s?x=1` with the form body
`x=2&y=3`, the key `x` is returned from the query as `1`, and the key `y` from
the body as `3`. -/
theorem http_ui_get_param_ex_order_witness :
    http_ui_get_param_ex json_none statics_zero (recvOf script_form).2.1.rxbuf
        (recvOf script_form).2.2 (bytes "x") =
      some (true, http_ui_param_source_t.HTTP_UI_PARAM_QUERY,
        statics_after statics_zero (bytes "1")) ∧
    http_ui_get_param_ex json_none statics_zero (recvOf script_form).2.1.rxbuf
        (recvOf script_form).2.2 (bytes "y") =
      some (true, http_ui_param_source_t.HTTP_UI_PARAM_FORM,
        statics_after statics_zero (bytes "3")) :=
  ⟨(http_ui_get_param_ex_order json_none statics_zero (recvOf script_form).2.1.rxbuf
      (recvOf script_form).2.2 (bytes "x") (by decide!) (by decide!) (by decide)).1
      (bytes "1") (by decide!),
   (http_ui_get_param_ex_order json_none statics_zero (recvOf script_form).2.1.rxbuf
      (recvOf script_form).2.2 (bytes "y") (by decide!) (by decide!) (by decide)).2.1
      (bytes "application/x-www-form-urlencoded" ++ [0]) 73 (bytes "3")
      (by decide!) (by decide!) (by decide!) (by decide!) (by decide!) (by decide!)⟩

/-- C16, counterexample: with the empty key, for a query string `=1` (a segment
with the empty key) `http_ui_get_param_ex` does not check the query: it returns
`NULL` with source `NONE`. -/
theorem http_ui_get_param_ex_empty_key :
    kvLookup (bytes "=1") [] = some (bytes "1") ∧
    (http_ui_get_param_ex json_none statics_zero []
      { req_zero with query := padTo 128 (bytes "=1") } [0]).map (fun r => (r.1, r.2.1)) =
      some (false, http_ui_param_source_t.HTTP_UI_PARAM_NONE) := by
  decide!

/-! ## JSON fields (C19) -/

theorem find_first {α : Type} (p : α → Bool) (pre : List α) (x : α) (post : List α)
    (hpre : ∀ y ∈ pre, p y = false) (hx : p x = true) :
    (pre ++ x :: post).find? p = some x := by
  induction pre with
  | nil => simp [hx]
  | cons a pre ih =>
    have ha := hpre a (by simp)
    simp only [List.cons_append, List.find?_cons, ha]
    exact ih (fun y hy => hpre y (by simp [hy]))

theorem take_cstr_le (vs : List Nat) (n : Nat) (h : n ≤ (cstr vs).length) :
    vs.take n = (cstr vs).take n := by
  conv_lhs => rw [cstr_split vs]
  rw [List.take_append_of_le_length h]

theorem strncpy_full (dst src : List Nat) (n : Nat) (h : dst.length = n) :
    strncpy dst src n = some (padTo n ((cstr src).take n)) := by
  have hl : ((cstr src).take n ++ List.replicate (n - ((cstr src).take n).length) 0).length = n := by
    have : ((cstr src).take n).length ≤ n := by simp [List.length_take]
    simp only [List.length_append, List.length_replicate]
    omega
  unfold strncpy writeAt
  rw [if_pos (by rw [hl, h]; omega)]
  simp only [List.take_zero, List.nil_append, Nat.zero_add, hl]
  rw [List.drop_of_length_le (by omega), List.append_nil]
  rfl

theorem cstr_store_padTo (s : List Nat) (hl : s.length ≤ 127) (hs : ∀ c ∈ s, c ≠ 0) :
    (storeAt (padTo 128 s) 127 0).map cstr = some s := by
  rw [storeAt_eq _ _ _ (by rw [length_padTo 128 s (by omega)]; omega)]
  simp only [Option.map_some', Option.some.injEq]
  rw [List.append_assoc, List.singleton_append, cstr_append_zero]
  unfold padTo
  rw [List.take_append_eq_append_take, List.take_of_length_le (by omega)]
  apply cstr_append_nul s _ hs
  cases hr : List.take (127 - s.length) (List.replicate (128 - s.length) 0) with
  | nil => rfl
  | cons a r =>
    have : a ∈ List.take (127 - s.length) (List.replicate (128 - s.length) 0) := by
      rw [hr]; exact List.mem_cons_self _ _
    have := List.eq_of_mem_replicate (List.mem_of_mem_take this)
    simp [this]

/-- What the branches of `http_ui_get_json_field` leave in `param_value`. -/
theorem json_field_store {ν : Type} (lib : JsonLib ν) (st : http_ui_statics)
    (h1 : st.param_value.length = 128) :
    (∀ vs : List Nat,
      ((writeAt st.param_value 0 (vs.take (if strlen vs ≥ 128 then 128 - 1 else strlen vs))).bind
        fun pv1 => (storeAt pv1 (if strlen vs ≥ 128 then 128 - 1 else strlen vs) 0).bind
          fun pv2 => some (true, { st with param_value := pv2 })).map
        (fun r => (r.1, cstr r.2.param_value)) = some (true, (cstr vs).take 127)) ∧
    (∀ d : ν,
      ((writeAt st.param_value 0 ((lib.format_g d).take (128 - 1) ++ [0])).bind
        fun pv1 => some (true, { st with param_value := pv1 })).map
        (fun r => (r.1, cstr r.2.param_value)) =
          some (true, cstr ((lib.format_g d).take 127))) ∧
    (∀ v : Bool,
      ((strncpy st.param_value
          (if v then [116, 114, 117, 101, 0] else [102, 97, 108, 115, 101, 0]) 128).bind
        fun pv1 => (storeAt pv1 (128 - 1) 0).bind
          fun pv2 => some (true, { st with param_value := pv2 })).map
        (fun r => (r.1, cstr r.2.param_value)) =
          some (true, if v then bytes "true" else bytes "false")) := by
  refine ⟨?_, ?_, ?_⟩
  · intro vs
    have hlen : (if strlen vs ≥ 128 then 128 - 1 else strlen vs) = min (cstr vs).length 127 := by
      unfold strlen
      split_ifs <;> omega
    have htk : vs.take (min (cstr vs).length 127) = (cstr vs).take 127 := by
      rw [take_cstr_le vs _ (by omega), take_min_length]
    have hl : ((cstr vs).take 127).length = min (cstr vs).length 127 := by
      rw [List.length_take]; omega
    rw [hlen, htk]
    have hw : writeAt st.param_value 0 ((cstr vs).take 127) =
        some (st.param_value.take 0 ++ (cstr vs).take 127 ++
          st.param_value.drop (0 + ((cstr vs).take 127).length)) := by
      unfold writeAt
      rw [if_pos (by omega)]
    obtain ⟨l1, l2, l3⟩ := writeAt_take_drop st.param_value 0 ((cstr vs).take 127) (by omega) 1
    rw [hw]
    simp only [Option.some_bind]
    rw [← hl, storeAt_eq _ _ _ (by rw [l1]; omega)]
    simp only [Option.some_bind, Option.map_some', Option.some.injEq, Prod.mk.injEq, true_and]
    simp only [Nat.zero_add, List.take_zero, List.nil_append] at l2 ⊢
    rw [l2, List.append_assoc, List.singleton_append, cstr_append_zero, cstr_self]
    intro c hc
    exact cstr_no_nul vs c (List.mem_of_mem_take hc)
  · intro d
    have hl : ((lib.format_g d).take (128 - 1) ++ [0]).length ≤ 128 := by
      simp only [List.length_append, List.length_take, List.length_singleton]; omega
    unfold writeAt
    rw [if_pos (by omega)]
    simp only [Option.some_bind, Option.map_some', List.take_zero, List.nil_append,
      Option.some.injEq, Prod.mk.injEq, true_and]
    rw [List.append_assoc, List.singleton_append, cstr_append_zero]
  · intro v
    rw [strncpy_full st.param_value _ 128 h1]
    simp only [Option.some_bind]
    have hcs : (cstr (if v = true then [116, 114, 117, 101, 0] else [102, 97, 108, 115, 101, 0])).take
        128 = (if v = true then bytes "true" else bytes "false") := by
      cases v <;> decide
    rw [hcs]
    have hs := cstr_store_padTo (if v = true then bytes "true" else bytes "false")
      (by cases v <;> decide) (by cases v <;> decide)
    cases hst : storeAt (padTo 128 (if v = true then bytes "true" else bytes "false")) 127 0 with
    | none => rw [hst] at hs; cases hs
    | some pv2 =>
      rw [hst] at hs
      simp only [Option.map_some', Option.some.injEq] at hs
      simp only [Option.some_bind, Option.map_some', hs]
/-- The JSON step of `http_ui_get_param_ex`: a key that neither the query string
nor a form body gives and that `http_ui_get_json_field` finds is reported with
source `JSON`. -/
theorem http_ui_get_param_ex_json {ν : Type} (lib : JsonLib ν) (st : http_ui_statics)
    (mem : List Nat) (req : http_srv_request_t) (key ct : List Nat) (stj : http_ui_statics)
    (h1 : st.param_value.length = 128) (h2 : st.decoded.length = 128) (hk : cstr key ≠ [])
    (hq : kvLookup (cstr req.query) (cstr key) = none)
    (hct : http_ui_get_content_type mem req 64 = some ct)
    (hjson : strncasecmp ct mime_json mime_json.length = 0)
    (hj : http_ui_get_json_field lib st mem req key = some (true, stj)) :
    http_ui_get_param_ex lib st mem req key =
      some (true, http_ui_param_source_t.HTTP_UI_PARAM_JSON, stj) := by
  have hk0 : ¬ key.headD 0 = 0 := fun h => hk ((cstr_eq_nil_iff key).mpr h)
  have hqnone : (if req.query.headD 0 ≠ 0 then http_ui_find_param_in_kv st req.query key
        else some (false, st)) = some (false, st) := by
    by_cases hq0 : req.query.headD 0 ≠ 0
    · rw [if_pos hq0, http_ui_find_param_in_kv_spec st req.query key h1 h2, if_neg hk, hq]
    · rw [if_neg hq0]
  have hnf := mime_json_not_form ct hjson
  have hformstep : http_ui_get_param_form st mem req key (some ct) = some (false, st) := by
    unfold http_ui_get_param_form
    cases req.body with
    | none => rfl
    | some b => simp only [hnf, false_and, if_false]
  have hjstep : http_ui_get_param_json lib st mem req key (some ct) = some (true, stj) := by
    unfold http_ui_get_param_json
    simp only [hjson, if_true, hj]
  unfold http_ui_get_param_ex
  rw [if_neg hk0, hqnone]
  simp only [Option.some_bind, Bool.false_eq_true, if_false, hct, hformstep, hjstep, if_true]

/-- What `http_ui_get_json_field` returns for a key whose first field in the
object is `item`. -/
theorem http_ui_get_json_field_found {ν : Type} (lib : JsonLib ν) (st : http_ui_statics)
    (mem : List Nat) (req : http_srv_request_t) (key ct : List Nat) (b : Nat)
    (pre post : List (List Nat × cJSON ν)) (name : List Nat) (item : cJSON ν)
    (h1 : st.param_value.length = 128) (hb : req.body = some b)
    (hct : http_ui_get_content_type mem req 64 = some ct)
    (hjson : strncasecmp ct mime_json mime_json.length = 0)
    (hparse : lib.cJSON_ParseWithLength ((mem.drop b).take req.body_len) =
      some (cJSON.object (pre ++ (name, item) :: post)))
    (hpre : ∀ f ∈ pre, cstr f.1 ≠ cstr key) (hname : cstr name = cstr key) :
    (http_ui_get_json_field lib st mem req key).map (fun r => (r.1, cstr r.2.param_value)) =
      match json_field_text lib item with
      | some v => some (true, v)
      | none => some (false, cstr st.param_value) := by
  have hfind : cJSON_GetObjectItemCaseSensitive (cJSON.object (pre ++ (name, item) :: post)) key =
      some item := by
    unfold cJSON_GetObjectItemCaseSensitive
    simp only
    rw [find_first _ pre (name, item) post (by intro y hy; simpa using hpre y hy)
      (by simpa using hname)]
    rfl
  obtain ⟨s1, s2, s3⟩ := json_field_store lib st h1
  unfold http_ui_get_json_field
  simp only [hb, hct, hjson, ne_eq, not_true_eq_false, if_false, hparse, hfind]
  cases item with
  | null => rfl
  | bool v => simp only [json_field_text]; exact s3 v
  | number d => simp only [json_field_text]; exact s2 d
  | string vs => simp only [json_field_text]; exact s1 vs
  | array ch => rfl
  | object ch => rfl

theorem map_pair_some (x : Option (Bool × http_ui_statics)) (v : List Nat)
    (h : x.map (fun r => (r.1, cstr r.2.param_value)) = some (true, v)) :
    ∃ stj, x = some (true, stj) ∧ cstr stj.param_value = v := by
  cases x with
  | none => cases h
  | some r =>
    obtain ⟨f, stj⟩ := r
    simp only [Option.map_some', Option.some.injEq, Prod.mk.injEq] at h
    exact ⟨stj, by rw [h.1], h.2⟩

/-- C19. For a request whose `Content-Type` begins with `application/json` and
whose body the JSON library parses to an object with the fields `fields`:
`http_ui_get_json_field(req, key)` returns `NULL` when no field has exactly the
name `key`; otherwise, for the first field with that name, it returns a string
value verbatim, cut to 127 bytes, a number in the text the conversion `%g` gives
it, a boolean as `true` or `false`, and `NULL` for a value of another type; and
`http_ui_get_param_ex` reports such a value with source `JSON` when the key is
not empty and the query string does not hold it. In particular, when the object
is that of the body `{"ssid":"Home","ch":6,"on":true}` and `%g` writes the
number of `ch` as `6`, the key `ch` gives `6`, `on` gives `true` and `ssid` gives
`Home`. -/
theorem http_ui_get_json_field_spec {ν : Type} (lib : JsonLib ν) (st : http_ui_statics)
    (mem : List Nat) (req : http_srv_request_t) (ct : List Nat) (b : Nat)
    (fields : List (List Nat × cJSON ν))
    (h1 : st.param_value.length = 128) (h2 : st.decoded.length = 128)
    (hb : req.body = some b)
    (hct : http_ui_get_content_type mem req 64 = some ct)
    (hjson : strncasecmp ct mime_json mime_json.length = 0)
    (hparse : lib.cJSON_ParseWithLength ((mem.drop b).take req.body_len) =
      some (cJSON.object fields)) :
    (∀ key, (∀ f ∈ fields, cstr f.1 ≠ cstr key) →
      returned (http_ui_get_json_field lib st mem req key) = none) ∧
    (∀ key pre name item post, fields = pre ++ (name, item) :: post →
      (∀ f ∈ pre, cstr f.1 ≠ cstr key) → cstr name = cstr key →
      returned (http_ui_get_json_field lib st mem req key) = json_field_text lib item ∧
      (∀ v, json_field_text lib item = some v → cstr key ≠ [] →
        kvLookup (cstr req.query) (cstr key) = none →
        ∃ st', http_ui_get_param_ex lib st mem req key =
            some (true, http_ui_param_source_t.HTTP_UI_PARAM_JSON, st') ∧
          cstr st'.param_value = v)) ∧
    (∀ six, fields = [(bytes "ssid", cJSON.string (bytes "Home")),
        (bytes "ch", cJSON.number six), (bytes "on", cJSON.bool true)] →
      lib.format_g six = bytes "6" →
      returned (http_ui_get_json_field lib st mem req (bytes "ch")) = some (bytes "6") ∧
      returned (http_ui_get_json_field lib st mem req (bytes "on")) = some (bytes "true") ∧
      returned (http_ui_get_json_field lib st mem req (bytes "ssid")) = some (bytes "Home")) := by
  have hfound : ∀ key pre name item post, fields = pre ++ (name, item) :: post →
      (∀ f ∈ pre, cstr f.1 ≠ cstr key) → cstr name = cstr key →
      returned (http_ui_get_json_field lib st mem req key) = json_field_text lib item := by
    intro key pre name item post hf hpre hname
    have hm := http_ui_get_json_field_found lib st mem req key ct b pre post name item h1 hb hct
      hjson (by rw [← hf]; exact hparse) hpre hname
    cases hj : http_ui_get_json_field lib st mem req key with
    | none => rw [hj] at hm; cases hjt : json_field_text lib item <;> rw [hjt] at hm <;> cases hm
    | some r =>
      obtain ⟨f, stj⟩ := r
      rw [hj] at hm
      cases hjt : json_field_text lib item with
      | none =>
        rw [hjt] at hm
        simp only [Option.map_some', Option.some.injEq, Prod.mk.injEq] at hm
        obtain ⟨rfl, -⟩ := hm
        rfl
      | some v =>
        rw [hjt] at hm
        simp only [Option.map_some', Option.some.injEq, Prod.mk.injEq] at hm
        obtain ⟨rfl, hv⟩ := hm
        simp only [returned, hv]
  refine ⟨?_, ?_, ?_⟩
  · intro key hnone
    have hfind : cJSON_GetObjectItemCaseSensitive (cJSON.object fields) key = none := by
      unfold cJSON_GetObjectItemCaseSensitive
      simp only [Option.map_eq_none', List.find?_eq_none, decide_eq_true_eq]
      exact hnone
    unfold http_ui_get_json_field
    simp only [hb, hct, hjson, ne_eq, not_true_eq_false, if_false, hparse, hfind]
    rfl
  · intro key pre name item post hf hpre hname
    refine ⟨hfound key pre name item post hf hpre hname, ?_⟩
    intro v hv hk hq
    have hm := http_ui_get_json_field_found lib st mem req key ct b pre post name item h1 hb hct
      hjson (by rw [← hf]; exact hparse) hpre hname
    rw [hv] at hm
    obtain ⟨stj, hj, hval⟩ := map_pair_some _ v hm
    exact ⟨stj, http_ui_get_param_ex_json lib st mem req key ct stj h1 h2 hk hq hct hjson hj,
      hval⟩
  · intro six hf hg
    refine ⟨?_, ?_, ?_⟩
    · rw [hfound (bytes "ch") [(bytes "ssid", cJSON.string (bytes "Home"))] (bytes "ch")
        (cJSON.number six) [(bytes "on", cJSON.bool true)] hf
        (by
          intro f hf
          simp only [List.mem_singleton] at hf
          subst hf
          show cstr (bytes "ssid") ≠ cstr (bytes "ch")
          decide) rfl]
      simp only [json_field_text, hg]
      decide
    · rw [hfound (bytes "on") [(bytes "ssid", cJSON.string (bytes "Home")),
        (bytes "ch", cJSON.number six)] (bytes "on") (cJSON.bool true) [] hf
        (by
          intro f hf
          simp only [List.mem_cons, List.mem_singleton, List.not_mem_nil, or_false] at hf
          rcases hf with rfl | rfl
          · show cstr (bytes "ssid") ≠ cstr (bytes "on")
            decide
          · show cstr (bytes "ch") ≠ cstr (bytes "on")
            decide) rfl]
      rfl
    · rw [hfound (bytes "ssid") [] (bytes "ssid") (cJSON.string (bytes "Home"))
        [(bytes "ch", cJSON.number six), (bytes "on", cJSON.bool true)] hf (by simp) rfl]
      simp only [json_field_text]
      decide

theorem script_json_parse :
    json_sample.cJSON_ParseWithLength
      (((recvOf script_json).2.1.rxbuf.drop 54).take (recvOf script_json).2.2.body_len) =
      some (cJSON.object [(bytes "ssid", cJSON.string (bytes "Home")),
        (bytes "ch", cJSON.number 6), (bytes "on", cJSON.bool true)]) := by
  have h : ((recvOf script_json).2.1.rxbuf.drop 54).take (recvOf script_json).2.2.body_len =
      json_text := by decide!
  simp only [json_sample]
  rw [if_pos h]
  rfl

/-- Witness for C19: the request with the body `{"ssid":"Home","ch":6,"on":true}`
and a library that parses it: `ch` gives `6`, `on` gives `true`, `ssid` gives
`Home`, and `http_ui_get_param_ex` reports `ch` with source `JSON`. -/
theorem http_ui_get_json_field_spec_witness :
    (returned (http_ui_get_json_field json_sample statics_zero (recvOf script_json).2.1.rxbuf
        (recvOf script_json).2.2 (bytes "ch")) = some (bytes "6") ∧
      returned (http_ui_get_json_field json_sample statics_zero (recvOf script_json).2.1.rxbuf
        (recvOf script_json).2.2 (bytes "on")) = some (bytes "true") ∧
      returned (http_ui_get_json_field json_sample statics_zero (recvOf script_json).2.1.rxbuf
        (recvOf script_json).2.2 (bytes "ssid")) = some (bytes "Home")) ∧
    (∃ st', http_ui_get_param_ex json_sample statics_zero (recvOf script_json).2.1.rxbuf
        (recvOf script_json).2.2 (bytes "ch") =
          some (true, http_ui_param_source_t.HTTP_UI_PARAM_JSON, st') ∧
        cstr st'.param_value = bytes "6") :=
  ⟨(http_ui_get_json_field_spec json_sample statics_zero (recvOf script_json).2.1.rxbuf
      (recvOf script_json).2.2 (bytes "application/json" ++ [0]) 54
      [(bytes "ssid", cJSON.string (bytes "Home")), (bytes "ch", cJSON.number 6),
        (bytes "on", cJSON.bool true)]
      (by decide!) (by decide!) (by decide!) (by decide!) (by decide!) script_json_parse).2.2 6
      rfl (by decide),
   ((http_ui_get_json_field_spec json_sample statics_zero (recvOf script_json).2.1.rxbuf
      (recvOf script_json).2.2 (bytes "application/json" ++ [0]) 54
      [(bytes "ssid", cJSON.string (bytes "Home")), (bytes "ch", cJSON.number 6),
        (bytes "on", cJSON.bool true)]
      (by decide!) (by decide!) (by decide!) (by decide!) (by decide!) script_json_parse).2.1
      (bytes "ch") [(bytes "ssid", cJSON.string (bytes "Home"))] (bytes "ch") (cJSON.number 6)
      [(bytes "on", cJSON.bool true)] rfl
      (by
        intro f hf
        simp only [List.mem_singleton] at hf
        subst hf
        show cstr (bytes "ssid") ≠ cstr (bytes "ch")
        decide) rfl).2 (bytes "6") (by decide) (by decide) (by decide!)⟩

/-! ## Multipart file extraction (C20) -/

theorem strstr_here (s nd : List Nat) (h : (cstr nd).isPrefixOf (cstr s) = true) :
    strstr s nd = some 0 := by
  cases s with
  | nil =>
    have hc : cstr ([] : List Nat) = [] := rfl
    rw [hc] at h
    have : cstr nd = [] := by
      cases hnd : cstr nd with
      | nil => rfl
      | cons a l => rw [hnd] at h; simp [List.isPrefixOf] at h
    simp [strstr, this]
  | cons c rest => simp [strstr, h]

/-- The search skips a stretch `A` of the string in which no occurrence of the
needle starts. -/
theorem strstr_skip (nd : List Nat) : ∀ (A rest : List Nat), (∀ c ∈ A, c ≠ 0) →
    (∀ i, i < A.length → (cstr nd).isPrefixOf (cstr (A.drop i ++ rest)) = false) →
    strstr (A ++ rest) nd = (strstr rest nd).map (fun k => k + A.length)
  | [], rest, _, _ => by simp
  | a :: A, rest, hA, hno => by
    have ha : a ≠ 0 := hA a (List.mem_cons_self _ _)
    have h0 := hno 0 (by simp)
    simp only [List.drop_zero] at h0
    have ih := strstr_skip nd A rest (fun c hc => hA c (List.mem_cons_of_mem _ hc))
      (fun i hi => by
        have := hno (i + 1) (by simpa using hi)
        simpa using this)
    have e : strstr (a :: A ++ rest) nd = (strstr (A ++ rest) nd).map (fun k => k + 1) := by
      simp only [List.cons_append] at h0 ⊢
      simp [strstr, h0, ha]
    rw [e, ih, Option.map_map]
    cases strstr rest nd with
    | none => rfl
    | some k =>
      simp only [Option.map_some', Function.comp, List.length_cons]
      rfl

theorem cstr_cons_ne (a : Nat) (l : List Nat) (ha : a ≠ 0) : cstr (a :: l) = a :: cstr l := by
  simp [cstr, List.takeWhile, ha]

/-- The search skips a stretch that does not contain the first byte of the
needle. -/
theorem strstr_skip_char (nd : List Nat) (x : Nat) (nd' : List Nat) (hnd : cstr nd = x :: nd')
    (A rest : List Nat) (hA : ∀ c ∈ A, c ≠ 0 ∧ c ≠ x) :
    strstr (A ++ rest) nd = (strstr rest nd).map (fun k => k + A.length) := by
  apply strstr_skip nd A rest (fun c hc => (hA c hc).1)
  intro i hi
  obtain ⟨a, A', hd⟩ : ∃ a A', A.drop i = a :: A' := by
    cases hd : A.drop i with
    | nil =>
      have := congrArg List.length hd
      simp at this
      omega
    | cons a A' => exact ⟨a, A', rfl⟩
  have hmem : a ∈ A := List.mem_of_mem_drop (by rw [hd]; exact List.mem_cons_self _ _)
  rw [hd, hnd, List.cons_append, cstr_cons_ne a _ (hA a hmem).1]
  simp only [List.isPrefixOf, Bool.and_eq_false_imp, beq_iff_eq]
  intro hx
  exact absurd hx.symm (hA a hmem).2

theorem isPrefixOf_false_iff (a b : List Nat) : a.isPrefixOf b = false ↔ ¬ a <+: b := by
  rw [← List.isPrefixOf_iff_prefix]
  cases a.isPrefixOf b <;> simp

/-- A prefix of `t ++ Y` is a prefix of `t`, or it is `t` followed by a non-empty
prefix of `Y`. -/
theorem prefix_append_cases : ∀ (nd t Y : List Nat), nd <+: t ++ Y →
    nd <+: t ∨ ∃ s, s ≠ [] ∧ nd = t ++ s ∧ s <+: Y
  | [], t, _, _ => Or.inl List.nil_prefix
  | x :: nd, [], Y, h => Or.inr ⟨x :: nd, by simp, by simp, by simpa using h⟩
  | x :: nd, a :: t, Y, h => by
    rw [List.cons_append, List.cons_prefix_cons] at h
    obtain ⟨rfl, h⟩ := h
    rcases prefix_append_cases nd t Y h with h1 | ⟨s, hs, he, hp⟩
    · left; exact List.cons_prefix_cons.mpr ⟨rfl, h1⟩
    · right; exact ⟨s, hs, by rw [he]; rfl, hp⟩

/-- No occurrence of the needle starts in the stretch `P` when `P` does not
contain the needle and is followed by a byte `y` that the needle does not
contain. -/
theorem no_occurrence_before (nd P : List Nat) (y : Nat) (X : List Nat) (hy : y ∉ nd)
    (hP : ∀ i, ¬ nd <+: P.drop i) (i : Nat) :
    ¬ nd <+: P.drop i ++ y :: X := by
  intro h
  rcases prefix_append_cases nd (P.drop i) (y :: X) h with h1 | ⟨s, hs, he, hp⟩
  · exact hP i h1
  · cases s with
    | nil => exact hs rfl
    | cons a s =>
      rw [List.cons_prefix_cons] at hp
      apply hy
      rw [he, ← hp.1]
      simp

theorem eq_takeWhile_of_split (L t s : List Nat) (x : Nat) (h : L = t ++ x :: s) (hx : x ∉ t) :
    t = L.takeWhile (fun c => decide (c ≠ x)) := by
  rw [h, List.takeWhile_append_of_pos (by
    intro a ha
    simp only [ne_eq, decide_not, Bool.not_eq_true', decide_eq_false_iff_not]
    intro e; subst e; exact hx ha)]
  simp [List.takeWhile]

/-- No occurrence of `filename="` starts inside a name without `"` that does not
end in `filename=` and is followed by `"`. -/
theorem no_filename_in_name (N : List Nat) (X : List Nat) (h34 : 34 ∉ N)
    (hs : ¬ bytes "filename=" <:+ N) (i : Nat) : ¬ filename_eq <+: N.drop i ++ 34 :: X := by
  intro h
  have hsub : ∀ c ∈ N.drop i, c ∈ N := fun c hc => List.mem_of_mem_drop hc
  rcases prefix_append_cases filename_eq (N.drop i) (34 :: X) h with h1 | ⟨s, hs', he, hp⟩
  · have : (34 : Nat) ∈ filename_eq := by decide
    exact h34 (hsub 34 (h1.subset this))
  · cases s with
    | nil => exact hs' rfl
    | cons a s =>
      rw [List.cons_prefix_cons] at hp
      obtain ⟨rfl, -⟩ := hp
      have ht := eq_takeWhile_of_split filename_eq (N.drop i) s 34 he
        (fun hc => h34 (hsub 34 hc))
      have hk : filename_eq.takeWhile (fun c => decide (c ≠ 34)) = bytes "filename=" := by
        decide
      rw [hk] at ht
      exact hs (ht ▸ List.drop_suffix i N)

theorem strcmp_self (s r1 r2 : List Nat) (hs : ∀ c ∈ s, c ≠ 0) (h1 : r1.headD 0 = 0)
    (h2 : r2.headD 0 = 0) : strcmp (s ++ r1) (s ++ r2) = 0 := by
  induction s with
  | nil =>
    have h2' : r2.head?.getD 0 = 0 := by simpa [List.headD_eq_head?_getD] using h2
    cases r1 with
    | nil => simp [strcmp, h2']
    | cons a r =>
      simp only [List.headD_cons] at h1
      subst h1
      simp [strcmp, h2']
  | cons a s ih =>
    have ha : a ≠ 0 := hs a (List.mem_cons_self _ _)
    simp only [List.cons_append, strcmp, List.headD_cons, ne_eq, not_true_eq_false, if_false, ha,
      List.tail_cons]
    exact ih (fun c hc => hs c (List.mem_cons_of_mem _ hc))

/-- The search for `filename="` in the `Content-Disposition` line. -/
theorem strstr_filename (N F : List Nat) (hN : ∀ c ∈ N, c ≠ 0 ∧ c ≠ 34)
    (hNs : ¬ bytes "filename=" <:+ N) (hF : ∀ c ∈ F, c ≠ 0 ∧ c ≠ 34) :
    strstr (cd_text N F ++ [0]) filename_eq = some (N.length + 41) := by
  have hnd : cstr filename_eq = 102 :: [105, 108, 101, 110, 97, 109, 101, 61, 34] := by decide
  have hF0 : ∀ c ∈ F ++ [34], c ≠ 0 := by
    intro c hc
    rcases List.mem_append.mp hc with h | h
    · exact (hF c h).1
    · simp at h; omega
  have e : cd_text N F ++ [0] =
      bytes "Content-Disposition: " ++ ([102] ++ (bytes "orm-data; name=\"" ++
        (N ++ (bytes "\"; " ++ (filename_eq ++ (F ++ [34] ++ [0])))))) := by
    simp only [cd_text, bytes, filename_eq, String.toList, List.map, List.append_assoc,
      List.cons_append, List.nil_append, Char.toNat]
    rfl
  have hrest : cstr (filename_eq ++ (F ++ [34] ++ [0])) = filename_eq ++ (F ++ [34]) := by
    rw [← List.append_assoc, List.append_assoc filename_eq]
    rw [← List.append_assoc]
    apply cstr_append_nul _ [0] _ rfl
    intro c hc
    rcases List.mem_append.mp hc with h | h
    · have hf : ∀ c ∈ filename_eq, c ≠ 0 := by decide
      exact hf c h
    · exact hF0 c h
  rw [e]
  rw [strstr_skip_char filename_eq 102 _ hnd (bytes "Content-Disposition: ") _ (by decide)]
  rw [strstr_skip filename_eq [102] _ (by decide) (by
    intro i hi
    have : i = 0 := by simpa using hi
    subst this
    rw [hnd]
    simp [bytes, cstr, List.takeWhile, List.isPrefixOf])]
  rw [strstr_skip_char filename_eq 102 _ hnd (bytes "orm-data; name=\"") _ (by decide)]
  rw [strstr_skip filename_eq N _ (fun c hc => (hN c hc).1) (by
    intro i _
    rw [isPrefixOf_false_iff, cstr_append _ _ (fun c hc => (hN c (List.mem_of_mem_drop hc)).1)]
    have hq : cstr (bytes "\"; " ++ (filename_eq ++ (F ++ [34] ++ [0]))) =
        34 :: cstr ([59, 32] ++ (filename_eq ++ (F ++ [34] ++ [0]))) := by
      exact cstr_cons_ne 34 _ (by decide)
    rw [hq, show cstr filename_eq = filename_eq from by decide]
    exact no_filename_in_name N _ (fun h => (hN 34 h).2 rfl) hNs i)]
  rw [strstr_skip_char filename_eq 102 _ hnd (bytes "\"; ") _ (by decide)]
  rw [strstr_here _ filename_eq (by
    rw [hrest, show cstr filename_eq = filename_eq from by decide, List.isPrefixOf_iff_prefix]
    exact List.prefix_append _ _)]
  simp only [Option.map_some', Option.some.injEq]
  have : (bytes "Content-Disposition: ").length = 21 := by decide
  have : (bytes "orm-data; name=\"").length = 16 := by decide
  have : (bytes "\"; ").length = 3 := by decide
  simp only [List.length_singleton]
  omega

/-- The search for `name="` in the `Content-Disposition` line. -/
theorem strstr_name (N F : List Nat) :
    strstr (cd_text N F ++ [0]) name_eq = some 32 := by
  have e : cd_text N F ++ [0] =
      bytes "Content-Disposition: form-data; " ++ (name_eq ++ (N ++ bytes "\"; filename=\"" ++
        F ++ [34] ++ [0])) := by
    simp only [cd_text, bytes, name_eq, String.toList, List.map, List.append_assoc,
      List.cons_append, List.nil_append, Char.toNat]
  rw [e]
  rw [strstr_skip name_eq (bytes "Content-Disposition: form-data; ") _ (by decide) (by
    intro i hi
    have hi' : i < 32 := hi
    interval_cases i <;>
      simp [bytes, name_eq, cstr, List.takeWhile, List.isPrefixOf])]
  rw [strstr_here _ name_eq (by
    have hn : ∀ c ∈ name_eq, c ≠ 0 := by decide
    rw [cstr_append name_eq _ hn, show cstr name_eq = name_eq from by decide,
      List.isPrefixOf_iff_prefix]
    exact List.prefix_append _ _)]
  rfl

theorem cd_text_drop (N F : List Nat) :
    (cd_text N F ++ [0]).drop 38 = N ++ 34 :: (bytes "; filename=\"" ++ F ++ [34, 0]) ∧
    (cd_text N F ++ [0]).drop (N.length + 51) = F ++ 34 :: [0] ∧
    (cd_text N F).length = N.length + F.length + 52 := by
  have e1 : cd_text N F ++ [0] =
      bytes "Content-Disposition: form-data; name=\"" ++
        (N ++ 34 :: (bytes "; filename=\"" ++ F ++ [34, 0])) := by
    simp only [cd_text, bytes, String.toList, List.map, List.append_assoc,
      List.cons_append, List.nil_append, Char.toNat]
    rfl
  have e2 : cd_text N F ++ [0] =
      (bytes "Content-Disposition: form-data; name=\"" ++ N ++ bytes "\"; filename=\"") ++
        (F ++ 34 :: [0]) := by
    simp only [cd_text, List.append_assoc, List.cons_append, List.nil_append]
  have l1 : (bytes "Content-Disposition: form-data; name=\"").length = 38 := by decide
  have l2 : (bytes "\"; filename=\"").length = 13 := by decide
  refine ⟨?_, ?_, ?_⟩
  · rw [e1, ← l1, List.drop_left]
  · have : N.length + 51 =
        (bytes "Content-Disposition: form-data; name=\"" ++ N ++ bytes "\"; filename=\"").length := by
      simp only [List.length_append, l1, l2]; omega
    rw [e2, this, List.drop_left]
  · simp only [cd_text, List.length_append, l1, l2, List.length_singleton]; omega

theorem cd_text_chars (N F : List Nat) (hN : ∀ c ∈ N, c ≠ 0 ∧ c ≠ 13)
    (hF : ∀ c ∈ F, c ≠ 0 ∧ c ≠ 13) : ∀ c ∈ cd_text N F, c ≠ 0 ∧ c ≠ 13 := by
  intro c hc
  have h1 : ∀ c ∈ bytes "Content-Disposition: form-data; name=\"", c ≠ 0 ∧ c ≠ 13 := by decide
  have h2 : ∀ c ∈ bytes "\"; filename=\"", c ≠ 0 ∧ c ≠ 13 := by decide
  simp only [cd_text, List.mem_append, List.mem_singleton] at hc
  rcases hc with (((hc | hc) | hc) | hc) | hc
  · exact h1 c hc
  · exact hN c hc
  · exact h2 c hc
  · exact hF c hc
  · subst hc; decide

theorem cd_text_disposition (N F : List Nat) :
    strncasecmp (cd_text N F ++ [0]) content_disposition content_disposition.length = 0 := by
  rw [strncasecmp_eq_zero content_disposition (by decide)]
  have e : cd_text N F ++ [0] = content_disposition ++
      (bytes " form-data; name=\"" ++ N ++ bytes "\"; filename=\"" ++ F ++ [34] ++ [0]) := by
    simp only [cd_text, content_disposition, bytes, String.toList, List.map, List.append_assoc,
      List.cons_append, List.nil_append, Char.toNat]
  rw [e, List.take_left]

theorem trimCRLF_length (P : List Nat) :
    (trimCRLF P).length + (P.reverse.takeWhile (fun c => decide (c = 13 ∨ c = 10))).length =
      P.length := by
  unfold trimCRLF
  have := congrArg List.length
    (List.takeWhile_append_dropWhile (fun c => decide (c = 13 ∨ c = 10)) P.reverse)
  simp only [List.length_append, List.length_reverse] at this ⊢
  omega

theorem trimCRLF_take (P : List Nat) : P.take (trimCRLF P).length = trimCRLF P := by
  have h := List.takeWhile_append_dropWhile (fun c => decide (c = 13 ∨ c = 10)) P.reverse
  have h2 : P = trimCRLF P ++
      (P.reverse.takeWhile (fun c => decide (c = 13 ∨ c = 10))).reverse := by
    unfold trimCRLF
    rw [← List.reverse_append, h, List.reverse_reverse]
  have h3 : (trimCRLF P ++
      (P.reverse.takeWhile (fun c => decide (c = 13 ∨ c = 10))).reverse).take
      (trimCRLF P).length = trimCRLF P := List.take_left _ _
  rw [← h2] at h3
  exact h3

/-- The search for the boundary behind the payload. -/
theorem strstr_boundary (B P R : List Nat) (hB : ∀ c ∈ B, c ≠ 0 ∧ c ≠ 13)
    (hP0 : ∀ c ∈ P, c ≠ 0) (hP : ∀ i, ¬ ([45, 45] ++ B) <+: P.drop i) :
    strstr (P ++ [13, 10] ++ ([45, 45] ++ B) ++ R) ([45, 45] ++ B) = some (P.length + 2) := by
  have hbs0 : ∀ c ∈ [45, 45] ++ B, c ≠ 0 := by
    intro c hc
    simp only [List.cons_append, List.nil_append, List.mem_cons] at hc
    rcases hc with rfl | rfl | hc
    · decide
    · decide
    · exact (hB c hc).1
  have hcs : cstr ([45, 45] ++ B) = [45, 45] ++ B := cstr_self _ hbs0
  have h13 : 13 ∉ [45, 45] ++ B := by
    intro hc
    simp only [List.cons_append, List.nil_append, List.mem_cons] at hc
    rcases hc with h | h | h
    · omega
    · omega
    · exact (hB 13 h).2 rfl
  have e : P ++ [13, 10] ++ ([45, 45] ++ B) ++ R = P ++ ([13, 10] ++ (([45, 45] ++ B) ++ R)) := by
    simp only [List.append_assoc]
  rw [e]
  rw [strstr_skip _ P _ hP0 (by
    intro i _
    rw [isPrefixOf_false_iff, hcs, cstr_append _ _ (fun c hc => hP0 c (List.mem_of_mem_drop hc))]
    have hq : cstr ([13, 10] ++ (([45, 45] ++ B) ++ R)) =
        13 :: cstr ([10] ++ (([45, 45] ++ B) ++ R)) := cstr_cons_ne 13 _ (by decide)
    rw [hq]
    exact no_occurrence_before _ P 13 _ h13 hP i)]
  rw [strstr_skip_char _ 45 (45 :: B) (by rw [hcs]; rfl) [13, 10] _ (by decide)]
  rw [strstr_here _ _ (by
    rw [hcs, cstr_append _ _ hbs0, List.isPrefixOf_iff_prefix]
    exact List.prefix_append _ _)]
  simp only [Option.map_some', List.length_cons, List.length_nil, Option.some.injEq]
  omega

/-- The end of the loop body of `http_ui_get_file` for the part that matches:
the file name is copied, the view starts behind the header of the part and ends
before the CR and LF bytes in front of the next boundary. -/
theorem http_ui_get_file_part_spec (mem : List Nat) (body_end part_hdr_end : Nat)
    (B N F P R : List Nat) (out : http_ui_file_part_t)
    (hB : ∀ c ∈ B, c ≠ 0 ∧ c ≠ 13)
    (hN : ∀ c ∈ N, c ≠ 0 ∧ c ≠ 34) (hNs : ¬ bytes "filename=" <:+ N)
    (hF : ∀ c ∈ F, c ≠ 0 ∧ c ≠ 34)
    (hFl : F.length ≤ 63) (hP0 : ∀ c ∈ P, c ≠ 0) (hP : ∀ i, ¬ ([45, 45] ++ B) <+: P.drop i)
    (hPl : P.length < 2 ^ 32)
    (hdata : mem.drop (part_hdr_end + 4) = P ++ [13, 10] ++ ([45, 45] ++ B) ++ R)
    (hend : part_hdr_end + 4 + P.length + 2 ≤ body_end)
    (hfn : out.filename.length = 64) (hct : out.content_type.length = 64) :
    http_ui_get_file_part mem body_end ([45, 45] ++ B) (cd_text N F ++ [0]) part_hdr_end out =
      some (0, { data := some (part_hdr_end + 4), length := (trimCRLF P).length,
                 filename := F ++ 0 :: out.filename.drop (F.length + 1),
                 content_type := out.content_type.set 0 0 }) := by
  obtain ⟨-, hd2, -⟩ := cd_text_drop N F
  have hfl : filename_eq.length = 10 := by decide
  have hchr : strchr (F ++ 34 :: [0]) 34 = some F.length :=
    strchr_found_gen 34 F [0] (fun c hc => ⟨(hF c hc).2, (hF c hc).1⟩)
  have htk : (F ++ 34 :: [0]).take F.length = F := List.take_left _ _
  have hw : writeAt out.filename 0 F =
      some (out.filename.take 0 ++ F ++ out.filename.drop (0 + F.length)) := by
    unfold writeAt
    rw [if_pos (by omega)]
  obtain ⟨l1, l2, l3⟩ := writeAt_take_drop out.filename 0 F (by omega) 1
  have hst : storeAt (out.filename.take 0 ++ F ++ out.filename.drop (0 + F.length)) F.length 0 =
      some (F ++ 0 :: out.filename.drop (F.length + 1)) := by
    rw [storeAt_eq _ _ _ (by rw [l1]; omega)]
    simp only [Nat.zero_add, List.take_zero, List.nil_append] at l2 l3 ⊢
    rw [l2, l3]
    simp
  have hct0 : storeAt out.content_type 0 0 = some (out.content_type.set 0 0) := by
    unfold storeAt
    rw [if_pos (by omega)]
  have hreg : (P ++ [13, 10] ++ ([45, 45] ++ B) ++ R).take (P.length + 2) = P ++ [13, 10] := by
    have : P.length + 2 = (P ++ [13, 10]).length := by simp
    rw [List.append_assoc (P ++ [13, 10]), this, List.take_left]
  have htrim : ((P ++ [13, 10]).reverse.takeWhile (fun c => decide (c = 13 ∨ c = 10))).length =
      2 + (P.reverse.takeWhile (fun c => decide (c = 13 ∨ c = 10))).length := by
    simp [List.takeWhile]
    omega
  have htl := trimCRLF_length P
  unfold http_ui_get_file_part
  rw [strstr_filename N F hN hNs hF]
  simp only [hfl]
  rw [show N.length + 41 + 10 = N.length + 51 from rfl, hd2, hchr]
  simp only [show ¬ F.length ≥ 64 from by omega, if_false, htk, hw, Option.some_bind, hst, hct0,
    hdata, strstr_boundary B P R hB hP0 hP]
  have hnb : ¬ part_hdr_end + 4 + (P.length + 2) > body_end := by omega
  simp only [hnb, if_false]
  have hsub : part_hdr_end + 4 + (P.length + 2) - (part_hdr_end + 4) = P.length + 2 := by omega
  rw [hsub, hreg, htrim]
  have hlen : toUInt32 (((part_hdr_end + 4 + (P.length + 2) -
      (2 + (P.reverse.takeWhile (fun c => decide (c = 13 ∨ c = 10))).length) : Nat) : Int) -
      ((part_hdr_end + 4 : Nat) : Int)) = (trimCRLF P).length := by
    have e : ((part_hdr_end + 4 + (P.length + 2) -
        (2 + (P.reverse.takeWhile (fun c => decide (c = 13 ∨ c = 10))).length) : Nat) : Int) -
        ((part_hdr_end + 4 : Nat) : Int) = ((trimCRLF P).length : Int) := by
      omega
    rw [e]
    exact toUInt32_ofNat _ (by omega)
  rw [hlen]

theorem drop_of_drop_eq (mem : List Nat) (p : Nat) (A rest : List Nat)
    (h : mem.drop p = A ++ rest) : mem.drop (p + A.length) = rest := by
  rw [← List.drop_drop, h, List.drop_left]

theorem getD_of_drop_eq (mem : List Nat) (p : Nat) (x : Nat) (rest : List Nat)
    (h : mem.drop p = x :: rest) : mem.getD p 0 = x := by
  have := congrArg (fun l => l.getD 0 0) h
  simp only [List.getD_eq_getElem?_getD, List.getElem?_drop, Nat.add_zero,
    List.getElem?_cons_zero, Option.getD_some] at this
  simpa [List.getD_eq_getElem?_getD] using this

/-- One pass of the loop of `http_ui_get_file` at the boundary in front of the
part with the field name asked for. -/
theorem http_ui_get_file_loop_spec (mem : List Nat) (body_end p fuel : Nat)
    (B N F P R field_name : List Nat) (out : http_ui_file_part_t)
    (hB : ∀ c ∈ B, c ≠ 0 ∧ c ≠ 13)
    (hN : ∀ c ∈ N, c ≠ 0 ∧ c ≠ 34 ∧ c ≠ 13) (hNs : ¬ bytes "filename=" <:+ N)
    (hNl : N.length ≤ 63)
    (hF : ∀ c ∈ F, c ≠ 0 ∧ c ≠ 34 ∧ c ≠ 13) (hFl : F.length ≤ 63)
    (hP0 : ∀ c ∈ P, c ≠ 0) (hP : ∀ i, ¬ ([45, 45] ++ B) <+: P.drop i)
    (hPl : P.length < 2 ^ 32)
    (hmem : mem.drop p = ([45, 45] ++ B) ++ ([13, 10] ++ (cd_text N F ++ ([13, 10, 13, 10] ++
      (P ++ [13, 10] ++ ([45, 45] ++ B) ++ R)))))
    (hend : p + (B.length + 2) + 2 + (cd_text N F).length + 4 + P.length + 2 ≤ body_end)
    (hfield : cstr field_name = N)
    (hfn : out.filename.length = 64) (hct : out.content_type.length = 64) :
    http_ui_get_file_loop mem body_end ([45, 45] ++ B) field_name out (fuel + 1) p =
      some (0, { data := some (p + (B.length + 2) + 2 + (cd_text N F).length + 4),
                 length := (trimCRLF P).length,
                 filename := F ++ 0 :: out.filename.drop (F.length + 1),
                 content_type := out.content_type.set 0 0 }) := by
  obtain ⟨hd1, -, hcl⟩ := cd_text_drop N F
  have hbs0 : ∀ c ∈ [45, 45] ++ B, c ≠ 0 := by
    intro c hc
    simp only [List.cons_append, List.nil_append, List.mem_cons] at hc
    rcases hc with rfl | rfl | hc
    · decide
    · decide
    · exact (hB c hc).1
  have hcs : cstr ([45, 45] ++ B) = [45, 45] ++ B := cstr_self _ hbs0
  have hsl : strlen ([45, 45] ++ B) = B.length + 2 := by
    unfold strlen
    rw [hcs]
    simp
  have hbl : ([45, 45] ++ B).length = B.length + 2 := by simp
  have hcd := cd_text_chars N F (fun c hc => ⟨(hN c hc).1, (hN c hc).2.2⟩)
    (fun c hc => ⟨(hF c hc).1, (hF c hc).2.2⟩)
  -- the boundary is at `p`
  have s1 : strstr (mem.drop p) ([45, 45] ++ B) = some 0 := by
    rw [hmem]
    exact strstr_here _ _ (by
      rw [hcs, cstr_append _ _ hbs0, List.isPrefixOf_iff_prefix]
      exact List.prefix_append _ _)
  -- CR LF behind the boundary
  have m1 := drop_of_drop_eq mem p _ _ hmem
  rw [hbl] at m1
  have g1 : mem.getD (p + (B.length + 2)) 0 = 13 := getD_of_drop_eq mem _ 13 _ m1
  have m1' : mem.drop (p + (B.length + 2) + 1) = 10 :: (cd_text N F ++ ([13, 10, 13, 10] ++
      (P ++ [13, 10] ++ ([45, 45] ++ B) ++ R))) :=
    drop_of_drop_eq mem (p + (B.length + 2)) [13] _ m1
  have g2 : mem.getD (p + (B.length + 2) + 1) 0 = 10 := getD_of_drop_eq mem _ 10 _ m1'
  have m2 : mem.drop (p + (B.length + 2) + 2) = cd_text N F ++ ([13, 10, 13, 10] ++
      (P ++ [13, 10] ++ ([45, 45] ++ B) ++ R)) :=
    drop_of_drop_eq mem (p + (B.length + 2)) [13, 10] _ m1
  have m3 : mem.drop (p + (B.length + 2) + 2 + (cd_text N F).length) = [13, 10, 13, 10] ++
      (P ++ [13, 10] ++ ([45, 45] ++ B) ++ R) := drop_of_drop_eq mem _ _ _ m2
  have m4 : mem.drop (p + (B.length + 2) + 2 + (cd_text N F).length + 4) =
      P ++ [13, 10] ++ ([45, 45] ++ B) ++ R := drop_of_drop_eq mem _ [13, 10, 13, 10] _ m3
  -- the end of the header of the part
  have s2 : strstr (cd_text N F ++ ([13, 10, 13, 10] ++ (P ++ [13, 10] ++ ([45, 45] ++ B) ++ R)))
      [13, 10, 13, 10] = some (cd_text N F).length := by
    rw [strstr_skip_char [13, 10, 13, 10] 13 [10, 13, 10] (by decide) _ _ hcd]
    rw [strstr_here _ _ (by
      rw [show cstr [13, 10, 13, 10] = [13, 10, 13, 10] from by decide,
        cstr_append _ _ (by decide), List.isPrefixOf_iff_prefix]
      exact List.prefix_append _ _)]
    simp
  have s3 : strstr (cd_text N F ++ ([13, 10, 13, 10] ++ (P ++ [13, 10] ++ ([45, 45] ++ B) ++ R)))
      [13, 10] = some (cd_text N F).length := by
    rw [strstr_skip_char [13, 10] 13 [10] (by decide) _ _ hcd]
    rw [strstr_here _ _ (by
      rw [show cstr [13, 10] = [13, 10] from by decide,
        show ([13, 10, 13, 10] ++ (P ++ [13, 10] ++ ([45, 45] ++ B) ++ R) : List Nat) =
          [13, 10] ++ ([13, 10] ++ (P ++ [13, 10] ++ ([45, 45] ++ B) ++ R)) from rfl,
        cstr_append _ _ (by decide), List.isPrefixOf_iff_prefix]
      exact List.prefix_append _ _)]
    simp
  have hline : (cd_text N F ++ ([13, 10, 13, 10] ++
      (P ++ [13, 10] ++ ([45, 45] ++ B) ++ R))).take (cd_text N F).length = cd_text N F :=
    List.take_left _ _
  have hnl : name_eq.length = 6 := by decide
  have hchr : strchr (N ++ 34 :: (bytes "; filename=\"" ++ F ++ [34, 0])) 34 = some N.length :=
    strchr_found_gen 34 N _ (fun c hc => ⟨(hN c hc).2.1, (hN c hc).1⟩)
  have hnm : (N ++ 34 :: (bytes "; filename=\"" ++ F ++ [34, 0])).take N.length = N :=
    List.take_left _ _
  have hcmp : strcmp (N ++ [0]) field_name = 0 := by
    have hf1 := cstr_split field_name
    have hf2 := cstr_rest_head field_name
    rw [hfield] at hf1 hf2
    have := strcmp_self N [0] (field_name.drop N.length) (fun c hc => (hN c hc).1) rfl hf2
    rwa [← hf1] at this
  have hpart := http_ui_get_file_part_spec mem body_end
    (p + (B.length + 2) + 2 + (cd_text N F).length) B N F P R out hB
    (fun c hc => ⟨(hN c hc).1, (hN c hc).2.1⟩) hNs
    (fun c hc => ⟨(hF c hc).1, (hF c hc).2.1⟩) hFl hP0 hP hPl m4 (by omega) hfn hct
  unfold http_ui_get_file_loop
  rw [if_pos (by omega), s1]
  simp only [Nat.add_zero, hsl]
  rw [if_neg (by omega), if_neg (by omega), if_pos ⟨g1, g2⟩, m2, s2]
  simp only []
  rw [if_neg (by omega), s3]
  simp only []
  have hcdlen : (if (cd_text N F).length ≥ 256 then 256 - 1 else (cd_text N F).length) =
      (cd_text N F).length := if_neg (by omega)
  rw [if_neg (by omega), hcdlen, hline, if_neg (by
    rw [cd_text_disposition]; simp), strstr_name]
  simp only [hnl]
  rw [show 32 + 6 = 38 from rfl, hd1, hchr]
  simp only []
  have hnlen : (if N.length ≥ 64 then 64 - 1 else N.length) = N.length := if_neg (by omega)
  rw [hnlen, hnm, if_neg (by rw [hcmp]; simp)]
  exact hpart

theorem takeWhile_append_stop {α : Type} (p : α → Bool) (A : List α) (x : α) (rest : List α)
    (hA : ∀ a ∈ A, p a = true) (hx : p x = false) : (A ++ x :: rest).takeWhile p = A := by
  rw [List.takeWhile_append_of_pos hA]
  simp [List.takeWhile, hx]

/-- What `http_ui_get_file` reads out of the `Content-Type` value
`multipart/form-data; boundary=B`: the test for `multipart/form-data` passes,
`boundary=` is found at offset 21, and the token copied is `B`. -/
theorem boundary_of_content_type (B : List Nat)
    (hB : ∀ c ∈ B, c ≠ 0 ∧ c ≠ 59 ∧ isspace c = false) (hBl : B.length ≤ 33) :
    strncasecmp (bytes "multipart/form-data; boundary=" ++ B ++ [0]) mime_multipart
      mime_multipart.length = 0 ∧
    strstr (bytes "multipart/form-data; boundary=" ++ B ++ [0]) boundary_eq = some 21 ∧
    boundary_token ((bytes "multipart/form-data; boundary=" ++ B ++ [0]).drop
      (21 + boundary_eq.length)) = B := by
  have e1 : bytes "multipart/form-data; boundary=" ++ B ++ [0] =
      mime_multipart ++ (bytes "; boundary=" ++ B ++ [0]) := by
    simp only [mime_multipart, bytes, String.toList, List.map, List.append_assoc,
      List.cons_append, List.nil_append, Char.toNat]
  have e2 : bytes "multipart/form-data; boundary=" ++ B ++ [0] =
      bytes "multipart/form-data; " ++ (boundary_eq ++ (B ++ [0])) := by
    simp only [boundary_eq, bytes, String.toList, List.map, List.append_assoc,
      List.cons_append, List.nil_append, Char.toNat]
  have e3 : bytes "multipart/form-data; boundary=" ++ B ++ [0] =
      bytes "multipart/form-data; boundary=" ++ (B ++ [0]) := by
    simp only [List.append_assoc]
  have hbe : ∀ c ∈ boundary_eq, c ≠ 0 := by decide
  refine ⟨?_, ?_, ?_⟩
  · rw [strncasecmp_eq_zero mime_multipart (by decide), e1, List.take_left]
  · rw [e2, strstr_skip_char boundary_eq 98 (bytes "oundary=") (by decide)
      (bytes "multipart/form-data; ") _ (by decide)]
    rw [strstr_here _ boundary_eq (by
      rw [cstr_append boundary_eq _ hbe, show cstr boundary_eq = boundary_eq from by decide,
        List.isPrefixOf_iff_prefix]
      exact List.prefix_append _ _)]
    rfl
  · have hl : 21 + boundary_eq.length = (bytes "multipart/form-data; boundary=").length := by
      decide
    rw [e3, hl, List.drop_left]
    unfold boundary_token
    rw [takeWhile_append_stop _ B 0 [] (by
      intro c hc
      obtain ⟨h0, h59, hsp⟩ := hB c hc
      simp [h0, h59, hsp]) (by decide)]
    exact List.take_of_length_le (by omega)

theorem trimCRLF_self (P : List Nat) (h : ∀ c, P.getLast? = some c → c ≠ 13 ∧ c ≠ 10) :
    trimCRLF P = P := by
  unfold trimCRLF
  have : P.reverse.dropWhile (fun c => decide (c = 13 ∨ c = 10)) = P.reverse := by
    cases hr : P.reverse with
    | nil => rfl
    | cons a r =>
      have ha : P.getLast? = some a := by
        rw [List.getLast?_eq_head?_reverse, hr]
        rfl
      obtain ⟨h13, h10⟩ := h a ha
      simp [List.dropWhile, h13, h10]
  rw [this, List.reverse_reverse]

/-- The upload that fits the local arrays and has no NUL byte in its payload.
For every boundary token `B` (not empty, at most 33 bytes,
without NUL, `;` and white space), field name `N` and file name `F` (at most 63
bytes each, without NUL, `"` and CR, `N` not ending in `filename=`) and payload
`P` without NUL that does not contain `--B`: when the request has the
Content-Type `multipart/form-data; boundary=B` and the body
`--B CRLF Content-Disposition: form-data; name="N"; filename="F" CRLF CRLF P CRLF --B-- CRLF`,
`http_ui_get_file(req, N, out_part)` returns 0; `out_part->data` points into the
body behind the header of the part, where `P` starts (no copy);
`out_part->length` is the length of `P` without the CR and LF bytes at its end,
the view holds exactly these bytes, which are all of `P` when `P` does not end
in CR or LF; and `out_part->filename` is the string `F`. -/
theorem http_ui_get_file_spec (mem : List Nat) (req : http_srv_request_t) (body : Nat)
    (B N F P tail field_name : List Nat) (out_part : http_ui_file_part_t)
    (hB : ∀ c ∈ B, c ≠ 0 ∧ c ≠ 59 ∧ isspace c = false) (hB1 : B ≠ []) (hBl : B.length ≤ 33)
    (hN : ∀ c ∈ N, c ≠ 0 ∧ c ≠ 34 ∧ c ≠ 13) (hNs : ¬ bytes "filename=" <:+ N)
    (hNl : N.length ≤ 63)
    (hF : ∀ c ∈ F, c ≠ 0 ∧ c ≠ 34 ∧ c ≠ 13) (hFl : F.length ≤ 63)
    (hP0 : ∀ c ∈ P, c ≠ 0) (hP : ∀ i, ¬ ([45, 45] ++ B) <+: P.drop i)
    (hct : http_ui_get_content_type mem req 64 =
      some (bytes "multipart/form-data; boundary=" ++ B ++ [0]))
    (hbody : req.body = some body) (hlen : req.body_len = (multipart_body B N F P).length)
    (hl32 : req.body_len < 2 ^ 32)
    (hmem : mem.drop body = multipart_body B N F P ++ tail)
    (hfield : cstr field_name = N)
    (hfn : out_part.filename.length = 64) (hctl : out_part.content_type.length = 64) :
    ∃ part : http_ui_file_part_t,
      http_ui_get_file mem req field_name out_part = some (0, part) ∧
      part.data =
        some (body + ([45, 45] ++ B ++ [13, 10] ++ cd_text N F ++ [13, 10, 13, 10]).length) ∧
      part.length = (trimCRLF P).length ∧
      (mem.drop (body + ([45, 45] ++ B ++ [13, 10] ++ cd_text N F ++ [13, 10, 13, 10]).length)).take
        part.length = trimCRLF P ∧
      ((∀ c, P.getLast? = some c → c ≠ 13 ∧ c ≠ 10) → trimCRLF P = P) ∧
      ([45, 45] ++ B ++ [13, 10] ++ cd_text N F ++ [13, 10, 13, 10]).length + part.length ≤
        req.body_len ∧
      cstr part.filename = F := by
  obtain ⟨c1, c2, c3⟩ := boundary_of_content_type B hB hBl
  have hB13 : ∀ c ∈ B, c ≠ 0 ∧ c ≠ 13 := by
    intro c hc
    obtain ⟨h0, -, hsp⟩ := hB c hc
    refine ⟨h0, ?_⟩
    intro e
    subst e
    revert hsp
    decide
  have hoff : ([45, 45] ++ B ++ [13, 10] ++ cd_text N F ++ [13, 10, 13, 10]).length =
      B.length + 2 + 2 + (cd_text N F).length + 4 := by
    simp only [List.length_append, List.length_cons, List.length_nil]
    omega
  have hmlen : (multipart_body B N F P).length =
      B.length + 2 + 2 + (cd_text N F).length + 4 + P.length + 2 + (B.length + 2) + 4 := by
    simp only [multipart_body, cd_text, List.length_append, List.length_cons, List.length_nil]
    omega
  have hshape : multipart_body B N F P ++ tail =
      ([45, 45] ++ B) ++ ([13, 10] ++ (cd_text N F ++ ([13, 10, 13, 10] ++
        (P ++ [13, 10] ++ ([45, 45] ++ B) ++ ([45, 45, 13, 10] ++ tail))))) := by
    simp only [multipart_body, cd_text, List.append_assoc, List.cons_append, List.nil_append]
  have htl := trimCRLF_length P
  have hPl : P.length < 2 ^ 32 := by omega
  have hbne : ¬ B.headD 0 = 0 := by
    cases B with
    | nil => exact absurd rfl hB1
    | cons b B => exact (hB b (List.mem_cons_self _ _)).1
  have htake : ([45, 45] ++ B).take (80 - 1) = [45, 45] ++ B :=
    List.take_of_length_le (by
      simp only [List.length_append, List.length_cons, List.length_nil]
      omega)
  rw [hshape] at hmem
  have hloop := http_ui_get_file_loop_spec mem (body + req.body_len) body req.body_len
    B N F P ([45, 45, 13, 10] ++ tail) field_name out_part hB13
    hN hNs hNl hF hFl hP0 hP hPl hmem (by omega) hfield hfn hctl
  refine ⟨⟨some (body + ([45, 45] ++ B ++ [13, 10] ++ cd_text N F ++ [13, 10, 13, 10]).length),
    (trimCRLF P).length, F ++ 0 :: out_part.filename.drop (F.length + 1),
    out_part.content_type.set 0 0⟩, ?_, rfl, rfl, ?_, trimCRLF_self P, ?_, ?_⟩
  · unfold http_ui_get_file
    rw [hbody]
    simp only [hct]
    rw [if_neg (by rw [c1]; simp), c2]
    simp only [c3]
    rw [if_neg hbne, htake, hloop, hoff]
    have e : body + (B.length + 2) + 2 + (cd_text N F).length + 4 =
        body + (B.length + 2 + 2 + (cd_text N F).length + 4) := by omega
    rw [e]
  · show (mem.drop (body + ([45, 45] ++ B ++ [13, 10] ++ cd_text N F ++
      [13, 10, 13, 10]).length)).take (trimCRLF P).length = trimCRLF P
    have hm : multipart_body B N F P ++ tail =
        ([45, 45] ++ B ++ [13, 10] ++ cd_text N F ++ [13, 10, 13, 10]) ++
          (P ++ ([13, 10] ++ ([45, 45] ++ B) ++ ([45, 45, 13, 10] ++ tail))) := by
      simp only [multipart_body, cd_text, List.append_assoc, List.cons_append, List.nil_append]
    rw [← hshape, hm] at hmem
    rw [drop_of_drop_eq mem body _ _ hmem]
    have hle : (trimCRLF P).length ≤ P.length := by omega
    rw [List.take_append_of_le_length hle]
    exact trimCRLF_take P
  · show ([45, 45] ++ B ++ [13, 10] ++ cd_text N F ++ [13, 10, 13, 10]).length +
      (trimCRLF P).length ≤ req.body_len
    omega
  · show cstr (F ++ 0 :: out_part.filename.drop (F.length + 1)) = F
    exact cstr_append_nul F _ (fun c hc => (hF c hc).1) rfl

/-- The upload of the specification's example: boundary `X`, field name `fw`, file name
`fw.bin` and the ten bytes `0123456789`; the request is the one that
`http_srv_recv_request` builds from `script_upload`, with the body at offset 68
of the receive buffer. The call returns 0 with a view of the ten bytes at offset
137 and the file name `fw.bin`. -/
theorem http_ui_get_file_spec_witness :
    ∃ part : http_ui_file_part_t,
      http_ui_get_file (recvOf script_upload).2.1.rxbuf (recvOf script_upload).2.2 (bytes "fw")
        part_zero = some (0, part) ∧
      part.data = some 137 ∧ part.length = 10 ∧
      ((recvOf script_upload).2.1.rxbuf.drop 137).take part.length = bytes "0123456789" ∧
      cstr part.filename = bytes "fw.bin" := by
  obtain ⟨part, h1, h2, h3, h4, h5, -, h7⟩ :=
    http_ui_get_file_spec (recvOf script_upload).2.1.rxbuf (recvOf script_upload).2.2 68
      (bytes "X") (bytes "fw") (bytes "fw.bin") (bytes "0123456789") (List.replicate 1244 0)
      (bytes "fw") part_zero (by decide) (by decide) (by decide) (by decide) (by decide)
      (by decide) (by decide) (by decide) (by decide)
      (fun i h => absurd (List.mem_of_mem_drop (h.subset (List.mem_cons_self 45 _))) (by decide))
      (by decide!) (by decide!) (by decide!) (by decide!) (by decide!) (by decide)
      (by decide) (by decide)
  have e : trimCRLF (bytes "0123456789") = bytes "0123456789" := h5 (by decide)
  rw [e] at h3 h4
  exact ⟨part, h1, h2, h3, h4, h7⟩

/-- Four requests built by `http_srv_recv_request` from a `multipart/form-data`
upload with one part named `fw` or with a name of 64 bytes. With the
payload `012345678` followed by a line feed (ten bytes without `--X`) the call
returns 0 with length 9, not 10: the line feed at the end of the payload is
trimmed. With a boundary of 34 bytes the `Content-Type` value does not fit the
array `ctype[64]` and the call returns -1. With a field name of 64 bytes the
name does not fit `found_name[64]` and the call returns -1. With a file name of
64 bytes the call returns 0 with the first 63 bytes of the file name. -/
theorem http_ui_get_file_limits :
    ((http_ui_get_file
        (recvOf (script_multipart (bytes "X") (bytes "fw") (bytes "fw.bin")
          (bytes "012345678\n"))).2.1.rxbuf
        (recvOf (script_multipart (bytes "X") (bytes "fw") (bytes "fw.bin")
          (bytes "012345678\n"))).2.2 (bytes "fw") part_zero).map
        (fun r => (r.1, r.2.data, r.2.length)) = some (0, some 137, 9) ∧
      ((recvOf (script_multipart (bytes "X") (bytes "fw") (bytes "fw.bin")
          (bytes "012345678\n"))).2.1.rxbuf.drop 137).take 10 = bytes "012345678\n") ∧
    (http_ui_get_file
        (recvOf (script_multipart (List.replicate 34 88) (bytes "fw") (bytes "fw.bin")
          (bytes "0123456789"))).2.1.rxbuf
        (recvOf (script_multipart (List.replicate 34 88) (bytes "fw") (bytes "fw.bin")
          (bytes "0123456789"))).2.2 (bytes "fw") part_zero).map (fun r => r.1) = some (-1) ∧
    (http_ui_get_file
        (recvOf (script_multipart (bytes "X") (List.replicate 64 110) (bytes "fw.bin")
          (bytes "0123456789"))).2.1.rxbuf
        (recvOf (script_multipart (bytes "X") (List.replicate 64 110) (bytes "fw.bin")
          (bytes "0123456789"))).2.2 (List.replicate 64 110) part_zero).map (fun r => r.1) =
      some (-1) ∧
    (http_ui_get_file
        (recvOf (script_multipart (bytes "X") (bytes "fw") (List.replicate 64 102)
          (bytes "0123456789"))).2.1.rxbuf
        (recvOf (script_multipart (bytes "X") (bytes "fw") (List.replicate 64 102)
          (bytes "0123456789"))).2.2 (bytes "fw") part_zero).map
        (fun r => (r.1, cstr r.2.filename)) = some (0, List.replicate 63 102) := by
  refine ⟨⟨?_, ?_⟩, ?_, ?_, ?_⟩
  · decide!
  · decide!
  · decide!
  · decide!
  · decide!

/-- C20, failing input: two uploads of the form that the claim describes, as
requests that `http_srv_recv_request` builds. The first is the upload of the
claim's witness (boundary `X`, field `fw`, file `fw.bin`) with the ten payload
bytes `0123`, NUL, `56789`, which do not contain `--X`:
`http_ui_get_file(req, "fw", out)` returns 0 with length 17, not 10. The search
for the next boundary with `strstr` stops at the NUL byte of the payload, so the
view runs to the end of the body less the final CR LF: it holds the payload
followed by CR LF and `--X--`. The second is the upload of `0123456789` with a
boundary token of 37 bytes: the `Content-Type` value does not fit `ctype[64]`,
the token is cut to 33 bytes, and the call returns -1. -/
theorem http_ui_get_file_binary_payload :
    (payload_nul.length = 10 ∧ (∀ i < 10, ¬ bytes "--X" <+: payload_nul.drop i) ∧
      (recvOf (script_multipart (bytes "X") (bytes "fw") (bytes "fw.bin")
        payload_nul)).2.2.body = some 68 ∧
      (recvOf (script_multipart (bytes "X") (bytes "fw") (bytes "fw.bin")
        payload_nul)).2.2.body_len = 88 ∧
      view (recvOf (script_multipart (bytes "X") (bytes "fw") (bytes "fw.bin")
        payload_nul)).2.1.rxbuf 68 88 =
        multipart_body (bytes "X") (bytes "fw") (bytes "fw.bin") payload_nul ∧
      (http_ui_get_file
        (recvOf (script_multipart (bytes "X") (bytes "fw") (bytes "fw.bin")
          payload_nul)).2.1.rxbuf
        (recvOf (script_multipart (bytes "X") (bytes "fw") (bytes "fw.bin")
          payload_nul)).2.2 (bytes "fw") part_zero).map
        (fun r => (r.1, r.2.data, r.2.length, cstr r.2.filename)) =
        some (0, some 137, 17, bytes "fw.bin") ∧
      view (recvOf (script_multipart (bytes "X") (bytes "fw") (bytes "fw.bin")
        payload_nul)).2.1.rxbuf 137 17 = payload_nul ++ bytes "\r\n--X--") ∧
    (boundary_webkit.length = 37 ∧
      (∀ i < 10, ¬ ([45, 45] ++ boundary_webkit) <+: (bytes "0123456789").drop i) ∧
      (recvOf (script_multipart boundary_webkit (bytes "fw") (bytes "fw.bin")
        (bytes "0123456789"))).2.2.body = some 104 ∧
      (recvOf (script_multipart boundary_webkit (bytes "fw") (bytes "fw.bin")
        (bytes "0123456789"))).2.2.body_len = 160 ∧
      view (recvOf (script_multipart boundary_webkit (bytes "fw") (bytes "fw.bin")
        (bytes "0123456789"))).2.1.rxbuf 104 160 =
        multipart_body boundary_webkit (bytes "fw") (bytes "fw.bin") (bytes "0123456789") ∧
      http_ui_get_file
        (recvOf (script_multipart boundary_webkit (bytes "fw") (bytes "fw.bin")
          (bytes "0123456789"))).2.1.rxbuf
        (recvOf (script_multipart boundary_webkit (bytes "fw") (bytes "fw.bin")
          (bytes "0123456789"))).2.2 (bytes "fw") part_zero = some (-1, part_zero)) := by
  refine ⟨⟨?_, ?_, ?_, ?_, ?_, ?_, ?_⟩, ?_, ?_, ?_, ?_, ?_, ?_⟩
  · decide
  · decide
  · decide!
  · decide!
  · decide!
  · decide!
  · decide!
  · decide
  · decide
  · decide!
  · decide!
  · decide!
  · decide!

/-! ## Selection of the part and its content type (C21, C23) -/

/-- C21, failing input: the request that `http_srv_recv_request` builds from a
`multipart/form-data` upload with boundary `X` whose only part has the line
`Content-Disposition: form-data; filename="a.bin"; name="fw"`. The part carries
the parameter `name="fw"`, but `http_ui_get_file(req, "fw", out)` returns -1: the
search for `name="` hits the end of `filename="`, so the name read is `a.bin`,
and `http_ui_get_file(req, "a.bin", out)` returns 0 with the ten bytes of the
part. -/
theorem http_ui_get_file_name_after_filename :
    view (recvOf (script_body_X body_filename_first)).2.1.rxbuf 68 87 = body_filename_first ∧
    (http_ui_get_file (recvOf (script_body_X body_filename_first)).2.1.rxbuf
        (recvOf (script_body_X body_filename_first)).2.2 (bytes "fw") part_zero).map
        (fun r => r.1) = some (-1) ∧
    (http_ui_get_file (recvOf (script_body_X body_filename_first)).2.1.rxbuf
        (recvOf (script_body_X body_filename_first)).2.2 (bytes "a.bin") part_zero).map
        (fun r => (r.1, r.2.data, r.2.length)) = some (0, some 136, 10) ∧
    view (recvOf (script_body_X body_filename_first)).2.1.rxbuf 136 10 = bytes "0123456789" := by
  refine ⟨?_, ?_, ?_, ?_⟩
  · decide!
  · decide!
  · decide!
  · decide!

/-- C23, failing input: the request that `http_srv_recv_request` builds from a
`multipart/form-data` upload with boundary `X` whose only part is named `fw` and
declares `Content-Type: application/octet-stream` in its header. The call
`http_ui_get_file(req, "fw", out)` returns 0 with the file name `fw.bin` and the
ten bytes of the part, and `out->content_type` is the empty string. -/
theorem http_ui_get_file_content_type_empty :
    view (recvOf (script_body_X body_part_type)).2.1.rxbuf 68 128 = body_part_type ∧
    (http_ui_get_file (recvOf (script_body_X body_part_type)).2.1.rxbuf
        (recvOf (script_body_X body_part_type)).2.2 (bytes "fw") part_zero).map
        (fun r => (r.1, r.2.data, r.2.length, cstr r.2.filename, cstr r.2.content_type)) =
      some (0, some 177, 10, bytes "fw.bin", []) ∧
    view (recvOf (script_body_X body_part_type)).2.1.rxbuf 177 10 = bytes "0123456789" := by
  refine ⟨?_, ?_, ?_⟩
  · decide!
  · decide!
  · decide!

/-! ## Results "not found" of `http_ui_get_file` (C22) -/

theorem strcmp_eq_zero_iff : ∀ (a b : List Nat), strcmp a b = 0 ↔ cstr a = cstr b
  | [], b => by
    have h := cstr_eq_nil_iff b
    simp only [strcmp, cstr, List.takeWhile_nil] at h ⊢
    constructor
    · intro e
      have e' : b.headD 0 = 0 := by omega
      exact (h.mpr e').symm
    · intro e
      have := h.mp e.symm
      omega
  | c1 :: r1, b => by
    have ih := strcmp_eq_zero_iff r1 b.tail
    unfold strcmp
    simp only []
    by_cases hc : c1 = b.headD 0
    · rw [if_neg (by simpa using hc)]
      by_cases h0 : c1 = 0
      · rw [if_pos h0]
        subst h0
        have hb : cstr b = [] := (cstr_eq_nil_iff b).mpr hc.symm
        simp [cstr, List.takeWhile] at hb ⊢
        simp [cstr, hb]
      · rw [if_neg h0, ih]
        cases b with
        | nil => exact absurd hc (by simpa using h0)
        | cons b0 b' =>
          simp only [List.headD_cons] at hc
          subst hc
          simp [cstr, List.takeWhile, h0]
    · rw [if_pos (by simpa using hc)]
      constructor
      · intro e
        exfalso
        apply hc
        omega
      · intro e
        exfalso
        apply hc
        by_cases h0 : c1 = 0
        · subst h0
          have : cstr b = [] := by rw [← e]; simp [cstr, List.takeWhile]
          exact ((cstr_eq_nil_iff b).mp this).symm
        · cases b with
          | nil => simp [cstr, List.takeWhile, h0] at e
          | cons b0 b' =>
            by_cases hb0 : b0 = 0
            · subst hb0; simp [cstr, List.takeWhile, h0] at e
            · simp [cstr, List.takeWhile, h0, hb0] at e
              simpa using e.1

/-- No occurrence of the needle in a C string that holds none. -/
theorem strstr_none (H t nd : List Nat) (hH : ∀ c ∈ H, c ≠ 0) (ht : t.headD 0 = 0)
    (hnd : cstr nd ≠ []) (hno : ∀ i, ¬ cstr nd <+: H.drop i) : strstr (H ++ t) nd = none := by
  rw [strstr_skip nd H t hH (by
    intro i _
    rw [isPrefixOf_false_iff,
      cstr_append_nul _ t (fun c hc => hH c (List.mem_of_mem_drop hc)) ht]
    exact hno i)]
  cases t with
  | nil => simp [strstr, hnd]
  | cons a t =>
    simp only [List.headD_cons] at ht
    subst ht
    have : cstr ((0 : Nat) :: t) = [] := by simp [cstr, List.takeWhile]
    cases hcn : cstr nd with
    | nil => exact absurd hcn hnd
    | cons x nd' => simp [strstr, this, hcn, List.isPrefixOf]

/-- One pass of the loop of `http_ui_get_file` over a part whose field name is not
the one asked for: the scan goes on behind the header of the part. -/
theorem http_ui_get_file_loop_skip (mem : List Nat) (body_end p q fuel : Nat)
    (B N F rest field_name : List Nat) (out : http_ui_file_part_t)
    (hB : ∀ c ∈ B, c ≠ 0 ∧ c ≠ 13)
    (hN : ∀ c ∈ N, c ≠ 0 ∧ c ≠ 34 ∧ c ≠ 13) (hNl : N.length ≤ 63)
    (hF : ∀ c ∈ F, c ≠ 0 ∧ c ≠ 13) (hFl : F.length ≤ 63)
    (hs : strstr (mem.drop p) ([45, 45] ++ B) = some q)
    (hmem : mem.drop (p + q) = ([45, 45] ++ B) ++ ([13, 10] ++ (cd_text N F ++
      ([13, 10, 13, 10] ++ rest))))
    (hend : p + q + (B.length + 2) + 2 + (cd_text N F).length < body_end)
    (hne : cstr field_name ≠ N) :
    http_ui_get_file_loop mem body_end ([45, 45] ++ B) field_name out (fuel + 1) p =
      http_ui_get_file_loop mem body_end ([45, 45] ++ B) field_name out fuel
        (p + q + (B.length + 2) + 2 + (cd_text N F).length + 4) := by
  obtain ⟨hd1, -, hcl⟩ := cd_text_drop N F
  have hbs0 : ∀ c ∈ [45, 45] ++ B, c ≠ 0 := by
    intro c hc
    simp only [List.cons_append, List.nil_append, List.mem_cons] at hc
    rcases hc with rfl | rfl | hc
    · decide
    · decide
    · exact (hB c hc).1
  have hcs : cstr ([45, 45] ++ B) = [45, 45] ++ B := cstr_self _ hbs0
  have hsl : strlen ([45, 45] ++ B) = B.length + 2 := by
    unfold strlen
    rw [hcs]
    simp
  have hbl : ([45, 45] ++ B).length = B.length + 2 := by simp
  have hcd := cd_text_chars N F (fun c hc => ⟨(hN c hc).1, (hN c hc).2.2⟩) hF
  have m1 := drop_of_drop_eq mem (p + q) _ _ hmem
  rw [hbl] at m1
  have g1 : mem.getD (p + q + (B.length + 2)) 0 = 13 := getD_of_drop_eq mem _ 13 _ m1
  have m1' : mem.drop (p + q + (B.length + 2) + 1) = 10 :: (cd_text N F ++
      ([13, 10, 13, 10] ++ rest)) :=
    drop_of_drop_eq mem (p + q + (B.length + 2)) [13] _ m1
  have g2 : mem.getD (p + q + (B.length + 2) + 1) 0 = 10 := getD_of_drop_eq mem _ 10 _ m1'
  have m2 : mem.drop (p + q + (B.length + 2) + 2) = cd_text N F ++ ([13, 10, 13, 10] ++ rest) :=
    drop_of_drop_eq mem (p + q + (B.length + 2)) [13, 10] _ m1
  have s2 : strstr (cd_text N F ++ ([13, 10, 13, 10] ++ rest))
      [13, 10, 13, 10] = some (cd_text N F).length := by
    rw [strstr_skip_char [13, 10, 13, 10] 13 [10, 13, 10] (by decide) _ _ hcd]
    rw [strstr_here _ _ (by
      rw [show cstr [13, 10, 13, 10] = [13, 10, 13, 10] from by decide,
        cstr_append _ _ (by decide), List.isPrefixOf_iff_prefix]
      exact List.prefix_append _ _)]
    simp
  have s3 : strstr (cd_text N F ++ ([13, 10, 13, 10] ++ rest))
      [13, 10] = some (cd_text N F).length := by
    rw [strstr_skip_char [13, 10] 13 [10] (by decide) _ _ hcd]
    rw [strstr_here _ _ (by
      rw [show cstr [13, 10] = [13, 10] from by decide,
        show ([13, 10, 13, 10] ++ rest : List Nat) = [13, 10] ++ ([13, 10] ++ rest) from rfl,
        cstr_append _ _ (by decide), List.isPrefixOf_iff_prefix]
      exact List.prefix_append _ _)]
    simp
  have hline : (cd_text N F ++ ([13, 10, 13, 10] ++ rest)).take (cd_text N F).length =
      cd_text N F := List.take_left _ _
  have hnl : name_eq.length = 6 := by decide
  have hchr : strchr (N ++ 34 :: (bytes "; filename=\"" ++ F ++ [34, 0])) 34 = some N.length :=
    strchr_found_gen 34 N _ (fun c hc => ⟨(hN c hc).2.1, (hN c hc).1⟩)
  have hnm : (N ++ 34 :: (bytes "; filename=\"" ++ F ++ [34, 0])).take N.length = N :=
    List.take_left _ _
  have hcmp : strcmp (N ++ [0]) field_name ≠ 0 := by
    rw [Ne, strcmp_eq_zero_iff, cstr_append_nul N [0] (fun c hc => (hN c hc).1) rfl]
    exact fun e => hne e.symm
  conv_lhs => unfold http_ui_get_file_loop
  rw [if_pos (by omega), hs]
  simp only [hsl]
  rw [if_neg (by omega), if_neg (by omega), if_pos ⟨g1, g2⟩, m2, s2]
  simp only []
  rw [if_neg (by omega), s3]
  simp only []
  have hcdlen : (if (cd_text N F).length ≥ 256 then 256 - 1 else (cd_text N F).length) =
      (cd_text N F).length := if_neg (by omega)
  rw [if_neg (by omega), hcdlen, hline, if_neg (by
    rw [cd_text_disposition]; simp), strstr_name]
  simp only [hnl]
  rw [show 32 + 6 = 38 from rfl, hd1, hchr]
  simp only []
  have hnlen : (if N.length ≥ 64 then 64 - 1 else N.length) = N.length := if_neg (by omega)
  rw [hnlen, hnm, if_pos hcmp]

/-- The loop of `http_ui_get_file` at a boundary behind which the body has no
CR LF CR LF: the result is -1. -/
theorem http_ui_get_file_loop_end (mem : List Nat) (body_end p q fuel : Nat)
    (B H t field_name : List Nat) (out : http_ui_file_part_t)
    (hB : ∀ c ∈ B, c ≠ 0 ∧ c ≠ 13)
    (hs : strstr (mem.drop p) ([45, 45] ++ B) = some q)
    (hmem : mem.drop (p + q) = ([45, 45] ++ B) ++ (H ++ t))
    (hH : ∀ c ∈ H, c ≠ 0) (ht : t.headD 0 = 0)
    (hno : ∀ i, ¬ [13, 10, 13, 10] <+: H.drop i)
    (hend : body_end ≤ p + q + (B.length + 2) + H.length) :
    http_ui_get_file_loop mem body_end ([45, 45] ++ B) field_name out (fuel + 1) p =
      some (-1, out) := by
  have hbs0 : ∀ c ∈ [45, 45] ++ B, c ≠ 0 := by
    intro c hc
    simp only [List.cons_append, List.nil_append, List.mem_cons] at hc
    rcases hc with rfl | rfl | hc
    · decide
    · decide
    · exact (hB c hc).1
  have hsl : strlen ([45, 45] ++ B) = B.length + 2 := by
    unfold strlen
    rw [cstr_self _ hbs0]
    simp
  have hbl : ([45, 45] ++ B).length = B.length + 2 := by simp
  have m1 := drop_of_drop_eq mem (p + q) _ _ hmem
  rw [hbl] at m1
  have hc4 : cstr [13, 10, 13, 10] = [13, 10, 13, 10] := by decide
  unfold http_ui_get_file_loop
  by_cases hp : p < body_end
  · rw [if_pos hp, hs]
    simp only [hsl]
    by_cases h1 : p + q ≥ body_end
    · rw [if_pos h1]
    · rw [if_neg h1]
      by_cases h2 : p + q + (B.length + 2) + 2 > body_end
      · rw [if_pos h2]
      · rw [if_neg h2]
        have hH2 : 2 ≤ H.length := by omega
        have m2 : mem.drop (p + q + (B.length + 2) + 2) = H.drop 2 ++ t := by
          rw [← List.drop_drop, m1, List.drop_append_of_le_length hH2]
        have n1 : strstr (H ++ t) [13, 10, 13, 10] = none :=
          strstr_none H t _ hH ht (by rw [hc4]; simp) (by rw [hc4]; exact hno)
        have n2 : strstr (H.drop 2 ++ t) [13, 10, 13, 10] = none :=
          strstr_none (H.drop 2) t _ (fun c hc => hH c (List.mem_of_mem_drop hc)) ht
            (by rw [hc4]; simp) (by
              rw [hc4]
              intro i
              rw [List.drop_drop]
              exact hno _)
        split_ifs
        · rw [m2, n2]
        · rw [m1, n1]
  · rw [if_neg hp]

theorem parts_text_head (B : List Nat) (ps : List (List Nat × List Nat × List Nat))
    (E : List Nat) :
    ∃ R, parts_text B ps ++ (([45, 45] ++ B) ++ E) = ([45, 45] ++ B) ++ R := by
  cases ps with
  | nil => exact ⟨E, rfl⟩
  | cons x ps =>
    refine ⟨[13, 10] ++ (cd_text x.1 x.2.1 ++ ([13, 10, 13, 10] ++ (x.2.2 ++ [13, 10]))) ++
      (parts_text B ps ++ (([45, 45] ++ B) ++ E)), ?_⟩
    simp only [parts_text, part_text, List.append_assoc]

theorem part_text_length (B N F P : List Nat) :
    (part_text B N F P).length =
      B.length + 2 + 2 + (cd_text N F).length + 4 + P.length + 2 := by
  simp only [part_text, List.length_append, List.length_cons, List.length_nil]
  omega

/-- The loop of `http_ui_get_file` over parts none of which has the field name
asked for: one pass for each part, and the scan stands in front of what follows
them. -/
theorem http_ui_get_file_loop_parts (mem : List Nat) (body_end : Nat)
    (B field_name : List Nat) (out : http_ui_file_part_t) (hB : ∀ c ∈ B, c ≠ 0 ∧ c ≠ 13) :
    ∀ (ps : List (List Nat × List Nat × List Nat)) (p q fuel : Nat) (E : List Nat),
      (∀ x ∈ ps, PartOk B x ∧ x.1 ≠ cstr field_name) →
      strstr (mem.drop p) ([45, 45] ++ B) = some q →
      mem.drop (p + q) = parts_text B ps ++ (([45, 45] ++ B) ++ E) →
      p + q + (parts_text B ps).length + (B.length + 2) ≤ body_end →
      ∃ p' q', strstr (mem.drop p') ([45, 45] ++ B) = some q' ∧
        mem.drop (p' + q') = ([45, 45] ++ B) ++ E ∧
        p' + q' = p + q + (parts_text B ps).length ∧
        http_ui_get_file_loop mem body_end ([45, 45] ++ B) field_name out (ps.length + fuel) p =
          http_ui_get_file_loop mem body_end ([45, 45] ++ B) field_name out fuel p'
  | [], p, q, fuel, E, _, hs, hmem, _ => by
    refine ⟨p, q, hs, ?_, ?_, ?_⟩
    · simpa [parts_text] using hmem
    · simp [parts_text]
    · simp
  | x :: ps, p, q, fuel, E, hps, hs, hmem, hend => by
    obtain ⟨N, F, P⟩ := x
    obtain ⟨⟨hN, hNl, hF, hFl, hP0, hP⟩, hne⟩ := hps (N, F, P) (List.mem_cons_self _ _)
    simp only at hN hNl hF hFl hP0 hP hne
    obtain ⟨R, hR⟩ := parts_text_head B ps E
    have hlen := part_text_length B N F P
    have hmem' : mem.drop (p + q) = ([45, 45] ++ B) ++ ([13, 10] ++ (cd_text N F ++
        ([13, 10, 13, 10] ++ (P ++ [13, 10] ++ (parts_text B ps ++ (([45, 45] ++ B) ++ E)))))) := by
      rw [hmem]
      simp only [parts_text, part_text, List.append_assoc]
    simp only [parts_text, List.length_append, hlen] at hend
    have hskip := http_ui_get_file_loop_skip mem body_end p q (ps.length + fuel) B N F _
      field_name out hB hN hNl hF hFl hs hmem' (by omega) (fun e => hne e.symm)
    have m4 : mem.drop (p + q + (B.length + 2) + 2 + (cd_text N F).length + 4) =
        P ++ [13, 10] ++ (parts_text B ps ++ (([45, 45] ++ B) ++ E)) := by
      have hbl : ([45, 45] ++ B).length = B.length + 2 := by simp
      have a1 := drop_of_drop_eq mem (p + q) _ _ hmem'
      rw [hbl] at a1
      have a2 := drop_of_drop_eq mem (p + q + (B.length + 2)) [13, 10] _ a1
      have a3 := drop_of_drop_eq mem _ _ _ a2
      exact drop_of_drop_eq mem _ [13, 10, 13, 10] _ a3
    have hs1 : strstr (mem.drop (p + q + (B.length + 2) + 2 + (cd_text N F).length + 4))
        ([45, 45] ++ B) = some (P.length + 2) := by
      rw [m4, hR, ← List.append_assoc]
      exact strstr_boundary B P R hB hP0 hP
    have m5 : mem.drop (p + q + (B.length + 2) + 2 + (cd_text N F).length + 4 + (P.length + 2)) =
        parts_text B ps ++ (([45, 45] ++ B) ++ E) := by
      have := drop_of_drop_eq mem _ (P ++ [13, 10]) _ m4
      simpa using this
    obtain ⟨p', q', h1, h2, h3, h4⟩ := http_ui_get_file_loop_parts mem body_end B field_name out
      hB ps _ (P.length + 2) fuel E (fun y hy => hps y (List.mem_cons_of_mem _ hy)) hs1 m5
      (by omega)
    refine ⟨p', q', h1, h2, ?_, ?_⟩
    · simp only [parts_text, List.length_append, hlen]
      omega
    · rw [← h4, ← hskip]
      congr 1
      simp only [List.length_cons]
      omega

theorem parts_text_length_ge (B : List Nat) :
    ∀ ps : List (List Nat × List Nat × List Nat), ps.length ≤ (parts_text B ps).length
  | [] => by simp [parts_text]
  | x :: ps => by
    have ih := parts_text_length_ge B ps
    simp only [parts_text, List.length_cons, List.length_append, part_text_length]
    omega

/-- The scan of `http_ui_get_file` over a body that consists of parts none of
which has the field name asked for, followed by a boundary behind which the body
has no CR LF CR LF: the result is -1. -/
theorem http_ui_get_file_scan_fails (mem : List Nat) (req : http_srv_request_t) (body : Nat)
    (B H t field_name : List Nat) (ps : List (List Nat × List Nat × List Nat))
    (out_part : http_ui_file_part_t)
    (hB : ∀ c ∈ B, c ≠ 0 ∧ c ≠ 59 ∧ isspace c = false) (hB1 : B ≠ []) (hBl : B.length ≤ 33)
    (hct : http_ui_get_content_type mem req 64 =
      some (bytes "multipart/form-data; boundary=" ++ B ++ [0]))
    (hbody : req.body = some body)
    (hmem : mem.drop body = parts_text B ps ++ (([45, 45] ++ B) ++ (H ++ t)))
    (hlen : req.body_len = (parts_text B ps ++ (([45, 45] ++ B) ++ H)).length)
    (hps : ∀ x ∈ ps, PartOk B x ∧ x.1 ≠ cstr field_name)
    (hH : ∀ c ∈ H, c ≠ 0) (ht : t.headD 0 = 0)
    (hno : ∀ i, ¬ [13, 10, 13, 10] <+: H.drop i) :
    http_ui_get_file mem req field_name out_part = some (-1, out_part) := by
  obtain ⟨c1, c2, c3⟩ := boundary_of_content_type B hB hBl
  have hB13 : ∀ c ∈ B, c ≠ 0 ∧ c ≠ 13 := by
    intro c hc
    obtain ⟨h0, -, hsp⟩ := hB c hc
    refine ⟨h0, ?_⟩
    intro e
    subst e
    revert hsp
    decide
  have hbs0 : ∀ c ∈ [45, 45] ++ B, c ≠ 0 := by
    intro c hc
    simp only [List.cons_append, List.nil_append, List.mem_cons] at hc
    rcases hc with rfl | rfl | hc
    · decide
    · decide
    · exact (hB c hc).1
  have hbne : ¬ B.headD 0 = 0 := by
    cases B with
    | nil => exact absurd rfl hB1
    | cons b B => exact (hB b (List.mem_cons_self _ _)).1
  have htake : ([45, 45] ++ B).take (80 - 1) = [45, 45] ++ B :=
    List.take_of_length_le (by
      simp only [List.length_append, List.length_cons, List.length_nil]
      omega)
  obtain ⟨R, hR⟩ := parts_text_head B ps (H ++ t)
  have hs0 : strstr (mem.drop body) ([45, 45] ++ B) = some 0 := by
    rw [hmem, hR]
    exact strstr_here _ _ (by
      rw [cstr_self _ hbs0, cstr_append _ _ hbs0, List.isPrefixOf_iff_prefix]
      exact List.prefix_append _ _)
  have hge := parts_text_length_ge B ps
  simp only [List.length_append, List.length_cons, List.length_nil] at hlen
  obtain ⟨p', q', h1, h2, h3, h4⟩ := http_ui_get_file_loop_parts mem (body + req.body_len) B
    field_name out_part hB13 ps body 0 (req.body_len - ps.length + 1) (H ++ t) hps hs0
    (by simpa using hmem) (by omega)
  have hfuel : req.body_len + 1 = ps.length + (req.body_len - ps.length + 1) := by omega
  have hend := http_ui_get_file_loop_end mem (body + req.body_len) p' q'
    (req.body_len - ps.length) B H t field_name out_part hB13 h1 h2 hH ht hno (by omega)
  unfold http_ui_get_file
  rw [hbody]
  simp only [hct]
  rw [if_neg (by rw [c1]; simp), c2]
  simp only [c3]
  rw [if_neg hbne, htake, hfuel, h4, hend]

/-- The number of passes allowed to the loop of `http_ui_get_file` is never used
up: every pass that goes on moves `p` forward by at least four bytes, so with
more than `body_end - p` passes allowed the result does not depend on their
number. -/
theorem http_ui_get_file_loop_fuel (mem : List Nat) (body_end : Nat)
    (boundary_start field_name : List Nat) (out_part : http_ui_file_part_t) :
    ∀ (fuel p extra : Nat), body_end < p + fuel →
      http_ui_get_file_loop mem body_end boundary_start field_name out_part (fuel + extra) p =
        http_ui_get_file_loop mem body_end boundary_start field_name out_part fuel p
  | 0, p, extra, h => by
    cases extra with
    | zero => rfl
    | succ n =>
      rw [Nat.zero_add]
      unfold http_ui_get_file_loop
      rw [if_neg (by omega)]
  | fuel + 1, p, extra, h => by
    rw [show fuel + 1 + extra = (fuel + extra) + 1 by omega]
    unfold http_ui_get_file_loop
    by_cases h1 : p < body_end
    swap
    · rw [if_neg h1, if_neg h1]
    rw [if_pos h1, if_pos h1]
    cases hs1 : strstr (mem.drop p) boundary_start with
    | none => rfl
    | some k =>
      simp only []
      by_cases h2 : p + k ≥ body_end
      · rw [if_pos h2, if_pos h2]
      rw [if_neg h2, if_neg h2]
      by_cases h3 : p + k + strlen boundary_start + 2 > body_end
      · rw [if_pos h3, if_pos h3]
      rw [if_neg h3, if_neg h3]
      generalize hph : (if mem.getD (p + k + strlen boundary_start) 0 = 13 ∧
        mem.getD (p + k + strlen boundary_start + 1) 0 = 10
        then p + k + strlen boundary_start + 2 else p + k + strlen boundary_start) = part_hdr
      have hph1 : p ≤ part_hdr := by
        rw [← hph]
        split_ifs <;> omega
      cases hs2 : strstr (mem.drop part_hdr) [13, 10, 13, 10] with
      | none => rfl
      | some k2 =>
        simp only []
        rw [http_ui_get_file_loop_fuel mem body_end boundary_start field_name out_part fuel
          (part_hdr + k2 + 4) extra (by omega)]

/-- The body of the upload whose part has `filename="a.bin"` before `name="fw"`
holds the text `name="a.bin"`, at the end of the parameter `filename="a.bin"`
(offset 109 of the receive buffer): the results "not found" for bodies without
the text `name="field_name"` do not speak of this body and the field `a.bin`. -/
theorem body_filename_first_name_text :
    name_text (bytes "a.bin") = bytes "name=\"a.bin\"" ∧
    occurs_at (recvOf (script_body_X body_filename_first)).2.1.rxbuf
      (name_text (bytes "a.bin")) 109 ∧
    view (recvOf (script_body_X body_filename_first)).2.1.rxbuf 105 16 =
      bytes "filename=\"a.bin\"" := by
  refine ⟨?_, ?_, ?_⟩
  · decide
  · decide!
  · decide!

/-! ## `send_all` (C27) -/

theorem net_sock_send_calls (net : Net) (buf : List Nat) (len : Nat) :
    (net_sock_send net buf len).2.calls = net.calls ++ [(buf.take len, (net_sock_send net buf len).1)] ∧
    (net_sock_send net buf len).2.sends = net.sends.tail ∧
    (net.sends = [] → (net_sock_send net buf len).1 = -1) := by
  refine ⟨rfl, rfl, ?_⟩
  intro h
  simp [net_sock_send, h]

/-- What `send_all` does for every script: it appends its calls to the record,
returns `HTTP_OK` or `HTTP_ERR`, and returns `HTTP_ERR` exactly when one of its
calls had a result `<= 0`. -/
theorem send_all_loop_calls (buf : List Nat) (len : Nat) :
    ∀ (fuel : Nat) (net : Net) (sent : Nat), net.sends.length < fuel →
      ∃ new, (send_all_loop buf len fuel net sent).2.calls = net.calls ++ new ∧
        (send_all_loop buf len fuel net sent).2.sends = net.sends.drop new.length ∧
        ((send_all_loop buf len fuel net sent).1 = HTTP_OK ∨
          (send_all_loop buf len fuel net sent).1 = HTTP_ERR) ∧
        ((send_all_loop buf len fuel net sent).1 = HTTP_ERR ↔ ∃ c ∈ new, c.2 ≤ 0)
  | 0, net, sent, h => absurd h (Nat.not_lt_zero _)
  | fuel + 1, net, sent, h => by
    unfold send_all_loop
    by_cases hs : sent < len
    · rw [if_pos hs]
      obtain ⟨e1, e2, e3⟩ := net_sock_send_calls net (buf.drop sent) (len - sent)
      simp only []
      by_cases hrc : (net_sock_send net (buf.drop sent) (len - sent)).1 ≤ 0
      · rw [if_pos hrc]
        refine ⟨[((buf.drop sent).take (len - sent),
          (net_sock_send net (buf.drop sent) (len - sent)).1)], e1, ?_, Or.inr rfl, ?_⟩
        · rw [e2]
          cases net.sends <;> rfl
        · simp only [true_iff]
          exact ⟨_, List.mem_singleton_self _, hrc⟩
      · rw [if_neg hrc]
        have hne : net.sends ≠ [] := by
          intro hn
          rw [e3 hn] at hrc
          exact hrc (by decide)
        have hl : (net_sock_send net (buf.drop sent) (len - sent)).2.sends.length < fuel := by
          rw [e2]
          cases hsd : net.sends with
          | nil => exact absurd hsd hne
          | cons a r =>
            rw [hsd] at h
            simp only [List.length_cons] at h
            simpa using h
        obtain ⟨new, n1, n2, n3, n4⟩ := send_all_loop_calls buf len fuel
          (net_sock_send net (buf.drop sent) (len - sent)).2
          ((sent + (net_sock_send net (buf.drop sent) (len - sent)).1.toNat) % 2 ^ 32) hl
        refine ⟨((buf.drop sent).take (len - sent),
          (net_sock_send net (buf.drop sent) (len - sent)).1) :: new, ?_, ?_, n3, ?_⟩
        · rw [n1, e1, List.append_assoc]
          rfl
        · rw [n2, e2]
          cases net.sends with
          | nil => simp
          | cons a r => simp
        · rw [n4]
          constructor
          · rintro ⟨c, hc, hc0⟩
            exact ⟨c, List.mem_cons_of_mem _ hc, hc0⟩
          · rintro ⟨c, hc, hc0⟩
            rcases List.mem_cons.mp hc with rfl | hc
            · exact absurd hc0 hrc
            · exact ⟨c, hc, hc0⟩
    · rw [if_neg hs]
      refine ⟨[], by simp, by simp, Or.inl rfl, ?_⟩
      simp [HTTP_OK, HTTP_ERR]

theorem accepted_cons (c : List Nat × Int) (calls : List (List Nat × Int)) :
    accepted (c :: calls) = c.1.take c.2.toNat ++ accepted calls := by
  simp [accepted]

theorem accepted_append (a b : List (List Nat × Int)) :
    accepted (a ++ b) = accepted a ++ accepted b := by
  simp [accepted]

/-- What `send_all` does when every call returns a positive count no larger than
the number of bytes offered: it returns `HTTP_OK`, the pieces accepted are,
concatenated, the bytes from `sent` to `len`, and every call offers the bytes
behind those accepted before. -/
theorem send_all_loop_accepting (buf : List Nat) (len : Nat) (hlen : len ≤ buf.length)
    (h32 : len < 2 ^ 32) :
    ∀ (fuel : Nat) (net : Net) (sent : Nat) (new : List (List Nat × Int)),
      net.sends.length < fuel → sent ≤ len →
      (send_all_loop buf len fuel net sent).2.calls = net.calls ++ new → Accepting new →
      (send_all_loop buf len fuel net sent).1 = HTTP_OK ∧
      accepted new = (buf.take len).drop sent ∧
      ∀ pre c post, new = pre ++ c :: post →
        c.1 = (buf.take len).drop (sent + (accepted pre).length)
  | 0, net, sent, new, h, _, _, _ => absurd h (Nat.not_lt_zero _)
  | fuel + 1, net, sent, new, h, hsl, hc, hacc => by
    unfold send_all_loop at hc ⊢
    by_cases hs : sent < len
    · rw [if_pos hs] at hc ⊢
      obtain ⟨e1, e2, e3⟩ := net_sock_send_calls net (buf.drop sent) (len - sent)
      simp only [] at hc ⊢
      have hoff : (buf.drop sent).take (len - sent) = (buf.take len).drop sent := by
        rw [List.drop_take]
      have hofl : ((buf.take len).drop sent).length = len - sent := by
        simp only [List.length_drop, List.length_take]
        omega
      by_cases hrc : (net_sock_send net (buf.drop sent) (len - sent)).1 ≤ 0
      · exfalso
        rw [if_pos hrc, e1] at hc
        have hn := List.append_cancel_left hc
        have := hacc _ (by rw [← hn]; exact List.mem_singleton_self _)
        omega
      · rw [if_neg hrc] at hc ⊢
        have hne : net.sends ≠ [] := by
          intro hn
          rw [e3 hn] at hrc
          exact hrc (by decide)
        have hl : (net_sock_send net (buf.drop sent) (len - sent)).2.sends.length < fuel := by
          rw [e2]
          cases hsd : net.sends with
          | nil => exact absurd hsd hne
          | cons a r =>
            rw [hsd] at h
            simp only [List.length_cons] at h
            simpa using h
        obtain ⟨new', n1, -, -, -⟩ := send_all_loop_calls buf len fuel
          (net_sock_send net (buf.drop sent) (len - sent)).2
          ((sent + (net_sock_send net (buf.drop sent) (len - sent)).1.toNat) % 2 ^ 32) hl
        have hnew : new = ((buf.take len).drop sent,
            (net_sock_send net (buf.drop sent) (len - sent)).1) :: new' := by
          rw [n1, e1, List.append_assoc, hoff] at hc
          exact (List.append_cancel_left hc).symm
        have hfirst := hacc _ (by rw [hnew]; exact List.mem_cons_self _ _)
        simp only [hofl] at hfirst
        have hrcn : ((net_sock_send net (buf.drop sent) (len - sent)).1.toNat : Int) =
            (net_sock_send net (buf.drop sent) (len - sent)).1 := Int.toNat_of_nonneg (by omega)
        have hsent : (sent + (net_sock_send net (buf.drop sent) (len - sent)).1.toNat) % 2 ^ 32 =
            sent + (net_sock_send net (buf.drop sent) (len - sent)).1.toNat :=
          Nat.mod_eq_of_lt (by omega)
        rw [hsent] at n1 ⊢
        obtain ⟨i1, i2, i3⟩ := send_all_loop_accepting buf len hlen h32 fuel
          (net_sock_send net (buf.drop sent) (len - sent)).2
          (sent + (net_sock_send net (buf.drop sent) (len - sent)).1.toNat) new' hl (by omega) n1
          (fun c hc' => hacc c (by rw [hnew]; exact List.mem_cons_of_mem _ hc'))
        refine ⟨i1, ?_, ?_⟩
        · rw [hnew, accepted_cons, i2]
          simp only []
          rw [← List.drop_drop, List.take_append_drop]
        · intro pre c post hp
          cases pre with
          | nil =>
            rw [hnew, List.nil_append] at hp
            rw [← (List.cons.inj hp).1]
            simp [accepted]
          | cons c0 pre =>
            rw [hnew, List.cons_append] at hp
            obtain ⟨hc0, hp'⟩ := List.cons.inj hp
            rw [i3 pre c post hp', accepted_cons, ← hc0]
            simp only [List.length_append, List.length_take, List.length_drop]
            congr 1
            omega
    · rw [if_neg hs] at hc ⊢
      have hn : new = [] := by
        have : net.calls ++ [] = net.calls ++ new := by simpa using hc
        exact (List.append_cancel_left this).symm
      subst hn
      refine ⟨rfl, ?_, ?_⟩
      · rw [List.drop_eq_nil_of_le (by simp; omega)]
        rfl
      · intro pre c post hp
        exact absurd hp (by simp)

/-- C27. For every buffer `buf` that holds `len` bytes and every script of send
results, `send_all(sock, buf, len)` appends its calls to the record of the
transport, and: if each of these calls returns a positive count no larger than
the number of bytes offered, it returns `HTTP_OK`, every call offers the suffix
of the `len` bytes behind the bytes accepted before, and the accepted pieces
concatenate to exactly the `len` bytes; it returns `HTTP_OK` or `HTTP_ERR`, and
`HTTP_ERR` if and only if one of its calls returns a value `<= 0`. -/
theorem send_all_spec (net : Net) (buf : List Nat) (len : Nat) (hlen : len ≤ buf.length)
    (h32 : len < 2 ^ 32) :
    ∃ new, (send_all net buf len).2.calls = net.calls ++ new ∧
      (Accepting new →
        (send_all net buf len).1 = HTTP_OK ∧ accepted new = buf.take len ∧
        ∀ pre c post, new = pre ++ c :: post →
          c.1 = (buf.take len).drop (accepted pre).length) ∧
      ((send_all net buf len).1 = HTTP_OK ∨ (send_all net buf len).1 = HTTP_ERR) ∧
      ((send_all net buf len).1 = HTTP_ERR ↔ ∃ c ∈ new, c.2 ≤ 0) := by
  obtain ⟨new, n1, -, n3, n4⟩ := send_all_loop_calls buf len (net.sends.length + 1) net 0
    (Nat.lt_succ_self _)
  refine ⟨new, n1, ?_, n3, n4⟩
  intro hacc
  obtain ⟨a1, a2, a3⟩ := send_all_loop_accepting buf len hlen h32 (net.sends.length + 1) net 0
    new (Nat.lt_succ_self _) (Nat.zero_le _) n1 hacc
  refine ⟨a1, by simpa using a2, ?_⟩
  intro pre c post hp
  simpa using a3 pre c post hp

/-- Witness for C27: the five bytes `hello` with the send results 2, 1, 2: three
calls offer `hello`, `llo`, `lo`, the result is `HTTP_OK` and the pieces accepted
are `he`, `l`, `lo`. -/
theorem send_all_spec_witness :
    (send_all (net_of [2, 1, 2]) (bytes "hello") 5).1 = HTTP_OK ∧
    (send_all (net_of [2, 1, 2]) (bytes "hello") 5).2.calls =
      [(bytes "hello", 2), (bytes "llo", 1), (bytes "lo", 2)] ∧
    accepted (send_all (net_of [2, 1, 2]) (bytes "hello") 5).2.calls = bytes "hello" := by
  obtain ⟨new, h1, h2, -, -⟩ := send_all_spec (net_of [2, 1, 2]) (bytes "hello") 5
    (by decide) (by decide)
  have hc : (send_all (net_of [2, 1, 2]) (bytes "hello") 5).2.calls =
      [(bytes "hello", 2), (bytes "llo", 1), (bytes "lo", 2)] := by decide
  have hn : new = [(bytes "hello", 2), (bytes "llo", 1), (bytes "lo", 2)] := by
    rw [hc] at h1
    exact h1.symm
  obtain ⟨a1, a2, -⟩ := h2 (by rw [hn]; decide)
  refine ⟨a1, hc, ?_⟩
  rw [hc, ← hn, a2]
  decide

/-! ## `http_srv_send_response` (C25, C26) -/

theorem Accepting_append (a b : List (List Nat × Int)) :
    Accepting (a ++ b) ↔ Accepting a ∧ Accepting b := by
  unfold Accepting
  constructor
  · intro h
    exact ⟨fun c hc => h c (List.mem_append_left _ hc),
      fun c hc => h c (List.mem_append_right _ hc)⟩
  · rintro ⟨ha, hb⟩ c hc
    rcases List.mem_append.mp hc with h | h
    · exact ha c h
    · exact hb c h

theorem snprintf_fits (size : Nat) (text : List Nat) (h : text.length < size)
    (hs : size ≤ 2 ^ 31) :
    (snprintf size text).2 = (text.length : Int) ∧
    (snprintf size text).1 = text ++ [0] := by
  unfold snprintf
  refine ⟨if_pos (by omega), ?_⟩
  simp only []
  rw [List.take_of_length_le (by omega)]

/-- C26. Whenever the text of the response header (status line, `Content-Type`,
`Content-Length`, extra headers, `Connection: close`, empty line) has 256 bytes
or more, `http_srv_send_response` returns `HTTP_ERR` and makes no call of the
transport: it sends neither a part of the header nor the body. -/
theorem http_srv_send_response_too_large (hs : http_srv_t) (net : Net) (status_code : Int)
    (reason content_type body extra_headers : Option (List Nat)) (body_len : Nat)
    (h : 256 ≤ (response_header status_code (reason.getD (bytes "OK"))
      (content_type.getD (bytes "text/plain")) body_len (extra_headers.getD [])).length) :
    http_srv_send_response hs net status_code reason content_type body body_len extra_headers =
      (HTTP_ERR, net) := by
  unfold http_srv_send_response
  simp only []
  generalize response_header status_code (reason.getD (bytes "OK"))
    (content_type.getD (bytes "text/plain")) body_len (extra_headers.getD []) = text at h ⊢
  have hc : (snprintf 256 text).2 < 0 ∨ (snprintf 256 text).2 ≥ 256 := by
    unfold snprintf
    simp only []
    by_cases hl : text.length < 2 ^ 31
    · rw [if_pos hl]
      right
      omega
    · rw [if_neg hl]
      left
      omega
  rw [if_pos hc]
  split_ifs <;> rfl

/-- Witness for C26: with a reason phrase of 300 bytes the header text has 381
bytes; the call returns `HTTP_ERR` and the transport, ready to accept 1000 bytes,
is not called. -/
theorem http_srv_send_response_too_large_witness :
    (response_header 200 (List.replicate 300 65) (bytes "text/plain") 0 []).length = 381 ∧
    http_srv_send_response hs_init (net_of [1000]) 200 (some (List.replicate 300 65)) none none 0
      none = (HTTP_ERR, net_of [1000]) :=
  ⟨by decide!,
   http_srv_send_response_too_large hs_init (net_of [1000]) 200 (some (List.replicate 300 65))
     none none none 0 (by decide!)⟩

/-- The result of `send_all` and the bytes accepted when every call it makes
returns a positive count no larger than the number of bytes offered. -/
theorem send_all_accepting (net : Net) (buf : List Nat) (len : Nat) (hlen : len ≤ buf.length)
    (h32 : len < 2 ^ 32) (new : List (List Nat × Int))
    (hc : (send_all net buf len).2.calls = net.calls ++ new) (hacc : Accepting new) :
    (send_all net buf len).1 = HTTP_OK ∧ accepted new = buf.take len := by
  obtain ⟨a1, a2, -⟩ := send_all_loop_accepting buf len hlen h32 (net.sends.length + 1) net 0
    new (Nat.lt_succ_self _) (Nat.zero_le _) hc hacc
  exact ⟨a1, by simpa using a2⟩

/-- The calls of `send_all` are appended to the record of the transport; the
result is `HTTP_OK` or `HTTP_ERR`, and `HTTP_ERR` exactly when one of these calls
returns a value `<= 0`. -/
theorem send_all_calls (net : Net) (buf : List Nat) (len : Nat) :
    ∃ new, (send_all net buf len).2.calls = net.calls ++ new ∧
      ((send_all net buf len).1 = HTTP_OK ∨ (send_all net buf len).1 = HTTP_ERR) ∧
      ((send_all net buf len).1 = HTTP_ERR ↔ ∃ c ∈ new, c.2 ≤ 0) := by
  obtain ⟨new, n1, -, n3, n4⟩ := send_all_loop_calls buf len (net.sends.length + 1) net 0
    (Nat.lt_succ_self _)
  exact ⟨new, n1, n3, n4⟩

/-- The result of `http_srv_send_response` and the bytes accepted, as the header
text followed by the body, when the header text fits and every call of the
transport accepts a positive count. -/
theorem http_srv_send_response_accepting (hs : http_srv_t) (net : Net) (status_code : Int)
    (reason content_type body extra_headers : Option (List Nat)) (body_len : Nat)
    (new : List (List Nat × Int))
    (hsock : hs.srv.sock = true)
    (hfit : (response_header status_code (reason.getD (bytes "OK"))
      (content_type.getD (bytes "text/plain")) body_len (extra_headers.getD [])).length < 256)
    (hbody : ∀ b, body = some b → body_len ≤ b.length) (h32 : body_len < 2 ^ 32)
    (hcalls : (http_srv_send_response hs net status_code reason content_type body body_len
      extra_headers).2.calls = net.calls ++ new)
    (hacc : Accepting new) :
    (http_srv_send_response hs net status_code reason content_type body body_len
      extra_headers).1 = HTTP_OK ∧
    accepted new =
      response_header status_code (reason.getD (bytes "OK"))
        (content_type.getD (bytes "text/plain")) body_len (extra_headers.getD []) ++
      (match body with
        | some b => b.take body_len
        | none => []) := by
  revert hcalls
  unfold http_srv_send_response
  simp only []
  generalize response_header status_code (reason.getD (bytes "OK"))
    (content_type.getD (bytes "text/plain")) body_len (extra_headers.getD []) = text at hfit ⊢
  obtain ⟨f2, f1⟩ := snprintf_fits 256 text hfit (by decide)
  rw [if_neg (by rw [hsock]; decide), f1, f2, if_neg (by omega), Int.toNat_ofNat]
  have htk : (text ++ [0]).take text.length = text := List.take_left _ _
  obtain ⟨new1, n1, n3, n4⟩ := send_all_calls net (text ++ [0]) text.length
  intro hcalls
  by_cases hs1 : (send_all net (text ++ [0]) text.length).1 < 0
  · exfalso
    rw [if_pos hs1] at hcalls
    simp only [] at hcalls
    rw [n1] at hcalls
    have := List.append_cancel_left hcalls
    subst this
    have he : (send_all net (text ++ [0]) text.length).1 = HTTP_ERR := by
      rcases n3 with h | h
      · rw [h] at hs1
        exact absurd hs1 (by decide)
      · exact h
    obtain ⟨c, hc, hc0⟩ := n4.mp he
    have := hacc c hc
    omega
  · rw [if_neg hs1] at hcalls ⊢
    cases body with
    | none =>
      simp only [] at hcalls ⊢
      rw [n1] at hcalls
      have := List.append_cancel_left hcalls
      subst this
      obtain ⟨-, a2⟩ := send_all_accepting net (text ++ [0]) text.length (by simp) (by omega)
        new1 n1 hacc
      rw [a2, htk]
      exact ⟨trivial, by simp⟩
    | some b =>
      simp only [] at hcalls ⊢
      by_cases hbl : body_len > 0
      · rw [if_pos hbl] at hcalls ⊢
        obtain ⟨new2, m1, -, -⟩ := send_all_calls (send_all net (text ++ [0]) text.length).2
          b body_len
        have hnew : new = new1 ++ new2 := by
          have e : (if (send_all (send_all net (text ++ [0]) text.length).2 b body_len).1 < 0
              then (HTTP_ERR, (send_all (send_all net (text ++ [0]) text.length).2 b body_len).2)
              else (HTTP_OK,
                (send_all (send_all net (text ++ [0]) text.length).2 b body_len).2)).2.calls =
              (send_all (send_all net (text ++ [0]) text.length).2 b body_len).2.calls := by
            split_ifs <;> rfl
          rw [e, m1, n1, List.append_assoc] at hcalls
          exact (List.append_cancel_left hcalls).symm
        subst hnew
        obtain ⟨hacc1, hacc2⟩ := (Accepting_append new1 new2).mp hacc
        obtain ⟨-, a2⟩ := send_all_accepting net (text ++ [0]) text.length (by simp) (by omega)
          new1 n1 hacc1
        obtain ⟨b1, b2⟩ := send_all_accepting _ b body_len (hbody b rfl) h32 new2 m1 hacc2
        rw [if_neg (by rw [b1]; decide), accepted_append, a2, b2, htk]
        exact ⟨rfl, rfl⟩
      · rw [if_neg hbl] at hcalls ⊢
        simp only [] at hcalls ⊢
        rw [n1] at hcalls
        have := List.append_cancel_left hcalls
        subst this
        obtain ⟨-, a2⟩ := send_all_accepting net (text ++ [0]) text.length (by simp) (by omega)
          new1 n1 hacc
        have hz : body_len = 0 := by omega
        rw [a2, htk, hz]
        exact ⟨trivial, by simp⟩

/-- C25. For every status code, reason, content type, extra-header text and body
for which the header text has fewer than 256 bytes: when the socket is set and
every call of the transport that `http_srv_send_response` makes returns a
positive count no larger than the number of bytes offered, the call returns
`HTTP_OK` and the bytes the transport accepted are exactly
`HTTP/1.1 <code> <reason>` CR LF `Content-Type: <type>` CR LF
`Content-Length: <body_len in decimal>` CR LF `<extra_headers>`
`Connection: close` CR LF CR LF, followed by the `body_len` bytes of the body
(by nothing for a null body); a null reason, content type or extra-header
argument stands for `OK`, `text/plain` and the empty string. -/
theorem http_srv_send_response_spec (hs : http_srv_t) (net : Net) (status_code : Int)
    (reason content_type body extra_headers : Option (List Nat)) (body_len : Nat)
    (new : List (List Nat × Int))
    (hsock : hs.srv.sock = true)
    (hfit : (response_header status_code (reason.getD (bytes "OK"))
      (content_type.getD (bytes "text/plain")) body_len (extra_headers.getD [])).length < 256)
    (hbody : ∀ b, body = some b → body_len ≤ b.length) (h32 : body_len < 2 ^ 32)
    (hcalls : (http_srv_send_response hs net status_code reason content_type body body_len
      extra_headers).2.calls = net.calls ++ new)
    (hacc : Accepting new) :
    (http_srv_send_response hs net status_code reason content_type body body_len
      extra_headers).1 = HTTP_OK ∧
    accepted new =
      bytes "HTTP/1.1 " ++ fmt_d status_code ++ [32] ++ cstr (reason.getD (bytes "OK")) ++
        [13, 10] ++
      bytes "Content-Type: " ++ cstr (content_type.getD (bytes "text/plain")) ++ [13, 10] ++
      bytes "Content-Length: " ++ fmt_lu body_len ++ [13, 10] ++
      cstr (extra_headers.getD []) ++
      bytes "Connection: close\r\n\r\n" ++
      (match body with
        | some b => b.take body_len
        | none => []) := by
  have htext : bytes "HTTP/1.1 " ++ fmt_d status_code ++ [32] ++
      cstr (reason.getD (bytes "OK")) ++ [13, 10] ++
      bytes "Content-Type: " ++ cstr (content_type.getD (bytes "text/plain")) ++ [13, 10] ++
      bytes "Content-Length: " ++ fmt_lu body_len ++ [13, 10] ++
      cstr (extra_headers.getD []) ++
      bytes "Connection: close\r\n\r\n" =
      response_header status_code (reason.getD (bytes "OK"))
        (content_type.getD (bytes "text/plain")) body_len (extra_headers.getD []) := by
    unfold response_header
    have : bytes "Connection: close\r\n\r\n" = bytes "Connection: close\r\n" ++ [13, 10] := by
      decide
    rw [this]
    simp only [List.append_assoc]
  rw [htext]
  exact http_srv_send_response_accepting hs net status_code reason content_type body
    extra_headers body_len new hsock hfit hbody h32 hcalls hacc

/-- Witness for C25: status 200 with null reason, content type and extra headers
and the body `hi`, on a transport that accepts 40, 43 and 2 bytes: the call
returns `HTTP_OK` and the transport has accepted the header, with `OK` and
`text/plain` for the null arguments, and then the body. -/
theorem http_srv_send_response_spec_witness :
    (http_srv_send_response hs_init (net_of [40, 43, 2]) 200 none none (some (bytes "hi")) 2
      none).1 = HTTP_OK ∧
    accepted (http_srv_send_response hs_init (net_of [40, 43, 2]) 200 none none
      (some (bytes "hi")) 2 none).2.calls =
      bytes ("HTTP/1.1 200 OK\r\nContent-Type: text/plain\r\nContent-Length: 2\r\n" ++
        "Connection: close\r\n\r\nhi") := by
  obtain ⟨h1, h2⟩ := http_srv_send_response_spec hs_init (net_of [40, 43, 2]) 200 none none
    (some (bytes "hi")) none 2
    (http_srv_send_response hs_init (net_of [40, 43, 2]) 200 none none (some (bytes "hi")) 2
      none).2.calls
    (by decide) (by decide)
    (by intro b hb; rw [← Option.some.inj hb]; decide) (by decide) rfl (by decide)
  refine ⟨h1, ?_⟩
  rw [h2]
  decide

/-! ## Route dispatch (C24) -/

theorem route_test_iff (req : http_srv_request_t) (r : http_route_t) :
    route_test req r = true ↔ RouteMatches req r := by
  unfold route_test RouteMatches
  rw [Bool.and_eq_true, decide_eq_true_iff, strcmp_eq_zero_iff]
  constructor
  · rintro ⟨h1, h2⟩
    refine ⟨h1.symm, ?_⟩
    intro m hm
    rw [hm] at h2
    simp only [decide_eq_true_iff] at h2
    exact ((strcmp_eq_zero_iff _ _).mp h2).symm
  · rintro ⟨h1, h2⟩
    refine ⟨h1.symm, ?_⟩
    cases hm : r.method with
    | none => rfl
    | some m =>
      simp only [decide_eq_true_iff]
      exact (strcmp_eq_zero_iff _ _).mpr (h2 m hm).symm

/-- The loop over the routes stops at the first route that matches the request
and gives `none` when no route matches. -/
theorem route_find_spec (req : http_srv_request_t) :
    ∀ (routes : List http_route_t) (i : Nat),
      (∀ pre r post, routes = pre ++ r :: post → (∀ x ∈ pre, ¬ RouteMatches req x) →
        RouteMatches req r → route_find req routes i = some (i + pre.length, r)) ∧
      ((∀ x ∈ routes, ¬ RouteMatches req x) → route_find req routes i = none)
  | [], i => by
    refine ⟨?_, fun _ => rfl⟩
    intro pre r post h
    exact absurd h (by simp)
  | x :: rest, i => by
    obtain ⟨ih1, ih2⟩ := route_find_spec req rest (i + 1)
    refine ⟨?_, ?_⟩
    · intro pre r post h hpre hr
      cases pre with
      | nil =>
        rw [List.nil_append] at h
        obtain ⟨rfl, -⟩ := List.cons.inj h
        unfold route_find
        rw [if_pos ((route_test_iff req x).mpr hr)]
        rfl
      | cons y pre =>
        rw [List.cons_append] at h
        obtain ⟨rfl, h'⟩ := List.cons.inj h
        unfold route_find
        have hx : ¬ route_test req x = true := fun e =>
          hpre x (List.mem_cons_self _ _) ((route_test_iff req x).mp e)
        rw [if_neg hx, ih1 pre r post h' (fun z hz => hpre z (List.mem_cons_of_mem _ hz)) hr]
        simp only [List.length_cons]
        congr 2
        omega
    · intro h
      unfold route_find
      have hx : ¬ route_test req x = true := fun e =>
        h x (List.mem_cons_self _ _) ((route_test_iff req x).mp e)
      rw [if_neg hx]
      exact ih2 (fun z hz => h z (List.mem_cons_of_mem _ hz))

/-- With a request read and `r` the first route that matches it,
`http_srv_handle_once` runs the handler of `r` and returns its result. -/
theorem http_srv_handle_once_match (routes : List http_route_t) (hs hs1 : http_srv_t)
    (net : Net) (listen_rc : Int) (script : List RecvResult) (req : http_srv_request_t)
    (hl : ¬ (listen_rc ≠ NET_OK ∧ (listen_rc = NET_ERR ∨ listen_rc = NET_TIMEOUT)))
    (hr : http_srv_recv_request hs req_zero script = some (HttpStatus.HTTP_OK, hs1, req))
    (pre : List http_route_t) (r : http_route_t) (post : List http_route_t)
    (hroutes : routes = pre ++ r :: post) (hpre : ∀ x ∈ pre, ¬ RouteMatches req x)
    (hm : RouteMatches req r) :
    http_srv_handle_once routes hs net listen_rc script =
      some ((r.handler hs1 req net).1, (r.handler hs1 req net).2.1, (r.handler hs1 req net).2.2,
        [Call.net_srv_listen listen_rc, Call.http_srv_recv_request HttpStatus.HTTP_OK,
          Call.handler pre.length (r.handler hs1 req net).1, Call.net_srv_next_conn]) := by
  have hf := (route_find_spec req routes 0).1 pre r post hroutes hpre hm
  unfold http_srv_handle_once
  rw [if_neg hl, hr]
  simp only [Option.some_bind, hf, Nat.zero_add]
  rw [if_neg (by decide), if_neg (by decide)]

/-- With a request read that no route matches, `http_srv_handle_once` calls
`http_srv_send_response` for the 404 and returns `HTTP_OK`. -/
theorem http_srv_handle_once_no_match (routes : List http_route_t) (hs hs1 : http_srv_t)
    (net : Net) (listen_rc : Int) (script : List RecvResult) (req : http_srv_request_t)
    (hl : ¬ (listen_rc ≠ NET_OK ∧ (listen_rc = NET_ERR ∨ listen_rc = NET_TIMEOUT)))
    (hr : http_srv_recv_request hs req_zero script = some (HttpStatus.HTTP_OK, hs1, req))
    (hno : ∀ x ∈ routes, ¬ RouteMatches req x) :
    http_srv_handle_once routes hs net listen_rc script =
      some (HTTP_OK, hs1,
        (http_srv_send_response hs1 net 404 (some (bytes "Not Found"))
          (some (bytes "text/plain")) (some msg_404) 15 none).2,
        [Call.net_srv_listen listen_rc, Call.http_srv_recv_request HttpStatus.HTTP_OK,
          Call.http_srv_send_response
            (http_srv_send_response hs1 net 404 (some (bytes "Not Found"))
              (some (bytes "text/plain")) (some msg_404) 15 none).1,
          Call.net_srv_next_conn]) := by
  have hlen : strlen msg_404 = 15 := by decide
  have hf := (route_find_spec req routes 0).2 hno
  unfold http_srv_handle_once
  rw [if_neg hl, hr]
  simp only [Option.some_bind, hf, hlen]
  rw [if_neg (by decide), if_neg (by decide)]

/-- C24. For every route table and every request that `http_srv_recv_request`
delivers on an accepted connection: when `routes[i]` is the first route, in table
order, whose path is the path of the request and whose method is absent or the
method of the request, `http_srv_handle_once` calls the handler of `routes[i]`
with the request and no other handler, leaves the transport as this handler
leaves it, and returns the result of this handler; when no route matches it calls no handler and calls
`http_srv_send_response` for the 404 response, whose bytes are those of
`response_404` when the socket is set and the transport accepts what it is
offered. -/
theorem http_srv_handle_once_dispatch (routes : List http_route_t) (hs hs1 : http_srv_t)
    (net : Net) (listen_rc : Int) (script : List RecvResult) (req : http_srv_request_t)
    (hl : ¬ (listen_rc ≠ NET_OK ∧ (listen_rc = NET_ERR ∨ listen_rc = NET_TIMEOUT)))
    (hr : http_srv_recv_request hs req_zero script = some (HttpStatus.HTTP_OK, hs1, req)) :
    (∀ pre r post, routes = pre ++ r :: post → (∀ x ∈ pre, ¬ RouteMatches req x) →
      RouteMatches req r →
      http_srv_handle_once routes hs net listen_rc script =
        some ((r.handler hs1 req net).1, (r.handler hs1 req net).2.1, (r.handler hs1 req net).2.2,
          [Call.net_srv_listen listen_rc, Call.http_srv_recv_request HttpStatus.HTTP_OK,
            Call.handler pre.length (r.handler hs1 req net).1, Call.net_srv_next_conn])) ∧
    ((∀ x ∈ routes, ¬ RouteMatches req x) →
      http_srv_handle_once routes hs net listen_rc script =
        some (HTTP_OK, hs1,
          (http_srv_send_response hs1 net 404 (some (bytes "Not Found"))
            (some (bytes "text/plain")) (some msg_404) 15 none).2,
          [Call.net_srv_listen listen_rc, Call.http_srv_recv_request HttpStatus.HTTP_OK,
            Call.http_srv_send_response
              (http_srv_send_response hs1 net 404 (some (bytes "Not Found"))
                (some (bytes "text/plain")) (some msg_404) 15 none).1,
            Call.net_srv_next_conn]) ∧
      (hs1.srv.sock = true → ∀ new,
        (http_srv_send_response hs1 net 404 (some (bytes "Not Found"))
          (some (bytes "text/plain")) (some msg_404) 15 none).2.calls = net.calls ++ new →
        Accepting new → accepted new = response_404)) := by
  refine ⟨?_, ?_⟩
  · intro pre r post hroutes hpre hm
    exact http_srv_handle_once_match routes hs hs1 net listen_rc script req hl hr pre r post
      hroutes hpre hm
  · intro hno
    refine ⟨http_srv_handle_once_no_match routes hs hs1 net listen_rc script req hl hr hno, ?_⟩
    intro hsock new hcalls hacc
    obtain ⟨-, h2⟩ := http_srv_send_response_accepting hs1 net 404 (some (bytes "Not Found"))
      (some (bytes "text/plain")) (some msg_404) none 15 new hsock (by decide)
      (by intro b hb; rw [← Option.some.inj hb]; decide) (by decide) hcalls hacc
    rw [h2]
    decide

/-- Witness for C24: with the routes `("/", "GET", h1)` and `("/", "POST", h2)`,
the request `GET /` runs the handler of route 0, `POST /` the handler of route 1,
and `GET /nope` runs no handler and yields the 404 response. -/
theorem http_srv_handle_once_dispatch_witness :
    (http_srv_handle_once routes_sample hs_init (net_of [200, 200]) 0 script_get).map
        (fun r => (r.1, r.2.2.2)) =
      some (HTTP_OK, [Call.net_srv_listen 0, Call.http_srv_recv_request HttpStatus.HTTP_OK,
        Call.handler 0 HTTP_OK, Call.net_srv_next_conn]) ∧
    (http_srv_handle_once routes_sample hs_init (net_of [200, 200]) 0 script_post_root).map
        (fun r => (r.1, r.2.2.2)) =
      some (HTTP_OK, [Call.net_srv_listen 0, Call.http_srv_recv_request HttpStatus.HTTP_OK,
        Call.handler 1 HTTP_OK, Call.net_srv_next_conn]) ∧
    (http_srv_handle_once routes_sample hs_init (net_of [91, 15]) 0 script_get_nope).map
        (fun r => (r.1, accepted r.2.2.1.calls, r.2.2.2)) =
      some (HTTP_OK, response_404,
        [Call.net_srv_listen 0, Call.http_srv_recv_request HttpStatus.HTTP_OK,
          Call.http_srv_send_response HTTP_OK, Call.net_srv_next_conn]) := by
  have h0 := (http_srv_handle_once_dispatch routes_sample hs_init (recvOf script_get).2.1
    (net_of [200, 200]) 0 script_get (recvOf script_get).2.2 (by decide) (by decide!)).1 []
    { path := bytes "/", method := some (bytes "GET"), handler := sample_handler (bytes "h1") }
    [{ path := bytes "/", method := some (bytes "POST"), handler := sample_handler (bytes "h2") }]
    rfl (by simp) ⟨by decide!, fun m hm => Option.some.inj hm ▸ by decide!⟩
  have h1 := (http_srv_handle_once_dispatch routes_sample hs_init (recvOf script_post_root).2.1
    (net_of [200, 200]) 0 script_post_root (recvOf script_post_root).2.2 (by decide)
    (by decide!)).1
    [{ path := bytes "/", method := some (bytes "GET"), handler := sample_handler (bytes "h1") }]
    { path := bytes "/", method := some (bytes "POST"), handler := sample_handler (bytes "h2") }
    [] rfl
    (by
      intro x hx
      rw [List.mem_singleton] at hx
      subst hx
      rintro ⟨-, h⟩
      have := h (bytes "GET") rfl
      revert this
      decide!)
    ⟨by decide!, fun m hm => Option.some.inj hm ▸ by decide!⟩
  have h2 := ((http_srv_handle_once_dispatch routes_sample hs_init (recvOf script_get_nope).2.1
    (net_of [91, 15]) 0 script_get_nope (recvOf script_get_nope).2.2 (by decide)
    (by decide!)).2
    (by
      intro x hx
      have hp : x.path = bytes "/" := by
        simp only [routes_sample, List.mem_cons, List.mem_singleton, List.not_mem_nil,
          or_false] at hx
        rcases hx with rfl | rfl <;> rfl
      rintro ⟨h, -⟩
      rw [hp] at h
      revert h
      decide!)).1
  refine ⟨?_, ?_, ?_⟩
  · rw [h0]
    decide!
  · rw [h1]
    decide!
  · rw [h2]
    decide!

/-! ## Results of `http_srv_handle_once` and the run loop (C28, C29, C30) -/

theorem net_srv_bind_ok_iff (nethnd : Bool) (srv : net_srv_conn_t) (create_rc : Int)
    (start_ok : Bool) :
    (net_srv_bind nethnd srv create_rc start_ok).1 = NET_OK ↔
      (nethnd = true ∧ create_rc = NET_OK) := by
  unfold net_srv_bind
  cases nethnd
  · simp [NET_OK, NET_NOT_FOUND]
  · simp only [if_true, true_and]
    by_cases hc : create_rc = NET_OK
    · rw [if_pos hc]
      cases start_ok <;> simp [hc]
    · rw [if_neg hc]

theorem http_srv_init_cases (hs : http_srv_t) (hnet : Bool) (port : Nat) (create_rc : Int)
    (start_ok : Bool) :
    ((hnet = true ∧ create_rc = NET_OK) →
      ∃ hs', http_srv_init hs hnet port create_rc start_ok = InitStep.run hs' ∧
        hs'.running = true) ∧
    (¬ (hnet = true ∧ create_rc = NET_OK) →
      ∃ hs', http_srv_init hs hnet port create_rc start_ok = InitStep.ret HTTP_ERR hs') := by
  have hb := net_srv_bind_ok_iff hnet { hs_zero.srv with localport := port } create_rc start_ok
  refine ⟨?_, ?_⟩
  · intro h
    unfold http_srv_init
    simp only []
    rw [if_neg (by
      intro hne
      exact hne (hb.mpr h))]
    exact ⟨_, rfl, rfl⟩
  · intro h
    unfold http_srv_init
    simp only []
    rw [if_pos (fun e => h (hb.mp e))]
    exact ⟨_, rfl⟩

/-- The two ways `http_srv_restart` ends: a new activation of `http_srv_run` with
both counters zero when the bind succeeds, the reset of the system when it
fails. -/
theorem http_srv_restart_cases (c : Cycle) (hs : http_srv_t) (net : Net) (cur : run_locals)
    (site : RestartSite) (waiting : List (RestartSite × run_locals)) (log : List Call) :
    (Rebinds c hs → ∃ hs',
      http_srv_restart c hs net cur site waiting log =
        RunState.loop hs' net { err_count := 0, netdown_count := 0 } ((site, cur) :: waiting)
          (log ++ [Call.http_srv_restart, Call.net_srv_next_conn, Call.net_srv_close,
            Call.HAL_Delay 50, Call.net_srv_bind, Call.http_srv_run]) ∧
        hs'.running = true) ∧
    (¬ Rebinds c hs →
      http_srv_restart c hs net cur site waiting log =
        RunState.reset (log ++ [Call.http_srv_restart, Call.net_srv_next_conn,
          Call.net_srv_close, Call.HAL_Delay 50, Call.net_srv_bind, Call.NVIC_SystemReset])) := by
  have hn : (http_srv_close hs).2.nethnd = hs.nethnd := rfl
  obtain ⟨i1, i2⟩ := http_srv_init_cases (http_srv_close hs).2 (http_srv_close hs).2.nethnd
    (http_srv_close hs).2.port c.create_rc c.start_ok
  rw [hn] at i1 i2
  unfold Rebinds
  refine ⟨?_, ?_⟩
  · intro h
    obtain ⟨hs', e, hr⟩ := i1 h
    unfold http_srv_restart
    simp only []
    rw [hn, e]
    exact ⟨{ hs' with state := http_srv_state_t.HTTP_SRV_STATE_RUNNING },
      by simp [List.append_assoc], hr⟩
  · intro h
    obtain ⟨hs', e⟩ := i2 h
    unfold http_srv_restart
    simp only []
    rw [hn, e]
    simp [List.append_assoc]

/-- The calls of `http_srv_handle_once` do not include a restart. -/
theorem http_srv_handle_once_calls (routes : List http_route_t) (hs : http_srv_t) (net : Net)
    (listen_rc : Int) (script : List RecvResult) (r : Int × http_srv_t × Net × List Call)
    (h : http_srv_handle_once routes hs net listen_rc script = some r) :
    restarts r.2.2.2 = 0 ∧ Call.http_srv_handle_once ∉ r.2.2.2 := by
  unfold http_srv_handle_once at h
  split_ifs at h with h1
  · rw [← Option.some.inj h]
    exact ⟨by simp [restarts], by simp⟩
  · cases hr : http_srv_recv_request hs req_zero script with
    | none => rw [hr] at h; exact absurd h (by simp)
    | some x =>
      rw [hr] at h
      simp only [Option.some_bind] at h
      split_ifs at h with h2 h3
      · rw [← Option.some.inj h]
        exact ⟨by simp [restarts], by simp⟩
      · rw [← Option.some.inj h]
        exact ⟨by simp [restarts], by simp⟩
      · split at h
        · rw [← Option.some.inj h]
          exact ⟨by simp [restarts], by simp⟩
        · rw [← Option.some.inj h]
          exact ⟨by simp [restarts], by simp⟩

/-- A pass with the link up in which `http_srv_handle_once` returns `rc`, when the
error count stays below the limit: the counters are set and the loop goes on. -/
theorem http_srv_run_pass_up (routes : List http_route_t) (c : Cycle) (hs : http_srv_t)
    (net : Net) (cur : run_locals) (waiting : List (RestartSite × run_locals)) (log : List Call)
    (r : Int × http_srv_t × Net × List Call)
    (hrun : hs.running = true) (hup : c.link_up = true)
    (hr : http_srv_handle_once routes hs net c.listen_rc c.script = some r) :
    (r.1 = HTTP_OK →
      http_srv_run_pass routes c (RunState.loop hs net cur waiting log) =
        some (RunState.loop r.2.1 r.2.2.1 { err_count := 0, netdown_count := 0 } waiting
          (log ++ [Call.net_is_up true, Call.http_srv_handle_once] ++ r.2.2.2 ++
            [Call.HAL_Delay 1]))) ∧
    (r.1 ≠ HTTP_OK → cur.err_count + 1 < HTTP_ERR_LIMIT →
      http_srv_run_pass routes c (RunState.loop hs net cur waiting log) =
        some (RunState.loop r.2.1 r.2.2.1
          { err_count := cur.err_count + 1, netdown_count := 0 } waiting
          (log ++ [Call.net_is_up true, Call.http_srv_handle_once] ++ r.2.2.2 ++
            [Call.HAL_Delay 1]))) ∧
    (r.1 ≠ HTTP_OK → cur.err_count + 1 = HTTP_ERR_LIMIT →
      http_srv_run_pass routes c (RunState.loop hs net cur waiting log) =
        some (http_srv_restart c r.2.1 r.2.2.1
          { err_count := HTTP_ERR_LIMIT, netdown_count := 0 } RestartSite.error_storm waiting
          (log ++ [Call.net_is_up true, Call.http_srv_handle_once] ++ r.2.2.2))) := by
  have hup' : ¬ c.link_up = false := by simp [hup]
  have hrun' : ¬ hs.running = false := by simp [hrun]
  refine ⟨?_, ?_, ?_⟩
  · intro hok
    simp only [http_srv_run_pass]
    rw [if_neg hrun', if_neg hup', hr]
    simp only [Option.some_bind]
    rw [if_neg (fun hne : r.1 ≠ HTTP_OK => hne hok), if_neg (by decide)]
  · intro hne hlt
    unfold HTTP_ERR_LIMIT at hlt
    have hm : (cur.err_count + 1) % 2 ^ 32 = cur.err_count + 1 := Nat.mod_eq_of_lt (by omega)
    simp only [http_srv_run_pass]
    rw [if_neg hrun', if_neg hup', hr]
    simp only [Option.some_bind]
    rw [if_pos hne, hm, if_neg (by unfold HTTP_ERR_LIMIT; omega)]
  · intro hne heq
    unfold HTTP_ERR_LIMIT at heq
    have hm : (cur.err_count + 1) % 2 ^ 32 = HTTP_ERR_LIMIT := by
      rw [Nat.mod_eq_of_lt (by omega), heq]
      rfl
    simp only [http_srv_run_pass]
    rw [if_neg hrun', if_neg hup', hr]
    simp only [Option.some_bind]
    rw [if_pos hne, hm, if_pos (le_refl _)]

/-- A pass in which the link check reports down: `http_srv_handle_once` is not
called; below the limit the loop goes on with the count raised, at the limit
`http_srv_restart` is called. -/
theorem http_srv_run_pass_down (routes : List http_route_t) (c : Cycle) (hs : http_srv_t)
    (net : Net) (cur : run_locals) (waiting : List (RestartSite × run_locals)) (log : List Call)
    (hrun : hs.running = true) (hdown : c.link_up = false) :
    (cur.netdown_count + 1 < HTTP_NET_DOWN_LIMIT →
      http_srv_run_pass routes c (RunState.loop hs net cur waiting log) =
        some (RunState.loop hs net { cur with netdown_count := cur.netdown_count + 1 } waiting
          (log ++ [Call.net_is_up false, Call.HAL_Delay 10]))) ∧
    (cur.netdown_count + 1 = HTTP_NET_DOWN_LIMIT →
      http_srv_run_pass routes c (RunState.loop hs net cur waiting log) =
        some (http_srv_restart c hs net { cur with netdown_count := HTTP_NET_DOWN_LIMIT }
          RestartSite.net_down waiting (log ++ [Call.net_is_up false]))) := by
  have hrun' : ¬ hs.running = false := by simp [hrun]
  refine ⟨?_, ?_⟩
  · intro hlt
    unfold HTTP_NET_DOWN_LIMIT at hlt
    have hm : (cur.netdown_count + 1) % 2 ^ 32 = cur.netdown_count + 1 :=
      Nat.mod_eq_of_lt (by omega)
    simp only [http_srv_run_pass]
    rw [if_neg hrun', if_pos hdown]
    rw [hm, if_neg (by unfold HTTP_NET_DOWN_LIMIT; omega)]
  · intro heq
    unfold HTTP_NET_DOWN_LIMIT at heq
    have hm : (cur.netdown_count + 1) % 2 ^ 32 = HTTP_NET_DOWN_LIMIT := by
      rw [Nat.mod_eq_of_lt (by omega), heq]
      rfl
    simp only [http_srv_run_pass]
    rw [if_neg hrun', if_pos hdown]
    rw [hm, if_pos (le_refl _)]

/-- C30. On an accepted connection `http_srv_handle_once` returns `HTTP_OK` when
`http_srv_recv_request` reports `HTTP_NO_REQUEST`, and when the request is read
and no route matches it, whatever the transport does with the 404 response; it
returns `HTTP_ERR`, which is not `HTTP_OK`, when `http_srv_recv_request` reports
an error; and it returns the result of the handler of the first matching route
otherwise. In a pass of the run loop with the link up, a result `HTTP_OK` sets
the error counter to zero. -/
theorem http_srv_handle_once_result (routes : List http_route_t) (hs : http_srv_t) (net : Net)
    (c : Cycle)
    (hl : ¬ (c.listen_rc ≠ NET_OK ∧ (c.listen_rc = NET_ERR ∨ c.listen_rc = NET_TIMEOUT))) :
    (∀ hs1 req,
      http_srv_recv_request hs req_zero c.script = some (HttpStatus.HTTP_NO_REQUEST, hs1, req) →
      ∃ r, http_srv_handle_once routes hs net c.listen_rc c.script = some r ∧ r.1 = HTTP_OK) ∧
    (∀ hs1 req,
      http_srv_recv_request hs req_zero c.script = some (HttpStatus.HTTP_OK, hs1, req) →
      (∀ x ∈ routes, ¬ RouteMatches req x) →
      ∃ r, http_srv_handle_once routes hs net c.listen_rc c.script = some r ∧ r.1 = HTTP_OK ∧
        r.2.2.2 = [Call.net_srv_listen c.listen_rc,
          Call.http_srv_recv_request HttpStatus.HTTP_OK,
          Call.http_srv_send_response
            (http_srv_send_response hs1 net 404 (some (bytes "Not Found"))
              (some (bytes "text/plain")) (some msg_404) 15 none).1,
          Call.net_srv_next_conn]) ∧
    (∀ hs1 req,
      http_srv_recv_request hs req_zero c.script = some (HttpStatus.HTTP_ERR, hs1, req) →
      ∃ r, http_srv_handle_once routes hs net c.listen_rc c.script = some r ∧ r.1 = HTTP_ERR ∧
        r.1 ≠ HTTP_OK) ∧
    (∀ hs1 req pre x post,
      http_srv_recv_request hs req_zero c.script = some (HttpStatus.HTTP_OK, hs1, req) →
      routes = pre ++ x :: post → (∀ y ∈ pre, ¬ RouteMatches req y) → RouteMatches req x →
      ∃ r, http_srv_handle_once routes hs net c.listen_rc c.script = some r ∧
        r.1 = (x.handler hs1 req net).1) ∧
    (∀ r cur waiting log, hs.running = true → c.link_up = true →
      http_srv_handle_once routes hs net c.listen_rc c.script = some r → r.1 = HTTP_OK →
      (http_srv_run_pass routes c (RunState.loop hs net cur waiting log)).map RunState.counters =
        some (some { err_count := 0, netdown_count := 0 })) := by
  refine ⟨?_, ?_, ?_, ?_, ?_⟩
  · intro hs1 req hr
    refine ⟨(HTTP_OK, hs1, net, [Call.net_srv_listen c.listen_rc,
      Call.http_srv_recv_request HttpStatus.HTTP_NO_REQUEST, Call.net_srv_next_conn]), ?_, rfl⟩
    unfold http_srv_handle_once
    rw [if_neg hl, hr]
    simp only [Option.some_bind]
    rw [if_pos trivial]
  · intro hs1 req hr hno
    exact ⟨_, http_srv_handle_once_no_match routes hs hs1 net c.listen_rc c.script req hl hr hno,
      rfl, rfl⟩
  · intro hs1 req hr
    refine ⟨(HTTP_ERR, hs1, net, [Call.net_srv_listen c.listen_rc,
      Call.http_srv_recv_request HttpStatus.HTTP_ERR, Call.net_srv_next_conn]), ?_, rfl, ?_⟩
    · unfold http_srv_handle_once
      rw [if_neg hl, hr]
      simp only [Option.some_bind]
      rw [if_neg (by decide), if_pos (by decide)]
    · show HTTP_ERR ≠ HTTP_OK
      decide
  · intro hs1 req pre x post hr hroutes hpre hm
    exact ⟨_, http_srv_handle_once_match routes hs hs1 net c.listen_rc c.script req hl hr
      pre x post hroutes hpre hm, rfl⟩
  · intro r cur waiting log hrun hup hr hok
    rw [(http_srv_run_pass_up routes c hs net cur waiting log r hrun hup hr).1 hok]
    rfl

/-- Witness for C30: with the routes of the example, a connection that delivers
nothing gives `HTTP_OK`, and the request `GET /nope` on a transport that refuses
every send gives `HTTP_OK` although `http_srv_send_response` returns `HTTP_ERR`;
the request `GET /` gives the result of its handler, `HTTP_ERR` on that
transport. -/
theorem http_srv_handle_once_result_witness :
    (http_srv_handle_once routes_sample hs_init (net_of []) 0 []).map (fun r => (r.1, r.2.2.2)) =
      some (HTTP_OK, [Call.net_srv_listen 0,
        Call.http_srv_recv_request HttpStatus.HTTP_NO_REQUEST, Call.net_srv_next_conn]) ∧
    (http_srv_handle_once routes_sample hs_init (net_of []) 0 script_get_nope).map
        (fun r => (r.1, r.2.2.2)) =
      some (HTTP_OK, [Call.net_srv_listen 0, Call.http_srv_recv_request HttpStatus.HTTP_OK,
        Call.http_srv_send_response HTTP_ERR, Call.net_srv_next_conn]) ∧
    (http_srv_handle_once routes_sample hs_init (net_of []) 0 script_get).map
        (fun r => (r.1, r.2.2.2)) =
      some (HTTP_ERR, [Call.net_srv_listen 0, Call.http_srv_recv_request HttpStatus.HTTP_OK,
        Call.handler 0 HTTP_ERR, Call.net_srv_next_conn]) := by
  have h := http_srv_handle_once_result routes_sample hs_init (net_of [])
    { link_up := true, listen_rc := 0, script := script_get_nope, create_rc := 0,
      start_ok := true } (by decide)
  obtain ⟨r, hr, h1, h2⟩ := h.2.1 (recvOf script_get_nope).2.1 (recvOf script_get_nope).2.2
    (by decide!)
    (by
      intro x hx
      have hp : x.path = bytes "/" := by
        simp only [routes_sample, List.mem_cons, List.mem_singleton, List.not_mem_nil,
          or_false] at hx
        rcases hx with rfl | rfl <;> rfl
      rintro ⟨e, -⟩
      rw [hp] at e
      revert e
      decide!)
  refine ⟨by decide!, ?_, by decide!⟩
  simp only [] at hr
  rw [hr, Option.map_some', h1, h2]
  decide!

theorem restarts_append (a b : List Call) : restarts (a ++ b) = restarts a + restarts b := by
  unfold restarts
  exact List.count_append _ _ _

theorem http_srv_run_passes_snoc (routes : List http_route_t) :
    ∀ (a : List Cycle) (c : Cycle) (s x y : RunState),
      http_srv_run_passes routes a s = some x → http_srv_run_pass routes c x = some y →
      http_srv_run_passes routes (a ++ [c]) s = some y
  | [], c, s, x, y, hx, hy => by
    simp only [http_srv_run_passes, Option.some.injEq] at hx
    subst hx
    simp [http_srv_run_passes, hy]
  | a0 :: a, c, s, x, y, hx, hy => by
    simp only [http_srv_run_passes, List.cons_append] at hx ⊢
    cases hp0 : http_srv_run_pass routes a0 s with
    | none => rw [hp0] at hx; exact absurd hx (by simp)
    | some s1 =>
      rw [hp0] at hx
      simp only [Option.some_bind] at hx ⊢
      exact http_srv_run_passes_snoc routes a c s1 x y hx hy

/-- C29. In every pass of the run loop in which the link check reports down,
`http_srv_handle_once` is not called. Starting from network-down counter 0, of
three consecutive link-down passes the first two trigger no restart and the
third calls `http_srv_restart` exactly once; when the restart binds again both
counters of the activation of `http_srv_run` that goes on are zero (the
activation that asked for the restart waits inside it), and when the bind fails
the system is reset. After every pass with the link up the network-down counter
of the activation that goes on is zero. -/
theorem http_srv_run_link_down (routes : List http_route_t) (hs : http_srv_t) (net : Net)
    (cur : run_locals) (waiting : List (RestartSite × run_locals)) (log : List Call)
    (hrun : hs.running = true) :
    (∀ c : Cycle, c.link_up = false →
      ∃ s' new, http_srv_run_pass routes c (RunState.loop hs net cur waiting log) = some s' ∧
        s'.log = log ++ new ∧ Call.http_srv_handle_once ∉ new) ∧
    (∀ c1 c2 c3 : Cycle, c1.link_up = false → c2.link_up = false → c3.link_up = false →
      cur.netdown_count = 0 →
      ∃ log2 s3,
        http_srv_run_passes routes [c1, c2] (RunState.loop hs net cur waiting log) =
          some (RunState.loop hs net { cur with netdown_count := 2 } waiting log2) ∧
        restarts log2 = restarts log ∧
        http_srv_run_pass routes c3
          (RunState.loop hs net { cur with netdown_count := 2 } waiting log2) = some s3 ∧
        restarts s3.log = restarts log + 1 ∧
        (Rebinds c3 hs → ∃ hs' log',
          s3 = RunState.loop hs' net { err_count := 0, netdown_count := 0 }
            ((RestartSite.net_down, { cur with netdown_count := 3 }) :: waiting) log') ∧
        (¬ Rebinds c3 hs → ∃ log', s3 = RunState.reset log')) ∧
    (∀ (c : Cycle) (s' : RunState) (cur' : run_locals), c.link_up = true →
      http_srv_run_pass routes c (RunState.loop hs net cur waiting log) = some s' →
      s'.counters = some cur' → cur'.netdown_count = 0) := by
  refine ⟨?_, ?_, ?_⟩
  · intro c hdown
    obtain ⟨d1, d2⟩ := http_srv_run_pass_down routes c hs net cur waiting log hrun hdown
    have hrun' : ¬ hs.running = false := by simp [hrun]
    by_cases hlim : (cur.netdown_count + 1) % 2 ^ 32 ≥ HTTP_NET_DOWN_LIMIT
    · have hp : http_srv_run_pass routes c (RunState.loop hs net cur waiting log) =
          some (http_srv_restart c hs net
            { cur with netdown_count := (cur.netdown_count + 1) % 2 ^ 32 }
            RestartSite.net_down waiting (log ++ [Call.net_is_up false])) := by
        simp only [http_srv_run_pass]
        rw [if_neg hrun', if_pos hdown, if_pos hlim]
      obtain ⟨r1, r2⟩ := http_srv_restart_cases c hs net
        { cur with netdown_count := (cur.netdown_count + 1) % 2 ^ 32 } RestartSite.net_down
        waiting (log ++ [Call.net_is_up false])
      by_cases hb : Rebinds c hs
      · obtain ⟨hs', e, -⟩ := r1 hb
        refine ⟨_, [Call.net_is_up false, Call.http_srv_restart, Call.net_srv_next_conn,
          Call.net_srv_close, Call.HAL_Delay 50, Call.net_srv_bind, Call.http_srv_run], hp,
          ?_, ?_⟩
        · rw [e]
          simp only [RunState.log, List.append_assoc]
          rfl
        · simp
      · refine ⟨_, [Call.net_is_up false, Call.http_srv_restart, Call.net_srv_next_conn,
          Call.net_srv_close, Call.HAL_Delay 50, Call.net_srv_bind, Call.NVIC_SystemReset], hp,
          ?_, ?_⟩
        · rw [r2 hb]
          simp only [RunState.log, List.append_assoc]
          rfl
        · simp
    · have hp : http_srv_run_pass routes c (RunState.loop hs net cur waiting log) =
          some (RunState.loop hs net
            { cur with netdown_count := (cur.netdown_count + 1) % 2 ^ 32 } waiting
            (log ++ [Call.net_is_up false, Call.HAL_Delay 10])) := by
        simp only [http_srv_run_pass]
        rw [if_neg hrun', if_pos hdown, if_neg hlim]
      exact ⟨_, [Call.net_is_up false, Call.HAL_Delay 10], hp, rfl, by simp⟩
  · intro c1 c2 c3 h1 h2 h3 hnd
    have p1 := (http_srv_run_pass_down routes c1 hs net cur waiting log hrun h1).1 (by
      rw [hnd]
      decide)
    have p2 := (http_srv_run_pass_down routes c2 hs net
      { cur with netdown_count := cur.netdown_count + 1 } waiting
      (log ++ [Call.net_is_up false, Call.HAL_Delay 10]) hrun h2).1 (by
      simp only [hnd]
      decide)
    have p3 := (http_srv_run_pass_down routes c3 hs net
      { cur with netdown_count := 2 } waiting
      (log ++ [Call.net_is_up false, Call.HAL_Delay 10] ++
        [Call.net_is_up false, Call.HAL_Delay 10]) hrun h3).2 rfl
    simp only [hnd, Nat.zero_add] at p1 p2
    obtain ⟨r1, r2⟩ := http_srv_restart_cases c3 hs net
      { cur with netdown_count := HTTP_NET_DOWN_LIMIT } RestartSite.net_down waiting
      (log ++ [Call.net_is_up false, Call.HAL_Delay 10] ++
        [Call.net_is_up false, Call.HAL_Delay 10] ++ [Call.net_is_up false])
    refine ⟨_, _, ?_, ?_, p3, ?_, ?_, ?_⟩
    · simp only [http_srv_run_passes, p1, Option.some_bind, p2]
    · simp [restarts_append, restarts]
    · by_cases hb : Rebinds c3 hs
      · obtain ⟨hs', e, -⟩ := r1 hb
        rw [e]
        simp [RunState.log, restarts_append, restarts]
      · rw [r2 hb]
        simp [RunState.log, restarts_append, restarts]
    · intro hb
      obtain ⟨hs', e, -⟩ := r1 hb
      exact ⟨hs', _, e⟩
    · intro hb
      exact ⟨_, r2 hb⟩
  · intro c s' cur' hup hp hc
    have hup' : ¬ c.link_up = false := by simp [hup]
    have hrun' : ¬ hs.running = false := by simp [hrun]
    simp only [http_srv_run_pass] at hp
    rw [if_neg hrun', if_neg hup'] at hp
    cases hr : http_srv_handle_once routes hs net c.listen_rc c.script with
    | none => rw [hr] at hp; exact absurd hp (by simp)
    | some r =>
      rw [hr] at hp
      simp only [Option.some_bind] at hp
      generalize (if r.1 ≠ HTTP_OK then (cur.err_count + 1) % 2 ^ 32 else 0) = ec at hp
      by_cases hlim : ec ≥ HTTP_ERR_LIMIT
      · rw [if_pos hlim] at hp
        obtain ⟨r1, r2⟩ := http_srv_restart_cases c r.2.1 r.2.2.1
          { err_count := ec, netdown_count := 0 } RestartSite.error_storm waiting
          (log ++ [Call.net_is_up true, Call.http_srv_handle_once] ++ r.2.2.2)
        by_cases hb : Rebinds c r.2.1
        · obtain ⟨hs', e, -⟩ := r1 hb
          rw [e] at hp
          rw [← Option.some.inj hp] at hc
          simp only [RunState.counters, Option.some.injEq] at hc
          rw [← hc]
        · rw [r2 hb] at hp
          rw [← Option.some.inj hp] at hc
          exact absurd hc (by simp [RunState.counters])
      · rw [if_neg hlim] at hp
        rw [← Option.some.inj hp] at hc
        simp only [RunState.counters, Option.some.injEq] at hc
        rw [← hc]

/-- Witness for C29: a run started by `http_srv_run` with the link down in three
consecutive cycles: after two of them the network-down counter is 2 and no
restart has been triggered, after the third exactly one restart has been
triggered, without any call of `http_srv_handle_once`, and both counters of the
activation that goes on are zero; a cycle with the link up behind two cycles
with the link down sets the network-down counter to zero. -/
theorem http_srv_run_link_down_witness :
    (http_srv_run_passes routes_sample [cycle_down, cycle_down]
        (http_srv_run hs_init (net_of []))).map (fun s => (s.counters, restarts s.log)) =
      some (some { err_count := 0, netdown_count := 2 }, 0) ∧
    (http_srv_run_passes routes_sample ([cycle_down, cycle_down] ++ [cycle_down])
        (http_srv_run hs_init (net_of []))).map
        (fun s => (s.counters, restarts s.log, s.log.count Call.http_srv_handle_once)) =
      some (some { err_count := 0, netdown_count := 0 }, 1, 0) ∧
    (http_srv_run_passes routes_sample [cycle_down, cycle_down, cycle_get]
        (http_srv_run hs_init (net_of [200, 200]))).map (fun s => (s.counters, restarts s.log)) =
      some (some { err_count := 0, netdown_count := 0 }, 0) := by
  obtain ⟨log2, s3, h1, h2, h3, h4, h5, -⟩ := (http_srv_run_link_down routes_sample hs_init
    (net_of []) { err_count := 0, netdown_count := 0 } [] [Call.http_srv_run] rfl).2.1
    cycle_down cycle_down cycle_down rfl rfl rfl rfl
  obtain ⟨hs', log', e⟩ := h5 (by decide)
  have hp : http_srv_run_passes routes_sample ([cycle_down, cycle_down] ++ [cycle_down])
      (http_srv_run hs_init (net_of [])) = some s3 :=
    http_srv_run_passes_snoc routes_sample _ _ _ _ _ h1 h3
  have hcount : (http_srv_run_passes routes_sample ([cycle_down, cycle_down] ++ [cycle_down])
      (http_srv_run hs_init (net_of []))).map (fun s => s.log.count Call.http_srv_handle_once) =
      some 0 := by decide!
  refine ⟨by decide!, ?_, by decide!⟩
  rw [hp] at hcount ⊢
  simp only [Option.map_some', Option.some.injEq] at hcount ⊢
  have hr : restarts s3.log = 1 := h4
  rw [hcount, hr, e]
  rfl

/-! ## Closing the connection (C31) -/

/-- C31. Every execution of `http_srv_handle_once` that returns has called
`net_srv_next_conn` exactly once, as its last call, whatever the outcome: listen
failure, no request, parse or transport error, unmatched route, handler success
or handler failure. The function returns with a listen failure always, and else
whenever `http_srv_recv_request` does. -/
theorem http_srv_handle_once_closes_once (routes : List http_route_t) (hs : http_srv_t)
    (net : Net) (listen_rc : Int) (script : List RecvResult) :
    (∀ r, http_srv_handle_once routes hs net listen_rc script = some r →
      r.2.2.2.count Call.net_srv_next_conn = 1 ∧
      r.2.2.2.getLast? = some Call.net_srv_next_conn) ∧
    ((listen_rc ≠ NET_OK ∧ (listen_rc = NET_ERR ∨ listen_rc = NET_TIMEOUT)) →
      (http_srv_handle_once routes hs net listen_rc script).isSome = true) ∧
    ((http_srv_recv_request hs req_zero script).isSome = true →
      (http_srv_handle_once routes hs net listen_rc script).isSome = true) := by
  refine ⟨?_, ?_, ?_⟩
  · intro r h
    unfold http_srv_handle_once at h
    split_ifs at h with h1
    · rw [← Option.some.inj h]
      exact ⟨by simp [List.count_cons], rfl⟩
    · cases hr : http_srv_recv_request hs req_zero script with
      | none => rw [hr] at h; exact absurd h (by simp)
      | some x =>
        rw [hr] at h
        simp only [Option.some_bind] at h
        split_ifs at h with h2 h3
        · rw [← Option.some.inj h]
          exact ⟨by simp [List.count_cons], rfl⟩
        · rw [← Option.some.inj h]
          exact ⟨by simp [List.count_cons], rfl⟩
        · split at h
          · rw [← Option.some.inj h]
            exact ⟨by simp [List.count_cons], rfl⟩
          · rw [← Option.some.inj h]
            exact ⟨by simp [List.count_cons], rfl⟩
  · intro h1
    unfold http_srv_handle_once
    rw [if_pos h1]
    rfl
  · intro h
    unfold http_srv_handle_once
    split_ifs with h1
    · rfl
    · cases hr : http_srv_recv_request hs req_zero script with
      | none => rw [hr] at h; exact absurd h (by simp)
      | some x =>
        simp only [Option.some_bind]
        split_ifs
        · rfl
        · rfl
        · split <;> rfl

/-- Witness for C31: the request `GET /` (handler run), the request `GET /nope`
(404), a connection without data, a malformed request and a listen failure: the
record of each execution holds one call of `net_srv_next_conn`, the last one. -/
theorem http_srv_handle_once_closes_once_witness :
    ∀ x ∈ [(0, script_get), (0, script_get_nope), (0, []),
        (0, [RecvResult.data (bytes "BAD\r\n\r\n")]), (-1, [])],
      ((http_srv_handle_once routes_sample hs_init (net_of [200, 200]) x.1 x.2).map
        (fun r => (r.2.2.2.count Call.net_srv_next_conn, r.2.2.2.getLast?))) =
        some (1, some Call.net_srv_next_conn) := by
  intro x hx
  have h := (http_srv_handle_once_closes_once routes_sample hs_init (net_of [200, 200])
    x.1 x.2).1
  have hs : (http_srv_handle_once routes_sample hs_init (net_of [200, 200]) x.1 x.2).isSome
      = true := by
    simp only [List.mem_cons, List.mem_singleton, List.not_mem_nil, or_false] at hx
    rcases hx with rfl | rfl | rfl | rfl | rfl <;> decide!
  obtain ⟨r, hr⟩ := Option.isSome_iff_exists.mp hs
  obtain ⟨h1, h2⟩ := h r hr
  rw [hr]
  simp only [Option.map_some', h1, h2]

/-! ## No leak from an earlier connection (C32) -/

/-- C32. For any two server states that differ only in the previous content of
the receive buffer and its length, and any two previous contents of the request
structure, `http_srv_recv_request` fed the same sequence of transport results
gives the same result: the same status, the same request fields and the same
content of the receive buffer (and the same length `rxlen`). -/
theorem http_srv_recv_request_no_leak (hs hs' : http_srv_t) (req req' : http_srv_request_t)
    (script : List RecvResult)
    (h : { hs with rxbuf := hs'.rxbuf, rxlen := hs'.rxlen } = hs') :
    http_srv_recv_request hs req script = http_srv_recv_request hs' req' script := by
  have e : ({ hs with rxlen := 0, rxbuf := List.replicate HTTP_SRV_RX_BUFFER_SIZE 0 } :
      http_srv_t) =
      { hs' with rxlen := 0, rxbuf := List.replicate HTTP_SRV_RX_BUFFER_SIZE 0 } := by
    rw [← h]
  unfold http_srv_recv_request http_srv_recv_request_head
  simp only [e]

/-- Witness for C32: the request `GET /` read into a fresh buffer and read into a
buffer that holds the 1400 bytes `A` of an earlier connection, with the request
structure of an earlier `POST`: the results are the same. -/
theorem http_srv_recv_request_no_leak_witness :
    http_srv_recv_request hs_init req_zero script_get =
      http_srv_recv_request { hs_init with rxbuf := List.replicate 1400 65, rxlen := 1399 }
        (recvOf script_post).2.2 script_get :=
  http_srv_recv_request_no_leak hs_init
    { hs_init with rxbuf := List.replicate 1400 65, rxlen := 1399 } req_zero
    (recvOf script_post).2.2 script_get rfl

/-! ## Repeated lookups (C33) -/

theorem writeAt_length (mem : List Nat) (off : Nat) (bs r : List Nat)
    (h : writeAt mem off bs = some r) : r.length = mem.length := by
  obtain ⟨hfit, hr⟩ := writeAt_some mem off bs r h
  rw [hr]
  exact (writeAt_take_drop mem off bs hfit 0).1

theorem storeAt_length (mem : List Nat) (i v : Nat) (r : List Nat)
    (h : storeAt mem i v = some r) : r.length = mem.length := by
  unfold storeAt at h
  split_ifs at h
  rw [← Option.some.inj h, List.length_set]

/-- A lookup that finds nothing whatever the static arrays hold. -/
theorem stable_none : StableLookup (fun st => some (false, st)) :=
  fun st st' h h' => ⟨_, _, rfl, rfl, h, h', rfl, fun _ => ⟨rfl, rfl⟩,
    fun hc => absurd hc (by simp)⟩

theorem http_ui_find_param_in_kv_stable (data key : List Nat) :
    StableLookup (fun st => http_ui_find_param_in_kv st data key) := by
  intro st st' h h'
  have e := http_ui_find_param_in_kv_spec st data key h.1 h.2
  have e' := http_ui_find_param_in_kv_spec st' data key h'.1 h'.2
  cases hL : (if cstr key = [] then none else kvLookup (cstr data) (cstr key)) with
  | none =>
    rw [hL] at e e'
    exact ⟨_, _, e, e', h, h', rfl, fun _ => ⟨rfl, rfl⟩, fun hc => absurd hc (by simp)⟩
  | some raw =>
    rw [hL] at e e'
    exact ⟨_, _, e, e', statics_after_length st raw h.2, statics_after_length st' raw h'.2, rfl,
      fun hc => absurd hc (by simp), fun _ => rfl⟩

/-- A store into `param_value` that succeeds for every content of the array and
leaves the same C string in it gives a stable lookup. -/
theorem stable_store (w : List Nat → Option (List Nat)) (v : List Nat)
    (hw : ∀ pv, pv.length = 128 → ∃ pv2, w pv = some pv2 ∧ pv2.length = 128 ∧ cstr pv2 = v) :
    StableLookup (fun st => (w st.param_value).bind
      fun pv2 => some (true, { st with param_value := pv2 })) := by
  intro st st' h h'
  obtain ⟨pv2, e, l, c⟩ := hw st.param_value h.1
  obtain ⟨pv2', e', l', c'⟩ := hw st'.param_value h'.1
  refine ⟨(true, { st with param_value := pv2 }), (true, { st' with param_value := pv2' }),
    ?_, ?_, ⟨l, h.2⟩, ⟨l', h'.2⟩, rfl, fun hc => absurd hc (by simp), fun _ => ?_⟩
  · simp only [e, Option.some_bind]
  · simp only [e', Option.some_bind]
  · show cstr pv2 = cstr pv2'
    rw [c, c']

theorem http_ui_get_json_field_stable {ν : Type} (lib : JsonLib ν) (mem : List Nat)
    (req : http_srv_request_t) (key : List Nat) :
    StableLookup (fun st => http_ui_get_json_field lib st mem req key) := by
  have hstr : ∀ vs : List Nat, StableLookup (fun st =>
      (writeAt st.param_value 0 (vs.take (if strlen vs ≥ 128 then 128 - 1 else strlen vs))).bind
        fun pv1 => (storeAt pv1 (if strlen vs ≥ 128 then 128 - 1 else strlen vs) 0).bind
          fun pv2 => some (true, { st with param_value := pv2 })) := by
    intro vs st st' h h'
    have key1 : ∀ s : http_ui_statics, StaticsOk s → ∃ r,
        ((writeAt s.param_value 0 (vs.take (if strlen vs ≥ 128 then 128 - 1 else strlen vs))).bind
          fun pv1 => (storeAt pv1 (if strlen vs ≥ 128 then 128 - 1 else strlen vs) 0).bind
            fun pv2 => some (true, { s with param_value := pv2 })) = some (true, r) ∧
          StaticsOk r ∧ cstr r.param_value = (cstr vs).take 127 := by
      intro s hs
      obtain ⟨r, hr, hc⟩ := map_pair_some _ _ ((json_field_store lib s hs.1).1 vs)
      refine ⟨r, hr, ?_, hc⟩
      cases hw : writeAt s.param_value 0
          (vs.take (if strlen vs ≥ 128 then 128 - 1 else strlen vs)) with
      | none => rw [hw] at hr; cases hr
      | some pv1 =>
        rw [hw] at hr
        simp only [Option.some_bind] at hr
        cases hs2 : storeAt pv1 (if strlen vs ≥ 128 then 128 - 1 else strlen vs) 0 with
        | none => rw [hs2] at hr; cases hr
        | some pv2 =>
          rw [hs2] at hr
          simp only [Option.some_bind, Option.some.injEq, Prod.mk.injEq, true_and] at hr
          rw [← hr]
          exact ⟨by
            show pv2.length = 128
            rw [storeAt_length _ _ _ _ hs2, writeAt_length _ _ _ _ hw, hs.1], hs.2⟩
    obtain ⟨r, e, w, c⟩ := key1 st h
    obtain ⟨r', e', w', c'⟩ := key1 st' h'
    exact ⟨_, _, e, e', w, w', rfl, fun hc => absurd hc (by simp), fun _ => by
      show cstr r.param_value = cstr r'.param_value
      rw [c, c']⟩
  have hnum : ∀ d : ν, StableLookup (fun st =>
      (writeAt st.param_value 0 ((lib.format_g d).take (128 - 1) ++ [0])).bind
        fun pv1 => some (true, { st with param_value := pv1 })) := by
    intro d st st' h h'
    have key1 : ∀ s : http_ui_statics, StaticsOk s → ∃ r,
        ((writeAt s.param_value 0 ((lib.format_g d).take (128 - 1) ++ [0])).bind
          fun pv1 => some (true, { s with param_value := pv1 })) = some (true, r) ∧
          StaticsOk r ∧ cstr r.param_value = cstr ((lib.format_g d).take 127) := by
      intro s hs
      obtain ⟨r, hr, hc⟩ := map_pair_some _ _ ((json_field_store lib s hs.1).2.1 d)
      refine ⟨r, hr, ?_, hc⟩
      cases hw : writeAt s.param_value 0 ((lib.format_g d).take (128 - 1) ++ [0]) with
      | none => rw [hw] at hr; cases hr
      | some pv1 =>
        rw [hw] at hr
        simp only [Option.some_bind, Option.some.injEq, Prod.mk.injEq, true_and] at hr
        rw [← hr]
        exact ⟨by
          show pv1.length = 128
          rw [writeAt_length _ _ _ _ hw, hs.1], hs.2⟩
    obtain ⟨r, e, w, c⟩ := key1 st h
    obtain ⟨r', e', w', c'⟩ := key1 st' h'
    exact ⟨_, _, e, e', w, w', rfl, fun hc => absurd hc (by simp), fun _ => by
      show cstr r.param_value = cstr r'.param_value
      rw [c, c']⟩
  have hbool : ∀ v : Bool, StableLookup (fun st =>
      (strncpy st.param_value
          (if v then [116, 114, 117, 101, 0] else [102, 97, 108, 115, 101, 0]) 128).bind
        fun pv1 => (storeAt pv1 (128 - 1) 0).bind
          fun pv2 => some (true, { st with param_value := pv2 })) := by
    intro v st st' h h'
    have key1 : ∀ s : http_ui_statics, StaticsOk s → ∃ r,
        ((strncpy s.param_value
            (if v then [116, 114, 117, 101, 0] else [102, 97, 108, 115, 101, 0]) 128).bind
          fun pv1 => (storeAt pv1 (128 - 1) 0).bind
            fun pv2 => some (true, { s with param_value := pv2 })) = some (true, r) ∧
          StaticsOk r ∧ cstr r.param_value = (if v then bytes "true" else bytes "false") := by
      intro s hs
      obtain ⟨r, hr, hc⟩ := map_pair_some _ _ ((json_field_store lib s hs.1).2.2 v)
      refine ⟨r, hr, ?_, hc⟩
      cases hw : strncpy s.param_value
          (if v then [116, 114, 117, 101, 0] else [102, 97, 108, 115, 101, 0]) 128 with
      | none => rw [hw] at hr; cases hr
      | some pv1 =>
        rw [hw] at hr
        simp only [Option.some_bind] at hr
        cases hs2 : storeAt pv1 (128 - 1) 0 with
        | none => rw [hs2] at hr; cases hr
        | some pv2 =>
          rw [hs2] at hr
          simp only [Option.some_bind, Option.some.injEq, Prod.mk.injEq, true_and] at hr
          rw [← hr]
          exact ⟨by
            show pv2.length = 128
            rw [storeAt_length _ _ _ _ hs2]
            unfold strncpy at hw
            rw [writeAt_length _ _ _ _ hw, hs.1], hs.2⟩
    obtain ⟨r, e, w, c⟩ := key1 st h
    obtain ⟨r', e', w', c'⟩ := key1 st' h'
    exact ⟨_, _, e, e', w, w', rfl, fun hc => absurd hc (by simp), fun _ => by
      show cstr r.param_value = cstr r'.param_value
      rw [c, c']⟩
  unfold http_ui_get_json_field
  cases req.body with
  | none => exact stable_none
  | some b =>
    simp only []
    cases http_ui_get_content_type mem req 64 with
    | none => exact stable_none
    | some ctype =>
      simp only []
      by_cases hj : strncasecmp ctype mime_json mime_json.length ≠ 0
      · simp only [if_pos hj]
        exact stable_none
      · simp only [if_neg hj]
        cases lib.cJSON_ParseWithLength ((mem.drop b).take req.body_len) with
        | none => exact stable_none
        | some root =>
          simp only []
          cases cJSON_GetObjectItemCaseSensitive root key with
          | none => exact stable_none
          | some item =>
            cases item with
            | null => exact stable_none
            | bool v => exact hbool v
            | number d => exact hnum d
            | string vs => exact hstr vs
            | array ch => exact stable_none
            | object ch => exact stable_none

/-- The three sources of `http_ui_get_param_ex`, one behind the other: for any
two contents of the static arrays both calls return, with the same answer, the
same source and the same C string. -/
theorem http_ui_get_param_ex_stable {ν : Type} (lib : JsonLib ν) (mem : List Nat)
    (req : http_srv_request_t) (key : List Nat) (st st' : http_ui_statics)
    (h : StaticsOk st) (h' : StaticsOk st') :
    ∃ r r', http_ui_get_param_ex lib st mem req key = some r ∧
      http_ui_get_param_ex lib st' mem req key = some r' ∧
      StaticsOk r.2.2 ∧ StaticsOk r'.2.2 ∧ r.1 = r'.1 ∧ r.2.1 = r'.2.1 ∧
      (r.1 = true → cstr r.2.2.param_value = cstr r'.2.2.param_value) := by
  unfold http_ui_get_param_ex
  by_cases hk : key.headD 0 = 0
  · simp only [if_pos hk]
    exact ⟨_, _, rfl, rfl, h, h', rfl, rfl, fun hc => absurd hc (by simp)⟩
  simp only [if_neg hk]
  have hQ : StableLookup (fun st => if req.query.headD 0 ≠ 0
      then http_ui_find_param_in_kv st req.query key else some (false, st)) := by
    by_cases hq : req.query.headD 0 ≠ 0
    · simp only [if_pos hq]
      exact http_ui_find_param_in_kv_stable req.query key
    · simp only [if_neg hq]
      exact stable_none
  have hF : StableLookup (fun st => http_ui_get_param_form st mem req key
      (http_ui_get_content_type mem req 64)) := by
    unfold http_ui_get_param_form
    cases http_ui_get_content_type mem req 64 with
    | none => exact stable_none
    | some ctype =>
      cases req.body with
      | none => exact stable_none
      | some b =>
        simp only []
        by_cases hc : strncasecmp ctype mime_form mime_form.length = 0 ∧ req.body_len > 0
        · simp only [if_pos hc]
          exact http_ui_find_param_in_kv_stable _ key
        · simp only [if_neg hc]
          exact stable_none
  have hJ : StableLookup (fun st => http_ui_get_param_json lib st mem req key
      (http_ui_get_content_type mem req 64)) := by
    unfold http_ui_get_param_json
    cases http_ui_get_content_type mem req 64 with
    | none => exact stable_none
    | some ctype =>
      simp only []
      split_ifs
      · exact http_ui_get_json_field_stable lib mem req key
      · exact stable_none
  obtain ⟨q, q', eq, eq', wq, wq', fq, nq, cq⟩ := hQ st st' h h'
  simp only [] at eq eq'
  rw [eq, eq']
  simp only [Option.some_bind]
  cases hq1 : q.1 with
  | true =>
    rw [← fq, hq1]
    simp only [if_true]
    exact ⟨_, _, rfl, rfl, wq, wq', rfl, rfl, fun _ => cq hq1⟩
  | false =>
    rw [← fq, hq1]
    simp only [Bool.false_eq_true, if_false]
    obtain ⟨e1, e1'⟩ := nq hq1
    rw [e1, e1']
    obtain ⟨f, f', ef, ef', wf, wf', ff, nf, cf⟩ := hF st st' h h'
    simp only [] at ef ef'
    rw [ef, ef']
    simp only [Option.some_bind]
    cases hf1 : f.1 with
    | true =>
      rw [← ff, hf1]
      simp only [if_true]
      exact ⟨_, _, rfl, rfl, wf, wf', rfl, rfl, fun _ => cf hf1⟩
    | false =>
      rw [← ff, hf1]
      simp only [Bool.false_eq_true, if_false]
      obtain ⟨e2, e2'⟩ := nf hf1
      rw [e2, e2']
      obtain ⟨j, j', ej, ej', wj, wj', fj, nj, cj⟩ := hJ st st' h h'
      simp only [] at ej ej'
      rw [ej, ej']
      simp only [Option.some_bind]
      cases hj1 : j.1 with
      | true =>
        rw [← fj, hj1]
        simp only [if_true]
        exact ⟨_, _, rfl, rfl, wj, wj', rfl, rfl, fun _ => cj hj1⟩
      | false =>
        rw [← fj, hj1]
        simp only [Bool.false_eq_true, if_false]
        exact ⟨_, _, rfl, rfl, wj, wj', rfl, rfl, fun hc => absurd hc (by simp)⟩

/-- C33. For every request and key, with the static arrays of their declared
sizes: `http_ui_get_param_ex` returns, and a second call with the same request
and key, made with the static arrays as the first call left them, returns too,
with the same answer (a value or `NULL`), the same source and, for a value, the
same C string. The request is an argument the lookup only reads: the second call
is made with the same query string and the same header and body bytes. -/
theorem http_ui_get_param_ex_idempotent {ν : Type} (lib : JsonLib ν) (st : http_ui_statics)
    (mem : List Nat) (req : http_srv_request_t) (key : List Nat)
    (h1 : st.param_value.length = 128) (h2 : st.decoded.length = 128) :
    ∃ r1 r2, http_ui_get_param_ex lib st mem req key = some r1 ∧
      http_ui_get_param_ex lib r1.2.2 mem req key = some r2 ∧
      r2.1 = r1.1 ∧ r2.2.1 = r1.2.1 ∧
      (r1.1 = true → cstr r2.2.2.param_value = cstr r1.2.2.param_value) ∧
      returned ((http_ui_get_param_ex lib r1.2.2 mem req key).map fun r => (r.1, r.2.2)) =
        returned ((http_ui_get_param_ex lib st mem req key).map fun r => (r.1, r.2.2)) := by
  obtain ⟨r1, -, e1, -, w1, -, -, -, -⟩ := http_ui_get_param_ex_stable lib mem req key st st
    ⟨h1, h2⟩ ⟨h1, h2⟩
  obtain ⟨r, r2, e, e2, -, -, f, s, c⟩ := http_ui_get_param_ex_stable lib mem req key st r1.2.2
    ⟨h1, h2⟩ w1
  rw [e1] at e
  have hr := Option.some.inj e
  subst hr
  refine ⟨r1, r2, e1, e2, f.symm, s.symm, fun hc => (c hc).symm, ?_⟩
  rw [e1, e2]
  simp only [Option.map_some']
  obtain ⟨a, b, t⟩ := r1
  obtain ⟨a2, b2, t2⟩ := r2
  simp only [] at f s c ⊢
  subst f
  cases a with
  | true =>
    simp only [returned]
    rw [c rfl]
  | false => rfl

/-- Witness for C33: in the request `POST /s?x=1`, the key `x` is returned from
the query as `1`, and a second lookup of `x`, made with the static arrays as the
first one left them, returns `1` from the query again. -/
theorem http_ui_get_param_ex_idempotent_witness :
    (http_ui_get_param_ex json_none statics_zero (recvOf script_form).2.1.rxbuf
        (recvOf script_form).2.2 (bytes "x")).map (fun r => (r.1, r.2.1, cstr r.2.2.param_value)) =
      some (true, http_ui_param_source_t.HTTP_UI_PARAM_QUERY, bytes "1") ∧
    (http_ui_get_param_ex json_none (statics_after statics_zero (bytes "1"))
        (recvOf script_form).2.1.rxbuf (recvOf script_form).2.2 (bytes "x")).map
        (fun r => (r.1, r.2.1, cstr r.2.2.param_value)) =
      some (true, http_ui_param_source_t.HTTP_UI_PARAM_QUERY, bytes "1") := by
  have hq := http_ui_get_param_ex_query json_none statics_zero (recvOf script_form).2.1.rxbuf
    (recvOf script_form).2.2 (bytes "x") (bytes "1") (by decide!) (by decide!) (by decide)
    (by decide!)
  obtain ⟨r1, r2, e1, e2, f, s, c, -⟩ := http_ui_get_param_ex_idempotent json_none statics_zero
    (recvOf script_form).2.1.rxbuf (recvOf script_form).2.2 (bytes "x") (by decide!) (by decide!)
  rw [hq] at e1
  have hr := Option.some.inj e1
  subst hr
  have hv : cstr (statics_after statics_zero (bytes "1")).param_value = bytes "1" := by decide
  simp only [] at e2 f s c
  refine ⟨?_, ?_⟩
  · rw [hq]
    simp only [Option.map_some', hv]
  · rw [e2]
    simp only [Option.map_some', f, s, c trivial, hv]

/-! ## The byte behind the received data (C34) and the two views (C35) -/

/-- In every successful call the received data end inside the buffer or at its
end, and when they end inside it the byte behind them is NUL. -/
theorem recv_request_terminated (hs : http_srv_t) (req : http_srv_request_t)
    (script : List RecvResult) (hs' : http_srv_t) (req' : http_srv_request_t)
    (h : http_srv_recv_request hs req script = some (HttpStatus.HTTP_OK, hs', req')) :
    ∃ b, req'.body = some b ∧ b + req'.body_len ≤ 1400 ∧ hs'.rxbuf.length = 1400 ∧
      (b + req'.body_len < 1400 → hs'.rxbuf[b + req'.body_len]? = some 0) ∧
      (b + req'.body_len = 1400 → hs'.rxbuf[b + req'.body_len]? = none) := by
  obtain ⟨i, acc, lost, more, Z, line, after, L', m, u, v, ts, hT, -, -, hacc, -, -, -, -, -, -,
    -, -, hL, hle, hbuf, -, -, -, -, -, -, -, hb, hbl, -, -⟩ := recv_request_ok hs req script hs'
    req' h
  have hi := TermAt_lt hT
  have hal : acc.length = line.length + 2 + after.length := by
    rw [hacc]
    simp only [List.length_append, List.length_cons]
    omega
  have hpre : (L' ++ 0 :: 10 :: after ++ more).length = acc.length + more.length := by
    simp only [List.length_append, List.length_cons, hL, hal]
    omega
  have hsum : i + 4 + req'.body_len = acc.length + more.length := by
    rw [hbl]
    omega
  have hlen : hs'.rxbuf.length = 1400 := by
    rw [hbuf, List.length_append, hpre, List.length_replicate]
    omega
  refine ⟨i + 4, hb, by omega, hlen, ?_, ?_⟩
  · intro hlt
    rw [hsum, hbuf, ← hpre, List.getElem?_append_right (le_refl _), Nat.sub_self]
    cases hk : 1400 - acc.length - more.length with
    | zero => omega
    | succ k => simp [List.replicate_succ]
  · intro heq
    rw [List.getElem?_eq_none]
    omega

/-- C34. The byte behind the received data is not always inside the buffer: for
the request of `script_full`, whose header block ends at offset 42 and which
declares `Content-Length: 1358`, the call returns `HTTP_OK` with the body view at
offset 42 and `body_len` 1358, so that header end plus `body_len` is 1400; the
last byte of the 1400-byte buffer is the body byte `A`, there is no byte at index
1400, and no NUL stands in the buffer from the start of the body on. -/
theorem http_srv_recv_request_buffer_full :
    (recvOf script_full).1 = HttpStatus.HTTP_OK ∧
    (recvOf script_full).2.2.body = some 42 ∧
    (recvOf script_full).2.2.body_len = 1358 ∧
    (recvOf script_full).2.1.rxbuf.length = 1400 ∧
    (recvOf script_full).2.1.rxbuf[1399]? = some 65 ∧
    (recvOf script_full).2.1.rxbuf[1400]? = none ∧
    0 ∉ (recvOf script_full).2.1.rxbuf.drop 42 := by
  decide!

/-- C35. On every successful `http_srv_recv_request`, with `acc` the bytes
received while the headers were read and `more` the bytes received while the body
was completed: the header view and the body view are adjacent slices of the
receive buffer; the header view ends where the body view starts, at the index
just behind the first CR LF CR LF of `acc`, which is the value that
`http_find_headers_end` returned; and the body view ends behind the last byte
received. -/
theorem http_srv_recv_request_views_adjacent (hs : http_srv_t) (req : http_srv_request_t)
    (script : List RecvResult) (hs' : http_srv_t) (req' : http_srv_request_t)
    (h : http_srv_recv_request hs req script = some (HttpStatus.HTTP_OK, hs', req')) :
    ∃ (i hoff boff : Nat) (acc lost more Z : List Nat),
      stream script = acc ++ lost ++ (more ++ Z) ∧
      TermAt acc i ∧ (∀ j, j < i → ¬ TermAt acc j) ∧
      (∀ tl, http_find_headers_end (acc ++ tl) acc.length = some ((i : Int) + 4)) ∧
      req'.headers = some hoff ∧ req'.body = some boff ∧
      hoff ≤ boff ∧ hoff + req'.headers_len = boff ∧ boff = i + 4 ∧
      boff + req'.body_len = acc.length + more.length ∧
      acc.length + more.length ≤ hs'.rxbuf.length ∧
      view hs'.rxbuf hoff req'.headers_len ++ view hs'.rxbuf boff req'.body_len =
        (acc ++ more).drop hoff := by
  obtain ⟨i, acc, lost, more, Z, line, after, L', m, u, v, ts, hT, hmin, hstream, hacc, -, hli,
    -, -, -, -, -, -, hL, hle, hbuf, -, -, -, -, -, hh, hhl, hb, hbl, -, -⟩ :=
    recv_request_ok hs req script hs' req' h
  have hi := TermAt_lt hT
  have hal : acc.length = line.length + 2 + after.length := by
    rw [hacc]
    simp only [List.length_append, List.length_cons]
    omega
  have hpre : (L' ++ 0 :: 10 :: after ++ more).length = acc.length + more.length := by
    simp only [List.length_append, List.length_cons, hL, hal]
    omega
  have hlen : hs'.rxbuf.length = 1400 := by
    rw [hbuf, List.length_append, hpre, List.length_replicate]
    omega
  refine ⟨i, line.length + 2, i + 4, acc, lost, more, Z, hstream, hT, hmin, ?_, hh, hb, by omega,
    by rw [hhl]; omega, rfl, by rw [hbl]; omega, by omega, ?_⟩
  · intro tl
    exact (http_find_headers_end_key acc (by omega) tl).1 i hT hmin
  · have hd : hs'.rxbuf.drop (line.length + 2) =
        after ++ more ++ List.replicate (1400 - acc.length - more.length) 0 := by
      rw [hbuf]
      have e : L' ++ 0 :: 10 :: after ++ more ++
          List.replicate (1400 - acc.length - more.length) 0 =
          (L' ++ [0, 10]) ++ (after ++ more ++
            List.replicate (1400 - acc.length - more.length) 0) := by
        simp only [List.append_assoc, List.cons_append, List.nil_append]
      rw [e, List.drop_left' (by simp [hL])]
    have hd2 : (acc ++ more).drop (line.length + 2) = after ++ more := by
      rw [hacc]
      have e : line ++ 13 :: 10 :: after ++ more = (line ++ [13, 10]) ++ (after ++ more) := by
        simp only [List.append_assoc, List.cons_append, List.nil_append]
      rw [e, List.drop_left' (by simp)]
    have hsplit : req'.headers_len + req'.body_len = (after ++ more).length := by
      rw [hhl, hbl, List.length_append]
      omega
    unfold view
    have hb2 : hs'.rxbuf.drop (i + 4) =
        (hs'.rxbuf.drop (line.length + 2)).drop req'.headers_len := by
      rw [List.drop_drop, hhl]
      congr 1
      omega
    rw [hb2, hd, hd2, ← List.take_add, hsplit]
    exact List.take_left _ _

/-- Witness for C35: for the `POST` of `script_post`, received in two pieces of
45 and 3 bytes, the header view starts at offset 22 and ends at offset 43, where
the body view starts, and the body view ends at offset 48, behind the last byte
received. -/
theorem http_srv_recv_request_views_adjacent_witness :
    (recvOf script_post).2.2.headers = some 22 ∧ (recvOf script_post).2.2.body = some 43 ∧
    22 + (recvOf script_post).2.2.headers_len = 43 ∧
    43 + (recvOf script_post).2.2.body_len = 48 ∧ (stream script_post).length = 48 := by
  obtain ⟨i, hoff, boff, acc, lost, more, Z, -, -, -, -, hh, hb, -, hadj, -, -, -, -⟩ :=
    http_srv_recv_request_views_adjacent hs_init req_zero script_post (recvOf script_post).2.1
      (recvOf script_post).2.2 (by decide!)
  have e1 : (recvOf script_post).2.2.headers = some 22 := by decide!
  have e2 : (recvOf script_post).2.2.body = some 43 := by decide!
  rw [e1] at hh
  rw [e2] at hb
  have h1 := Option.some.inj hh
  have h2 := Option.some.inj hb
  subst h1
  subst h2
  exact ⟨e1, e2, hadj, by decide!, by decide⟩

/-! ## The view of `http_ui_get_file` lies inside the body (C36) -/

/-- An occurrence that `strstr` finds lies inside the C string searched. -/
theorem strstr_bound (nd : List Nat) : ∀ (hay : List Nat) (k : Nat), strstr hay nd = some k →
    k + (cstr nd).length ≤ (cstr hay).length
  | [], k, h => by
    unfold strstr at h
    split_ifs at h with h0
    rw [← Option.some.inj h, h0]
    simp
  | c :: rest, k, h => by
    unfold strstr at h
    by_cases hp : (cstr nd).isPrefixOf (cstr (c :: rest)) = true
    · rw [if_pos hp] at h
      rw [← Option.some.inj h, Nat.zero_add]
      have hpre := List.isPrefixOf_iff_prefix.mp hp
      exact hpre.length_le
    · rw [if_neg hp] at h
      by_cases hc : c = 0
      · rw [if_pos hc] at h
        cases h
      · rw [if_neg hc] at h
        cases hr : strstr rest nd with
        | none => rw [hr] at h; cases h
        | some k' =>
          rw [hr] at h
          simp only [Option.map_some', Option.some.injEq] at h
          have ih := strstr_bound nd rest k' hr
          have hcs : cstr (c :: rest) = c :: cstr rest := by
            unfold cstr
            simp [List.takeWhile, hc]
          rw [hcs, List.length_cons]
          omega

/-- A C string ends at or before a NUL byte. -/
theorem cstr_length_le_nul : ∀ (l : List Nat) (n : Nat), l.getD n 0 = 0 → (cstr l).length ≤ n
  | [], n, _ => by simp [cstr]
  | c :: r, n, h => by
    by_cases hc : c = 0
    · subst hc
      simp [cstr, List.takeWhile]
    · have hcs : cstr (c :: r) = c :: cstr r := by
        unfold cstr
        simp [List.takeWhile, hc]
      cases n with
      | zero => exact absurd (by simpa using h) hc
      | succ n =>
        rw [hcs, List.length_cons]
        have := cstr_length_le_nul r n (by simpa using h)
        omega

/-- The C string at offset `p` of a memory with a NUL at `e` ends at or before
`e`. -/
theorem cstr_drop_le (mem : List Nat) (p e : Nat) (hp : p ≤ e) (h : mem.getD e 0 = 0) :
    (cstr (mem.drop p)).length ≤ e - p := by
  apply cstr_length_le_nul
  rw [List.getD_eq_getElem?_getD, List.getElem?_drop, ← List.getD_eq_getElem?_getD]
  rw [show p + (e - p) = e by omega]
  exact h

/-- The part of `http_ui_get_file` that fills `out_part`, for a header that ends
inside the body: it returns 0 with a view that starts behind the header and ends
inside the body, the length computed without wrap-around. -/
theorem http_ui_get_file_part_view (mem : List Nat) (body_end : Nat)
    (boundary_start cd_line : List Nat) (part_hdr_end : Nat) (out_part : http_ui_file_part_t)
    (hf : out_part.filename.length = 64) (hc : out_part.content_type.length = 64)
    (hds : part_hdr_end + 4 ≤ body_end) (h32 : body_end < 2 ^ 32) :
    ∃ r e, http_ui_get_file_part mem body_end boundary_start cd_line part_hdr_end out_part =
        some (0, r) ∧
      r.data = some (part_hdr_end + 4) ∧ part_hdr_end + 4 ≤ e ∧ e ≤ body_end ∧
      r.length = e - (part_hdr_end + 4) := by
  have W : ∀ (src : List Nat) (n : Nat), n ≤ 63 →
      ∃ f, (writeAt out_part.filename 0 (src.take n)).bind (fun f1 => storeAt f1 n 0) =
        some f := by
    intro src n hn
    have hl : (src.take n).length ≤ n := List.length_take_le _ _
    unfold writeAt
    rw [if_pos (by omega)]
    simp only [Option.some_bind]
    unfold storeAt
    rw [if_pos (by
      simp only [List.take_zero, List.nil_append, Nat.zero_add, List.length_append,
        List.length_drop]
      omega)]
    exact ⟨_, rfl⟩
  have hct : ∃ ct, storeAt out_part.content_type 0 0 = some ct := by
    unfold storeAt
    rw [if_pos (by omega)]
    exact ⟨_, rfl⟩
  obtain ⟨ct, hct⟩ := hct
  have tail : ∀ (next_boundary : Nat) (filename : List Nat),
      part_hdr_end + 4 ≤ next_boundary →
      ∃ r e, some ((0 : Int), http_ui_file_part_t.mk (some (part_hdr_end + 4))
          (toUInt32
            ((((if next_boundary > body_end then body_end else next_boundary) -
              (((mem.drop (part_hdr_end + 4)).take
                ((if next_boundary > body_end then body_end else next_boundary) -
                  (part_hdr_end + 4))).reverse.takeWhile
                (fun c => decide (c = 13 ∨ c = 10))).length : Nat) : Int) -
              ((part_hdr_end + 4 : Nat) : Int)))
          filename ct) = some (0, r) ∧
        r.data = some (part_hdr_end + 4) ∧ part_hdr_end + 4 ≤ e ∧ e ≤ body_end ∧
        r.length = e - (part_hdr_end + 4) := by
    intro next_boundary filename hnb1
    generalize hde : (if next_boundary > body_end then body_end else next_boundary) = data_end
    have hde1 : part_hdr_end + 4 ≤ data_end ∧ data_end ≤ body_end := by
      rw [← hde]
      split_ifs <;> omega
    generalize htr : (((mem.drop (part_hdr_end + 4)).take
      (data_end - (part_hdr_end + 4))).reverse.takeWhile
      (fun c => decide (c = 13 ∨ c = 10))).length = trimmed
    have htr1 : trimmed ≤ data_end - (part_hdr_end + 4) := by
      rw [← htr]
      refine le_trans (List.takeWhile_sublist _).length_le ?_
      rw [List.length_reverse]
      exact List.length_take_le _ _
    refine ⟨_, data_end - trimmed, rfl, rfl, by omega, by omega, ?_⟩
    show toUInt32 (((data_end - trimmed : Nat) : Int) - ((part_hdr_end + 4 : Nat) : Int)) = _
    have e : (((data_end - trimmed : Nat) : Int) - ((part_hdr_end + 4 : Nat) : Int)) =
        ((data_end - trimmed - (part_hdr_end + 4) : Nat) : Int) := by omega
    rw [e, toUInt32_ofNat _ (by omega)]
  unfold http_ui_get_file_part
  cases strstr cd_line filename_eq with
  | none =>
    simp only []
    have hs0 : ∃ f, storeAt out_part.filename 0 0 = some f := by
      unfold storeAt
      rw [if_pos (by omega)]
      exact ⟨_, rfl⟩
    obtain ⟨f, hs0⟩ := hs0
    rw [hs0, hct]
    simp only [Option.some_bind]
    cases strstr (mem.drop (part_hdr_end + 4)) boundary_start with
    | none => exact tail body_end f hds
    | some k => exact tail (part_hdr_end + 4 + k) f (by omega)
  | some fp =>
    simp only []
    cases strchr (cd_line.drop (fp + filename_eq.length)) 34 with
    | none =>
      simp only []
      obtain ⟨f, hw⟩ := W (cd_line.drop (fp + filename_eq.length))
        (if 0 ≥ 64 then 64 - 1 else 0) (by decide)
      rw [hw, hct]
      simp only [Option.some_bind]
      cases strstr (mem.drop (part_hdr_end + 4)) boundary_start with
      | none => exact tail body_end f hds
      | some k => exact tail (part_hdr_end + 4 + k) f (by omega)
    | some n0 =>
      simp only []
      obtain ⟨f, hw⟩ := W (cd_line.drop (fp + filename_eq.length))
        (if n0 ≥ 64 then 64 - 1 else n0) (by split_ifs <;> omega)
      rw [hw, hct]
      simp only [Option.some_bind]
      cases strstr (mem.drop (part_hdr_end + 4)) boundary_start with
      | none => exact tail body_end f hds
      | some k => exact tail (part_hdr_end + 4 + k) f (by omega)

/-- The loop of `http_ui_get_file` on a body with a NUL at `body_end`, started at
or behind the start `body` of the body: it returns 0 or -1; with -1, `*out_part`
is as before; with 0, the view lies between `body` and `body_end`. -/
theorem http_ui_get_file_loop_view (mem : List Nat) (body body_end : Nat)
    (boundary_start field_name : List Nat) (out_part : http_ui_file_part_t)
    (hf : out_part.filename.length = 64) (hc : out_part.content_type.length = 64)
    (hnul : mem.getD body_end 0 = 0) (h32 : body_end < 2 ^ 32) :
    ∀ (fuel p : Nat), body ≤ p →
      ∃ r, http_ui_get_file_loop mem body_end boundary_start field_name out_part fuel p =
          some r ∧
        (r.1 = 0 ∨ r.1 = -1) ∧ (r.1 ≠ 0 → r.2 = out_part) ∧
        (r.1 = 0 → ∃ d e, r.2.data = some d ∧ body ≤ d ∧ d ≤ e ∧ e ≤ body_end ∧
          r.2.length = e - d)
  | 0, p, _ => ⟨(-1, out_part), rfl, Or.inr rfl, fun _ => rfl, fun h => absurd h (by simp)⟩
  | fuel + 1, p, hp => by
    have fail : ∃ r : Int × http_ui_file_part_t, some ((-1 : Int), out_part) = some r ∧
        (r.1 = 0 ∨ r.1 = -1) ∧ (r.1 ≠ 0 → r.2 = out_part) ∧
        (r.1 = 0 → ∃ d e, r.2.data = some d ∧ body ≤ d ∧ d ≤ e ∧ e ≤ body_end ∧
          r.2.length = e - d) :=
      ⟨(-1, out_part), rfl, Or.inr rfl, fun _ => rfl, fun h => absurd h (by simp)⟩
    unfold http_ui_get_file_loop
    by_cases h1 : p < body_end
    swap
    · rw [if_neg h1]
      exact fail
    rw [if_pos h1]
    cases hs1 : strstr (mem.drop p) boundary_start with
    | none => exact fail
    | some k =>
      simp only []
      by_cases h2 : p + k ≥ body_end
      · rw [if_pos h2]
        exact fail
      rw [if_neg h2]
      by_cases h3 : p + k + strlen boundary_start + 2 > body_end
      · rw [if_pos h3]
        exact fail
      rw [if_neg h3]
      generalize hph : (if mem.getD (p + k + strlen boundary_start) 0 = 13 ∧
        mem.getD (p + k + strlen boundary_start + 1) 0 = 10
        then p + k + strlen boundary_start + 2 else p + k + strlen boundary_start) = part_hdr
      have hph1 : p ≤ part_hdr ∧ part_hdr ≤ body_end := by
        rw [← hph]
        split_ifs <;> omega
      cases hs2 : strstr (mem.drop part_hdr) [13, 10, 13, 10] with
      | none => exact fail
      | some k2 =>
        simp only []
        by_cases h4 : part_hdr + k2 ≥ body_end
        · rw [if_pos h4]
          exact fail
        rw [if_neg h4]
        have hb2 := strstr_bound _ _ _ hs2
        have hcl := cstr_drop_le mem part_hdr body_end hph1.2 hnul
        have hc4 : (cstr [13, 10, 13, 10]).length = 4 := by decide
        rw [hc4] at hb2
        have hds : part_hdr + k2 + 4 ≤ body_end := by omega
        have ih := http_ui_get_file_loop_view mem body body_end boundary_start field_name
          out_part hf hc hnul h32 fuel (part_hdr + k2 + 4) (by omega)
        cases hs3 : strstr (mem.drop part_hdr) [13, 10] with
        | none => exact fail
        | some k3 =>
          simp only []
          by_cases h5 : part_hdr + k3 > part_hdr + k2
          · rw [if_pos h5]
            exact fail
          rw [if_neg h5]
          generalize (List.take (if k3 ≥ 256 then 256 - 1 else k3) (mem.drop part_hdr) ++ [0]) =
            cd_line
          by_cases h6 : strncasecmp cd_line content_disposition content_disposition.length ≠ 0
          · rw [if_pos h6]
            exact ih
          rw [if_neg h6]
          cases hs4 : strstr cd_line name_eq with
          | none => exact ih
          | some np =>
            simp only []
            cases hs5 : strchr (cd_line.drop (np + name_eq.length)) 34 with
            | none => exact ih
            | some name_len0 =>
              simp only []
              by_cases h7 : strcmp (List.take (if name_len0 ≥ 64 then 64 - 1 else name_len0)
                  (cd_line.drop (np + name_eq.length)) ++ [0]) field_name ≠ 0
              · rw [if_pos h7]
                exact ih
              rw [if_neg h7]
              obtain ⟨r, e, hr, hd, hle1, hle2, hlen⟩ := http_ui_get_file_part_view mem body_end
                boundary_start cd_line (part_hdr + k2) out_part hf hc hds h32
              exact ⟨(0, r), hr, Or.inl rfl, fun h => absurd rfl h,
                fun _ => ⟨part_hdr + k2 + 4, e, hd, by omega, hle1, hle2, hlen⟩⟩

/-- C36. For every request whose body is NUL-terminated at `body_len` and every
`*out_part` with its arrays of 64 bytes, `http_ui_get_file` returns 0 or -1.
When it returns 0 the view lies inside the body: `data >= body`, the view ends
at an offset `e` with `data <= e <= body + body_len`, and `length = e - data`, a
difference that does not wrap around, so that `(data - body) + length <=
body_len`. When it returns -1, `*out_part` is unchanged. -/
theorem http_ui_get_file_view_inside (mem : List Nat) (req : http_srv_request_t)
    (field_name : List Nat) (out_part : http_ui_file_part_t) (b : Nat)
    (hf : out_part.filename.length = 64) (hc : out_part.content_type.length = 64)
    (hb : req.body = some b) (hnul : mem.getD (b + req.body_len) 0 = 0)
    (h32 : b + req.body_len < 2 ^ 32) :
    ∃ r, http_ui_get_file mem req field_name out_part = some r ∧
      (r.1 = 0 ∨ r.1 = -1) ∧ (r.1 ≠ 0 → r.2 = out_part) ∧
      (r.1 = 0 → ∃ d e, r.2.data = some d ∧ b ≤ d ∧ d ≤ e ∧ e ≤ b + req.body_len ∧
        r.2.length = e - d ∧ (d - b) + r.2.length ≤ req.body_len) := by
  have fail : ∃ r : Int × http_ui_file_part_t, some ((-1 : Int), out_part) = some r ∧
      (r.1 = 0 ∨ r.1 = -1) ∧ (r.1 ≠ 0 → r.2 = out_part) ∧
      (r.1 = 0 → ∃ d e, r.2.data = some d ∧ b ≤ d ∧ d ≤ e ∧ e ≤ b + req.body_len ∧
        r.2.length = e - d ∧ (d - b) + r.2.length ≤ req.body_len) :=
    ⟨(-1, out_part), rfl, Or.inr rfl, fun _ => rfl, fun h => absurd h (by simp)⟩
  unfold http_ui_get_file
  rw [hb]
  simp only []
  cases http_ui_get_content_type mem req 64 with
  | none => exact fail
  | some ctype =>
    simp only []
    by_cases h1 : strncasecmp ctype mime_multipart mime_multipart.length ≠ 0
    · rw [if_pos h1]
      exact fail
    rw [if_neg h1]
    cases strstr ctype boundary_eq with
    | none => exact fail
    | some k =>
      simp only []
      by_cases h2 : (boundary_token (ctype.drop (k + boundary_eq.length))).headD 0 = 0
      · rw [if_pos h2]
        exact fail
      rw [if_neg h2]
      obtain ⟨r, hr, h01, hun, hv⟩ := http_ui_get_file_loop_view mem b (b + req.body_len)
        (([45, 45] ++ boundary_token (ctype.drop (k + boundary_eq.length))).take (80 - 1))
        field_name out_part hf hc hnul h32 (req.body_len + 1) b (le_refl b)
      refine ⟨r, hr, h01, hun, fun h0 => ?_⟩
      obtain ⟨d, e, hd, h1, h2, h3, h4⟩ := hv h0
      exact ⟨d, e, hd, h1, h2, h3, h4, by omega⟩

/-- Witness for C36: for the upload of `script_upload`, whose body starts at
offset 68 and has 88 bytes, the field `fw` gives the view at offset 137 of length
10, inside the body, and the field `missing` gives -1 and leaves `*out_part`
as it was. -/
theorem http_ui_get_file_view_inside_witness :
    (http_ui_get_file (recvOf script_upload).2.1.rxbuf (recvOf script_upload).2.2 (bytes "fw")
      part_zero).map (fun r => (r.1, r.2.data, r.2.length)) = some (0, some 137, 10) ∧
    (recvOf script_upload).2.2.body = some 68 ∧ (recvOf script_upload).2.2.body_len = 88 ∧
    http_ui_get_file (recvOf script_upload).2.1.rxbuf (recvOf script_upload).2.2
      (bytes "missing") part_zero = some (-1, part_zero) := by
  have hm := http_ui_get_file_view_inside (recvOf script_upload).2.1.rxbuf
    (recvOf script_upload).2.2 (bytes "missing") part_zero 68 (by decide) (by decide)
    (by decide!) (by decide!) (by decide!)
  obtain ⟨r, hr, h01, hun, -⟩ := hm
  have hneg : (http_ui_get_file (recvOf script_upload).2.1.rxbuf (recvOf script_upload).2.2
      (bytes "missing") part_zero).map (fun r => r.1) = some (-1) := by decide!
  rw [hr] at hneg
  simp only [Option.map_some', Option.some.injEq] at hneg
  refine ⟨by decide!, by decide!, by decide!, ?_⟩
  rw [hr]
  obtain ⟨a, p⟩ := r
  simp only [] at hneg hun
  subst hneg
  rw [hun (by decide)]

/-! ## Bounds of the counters (C37) -/

theorem http_srv_run_passes_append (routes : List http_route_t) :
    ∀ (a b : List Cycle) (s : RunState),
      http_srv_run_passes routes (a ++ b) s =
        (http_srv_run_passes routes a s).bind (http_srv_run_passes routes b)
  | [], b, s => by simp [http_srv_run_passes]
  | c :: a, b, s => by
    simp only [List.cons_append, http_srv_run_passes]
    cases hp : http_srv_run_pass routes c s with
    | none => rfl
    | some s1 =>
      simp only [Option.some_bind]
      exact http_srv_run_passes_append routes a b s1

theorem restarts_restart_log (log : List Call) (last : Call)
    (h : last ≠ Call.http_srv_restart) :
    restarts (log ++ [Call.http_srv_restart, Call.net_srv_next_conn, Call.net_srv_close,
      Call.HAL_Delay 50, Call.net_srv_bind, last]) = restarts log + 1 := by
  rw [restarts_append]
  simp [restarts, List.count_cons, h]

/-- The state behind `http_srv_restart`: a new activation with both counters
zero, or the reset; the record holds one more call of `http_srv_restart`. -/
theorem http_srv_restart_state (c : Cycle) (hs : http_srv_t) (net : Net) (cur : run_locals)
    (site : RestartSite) (waiting : List (RestartSite × run_locals)) (log : List Call) :
    restarts (http_srv_restart c hs net cur site waiting log).log = restarts log + 1 ∧
    ((∃ hs' log', http_srv_restart c hs net cur site waiting log =
        RunState.loop hs' net { err_count := 0, netdown_count := 0 } ((site, cur) :: waiting)
          log') ∨
      ∃ log', http_srv_restart c hs net cur site waiting log = RunState.reset log') := by
  obtain ⟨r1, r2⟩ := http_srv_restart_cases c hs net cur site waiting log
  by_cases hb : Rebinds c hs
  · obtain ⟨hs', e, -⟩ := r1 hb
    rw [e]
    exact ⟨restarts_restart_log log _ (by decide), Or.inl ⟨hs', _, rfl⟩⟩
  · rw [r2 hb]
    exact ⟨restarts_restart_log log _ (by decide), Or.inr ⟨_, rfl⟩⟩

/-- The passes of a run, case by case: what the pass does to the state, whether
it restarts, and of which kind it is. -/
theorem http_srv_run_pass_cases (routes : List http_route_t) (c : Cycle) (hs : http_srv_t)
    (net : Net) (cur : run_locals) (waiting : List (RestartSite × run_locals)) (log : List Call)
    (s' : RunState) (he : cur.err_count ≤ 4) (hn : cur.netdown_count ≤ 2)
    (hp : http_srv_run_pass routes c (RunState.loop hs net cur waiting log) = some s') :
    (hs.running = false ∧
      pass_restarts routes c (RunState.loop hs net cur waiting log) = false ∧
      pass_kind routes c (RunState.loop hs net cur waiting log) = PassKind.idle ∧
      ((waiting = [] ∧ s' = RunState.returned hs net log) ∨
        ∃ site outer rest, waiting = (site, outer) :: rest ∧
          s' = RunState.loop hs net (after_restart site outer) rest
            (log ++ [delay_after site]))) ∨
    (hs.running = true ∧ c.link_up = false ∧ cur.netdown_count + 1 < 3 ∧
      pass_restarts routes c (RunState.loop hs net cur waiting log) = false ∧
      pass_kind routes c (RunState.loop hs net cur waiting log) = PassKind.down ∧
      s' = RunState.loop hs net { cur with netdown_count := cur.netdown_count + 1 } waiting
        (log ++ [Call.net_is_up false, Call.HAL_Delay 10])) ∨
    (hs.running = true ∧ c.link_up = false ∧ cur.netdown_count + 1 = 3 ∧
      pass_restarts routes c (RunState.loop hs net cur waiting log) = true ∧
      pass_kind routes c (RunState.loop hs net cur waiting log) = PassKind.down ∧
      ((∃ hs' log', s' = RunState.loop hs' net { err_count := 0, netdown_count := 0 }
          ((RestartSite.net_down, { cur with netdown_count := 3 }) :: waiting) log') ∨
        ∃ log', s' = RunState.reset log')) ∨
    (hs.running = true ∧ c.link_up = true ∧
      pass_restarts routes c (RunState.loop hs net cur waiting log) = false ∧
      pass_kind routes c (RunState.loop hs net cur waiting log) = PassKind.served_ok ∧
      ∃ hs' net' log', s' = RunState.loop hs' net' { err_count := 0, netdown_count := 0 }
        waiting log') ∨
    (hs.running = true ∧ c.link_up = true ∧ cur.err_count + 1 < 5 ∧
      pass_restarts routes c (RunState.loop hs net cur waiting log) = false ∧
      pass_kind routes c (RunState.loop hs net cur waiting log) = PassKind.served_fail ∧
      ∃ hs' net' log', s' = RunState.loop hs' net'
        { err_count := cur.err_count + 1, netdown_count := 0 } waiting log') ∨
    (hs.running = true ∧ c.link_up = true ∧ cur.err_count + 1 = 5 ∧
      pass_restarts routes c (RunState.loop hs net cur waiting log) = true ∧
      pass_kind routes c (RunState.loop hs net cur waiting log) = PassKind.served_fail ∧
      ((∃ hs' net' log', s' = RunState.loop hs' net' { err_count := 0, netdown_count := 0 }
          ((RestartSite.error_storm, { err_count := 5, netdown_count := 0 }) :: waiting)
          log') ∨
        ∃ log', s' = RunState.reset log')) := by
  have hpr : pass_restarts routes c (RunState.loop hs net cur waiting log) =
      decide (restarts s'.log ≠ restarts log) := by
    unfold pass_restarts
    rw [hp]
    rfl
  by_cases hrun : hs.running = false
  · left
    have hk : pass_kind routes c (RunState.loop hs net cur waiting log) = PassKind.idle := by
      simp only [pass_kind]
      rw [if_pos hrun]
    simp only [http_srv_run_pass] at hp
    rw [if_pos hrun] at hp
    cases waiting with
    | nil =>
      simp only [Option.some.injEq] at hp
      refine ⟨hrun, ?_, hk, Or.inl ⟨rfl, hp.symm⟩⟩
      rw [hpr, ← hp]
      simp [RunState.log]
    | cons w rest =>
      obtain ⟨site, outer⟩ := w
      simp only [Option.some.injEq] at hp
      refine ⟨hrun, ?_, hk, Or.inr ⟨site, outer, rest, rfl, hp.symm⟩⟩
      rw [hpr, ← hp]
      cases site <;> simp [RunState.log, restarts_append, restarts, delay_after]
  right
  have hrun' : hs.running = true := by
    cases h : hs.running
    · exact absurd h hrun
    · rfl
  by_cases hdown : c.link_up = false
  · have hk : pass_kind routes c (RunState.loop hs net cur waiting log) = PassKind.down := by
      simp only [pass_kind]
      rw [if_neg hrun, if_pos hdown]
    obtain ⟨d1, d2⟩ := http_srv_run_pass_down routes c hs net cur waiting log hrun' hdown
    by_cases hlt : cur.netdown_count + 1 < 3
    · left
      have e := d1 hlt
      rw [hp] at e
      have e' := Option.some.inj e
      refine ⟨hrun', hdown, hlt, ?_, hk, e'⟩
      rw [hpr, e']
      simp [RunState.log, restarts_append, restarts]
    · right; left
      have h3 : cur.netdown_count + 1 = 3 := by omega
      have e := d2 h3
      rw [hp] at e
      have e' := Option.some.inj e
      obtain ⟨q1, q2⟩ := http_srv_restart_state c hs net
        { cur with netdown_count := HTTP_NET_DOWN_LIMIT } RestartSite.net_down waiting
        (log ++ [Call.net_is_up false])
      refine ⟨hrun', hdown, h3, ?_, hk, ?_⟩
      · rw [hpr, e', q1, restarts_append]
        simp [restarts]
      · rw [e']
        rcases q2 with ⟨hs', log', q⟩ | ⟨log', q⟩
        · exact Or.inl ⟨hs', log', q⟩
        · exact Or.inr ⟨log', q⟩
  right; right
  have hup : c.link_up = true := by
    cases h : c.link_up
    · exact absurd h hdown
    · rfl
  cases hr : http_srv_handle_once routes hs net c.listen_rc c.script with
  | none =>
    simp only [http_srv_run_pass] at hp
    rw [if_neg hrun, if_neg hdown, hr] at hp
    cases hp
  | some r =>
    obtain ⟨u1, u2, u3⟩ := http_srv_run_pass_up routes c hs net cur waiting log r hrun' hup hr
    have hcalls := (http_srv_handle_once_calls routes hs net c.listen_rc c.script r hr).1
    by_cases hok : r.1 = HTTP_OK
    · left
      have hk : pass_kind routes c (RunState.loop hs net cur waiting log) =
          PassKind.served_ok := by
        simp only [pass_kind]
        rw [if_neg hrun, if_neg hdown, hr]
        simp only []
        rw [if_neg (fun hne : r.1 ≠ HTTP_OK => hne hok)]
      have e := u1 hok
      rw [hp] at e
      have e' := Option.some.inj e
      refine ⟨hrun', hup, ?_, hk, _, _, _, e'⟩
      rw [hpr, e']
      simp [RunState.log, restarts_append, restarts, hcalls]
      exact hcalls
    · right
      have hk : pass_kind routes c (RunState.loop hs net cur waiting log) =
          PassKind.served_fail := by
        simp only [pass_kind]
        rw [if_neg hrun, if_neg hdown, hr]
        simp only []
        rw [if_pos hok]
      by_cases hlt : cur.err_count + 1 < 5
      · left
        have e := u2 hok hlt
        rw [hp] at e
        have e' := Option.some.inj e
        refine ⟨hrun', hup, hlt, ?_, hk, _, _, _, e'⟩
        rw [hpr, e']
        simp [RunState.log, restarts_append, restarts, hcalls]
        exact hcalls
      · right
        have h5 : cur.err_count + 1 = 5 := by omega
        have e := u3 hok h5
        rw [hp] at e
        have e' := Option.some.inj e
        obtain ⟨q1, q2⟩ := http_srv_restart_state c r.2.1 r.2.2.1
          { err_count := HTTP_ERR_LIMIT, netdown_count := 0 } RestartSite.error_storm waiting
          (log ++ [Call.net_is_up true, Call.http_srv_handle_once] ++ r.2.2.2)
        refine ⟨hrun', hup, h5, ?_, hk, ?_⟩
        · rw [hpr, e', q1, restarts_append, restarts_append, hcalls]
          simp [restarts]
        · rw [e']
          rcases q2 with ⟨hs', log', q⟩ | ⟨log', q⟩
          · exact Or.inl ⟨hs', _, log', q⟩
          · exact Or.inr ⟨log', q⟩

/-- A stretch of failed cycles, extended by one more pass without restart: a
link-down check leaves the number of served cycles, a served cycle with a result
other than `HTTP_OK` adds one. -/
theorem failed_streak_snoc (routes : List http_route_t) (c : Cycle) :
    ∀ (b : List Cycle) (sa s s' : RunState) (n : Nat),
      failed_streak routes b sa = some n → http_srv_run_passes routes b sa = some s →
      http_srv_run_pass routes c s = some s' → pass_restarts routes c s = false →
      (pass_kind routes c s = PassKind.down → failed_streak routes (b ++ [c]) sa = some n) ∧
      (pass_kind routes c s = PassKind.served_fail →
        failed_streak routes (b ++ [c]) sa = some (n + 1))
  | [], sa, s, s', n, hf, hb, hp, hr => by
    simp only [http_srv_run_passes, Option.some.injEq] at hb
    subst hb
    simp only [failed_streak, Option.some.injEq] at hf
    subst hf
    refine ⟨?_, ?_⟩
    · intro hk
      simp only [List.nil_append, failed_streak, hr, hk, hp, Bool.false_eq_true, if_false]
    · intro hk
      simp only [List.nil_append, failed_streak, hr, hk, hp, Bool.false_eq_true, if_false,
        Option.map_some']
  | c0 :: b, sa, s, s', n, hf, hb, hp, hr => by
    simp only [http_srv_run_passes] at hb
    cases hp0 : http_srv_run_pass routes c0 sa with
    | none => rw [hp0] at hb; exact absurd hb (by simp)
    | some s1 =>
      rw [hp0] at hb
      simp only [Option.some_bind] at hb
      simp only [failed_streak] at hf
      by_cases hr0 : pass_restarts routes c0 sa = true
      · rw [if_pos hr0] at hf
        cases hf
      rw [if_neg hr0, hp0] at hf
      cases hk0 : pass_kind routes c0 sa with
      | down =>
        rw [hk0] at hf
        simp only [] at hf
        obtain ⟨i1, i2⟩ := failed_streak_snoc routes c b s1 s s' n hf hb hp hr
        refine ⟨fun hk => ?_, fun hk => ?_⟩
        · simp only [List.cons_append, failed_streak]
          rw [if_neg hr0, hp0, hk0]
          exact i1 hk
        · simp only [List.cons_append, failed_streak]
          rw [if_neg hr0, hp0, hk0]
          exact i2 hk
      | served_fail =>
        rw [hk0] at hf
        simp only [] at hf
        cases hm : failed_streak routes b s1 with
        | none => rw [hm] at hf; cases hf
        | some m =>
          rw [hm] at hf
          simp only [Option.map_some', Option.some.injEq] at hf
          obtain ⟨i1, i2⟩ := failed_streak_snoc routes c b s1 s s' m hm hb hp hr
          refine ⟨fun hk => ?_, fun hk => ?_⟩
          · simp only [List.cons_append, failed_streak]
            rw [if_neg hr0, hp0, hk0]
            simp only [List.append_eq]
            rw [i1 hk, Option.map_some', hf]
          · simp only [List.cons_append, failed_streak]
            rw [if_neg hr0, hp0, hk0]
            simp only [List.append_eq]
            rw [i2 hk, Option.map_some', hf]
      | served_ok =>
        rw [hk0] at hf
        cases hf
      | idle =>
        rw [hk0] at hf
        cases hf

theorem after_restart_err (site : RestartSite) (cur : run_locals) :
    (after_restart site cur).err_count = 0 := by
  cases site <;> rfl

/-- One pass keeps the bounds of the counters and the meaning of the error
counter. -/
theorem http_srv_run_pass_inv (routes : List http_route_t) (s0 : RunState) (pre : List Cycle)
    (c : Cycle) (s s' : RunState)
    (hpre : http_srv_run_passes routes pre s0 = some s)
    (hc : CountersOk s) (hst : StreakOk routes s0 pre s)
    (hp : http_srv_run_pass routes c s = some s') :
    CountersOk s' ∧ StreakOk routes s0 (pre ++ [c]) s' := by
  have hpre' : http_srv_run_passes routes (pre ++ [c]) s0 = some s' :=
    http_srv_run_passes_snoc routes pre c s0 s s' hpre hp
  have fresh : ∀ hs net nd waiting log,
      s' = RunState.loop hs net { err_count := 0, netdown_count := nd } waiting log →
      StreakOk routes s0 (pre ++ [c]) s' := by
    intro hs net nd waiting log e
    rw [e]
    refine ⟨pre ++ [c], [], s', by simp, hpre', rfl⟩
  cases s with
  | reset log =>
    simp only [http_srv_run_pass, Option.some.injEq] at hp
    rw [← hp]
    exact ⟨trivial, trivial⟩
  | returned hs net log =>
    simp only [http_srv_run_pass, Option.some.injEq] at hp
    rw [← hp]
    exact ⟨trivial, trivial⟩
  | loop hs net cur waiting log =>
    obtain ⟨he, hn, hw⟩ := hc
    obtain ⟨a, b, sa, hab, ha, hstk⟩ := hst
    have hb : http_srv_run_passes routes b sa = some (RunState.loop hs net cur waiting log) := by
      rw [hab, http_srv_run_passes_append, ha] at hpre
      exact hpre
    rcases http_srv_run_pass_cases routes c hs net cur waiting log s' he hn hp with
      ⟨-, -, -, h⟩ | ⟨-, -, hlt, hr, hk, e⟩ | ⟨-, -, -, -, -, h⟩ | ⟨-, -, -, -, hs', net', log', e⟩ |
      ⟨-, -, hlt, hr, hk, hs', net', log', e⟩ | ⟨-, -, -, -, -, h⟩
    · rcases h with ⟨-, e⟩ | ⟨site, outer, rest, hwait, e⟩
      · rw [e]
        exact ⟨trivial, trivial⟩
      · have hin : (site, outer) ∈ waiting := by rw [hwait]; exact List.mem_cons_self _ _
        have h0 := after_restart_err site outer
        refine ⟨?_, ?_⟩
        · rw [e]
          refine ⟨by rw [h0]; omega, hw _ hin, fun w hw' => hw w ?_⟩
          rw [hwait]
          exact List.mem_cons_of_mem _ hw'
        · rw [e]
          refine ⟨pre ++ [c], [], s', by simp, hpre', ?_⟩
          rw [h0]
          rfl
    · refine ⟨?_, ?_⟩
      · rw [e]
        exact ⟨he, by simp only []; omega, hw⟩
      · rw [e]
        refine ⟨a, b ++ [c], sa, by rw [hab, List.append_assoc], ha, ?_⟩
        exact (failed_streak_snoc routes c b sa _ s' cur.err_count hstk hb hp hr).1 hk
    · rcases h with ⟨hs', log', e⟩ | ⟨log', e⟩
      · refine ⟨?_, fresh _ _ _ _ _ e⟩
        rw [e]
        refine ⟨Nat.zero_le _, Nat.zero_le _, fun w hw' => ?_⟩
        rcases List.mem_cons.mp hw' with rfl | h
        · exact Nat.zero_le _
        · exact hw w h
      · rw [e]
        exact ⟨trivial, trivial⟩
    · refine ⟨?_, fresh _ _ _ _ _ e⟩
      rw [e]
      exact ⟨Nat.zero_le _, Nat.zero_le _, hw⟩
    · refine ⟨?_, ?_⟩
      · rw [e]
        exact ⟨by simp only []; omega, Nat.zero_le _, hw⟩
      · rw [e]
        refine ⟨a, b ++ [c], sa, by rw [hab, List.append_assoc], ha, ?_⟩
        exact (failed_streak_snoc routes c b sa _ s' cur.err_count hstk hb hp hr).2 hk
    · rcases h with ⟨hs', net', log', e⟩ | ⟨log', e⟩
      · refine ⟨?_, fresh _ _ _ _ _ e⟩
        rw [e]
        refine ⟨Nat.zero_le _, Nat.zero_le _, fun w hw' => ?_⟩
        rcases List.mem_cons.mp hw' with rfl | h
        · exact Nat.zero_le _
        · exact hw w h
      · rw [e]
        exact ⟨trivial, trivial⟩

/-- Every state of a run that `http_srv_run` starts keeps the bounds of the
counters and the meaning of the error counter. -/
theorem http_srv_run_inv (routes : List http_route_t) (hs : http_srv_t) (net : Net) :
    ∀ (pre : List Cycle) (s : RunState),
      http_srv_run_passes routes pre (http_srv_run hs net) = some s →
      CountersOk s ∧ StreakOk routes (http_srv_run hs net) pre s := by
  intro pre
  induction pre using List.reverseRecOn with
  | nil =>
    intro s h
    simp only [http_srv_run_passes, Option.some.injEq] at h
    rw [← h]
    exact ⟨⟨Nat.zero_le _, Nat.zero_le _, fun w hw => absurd hw (List.not_mem_nil _)⟩,
      [], [], _, rfl, rfl, rfl⟩
  | append_singleton pre c ih =>
    intro s h
    rw [http_srv_run_passes_append] at h
    cases hp : http_srv_run_passes routes pre (http_srv_run hs net) with
    | none => rw [hp] at h; cases h
    | some s1 =>
      rw [hp] at h
      simp only [Option.some_bind, http_srv_run_passes] at h
      cases hq : http_srv_run_pass routes c s1 with
      | none => rw [hq] at h; cases h
      | some s2 =>
        rw [hq] at h
        simp only [Option.some_bind, Option.some.injEq] at h
        subst h
        obtain ⟨i1, i2⟩ := ih s1 hp
        exact http_srv_run_pass_inv routes _ pre c s1 s2 hp i1 i2 hq

/-- C37. In every state of a run that `http_srv_run` starts, reached by the
passes `pre`: at the head of the loop the error counter of the activation that
runs it is at most 4 and its network-down counter at most 2. A pass with the
link up that calls `http_srv_restart` (the error-storm restart) is a served cycle
with a result other than `HTTP_OK`, and the passes before it end with a stretch
`b` without restart that holds four served cycles, each with a result other than
`HTTP_OK`, and besides them only link-down checks: the five most recent served
cycles all failed, with no restart between them. A served cycle with the result
`HTTP_OK` sets the error counter to zero. -/
theorem http_srv_run_counters_bounded (routes : List http_route_t) (hs : http_srv_t) (net : Net)
    (pre : List Cycle) (s : RunState)
    (h : http_srv_run_passes routes pre (http_srv_run hs net) = some s) :
    (∀ cur, s.counters = some cur → cur.err_count ≤ 4 ∧ cur.netdown_count ≤ 2) ∧
    (∀ c, c.link_up = true → pass_restarts routes c s = true →
      pass_kind routes c s = PassKind.served_fail ∧
      ∃ a b sa, pre = a ++ b ∧
        http_srv_run_passes routes a (http_srv_run hs net) = some sa ∧
        failed_streak routes b sa = some 4) ∧
    (∀ c s', pass_kind routes c s = PassKind.served_ok →
      http_srv_run_pass routes c s = some s' →
      ∃ cur', s'.counters = some cur' ∧ cur'.err_count = 0) := by
  obtain ⟨hc, hst⟩ := http_srv_run_inv routes hs net pre s h
  cases s with
  | reset log =>
    refine ⟨fun cur hcur => (by cases hcur), fun c _ hr => ?_, fun c s' hk _ => ?_⟩
    · simp [pass_restarts, http_srv_run_pass] at hr
    · simp [pass_kind] at hk
  | returned hs1 net1 log =>
    refine ⟨fun cur hcur => (by cases hcur), fun c _ hr => ?_, fun c s' hk _ => ?_⟩
    · simp [pass_restarts, http_srv_run_pass] at hr
    · simp [pass_kind] at hk
  | loop hs1 net1 cur waiting log =>
    obtain ⟨he, hn, hw⟩ := hc
    obtain ⟨a, b, sa, hab, ha, hstk⟩ := hst
    refine ⟨?_, ?_, ?_⟩
    · intro cur' hcur
      simp only [RunState.counters, Option.some.injEq] at hcur
      rw [← hcur]
      exact ⟨he, hn⟩
    · intro c hup hr
      cases hp : http_srv_run_pass routes c (RunState.loop hs1 net1 cur waiting log) with
      | none => simp [pass_restarts, hp] at hr
      | some s' =>
        rcases http_srv_run_pass_cases routes c hs1 net1 cur waiting log s' he hn hp with
          ⟨-, hr', -, -⟩ | ⟨-, hd, -⟩ | ⟨-, hd, -⟩ | ⟨-, -, hr', -⟩ | ⟨-, -, -, hr', -⟩ |
          ⟨-, -, h5, -, hk, -⟩
        · rw [hr'] at hr; cases hr
        · rw [hd] at hup; cases hup
        · rw [hd] at hup; cases hup
        · rw [hr'] at hr; cases hr
        · rw [hr'] at hr; cases hr
        · refine ⟨hk, a, b, sa, hab, ha, ?_⟩
          rw [hstk]
          congr 1
          omega
    · intro c s' hk hp
      rcases http_srv_run_pass_cases routes c hs1 net1 cur waiting log s' he hn hp with
        ⟨-, -, hk', -⟩ | ⟨-, -, -, -, hk', -⟩ | ⟨-, -, -, -, hk', -⟩ |
        ⟨-, -, -, -, hs', net', log', e⟩ | ⟨-, -, -, -, hk', -⟩ | ⟨-, -, -, -, hk', -⟩
      · rw [hk'] at hk; cases hk
      · rw [hk'] at hk; cases hk
      · rw [hk'] at hk; cases hk
      · rw [e]
        exact ⟨_, rfl, rfl⟩
      · rw [hk'] at hk; cases hk
      · rw [hk'] at hk; cases hk

/-- Witness for C37: a run with four cycles in each of which the connection
delivers no request line. Behind them the error counter is 4; a fifth such cycle
calls `http_srv_restart`, and the four cycles before it are a stretch without
restart of four served cycles that failed. -/
theorem http_srv_run_counters_bounded_witness :
    ∃ s, http_srv_run_passes routes_sample (List.replicate 4 cycle_bad)
        (http_srv_run hs_init (net_of [])) = some s ∧
      s.counters = some { err_count := 4, netdown_count := 0 } ∧
      pass_restarts routes_sample cycle_bad s = true ∧
      pass_kind routes_sample cycle_bad s = PassKind.served_fail ∧
      ∃ a b sa, List.replicate 4 cycle_bad = a ++ b ∧
        http_srv_run_passes routes_sample a (http_srv_run hs_init (net_of [])) = some sa ∧
        failed_streak routes_sample b sa = some 4 := by
  have hex : (http_srv_run_passes routes_sample (List.replicate 4 cycle_bad)
      (http_srv_run hs_init (net_of []))).isSome = true := by decide!
  obtain ⟨s, hs⟩ := Option.isSome_iff_exists.mp hex
  have hcnt : (http_srv_run_passes routes_sample (List.replicate 4 cycle_bad)
      (http_srv_run hs_init (net_of []))).map RunState.counters =
      some (some { err_count := 4, netdown_count := 0 }) := by decide!
  have hpr : (http_srv_run_passes routes_sample (List.replicate 4 cycle_bad)
      (http_srv_run hs_init (net_of []))).map (pass_restarts routes_sample cycle_bad) =
      some true := by decide!
  rw [hs] at hcnt hpr
  simp only [Option.map_some', Option.some.injEq] at hcnt hpr
  obtain ⟨-, h2, -⟩ := http_srv_run_counters_bounded routes_sample hs_init (net_of [])
    (List.replicate 4 cycle_bad) s hs
  obtain ⟨hk, a, b, sa, hab, ha, hf⟩ := h2 cycle_bad rfl hpr
  exact ⟨s, hs, hcnt, hpr, hk, a, b, sa, hab, ha, hf⟩

/-! ## Body bytes and `Content-Length` (C38) -/

/-- When `http_srv_send_response` returns `HTTP_OK`, the socket is set, the
header text has fewer than 256 bytes and every call of the transport it made
returned a positive count. -/
theorem http_srv_send_response_ok (hs : http_srv_t) (net : Net) (status_code : Int)
    (reason content_type body extra_headers : Option (List Nat)) (body_len : Nat)
    (new : List (List Nat × Int))
    (hok : (http_srv_send_response hs net status_code reason content_type body body_len
      extra_headers).1 = HTTP_OK)
    (hcalls : (http_srv_send_response hs net status_code reason content_type body body_len
      extra_headers).2.calls = net.calls ++ new) :
    hs.srv.sock = true ∧
    (response_header status_code (reason.getD (bytes "OK"))
      (content_type.getD (bytes "text/plain")) body_len (extra_headers.getD [])).length < 256 ∧
    ∀ c ∈ new, 0 < c.2 := by
  have hne : HTTP_ERR ≠ HTTP_OK := by decide
  revert hok hcalls
  unfold http_srv_send_response
  simp only []
  generalize response_header status_code (reason.getD (bytes "OK"))
    (content_type.getD (bytes "text/plain")) body_len (extra_headers.getD []) = text
  by_cases hsock : hs.srv.sock = false
  · rw [if_pos hsock]
    intro hok
    exact absurd hok hne
  rw [if_neg hsock]
  by_cases hfit : (snprintf 256 text).2 < 0 ∨ (snprintf 256 text).2 ≥ 256
  · rw [if_pos hfit]
    intro hok
    exact absurd hok hne
  rw [if_neg hfit]
  have hlen : text.length < 256 := by
    unfold snprintf at hfit
    simp only [] at hfit
    by_cases hl : text.length < 2 ^ 31
    · rw [if_pos hl] at hfit
      omega
    · rw [if_neg hl] at hfit
      exact absurd (Or.inl (by decide)) hfit
  obtain ⟨new1, n1, n3, n4⟩ := send_all_calls net (snprintf 256 text).1 (snprintf 256 text).2.toNat
  have hpos1 : ¬ (send_all net (snprintf 256 text).1 (snprintf 256 text).2.toNat).1 < 0 →
      ∀ c ∈ new1, 0 < c.2 := by
    intro hs1 c hc
    by_contra hle
    have he := n4.mpr ⟨c, hc, by omega⟩
    rw [he] at hs1
    exact hs1 (by decide)
  by_cases hs1 : (send_all net (snprintf 256 text).1 (snprintf 256 text).2.toNat).1 < 0
  · rw [if_pos hs1]
    intro hok
    exact absurd hok hne
  rw [if_neg hs1]
  have hsock' : hs.srv.sock = true := by
    cases h : hs.srv.sock
    · exact absurd h hsock
    · rfl
  cases body with
  | none =>
    simp only []
    intro _ hcalls
    rw [n1] at hcalls
    have := List.append_cancel_left hcalls
    subst this
    exact ⟨hsock', hlen, hpos1 hs1⟩
  | some b =>
    simp only []
    by_cases hbl : body_len > 0
    · rw [if_pos hbl]
      obtain ⟨new2, m1, m3, m4⟩ := send_all_calls
        (send_all net (snprintf 256 text).1 (snprintf 256 text).2.toNat).2 b body_len
      by_cases hs2 : (send_all (send_all net (snprintf 256 text).1
          (snprintf 256 text).2.toNat).2 b body_len).1 < 0
      · rw [if_pos hs2]
        intro hok
        exact absurd hok hne
      · rw [if_neg hs2]
        intro _ hcalls
        simp only [] at hcalls
        rw [m1, n1, List.append_assoc] at hcalls
        have := List.append_cancel_left hcalls
        subst this
        refine ⟨hsock', hlen, ?_⟩
        intro c hc
        rcases List.mem_append.mp hc with h | h
        · exact hpos1 hs1 c h
        · by_contra hle
          have he := m4.mpr ⟨c, h, by omega⟩
          rw [he] at hs2
          exact hs2 (by decide)
    · rw [if_neg hbl]
      intro _ hcalls
      simp only [] at hcalls
      rw [n1] at hcalls
      have := List.append_cancel_left hcalls
      subst this
      exact ⟨hsock', hlen, hpos1 hs1⟩

/-- C38, amended. Whenever `http_srv_send_response` returns `HTTP_OK`, with a
transport that accepts in each call no more than the bytes offered: the bytes
sent are the header text, which states `Content-Length: body_len`, followed by
the body bytes; with a body pointer that is not null these are the first
`body_len` bytes of the body, so that their number is `body_len`; with a null
body pointer no body byte is sent. -/
theorem http_srv_send_response_body_length (hs : http_srv_t) (net : Net) (status_code : Int)
    (reason content_type body extra_headers : Option (List Nat)) (body_len : Nat)
    (new : List (List Nat × Int))
    (hok : (http_srv_send_response hs net status_code reason content_type body body_len
      extra_headers).1 = HTTP_OK)
    (hcalls : (http_srv_send_response hs net status_code reason content_type body body_len
      extra_headers).2.calls = net.calls ++ new)
    (hle : ∀ c ∈ new, c.2 ≤ (c.1.length : Int))
    (hbody : ∀ b, body = some b → body_len ≤ b.length) (h32 : body_len < 2 ^ 32) :
    ∃ sent, accepted new =
        response_header status_code (reason.getD (bytes "OK"))
          (content_type.getD (bytes "text/plain")) body_len (extra_headers.getD []) ++ sent ∧
      (∀ b, body = some b → sent = b.take body_len ∧ sent.length = body_len) ∧
      (body = none → sent = []) := by
  obtain ⟨hsock, hfit, hpos⟩ := http_srv_send_response_ok hs net status_code reason content_type
    body extra_headers body_len new hok hcalls
  have hacc : Accepting new := fun c hc => ⟨hpos c hc, hle c hc⟩
  obtain ⟨-, h2⟩ := http_srv_send_response_accepting hs net status_code reason content_type body
    extra_headers body_len new hsock hfit hbody h32 hcalls hacc
  refine ⟨_, h2, ?_, ?_⟩
  · intro b hb
    subst hb
    exact ⟨rfl, by simp [List.length_take, hbody b rfl]⟩
  · intro hb
    subst hb
    rfl

/-- Witness for C38: status 200 with the body `hello` and `body_len` 5 on a
transport that accepts what it is offered: the call returns `HTTP_OK`, and the
bytes sent are the header with `Content-Length: 5` followed by five bytes. -/
theorem http_srv_send_response_body_length_witness :
    accepted (http_srv_send_response hs_init (net_of [83, 5]) 200 none none
      (some (bytes "hello")) 5 none).2.calls =
      bytes ("HTTP/1.1 200 OK\r\nContent-Type: text/plain\r\nContent-Length: 5\r\n" ++
        "Connection: close\r\n\r\nhello") := by
  obtain ⟨sent, h1, h2, -⟩ := http_srv_send_response_body_length hs_init
    (net_of [83, 5]) 200 none none (some (bytes "hello")) none 5
    (http_srv_send_response hs_init (net_of [83, 5]) 200 none none (some (bytes "hello")) 5
      none).2.calls
    (by decide!) rfl (by decide!)
    (by intro b hb; rw [← Option.some.inj hb]; decide) (by decide)
  rw [h1, (h2 _ rfl).1]
  decide!

/-- C38, counterexample: with a null body pointer and `body_len` 5, on a transport
that accepts what it is offered, `http_srv_send_response` returns `HTTP_OK` after
one call of the transport: it has sent the header with `Content-Length: 5` and
no body byte. -/
theorem http_srv_send_response_null_body :
    (http_srv_send_response hs_init (net_of [83, 5]) 200 none none none 5 none).1 =
      HTTP_OK ∧
    (http_srv_send_response hs_init (net_of [83, 5]) 200 none none none 5
      none).2.calls.length = 1 ∧
    accepted (http_srv_send_response hs_init (net_of [83, 5]) 200 none none none 5
      none).2.calls =
      bytes ("HTTP/1.1 200 OK\r\nContent-Type: text/plain\r\nContent-Length: 5\r\n" ++
        "Connection: close\r\n\r\n") := by
  decide!

/-! ## Activations of `http_srv_run` (C39) -/

/-- A restart whose bind succeeds: `http_srv_init` calls `http_srv_run`, so that
a new activation runs the loop, with the network handle kept, and the
activation that called `http_srv_restart` waits. -/
theorem http_srv_restart_nests (c : Cycle) (hs : http_srv_t) (net : Net) (cur : run_locals)
    (site : RestartSite) (waiting : List (RestartSite × run_locals)) (log : List Call)
    (h1 : hs.nethnd = true) (h2 : c.create_rc = NET_OK) :
    ∃ hs' log', http_srv_restart c hs net cur site waiting log =
        RunState.loop hs' net { err_count := 0, netdown_count := 0 } ((site, cur) :: waiting)
          log' ∧
      hs'.running = true ∧ hs'.nethnd = true := by
  have hb := (net_srv_bind_ok_iff true { hs_zero.srv with localport := hs.port } c.create_rc
    c.start_ok).mpr ⟨rfl, h2⟩
  unfold http_srv_restart http_srv_init http_srv_close
  simp only [h1]
  rw [if_neg (fun hne => hne hb)]
  exact ⟨_, _, rfl, rfl, rfl⟩

/-- Three consecutive link-down checks in an activation whose network-down
counter is zero, with a bind that succeeds: a new activation runs the loop and
the former one waits. -/
theorem http_srv_run_three_down (routes : List http_route_t) (hs : http_srv_t) (net : Net)
    (cur : run_locals) (waiting : List (RestartSite × run_locals)) (log : List Call)
    (hrun : hs.running = true) (hnet : hs.nethnd = true) (hnd : cur.netdown_count = 0) :
    ∃ hs' log', http_srv_run_passes routes [cycle_down, cycle_down, cycle_down]
        (RunState.loop hs net cur waiting log) =
        some (RunState.loop hs' net { err_count := 0, netdown_count := 0 }
          ((RestartSite.net_down, { cur with netdown_count := 3 }) :: waiting) log') ∧
      hs'.running = true ∧ hs'.nethnd = true := by
  have p1 := (http_srv_run_pass_down routes cycle_down hs net cur waiting log hrun rfl).1 (by
    rw [hnd]
    decide)
  have p2 := (http_srv_run_pass_down routes cycle_down hs net
    { cur with netdown_count := cur.netdown_count + 1 } waiting
    (log ++ [Call.net_is_up false, Call.HAL_Delay 10]) hrun rfl).1 (by
    simp only [hnd]
    decide)
  simp only [hnd, Nat.zero_add] at p1 p2
  have p3 := (http_srv_run_pass_down routes cycle_down hs net
    { cur with netdown_count := 2 } waiting
    (log ++ [Call.net_is_up false, Call.HAL_Delay 10] ++
      [Call.net_is_up false, Call.HAL_Delay 10]) hrun rfl).2 rfl
  obtain ⟨hs', log', e, r1, r2⟩ := http_srv_restart_nests cycle_down hs net
    { cur with netdown_count := HTTP_NET_DOWN_LIMIT } RestartSite.net_down waiting
    (log ++ [Call.net_is_up false, Call.HAL_Delay 10] ++
      [Call.net_is_up false, Call.HAL_Delay 10] ++ [Call.net_is_up false]) hnet rfl
  refine ⟨hs', log', ?_, r1, r2⟩
  simp only [http_srv_run_passes, p1, Option.some_bind, p2, p3, e]
  rfl

/-- Behind `3 * n` consecutive link-down checks with binds that succeed, `n`
further activations of `http_srv_run` are active. -/
theorem http_srv_run_downs (routes : List http_route_t) :
    ∀ (n : Nat) (hs : http_srv_t) (net : Net) (cur : run_locals)
      (waiting : List (RestartSite × run_locals)) (log : List Call),
      hs.running = true → hs.nethnd = true → cur.netdown_count = 0 →
      (http_srv_run_passes routes (List.replicate (3 * n) cycle_down)
        (RunState.loop hs net cur waiting log)).map activations = some (waiting.length + 1 + n)
  | 0, hs, net, cur, waiting, log, _, _, _ => rfl
  | n + 1, hs, net, cur, waiting, log, hrun, hnet, hnd => by
    obtain ⟨hs', log', e, r1, r2⟩ := http_srv_run_three_down routes hs net cur waiting log hrun
      hnet hnd
    have hl : List.replicate (3 * (n + 1)) cycle_down =
        [cycle_down, cycle_down, cycle_down] ++ List.replicate (3 * n) cycle_down := by
      rw [show 3 * (n + 1) = 3 * n + 1 + 1 + 1 by ring]
      rfl
    rw [hl, http_srv_run_passes_append, e, Option.some_bind,
      http_srv_run_downs routes n hs' net _ _ log' r1 r2 rfl]
    simp only [List.length_cons]
    congr 1
    omega

/-- C39. When `net_srv_bind` succeeds, `http_srv_init` does not return to its
caller: it calls `http_srv_run`. A restart therefore starts a new activation of
`http_srv_run` while the activation that requested it waits inside
`http_srv_restart`: behind `3 * n` consecutive link-down checks, each third of
which triggers a restart that binds again, `n + 1` activations of `http_srv_run`
are active, two behind the first restart. -/
theorem http_srv_init_calls_run (routes : List http_route_t) :
    (∀ hs port start_ok, ∃ hs',
      http_srv_init hs true port NET_OK start_ok = InitStep.run hs' ∧ hs'.running = true) ∧
    (∀ n, (http_srv_run_passes routes (List.replicate (3 * n) cycle_down)
      (http_srv_run hs_init (net_of []))).map activations = some (n + 1)) ∧
    (http_srv_run_passes routes_sample [cycle_down, cycle_down, cycle_down]
      (http_srv_run hs_init (net_of []))).map
        (fun s => (activations s, s.log.count Call.http_srv_run)) = some (2, 2) := by
  refine ⟨?_, ?_, by decide!⟩
  · intro hs port start_ok
    exact (http_srv_init_cases hs true port NET_OK start_ok).1 ⟨rfl, rfl⟩
  · intro n
    have h := http_srv_run_downs routes n
      { hs_init with state := http_srv_state_t.HTTP_SRV_STATE_RUNNING } (net_of [])
      { err_count := 0, netdown_count := 0 } [] [Call.http_srv_run] rfl rfl rfl
    rw [show ([] : List (RestartSite × run_locals)).length + 1 + n = n + 1 by simp; omega] at h
    exact h

/-! ## MQTT reconnect delay (C40) -/

/-- A pass through the loop of `mqtt_main` keeps `backoff_ms` among the values
1000, 2000, 4000, 8000, 16000, 32000 and 30000. -/
theorem mqtt_main_pass_backoff (c : MqttCycle) (st : mqtt_state)
    (h : st.backoff_ms ∈ [1000, 2000, 4000, 8000, 16000, 32000, 30000]) :
    (mqtt_main_pass c st).backoff_ms ∈ [1000, 2000, 4000, 8000, 16000, 32000, 30000] := by
  unfold mqtt_main_pass
  simp only [RECONN_MAX_MS, RECONN_MIN_MS]
  simp only [List.mem_cons, List.mem_singleton, List.not_mem_nil, or_false] at h
  split_ifs <;> rcases h with h | h | h | h | h | h | h <;> simp_all

/-- The value of `backoff_ms` behind any passes is one of 1000, 2000, 4000, 8000,
16000, 32000 and 30000. -/
theorem mqtt_main_backoff_values (cs : List MqttCycle) :
    (mqtt_main cs).backoff_ms ∈ [1000, 2000, 4000, 8000, 16000, 32000, 30000] := by
  unfold mqtt_main
  induction cs using List.reverseRecOn with
  | nil => decide
  | append_singleton cs c ih =>
    rw [List.foldl_append]
    exact mqtt_main_pass_backoff c _ ih

/-- C40. In `mqtt_main` the reconnect delay `backoff_ms` starts at 1000, and
behind any sequence of passes it lies between 1000 and 32000; a successful
connect sets it to 1000. But it exceeds `RECONN_MAX_MS`: behind five consecutive
failed connects it is 32000, and the sixth failed connect waits 32000 ms before
it sets `backoff_ms` to 30000. -/
theorem mqtt_main_backoff_exceeds_max :
    (mqtt_main []).backoff_ms = RECONN_MIN_MS ∧
    (∀ cs, RECONN_MIN_MS ≤ (mqtt_main cs).backoff_ms ∧ (mqtt_main cs).backoff_ms ≤ 32000) ∧
    (∀ cs, (mqtt_main (cs ++ [mqtt_cycle_connect])).backoff_ms = RECONN_MIN_MS) ∧
    (mqtt_main (List.replicate 5 mqtt_cycle_fail)).backoff_ms = 32000 ∧
    RECONN_MAX_MS < (mqtt_main (List.replicate 5 mqtt_cycle_fail)).backoff_ms ∧
    (mqtt_main (List.replicate 6 mqtt_cycle_fail)).delays =
      [1000, 2000, 4000, 8000, 16000, 32000] ∧
    (mqtt_main (List.replicate 6 mqtt_cycle_fail)).backoff_ms = RECONN_MAX_MS := by
  refine ⟨rfl, ?_, ?_, by decide, by decide, by decide, by decide⟩
  · intro cs
    have h := mqtt_main_backoff_values cs
    simp only [List.mem_cons, List.mem_singleton, List.not_mem_nil, or_false] at h
    unfold RECONN_MIN_MS
    rcases h with h | h | h | h | h | h | h <;> rw [h] <;> decide
  · intro cs
    unfold mqtt_main
    rw [List.foldl_append]
    generalize List.foldl (fun st c => mqtt_main_pass c st)
      { backoff_ms := RECONN_MIN_MS, last_pub := 0, delays := [] } cs = st
    simp only [List.foldl_cons, List.foldl_nil]
    unfold mqtt_main_pass
    simp only [mqtt_cycle_connect, mqtt_do_connect_and_subscribe, SUCCESS]
    split_ifs <;> simp_all

end HttpServer
